import Mathlib

/-!
# Verification of the System Syzygy puzzle-engine layer

This file gives a shallow embedding, in Lean 4, of the core puzzle-state
engines of the System Syzygy repository:

* the Relyng parity/light-toggle engine (`src/save/puzzles/syzygy.rs`),
* the tile-shift permutation grid (`src/save/puzzles/wrecked.rs`),
* the ice-block slide grid (`src/save/ice/grid.rs`),
* the pipe-network grid (`src/save/plane.rs`),

together with theorems settling the frozen specification claims about them.

Conventions used throughout:

* Rust `HashMap<Point, V>` becomes `Finmap` keyed by `GridPoint`; equality of
  `Finmap`s is extensional, exactly like `HashMap` equality in Rust.
* Rust `HashSet<i32>` becomes `Finset ℤ`.
* Machine integers (`i32`) are modelled as `ℤ` (no arithmetic in the engines
  comes anywhere near overflow).
* Fallible operations (Rust `panic!`/`unwrap`) are modelled with `Option`.
* Unbounded `while` loops are modelled with an explicit fuel argument whose
  value provably dominates the number of iterations the Rust loop can make.

Types whose definitions live in repository files that are not part of the
source snapshot (`gui::Point`, `gui::Rect`, `save::Direction`,
`save::ice::{Symbol, Transform}`, `save::Access`) are modelled from the
specification text and are marked as such in their doc comments.
-/

/-- Modelled from the spec: `gui::Point` (the `gui` module is not in the
source snapshot).  §3: "integer (col, row) pair; used as hash-map key
across all engines". -/
structure GridPoint where
  x : ℤ
  y : ℤ
deriving DecidableEq, Repr

/-- Coordinatewise addition, as `impl Add for Point` in the gui layer. -/
def GridPoint.add (p q : GridPoint) : GridPoint := ⟨p.x + q.x, p.y + q.y⟩

/-- Modelled from the spec: `save::Direction` (§3: "one of {North, East,
South, West}; has `delta()` (unit vector) and `opposite()`").  The
`save` module root is not in the source snapshot. -/
inductive Direction where
  | north
  | east
  | south
  | west
deriving DecidableEq, Repr

/-- Modelled from the spec: `Direction::delta`, the unit vector of a
direction, with rows growing southward (the convention visible in the
row-major index arithmetic of `wrecked.rs` and `syzygy.rs`). -/
def Direction.delta : Direction → GridPoint
  | .north => ⟨0, -1⟩
  | .east => ⟨1, 0⟩
  | .south => ⟨0, 1⟩
  | .west => ⟨-1, 0⟩

/-- Modelled from the spec: `Direction::opposite`. -/
def Direction.opposite : Direction → Direction
  | .north => .south
  | .east => .west
  | .south => .north
  | .west => .east

/-! ## The Relyng parity/light-toggle engine

From `src/src/save/puzzles/syzygy.rs`.  The state is the set
`relyng_lights : HashSet<i32>` of *present* indices (absence = lit) over a
5×4 grid, plus the next-shape cursor `relyng_next`, which in the source is a
`char` that provably only ever holds one of `'+'`, `'N'`, `'X'`, `'Z'`
(`from_toml` rejects everything else and the cycling functions map these
four to each other, with `unreachable!()` otherwise); we therefore embed
the cursor as a four-element inductive type. -/

/-- `RELYNG_NUM_COLS` in `syzygy.rs`. -/
def relyngNumCols : ℤ := 5

/-- `RELYNG_NUM_ROWS` in `syzygy.rs`. -/
def relyngNumRows : ℤ := 4

/-- The four values the `relyng_next` cursor can take: `'+'`, `'N'`,
`'X'`, `'Z'`. -/
inductive RelyngShape where
  | plus
  | enn
  | ecks
  | zee
deriving DecidableEq, Repr

/-- The cursor advance performed at the end of `relyng_toggle`:
`'+' => 'N', 'N' => 'X', 'X' => 'Z', 'Z' => '+'`. -/
def RelyngShape.next : RelyngShape → RelyngShape
  | .plus => .enn
  | .enn => .ecks
  | .ecks => .zee
  | .zee => .plus

/-- The cursor rewind performed at the start of `relyng_untoggle`:
`'+' => 'Z', 'N' => '+', 'X' => 'N', 'Z' => 'X'`. -/
def RelyngShape.prev : RelyngShape → RelyngShape
  | .plus => .zee
  | .enn => .plus
  | .ecks => .enn
  | .zee => .ecks

/-- The Relyng-relevant fields of `SyzygyState`: the set of stored light
indices and the next-shape cursor. -/
structure RelyngState where
  lights : Finset ℤ
  next : RelyngShape
deriving DecidableEq

/-- `SyzygyState::relyng_is_lit`: a cell is lit when its index is *absent*
from `relyng_lights`. -/
def relyngIsLit (s : RelyngState) (col row : ℤ) : Bool :=
  ! decide (row * relyngNumCols + col ∈ s.lights)

/-- `SyzygyState::relyng_is_done`: the stored index set has full size
`RELYNG_NUM_COLS * RELYNG_NUM_ROWS = 20`. -/
def relyngIsDone (s : RelyngState) : Bool :=
  decide (s.lights.card = (relyngNumCols * relyngNumRows).toNat)

/-- `SyzygyState::relyng_toggle_light`: if `(col, row)` is in range, flip
the presence of its index in `relyng_lights`. -/
def relyngToggleLight (lights : Finset ℤ) (col row : ℤ) : Finset ℤ :=
  if (0 ≤ col ∧ col < relyngNumCols) ∧ 0 ≤ row ∧ row < relyngNumRows then
    let index := row * relyngNumCols + col
    if index ∈ lights then lights.erase index else insert index lights
  else
    lights

/-- `SyzygyState::relyng_toggle_shape`: apply the current shape's five-cell
pattern, cell by cell, in source order. -/
def relyngToggleShape (shape : RelyngShape) (lights : Finset ℤ) (col row : ℤ) :
    Finset ℤ :=
  match shape with
  | .plus =>
      let l1 := relyngToggleLight lights col row
      let l2 := relyngToggleLight l1 (col + 1) row
      let l3 := relyngToggleLight l2 col (row + 1)
      let l4 := relyngToggleLight l3 (col - 1) row
      relyngToggleLight l4 col (row - 1)
  | .enn =>
      let l1 := relyngToggleLight lights col row
      let l2 := relyngToggleLight l1 (col - 1) row
      let l3 := relyngToggleLight l2 (col - 1) (row + 1)
      let l4 := relyngToggleLight l3 (col + 1) row
      relyngToggleLight l4 (col + 1) (row - 1)
  | .ecks =>
      let l1 := relyngToggleLight lights col row
      let l2 := relyngToggleLight l1 (col - 1) (row - 1)
      let l3 := relyngToggleLight l2 (col + 1) (row - 1)
      let l4 := relyngToggleLight l3 (col - 1) (row + 1)
      relyngToggleLight l4 (col + 1) (row + 1)
  | .zee =>
      let l1 := relyngToggleLight lights col row
      let l2 := relyngToggleLight l1 col (row - 1)
      let l3 := relyngToggleLight l2 (col - 1) (row - 1)
      let l4 := relyngToggleLight l3 col (row + 1)
      relyngToggleLight l4 (col + 1) (row + 1)

/-- `SyzygyState::relyng_toggle`: apply the current shape, then advance the
cursor. -/
def relyngToggle (s : RelyngState) (col row : ℤ) : RelyngState :=
  { lights := relyngToggleShape s.next s.lights col row
    next := s.next.next }

/-- `SyzygyState::relyng_untoggle`: rewind the cursor, then apply the
rewound shape. -/
def relyngUntoggle (s : RelyngState) (col row : ℤ) : RelyngState :=
  let next := s.next.prev
  { lights := relyngToggleShape next s.lights col row
    next := next }

/-! ### Relyng lemmas -/

theorem relyngShape_prev_next (sh : RelyngShape) : sh.next.prev = sh := by
  cases sh <;> rfl

/-- Membership after one light flip, as an exclusive-or. -/
theorem decide_mem_relyngToggleLight (lights : Finset ℤ) (col row x : ℤ) :
    decide (x ∈ relyngToggleLight lights col row) =
      xor
        (decide (((0 ≤ col ∧ col < relyngNumCols) ∧
            0 ≤ row ∧ row < relyngNumRows) ∧ x = row * relyngNumCols + col))
        (decide (x ∈ lights)) := by
  unfold relyngToggleLight
  by_cases hin : (0 ≤ col ∧ col < relyngNumCols) ∧ 0 ≤ row ∧ row < relyngNumRows
  · by_cases hmem : row * relyngNumCols + col ∈ lights
    · by_cases hx : x = row * relyngNumCols + col
      · subst hx; simp [hin, hmem]
      · simp [hin, hmem, hx, Finset.mem_erase]
    · by_cases hx : x = row * relyngNumCols + col
      · subst hx; simp [hin, hmem]
      · simp [hin, hmem, hx, Finset.mem_insert]
  · simp [hin]

private theorem xor_cancel_five (a b c d e m : Bool) :
    xor a (xor b (xor c (xor d (xor e
      (xor a (xor b (xor c (xor d (xor e m)))))))))
    = m := by
  cases a <;> cases b <;> cases c <;> cases d <;> cases e <;> cases m <;> rfl

/-- Applying the same shape pattern twice restores the light set. -/
theorem relyngToggleShape_involutive (shape : RelyngShape) (lights : Finset ℤ)
    (col row : ℤ) :
    relyngToggleShape shape (relyngToggleShape shape lights col row) col row
      = lights := by
  have key : ∀ (c₁ r₁ c₂ r₂ c₃ r₃ c₄ r₄ c₅ r₅ : ℤ) (L : Finset ℤ),
      relyngToggleLight (relyngToggleLight (relyngToggleLight
        (relyngToggleLight (relyngToggleLight
          (relyngToggleLight (relyngToggleLight (relyngToggleLight
            (relyngToggleLight (relyngToggleLight L c₁ r₁) c₂ r₂) c₃ r₃)
              c₄ r₄) c₅ r₅)
          c₁ r₁) c₂ r₂) c₃ r₃) c₄ r₄) c₅ r₅ = L := by
    intro c₁ r₁ c₂ r₂ c₃ r₃ c₄ r₄ c₅ r₅ L
    apply Finset.ext
    intro x
    have h : decide (x ∈ relyngToggleLight (relyngToggleLight
        (relyngToggleLight (relyngToggleLight (relyngToggleLight
          (relyngToggleLight (relyngToggleLight (relyngToggleLight
            (relyngToggleLight (relyngToggleLight L c₁ r₁) c₂ r₂) c₃ r₃)
              c₄ r₄) c₅ r₅)
          c₁ r₁) c₂ r₂) c₃ r₃) c₄ r₄) c₅ r₅) = decide (x ∈ L) := by
      simp only [decide_mem_relyngToggleLight]
      exact xor_cancel_five _ _ _ _ _ _
    exact decide_eq_decide.mp h
  cases shape <;>
    simpa only [relyngToggleShape] using
      key _ _ _ _ _ _ _ _ _ _ lights

/-- **C8.** Light-toggle round trip: `relyng_toggle (c, r)` followed by
`relyng_untoggle (c, r)` restores both the set of stored light indices and
the next-shape cursor exactly, for every state, cell and cursor value. -/
theorem relyng_toggle_untoggle_roundtrip (s : RelyngState) (col row : ℤ) :
    relyngUntoggle (relyngToggle s col row) col row = s := by
  cases s with
  | mk lights next =>
      simp [relyngUntoggle, relyngToggle, relyngShape_prev_next,
        relyngToggleShape_involutive]

/-- Helper: a cell is unlit exactly when its index is stored. -/
theorem relyngIsLit_eq_false_iff (s : RelyngState) (col row : ℤ) :
    relyngIsLit s col row = false ↔ row * relyngNumCols + col ∈ s.lights := by
  simp [relyngIsLit]

/-- **C3 counterexample.**  On the initial Relyng state (no stored indices),
every in-range cell is lit, yet `relyng_is_done` returns `false`; so
"`relyng_is_done()` returns true iff every in-range cell is lit" fails at
this concrete state. -/
theorem relyng_done_counterexample :
    (∀ col row : ℤ, 0 ≤ col → col < relyngNumCols → 0 ≤ row →
        row < relyngNumRows →
        relyngIsLit ⟨∅, RelyngShape.plus⟩ col row = true) ∧
      relyngIsDone ⟨∅, RelyngShape.plus⟩ = false := by
  constructor
  · intro col row _ _ _ _
    simp [relyngIsLit]
  · simp [relyngIsDone, relyngNumCols, relyngNumRows]

/-- **C3 (amended).**  Provided every stored light index is in range (which
holds for every reachable state: `from_toml` filters the indices to
`[0, 20)` and `relyng_toggle_light` only inserts in-range indices),
`relyng_is_done()` returns true iff every in-range cell is **unlit** — the
solved condition is all-dark, not all-lit. -/
theorem relyng_done_iff_all_unlit (s : RelyngState)
    (h : ∀ i ∈ s.lights, 0 ≤ i ∧ i < relyngNumCols * relyngNumRows) :
    relyngIsDone s = true ↔
      ∀ col row : ℤ, 0 ≤ col → col < relyngNumCols → 0 ≤ row →
        row < relyngNumRows → relyngIsLit s col row = false := by
  have hsub : s.lights ⊆ Finset.Icc (0 : ℤ) 19 := by
    intro i hi
    have := h i hi
    simp only [relyngNumCols, relyngNumRows] at this
    rw [Finset.mem_Icc]
    omega
  have hcard : (Finset.Icc (0 : ℤ) 19).card = 20 := by
    rw [Int.card_Icc]
    rfl
  constructor
  · intro hdone col row hc0 hc1 hr0 hr1
    have hsz : s.lights.card = 20 := by
      have := of_decide_eq_true hdone
      simpa [relyngNumCols, relyngNumRows] using this
    have heq : s.lights = Finset.Icc (0 : ℤ) 19 :=
      Finset.eq_of_subset_of_card_le hsub (by rw [hcard, hsz])
    rw [relyngIsLit_eq_false_iff, heq, Finset.mem_Icc]
    simp only [relyngNumCols, relyngNumRows] at hc1 hr1 ⊢
    constructor <;> omega
  · intro hall
    have hsup : Finset.Icc (0 : ℤ) 19 ⊆ s.lights := by
      intro i hi
      rw [Finset.mem_Icc] at hi
      have hc0 : (0 : ℤ) ≤ i % 5 := Int.emod_nonneg i (by norm_num)
      have hc1 : i % 5 < 5 := Int.emod_lt_of_pos i (by norm_num)
      have hr0 : (0 : ℤ) ≤ i / 5 := Int.ediv_nonneg hi.1 (by norm_num)
      have hr1 : i / 5 < 4 := by omega
      have := (relyngIsLit_eq_false_iff s (i % 5) (i / 5)).mp
        (hall (i % 5) (i / 5) hc0 (by simpa [relyngNumCols] using hc1) hr0
          (by simpa [relyngNumRows] using hr1))
      have hidx : i / 5 * relyngNumCols + i % 5 = i := by
        simp only [relyngNumCols]
        omega
      rwa [hidx] at this
    have heq : s.lights = Finset.Icc (0 : ℤ) 19 :=
      Finset.Subset.antisymm hsub hsup
    simp [relyngIsDone, heq, hcard, relyngNumCols, relyngNumRows]

/-- **C3 witness.**  The amended theorem applied to the all-dark state. -/
theorem relyng_done_iff_all_unlit_witness :
    relyngIsDone ⟨Finset.Icc (0 : ℤ) 19, RelyngShape.plus⟩ = true ↔
      ∀ col row : ℤ, 0 ≤ col → col < relyngNumCols → 0 ≤ row →
        row < relyngNumRows →
        relyngIsLit ⟨Finset.Icc (0 : ℤ) 19, RelyngShape.plus⟩ col row
          = false :=
  relyng_done_iff_all_unlit ⟨Finset.Icc (0 : ℤ) 19, RelyngShape.plus⟩
    (by decide)

/-! ## The tile-shift permutation grid (WreckedState)

From `src/src/save/puzzles/wrecked.rs`.  The grid is a `Vec<i8>` of length
`9 * 7 = 63` in row-major order (value `-1` = gap, `0`/`1`/`2` = tile
kinds); every reachable grid has length exactly 63 (`from_toml` falls back
to `INITIAL_GRID` unless the parsed vector is a permutation of it), so we
embed it as a total function `ℕ → ℤ` read at indices `0..62`.  The
`unwrap()` calls in `shift_tiles` are modelled by returning `Option`
(`none` = panic). -/

/-- `NUM_COLS` in `wrecked.rs`. -/
def wreckedNumCols : ℤ := 9

/-- `NUM_ROWS` in `wrecked.rs`. -/
def wreckedNumRows : ℤ := 7

/-- `INITIAL_GRID` in `wrecked.rs`. -/
def wreckedInitialList : List ℤ :=
  [2, 1, 2, 1, 2, -1, 2, 0, 1, -1, -1, 1,
   2, 0, -1, -1, 2, 0, 0, 1, 2, 1, -1, 0,
   1, 1, 2, 2, 0, -1, -1, 2, -1, -1, -1,
   1, 2, 1, 0, 2, -1, 1, 2, 2, 0, 0, -1,
   -1, -1, 1, 0, -1, 0, 1, 1, 0, 2, 2, 0,
   1, -1, 2, 2]

/-- `SOLVED_GRID` in `wrecked.rs`. -/
def wreckedSolvedList : List ℤ :=
  [0, 0, 0, 1, 1, -1, 2, 2, 2, -1, -1, 0,
   1, 1, -1, -1, 2, 2, 2, 2, 2, 0, -1, 0,
   1, 1, 1, 2, 2, -1, -1, 0, -1, -1, -1,
   1, 2, 2, 2, 0, -1, 0, 1, 1, 1, 1, -1, -1,
   -1, 2, 2, -1, 0, 0, 1, 1, 1, 2, 2, 2,
   -1, 0, 0]

/-- Modelled from the spec: the `save::Access` progress enum (§3:
"enum {Unvisited, Visited, Replaying/BeginReplay, Solved, …}"); the
`save` module root is not in the source snapshot.  Only `Solved` is
relevant to the claims below. -/
inductive AccessM where
  | unvisited
  | beginReplay
  | replay
  | visited
  | solved
deriving DecidableEq, Repr

/-- The reachable-`WreckedState` fields: access, the 63-cell grid (as a
total function on indices) and the `is_initial` flag. -/
structure WreckedState where
  access : AccessM
  grid : ℕ → ℤ
  isInitial : Bool

/-- The 63-entry comparison `&grid as &[i8] == OTHER` for length-63
grids. -/
def wreckedGridMatches (g : ℕ → ℤ) (l : List ℤ) : Bool :=
  (List.range 63).all fun i => g i == l.getD i 0

/-- The grid function of `INITIAL_GRID`. -/
def wreckedInitialFun : ℕ → ℤ := fun i => wreckedInitialList.getD i (-1)

/-- `WreckedState::tile_at`. -/
def tileAt (s : WreckedState) (col row : ℤ) : Option ℤ :=
  if col < 0 ∨ wreckedNumCols ≤ col ∨ row < 0 ∨ wreckedNumRows ≤ row then
    none
  else
    let value := s.grid (row * wreckedNumCols + col).toNat
    if value < 0 then none else some value

/-- The in-order collection of the non-gap values at a list of indices:
the first loop of each `shift_tiles` branch. -/
def collectVals (g : ℕ → ℤ) (idxs : List ℕ) : List ℤ :=
  (idxs.map g).filter fun v => decide (0 ≤ v)

/-- The write-back loop of `shift_tiles`: walk the indices, overwriting
each non-gap cell with the next queued value (`none` models the
`pop_front().unwrap()` panic on queue exhaustion). -/
def writeVals (g : ℕ → ℤ) (idxs : List ℕ) (q : List ℤ) : Option (ℕ → ℤ) :=
  match idxs with
  | [] => some g
  | i :: rest =>
      if 0 ≤ g i then
        match q with
        | [] => none
        | v :: q' => writeVals (Function.update g i v) rest q'
      else
        writeVals g rest q

/-- `pop_back` + `push_front` (the East/South rotation); `none` models the
`unwrap` panic on an empty queue. -/
def rotateBack (l : List ℤ) : Option (List ℤ) :=
  match l.getLast? with
  | none => none
  | some v => some (v :: l.dropLast)

/-- `pop_front` + `push_back` (the West/North rotation); `none` models the
`unwrap` panic on an empty queue. -/
def rotateFront (l : List ℤ) : Option (List ℤ) :=
  match l with
  | [] => none
  | h :: t => some (t ++ [h])

/-- The row-major indices `rank * NUM_COLS + col` of row `rank`. -/
def rowIdxs (rank : ℤ) : List ℕ :=
  (List.range 9).map fun c => (rank * wreckedNumCols + Int.ofNat c).toNat

/-- The row-major indices `row * NUM_COLS + rank` of column `rank`. -/
def colIdxs (rank : ℤ) : List ℕ :=
  (List.range 7).map fun r => (Int.ofNat r * wreckedNumCols + rank).toNat

/-- The grid transformation of `WreckedState::shift_tiles`: guard the rank,
collect the non-gap values of the rank, rotate them one step, and write
them back; out-of-range ranks leave the grid unchanged. -/
def shiftGrid (g : ℕ → ℤ) (dir : Direction) (rank : ℤ) : Option (ℕ → ℤ) :=
  match dir with
  | .east | .west =>
      if 0 ≤ rank ∧ rank < wreckedNumRows then
        let tiles := collectVals g (rowIdxs rank)
        match (if dir = .east then rotateBack tiles else rotateFront tiles)
          with
        | none => none
        | some q => writeVals g (rowIdxs rank) q
      else some g
  | .south | .north =>
      if 0 ≤ rank ∧ rank < wreckedNumCols then
        let tiles := collectVals g (colIdxs rank)
        match (if dir = .south then rotateBack tiles else rotateFront tiles)
          with
        | none => none
        | some q => writeVals g (colIdxs rank) q
      else some g

/-- `WreckedState::shift_tiles`: transform the grid, then recompute
`is_initial` and promote `access` to `Solved` when the grid equals
`SOLVED_GRID` (the two trailing statements of the source function). -/
def shiftTiles (s : WreckedState) (dir : Direction) (rank : ℤ) :
    Option WreckedState :=
  match shiftGrid s.grid dir rank with
  | none => none
  | some g' =>
      some { access :=
               if wreckedGridMatches g' wreckedSolvedList then .solved
               else s.access
             grid := g'
             isInitial := wreckedGridMatches g' wreckedInitialList }

/-- Reachable grids keep a tile somewhere in every row and in every
column (true of `INITIAL_GRID` and `SOLVED_GRID` and preserved by every
operation, since shifts write non-gap values onto non-gap cells). -/
def wreckedRanksOccupied (g : ℕ → ℤ) : Prop :=
  (∀ r : ℤ, 0 ≤ r → r < wreckedNumRows → collectVals g (rowIdxs r) ≠ []) ∧
  (∀ c : ℤ, 0 ≤ c → c < wreckedNumCols → collectVals g (colIdxs c) ≠ [])

instance (g : ℕ → ℤ) : Decidable (wreckedRanksOccupied g) := by
  unfold wreckedRanksOccupied wreckedNumRows wreckedNumCols
  refine decidable_of_iff
    ((∀ r ∈ Finset.Icc (0 : ℤ) 6, collectVals g (rowIdxs r) ≠ []) ∧
     (∀ c ∈ Finset.Icc (0 : ℤ) 8, collectVals g (colIdxs c) ≠ [])) ?_
  constructor
  · rintro ⟨h₁, h₂⟩
    refine ⟨fun r hr0 hr1 => h₁ r ?_, fun c hc0 hc1 => h₂ c ?_⟩ <;>
      · rw [Finset.mem_Icc]; omega
  · rintro ⟨h₁, h₂⟩
    refine ⟨fun r hr => ?_, fun c hc => ?_⟩
    · rw [Finset.mem_Icc] at hr; exact h₁ r hr.1 (by omega)
    · rw [Finset.mem_Icc] at hc; exact h₂ c hc.1 (by omega)

/-! ### Tile-shift lemmas -/

theorem collectVals_nil (g : ℕ → ℤ) : collectVals g [] = [] := rfl

theorem collectVals_cons (g : ℕ → ℤ) (i : ℕ) (rest : List ℕ) :
    collectVals g (i :: rest) =
      if 0 ≤ g i then g i :: collectVals g rest else collectVals g rest := by
  simp only [collectVals, List.map_cons, List.filter_cons]
  by_cases h : 0 ≤ g i <;> simp [h]

theorem collectVals_nonneg (g : ℕ → ℤ) (idxs : List ℕ) :
    ∀ v ∈ collectVals g idxs, 0 ≤ v := by
  intro v hv
  have := List.of_mem_filter hv
  exact of_decide_eq_true this

theorem collectVals_update_not_mem (g : ℕ → ℤ) (idxs : List ℕ) (i : ℕ)
    (v : ℤ) (h : i ∉ idxs) :
    collectVals (Function.update g i v) idxs = collectVals g idxs := by
  unfold collectVals
  congr 1
  apply List.map_congr_left
  intro j hj
  have : j ≠ i := fun hji => h (hji ▸ hj)
  simp [Function.update, this]

/-- Full characterisation of one write-back pass when the queue has the
right length and holds only tile values. -/
theorem writeVals_spec :
    ∀ (idxs : List ℕ) (g : ℕ → ℤ) (q : List ℤ), idxs.Nodup →
      q.length = (collectVals g idxs).length → (∀ v ∈ q, 0 ≤ v) →
      ∃ g', writeVals g idxs q = some g' ∧
        (∀ i, i ∉ idxs → g' i = g i) ∧
        (∀ i ∈ idxs, g i < 0 → g' i = g i) ∧
        (∀ i ∈ idxs, 0 ≤ g i → 0 ≤ g' i) ∧
        collectVals g' idxs = q := by
  intro idxs
  induction idxs with
  | nil =>
      intro g q _ hlen _
      rw [collectVals_nil] at hlen
      have : q = [] := List.eq_nil_of_length_eq_zero hlen
      subst this
      exact ⟨g, rfl, fun _ _ => rfl, fun i hi => absurd hi (List.not_mem_nil i),
        fun i hi => absurd hi (List.not_mem_nil i), rfl⟩
  | cons i rest ih =>
      intro g q hnd hlen hq
      have hi_rest : i ∉ rest := (List.nodup_cons.mp hnd).1
      have hnd_rest : rest.Nodup := (List.nodup_cons.mp hnd).2
      by_cases h0 : 0 ≤ g i
      · rw [collectVals_cons, if_pos h0] at hlen
        match q, hlen with
        | v :: q', hlen =>
          have hv : 0 ≤ v := hq v (List.mem_cons_self v q')
          have hq' : ∀ w ∈ q', 0 ≤ w := fun w hw =>
            hq w (List.mem_cons_of_mem v hw)
          have hlen' : q'.length =
              (collectVals (Function.update g i v) rest).length := by
            rw [collectVals_update_not_mem g rest i v hi_rest]
            simpa using hlen
          obtain ⟨g', hw, hframe, hgap, hsign, hcoll⟩ :=
            ih (Function.update g i v) q' hnd_rest hlen' hq'
          refine ⟨g', ?_, ?_, ?_, ?_, ?_⟩
          · simpa [writeVals, h0] using hw
          · intro j hj
            have hji : j ≠ i := fun hh => hj (hh ▸ List.mem_cons_self i rest)
            have hjr : j ∉ rest := fun hh => hj (List.mem_cons_of_mem i hh)
            rw [hframe j hjr, Function.update_noteq hji]
          · intro j hj hneg
            rcases List.mem_cons.mp hj with rfl | hj'
            · omega
            · have hji : j ≠ i := fun hh => hi_rest (hh ▸ hj')
              have := hgap j hj'
              rw [Function.update_noteq hji] at this
              exact this hneg
          · intro j hj hpos
            rcases List.mem_cons.mp hj with rfl | hj'
            · rw [hframe j hi_rest, Function.update_same]
              exact hv
            · have hji : j ≠ i := fun hh => hi_rest (hh ▸ hj')
              have := hsign j hj'
              rw [Function.update_noteq hji] at this
              exact this hpos
          · have hgi : g' i = v := by
              rw [hframe i hi_rest, Function.update, dif_pos rfl]
            rw [collectVals_cons, hgi, if_pos hv, hcoll]
      · rw [collectVals_cons, if_neg h0] at hlen
        obtain ⟨g', hw, hframe, hgap, hsign, hcoll⟩ :=
          ih g q hnd_rest hlen hq
        refine ⟨g', ?_, ?_, ?_, ?_, ?_⟩
        · simpa [writeVals, h0] using hw
        · intro j hj
          exact hframe j fun hh => hj (List.mem_cons_of_mem i hh)
        · intro j hj hneg
          rcases List.mem_cons.mp hj with rfl | hj'
          · exact hframe j hi_rest
          · exact hgap j hj' hneg
        · intro j hj hpos
          rcases List.mem_cons.mp hj with rfl | hj'
          · omega
          · exact hsign j hj' hpos
        · have hgi : g' i = g i := hframe i hi_rest
          rw [collectVals_cons, hgi, if_neg h0, hcoll]

/-- Two grids with the same gap pattern and the same collected tile
sequence along `idxs` agree on `idxs`. -/
theorem eq_on_of_collectVals_eq :
    ∀ (idxs : List ℕ) (g h : ℕ → ℤ),
      (∀ i ∈ idxs, g i < 0 → h i = g i) →
      (∀ i ∈ idxs, 0 ≤ g i → 0 ≤ h i) →
      collectVals h idxs = collectVals g idxs →
      ∀ i ∈ idxs, h i = g i := by
  intro idxs
  induction idxs with
  | nil => intro g h _ _ _ i hi; exact absurd hi (List.not_mem_nil i)
  | cons i rest ih =>
      intro g h hgap hsign hcoll j hj
      by_cases h0 : 0 ≤ g i
      · have hh0 : 0 ≤ h i := hsign i (List.mem_cons_self i rest) h0
        rw [collectVals_cons, if_pos hh0, collectVals_cons, if_pos h0]
          at hcoll
        injection hcoll with hhead htail
        rcases List.mem_cons.mp hj with rfl | hj'
        · exact hhead
        · exact ih g h (fun k hk => hgap k (List.mem_cons_of_mem i hk))
            (fun k hk => hsign k (List.mem_cons_of_mem i hk)) htail j hj'
      · have hhead : h i = g i :=
          hgap i (List.mem_cons_self i rest) (by omega)
        have hh0 : ¬ 0 ≤ h i := by omega
        rw [collectVals_cons, if_neg hh0, collectVals_cons, if_neg h0]
          at hcoll
        rcases List.mem_cons.mp hj with rfl | hj'
        · exact hhead
        · exact ih g h (fun k hk => hgap k (List.mem_cons_of_mem i hk))
            (fun k hk => hsign k (List.mem_cons_of_mem i hk)) hcoll j hj'

theorem rotateBack_then_front (l : List ℤ) (hne : l ≠ []) :
    ∃ q, rotateBack l = some q ∧ rotateFront q = some l ∧
      q.length = l.length ∧ ∀ v ∈ q, v ∈ l := by
  refine ⟨l.getLast hne :: l.dropLast, ?_, ?_, ?_, ?_⟩
  · unfold rotateBack
    rw [List.getLast?_eq_getLast_of_ne_nil hne]
  · show some (l.dropLast ++ [l.getLast hne]) = some l
    rw [List.dropLast_append_getLast hne]
  · have := List.length_pos.mpr hne
    simp only [List.length_cons, List.length_dropLast]
    omega
  · intro v hv
    rcases List.mem_cons.mp hv with rfl | hv'
    · exact List.getLast_mem hne
    · exact List.mem_of_mem_dropLast hv'

theorem rotateFront_then_back (l : List ℤ) (hne : l ≠ []) :
    ∃ q, rotateFront l = some q ∧ rotateBack q = some l ∧
      q.length = l.length ∧ ∀ v ∈ q, v ∈ l := by
  match l, hne with
  | h :: t, _ =>
    refine ⟨t ++ [h], rfl, ?_, by simp, ?_⟩
    · unfold rotateBack
      rw [List.getLast?_concat, List.dropLast_concat]
    · intro v hv
      rcases List.mem_append.mp hv with hv' | hv'
      · exact List.mem_cons_of_mem h hv'
      · rw [List.mem_singleton.mp hv']
        exact List.mem_cons_self h t

theorem rowIdxs_nodup (rank : ℤ) (h : 0 ≤ rank) : (rowIdxs rank).Nodup := by
  unfold rowIdxs
  apply List.Nodup.map_on _ (List.nodup_range 9)
  intro c₁ hc₁ c₂ hc₂ heq
  rw [List.mem_range] at hc₁ hc₂
  simp only [wreckedNumCols, Int.ofNat_eq_coe] at heq
  omega

theorem colIdxs_nodup (rank : ℤ) (h : 0 ≤ rank) : (colIdxs rank).Nodup := by
  unfold colIdxs
  apply List.Nodup.map_on _ (List.nodup_range 7)
  intro r₁ hr₁ r₂ hr₂ heq
  rw [List.mem_range] at hr₁ hr₂
  simp only [wreckedNumCols, Int.ofNat_eq_coe] at heq
  omega

/-- A collect-rotate-write pass followed by the inverse-rotation pass
restores the grid pointwise; the first pass keeps gaps and non-gaps in
place. -/
theorem roundOnIdxs (idxs : List ℕ) (hnd : idxs.Nodup) (g : ℕ → ℤ)
    (hne : collectVals g idxs ≠ [])
    (rotA rotB : List ℤ → Option (List ℤ))
    (hrot : ∀ l : List ℤ, l ≠ [] →
      ∃ q, rotA l = some q ∧ rotB q = some l ∧ q.length = l.length ∧
        ∀ v ∈ q, v ∈ l) :
    ∃ q₁ g₁ q₂ g₂,
      rotA (collectVals g idxs) = some q₁ ∧
      writeVals g idxs q₁ = some g₁ ∧
      rotB (collectVals g₁ idxs) = some q₂ ∧
      writeVals g₁ idxs q₂ = some g₂ ∧
      (∀ i, g₂ i = g i) ∧
      (∀ i, g i < 0 → g₁ i = g i) ∧
      (∀ i, 0 ≤ g i → 0 ≤ g₁ i) := by
  set ts := collectVals g idxs with hts
  have hts_nonneg := collectVals_nonneg g idxs
  obtain ⟨q₁, hA, hB, hlen, hmem⟩ := hrot ts hne
  have hq₁_nonneg : ∀ v ∈ q₁, 0 ≤ v := fun v hv =>
    hts_nonneg v (hmem v hv)
  obtain ⟨g₁, hw₁, hframe₁, hgap₁, hsign₁, hcoll₁⟩ :=
    writeVals_spec idxs g q₁ hnd (by rw [hlen, hts]) hq₁_nonneg
  have hB' : rotB (collectVals g₁ idxs) = some ts := by rw [hcoll₁]; exact hB
  obtain ⟨g₂, hw₂, hframe₂, hgap₂, hsign₂, hcoll₂⟩ :=
    writeVals_spec idxs g₁ ts hnd (by rw [hcoll₁, hlen]) hts_nonneg
  refine ⟨q₁, g₁, ts, g₂, hA, hw₁, hB', hw₂, ?_, ?_, ?_⟩
  · intro i
    by_cases hi : i ∈ idxs
    · refine eq_on_of_collectVals_eq idxs g g₂ ?_ ?_ ?_ i hi
      · intro j hj hneg
        rw [hgap₂ j hj (by rw [hgap₁ j hj hneg]; exact hneg),
          hgap₁ j hj hneg]
      · intro j hj hpos
        exact hsign₂ j hj (hsign₁ j hj hpos)
      · rw [hcoll₂, hts]
    · rw [hframe₂ i hi, hframe₁ i hi]
  · intro i hneg
    by_cases hi : i ∈ idxs
    · exact hgap₁ i hi hneg
    · exact hframe₁ i hi
  · intro i hpos
    by_cases hi : i ∈ idxs
    · exact hsign₁ i hi hpos
    · rw [hframe₁ i hi]; exact hpos

/-- `tile_at` depends only on the grid contents. -/
theorem tileAt_congr (s t : WreckedState) (h : ∀ i, s.grid i = t.grid i)
    (col row : ℤ) : tileAt s col row = tileAt t col row := by
  unfold tileAt
  rw [h]

/-- The grid round trip underlying C7, at the `shiftGrid` level. -/
theorem shiftGrid_roundtrip (g : ℕ → ℤ) (dir : Direction) (rank : ℤ)
    (h : wreckedRanksOccupied g) :
    ∃ g₁ g₂, shiftGrid g dir rank = some g₁ ∧
      shiftGrid g₁ dir.opposite rank = some g₂ ∧
      (∀ i, g₂ i = g i) ∧
      (∀ i, g i < 0 → g₁ i = g i) ∧
      (∀ i, 0 ≤ g i → 0 ≤ g₁ i) := by
  cases dir with
  | east =>
      by_cases hg : 0 ≤ rank ∧ rank < wreckedNumRows
      · obtain ⟨q₁, g₁, q₂, g₂, hA, hw₁, hB, hw₂, hpt, hgap, hsign⟩ :=
          roundOnIdxs (rowIdxs rank) (rowIdxs_nodup rank hg.1) g
            (h.1 rank hg.1 hg.2) rotateBack rotateFront
            rotateBack_then_front
        refine ⟨g₁, g₂, ?_, ?_, hpt, hgap, hsign⟩
        · simp only [shiftGrid, if_pos hg, hA]
          exact hw₁
        · simp only [Direction.opposite, shiftGrid, if_pos hg]
          simp only [reduceIte, hB]
          exact hw₂
      · exact ⟨g, g, by simp [shiftGrid, hg], by simp [Direction.opposite,
          shiftGrid, hg], fun _ => rfl, fun _ _ => rfl, fun _ hp => hp⟩
  | west =>
      by_cases hg : 0 ≤ rank ∧ rank < wreckedNumRows
      · obtain ⟨q₁, g₁, q₂, g₂, hA, hw₁, hB, hw₂, hpt, hgap, hsign⟩ :=
          roundOnIdxs (rowIdxs rank) (rowIdxs_nodup rank hg.1) g
            (h.1 rank hg.1 hg.2) rotateFront rotateBack
            rotateFront_then_back
        refine ⟨g₁, g₂, ?_, ?_, hpt, hgap, hsign⟩
        · simp only [shiftGrid, if_pos hg]
          simp only [reduceIte, hA]
          exact hw₁
        · simp only [Direction.opposite, shiftGrid, if_pos hg]
          simp only [reduceIte, hB]
          exact hw₂
      · exact ⟨g, g, by simp [shiftGrid, hg], by simp [Direction.opposite,
          shiftGrid, hg], fun _ => rfl, fun _ _ => rfl, fun _ hp => hp⟩
  | south =>
      by_cases hg : 0 ≤ rank ∧ rank < wreckedNumCols
      · obtain ⟨q₁, g₁, q₂, g₂, hA, hw₁, hB, hw₂, hpt, hgap, hsign⟩ :=
          roundOnIdxs (colIdxs rank) (colIdxs_nodup rank hg.1) g
            (h.2 rank hg.1 hg.2) rotateBack rotateFront
            rotateBack_then_front
        refine ⟨g₁, g₂, ?_, ?_, hpt, hgap, hsign⟩
        · simp only [shiftGrid, if_pos hg]
          simp only [reduceIte, hA]
          exact hw₁
        · simp only [Direction.opposite, shiftGrid, if_pos hg]
          simp only [reduceIte, hB]
          exact hw₂
      · exact ⟨g, g, by simp [shiftGrid, hg], by simp [Direction.opposite,
          shiftGrid, hg], fun _ => rfl, fun _ _ => rfl, fun _ hp => hp⟩
  | north =>
      by_cases hg : 0 ≤ rank ∧ rank < wreckedNumCols
      · obtain ⟨q₁, g₁, q₂, g₂, hA, hw₁, hB, hw₂, hpt, hgap, hsign⟩ :=
          roundOnIdxs (colIdxs rank) (colIdxs_nodup rank hg.1) g
            (h.2 rank hg.1 hg.2) rotateFront rotateBack
            rotateFront_then_back
        refine ⟨g₁, g₂, ?_, ?_, hpt, hgap, hsign⟩
        · simp only [shiftGrid, if_pos hg]
          simp only [reduceIte, hA]
          exact hw₁
        · simp only [Direction.opposite, shiftGrid, if_pos hg]
          simp only [reduceIte, hB]
          exact hw₂
      · exact ⟨g, g, by simp [shiftGrid, hg], by simp [Direction.opposite,
          shiftGrid, hg], fun _ => rfl, fun _ _ => rfl, fun _ hp => hp⟩

/-- **C7.**  Tile-shift round trip: on any grid that keeps at least one
tile in every rank (as every reachable `WreckedState` does),
`shift_tiles(dir, rank)` followed by `shift_tiles(dir.opposite, rank)`
succeeds and restores `tile_at(col, row)` for every cell; moreover, across
the single first shift every gap cell keeps its (negative) value and every
tile cell stays a tile cell. -/
theorem wrecked_shift_roundtrip (s : WreckedState) (dir : Direction)
    (rank : ℤ) (h : wreckedRanksOccupied s.grid) :
    ∃ s₁ s₂, shiftTiles s dir rank = some s₁ ∧
      shiftTiles s₁ dir.opposite rank = some s₂ ∧
      (∀ col row : ℤ, tileAt s₂ col row = tileAt s col row) ∧
      (∀ i : ℕ, s.grid i < 0 → s₁.grid i = s.grid i) ∧
      (∀ i : ℕ, 0 ≤ s.grid i → 0 ≤ s₁.grid i) := by
  obtain ⟨g₁, g₂, h₁, h₂, hpt, hgap, hsign⟩ :=
    shiftGrid_roundtrip s.grid dir rank h
  refine ⟨⟨if wreckedGridMatches g₁ wreckedSolvedList then .solved
             else s.access, g₁, wreckedGridMatches g₁ wreckedInitialList⟩,
          ⟨if wreckedGridMatches g₂ wreckedSolvedList then .solved
             else if wreckedGridMatches g₁ wreckedSolvedList then .solved
             else s.access, g₂, wreckedGridMatches g₂ wreckedInitialList⟩,
          ?_, ?_, ?_, hgap, hsign⟩
  · unfold shiftTiles
    rw [h₁]
  · unfold shiftTiles
    rw [h₂]
  · intro col row
    exact tileAt_congr _ s hpt col row

/-- **C7 witness.**  The round trip evaluated on the initial grid. -/
theorem wrecked_shift_roundtrip_witness :
    ∃ s₁ s₂,
      shiftTiles ⟨.unvisited, wreckedInitialFun, true⟩ .east 0 = some s₁ ∧
      shiftTiles s₁ Direction.east.opposite 0 = some s₂ ∧
      (∀ col row : ℤ, tileAt s₂ col row =
        tileAt ⟨.unvisited, wreckedInitialFun, true⟩ col row) ∧
      (∀ i : ℕ, wreckedInitialFun i < 0 → s₁.grid i = wreckedInitialFun i) ∧
      (∀ i : ℕ, 0 ≤ wreckedInitialFun i → 0 ≤ s₁.grid i) :=
  wrecked_shift_roundtrip ⟨.unvisited, wreckedInitialFun, true⟩ .east 0
    (by decide)

/-- **C10.**  Totality of `shift_tiles`: on any grid that keeps at least
one tile in every rank (as every reachable `WreckedState` does), every
call succeeds (no `unwrap` panic), and a rank outside `[0, NUM_ROWS)` for
East/West or outside `[0, NUM_COLS)` for North/South leaves the grid
unchanged. -/
theorem wrecked_shift_total (s : WreckedState) (dir : Direction) (rank : ℤ)
    (h : wreckedRanksOccupied s.grid) :
    ∃ s', shiftTiles s dir rank = some s' ∧
      ((dir = .east ∨ dir = .west) →
        ¬(0 ≤ rank ∧ rank < wreckedNumRows) → s'.grid = s.grid) ∧
      ((dir = .north ∨ dir = .south) →
        ¬(0 ≤ rank ∧ rank < wreckedNumCols) → s'.grid = s.grid) := by
  obtain ⟨g₁, _, h₁, _, _, _, _⟩ := shiftGrid_roundtrip s.grid dir rank h
  refine ⟨⟨if wreckedGridMatches g₁ wreckedSolvedList then .solved
             else s.access, g₁, wreckedGridMatches g₁ wreckedInitialList⟩,
          ?_, ?_, ?_⟩
  · unfold shiftTiles
    rw [h₁]
  · rintro (rfl | rfl) hr <;>
      · simp only [shiftGrid, if_neg hr] at h₁
        exact (Option.some.inj h₁).symm
  · rintro (rfl | rfl) hr <;>
      · simp only [shiftGrid, if_neg hr] at h₁
        exact (Option.some.inj h₁).symm

/-- **C10 witness.**  Totality evaluated on the initial grid with an
out-of-range rank. -/
theorem wrecked_shift_total_witness :
    ∃ s', shiftTiles ⟨.unvisited, wreckedInitialFun, true⟩ .north 100
        = some s' ∧
      ((Direction.north = .east ∨ Direction.north = .west) →
        ¬((0:ℤ) ≤ 100 ∧ (100:ℤ) < wreckedNumRows) →
        s'.grid = wreckedInitialFun) ∧
      ((Direction.north = .north ∨ Direction.north = .south) →
        ¬((0:ℤ) ≤ 100 ∧ (100:ℤ) < wreckedNumCols) →
        s'.grid = wreckedInitialFun) :=
  wrecked_shift_total ⟨.unvisited, wreckedInitialFun, true⟩ .north 100
    (by decide)

/-! ## The ice-block slide grid (ObjectGrid)

From `src/src/save/ice/grid.rs`.  The two `HashMap<Point, _>` fields become
`Finmap`s (whose equality is extensional, like `HashMap` equality).  The
unbounded `loop` of `slide_ice_block` and the two `while
objects.contains_key(..)` relocation searches are modelled with fuel: the
slide loop advances through distinct in-bounds cells of one row or column,
so `numCols + numRows + 1` steps dominate it; a relocation search walks
through distinct cells that all carry objects, so `#objects + 1` steps
dominate it.  Fuel sufficiency is proved in the lemmas below
(`ppSearchGo_isFirstFree`, which shows the search's result satisfies the
loop's exit condition). -/

/-- Modelled from the spec: `save::ice::Transform` (§4.1: element of the
dihedral group of order 8, with `rotated_cw`, `flipped_horz`,
`flipped_vert` composing the operation *after* the current transform, and
a well-defined `inverse`); `save/ice/mod.rs` is not in the source
snapshot.  `⟨m, r⟩` means: reflect horizontally if `m`, then rotate
clockwise by `r` quarter turns. -/
structure Transform where
  mirrored : Bool
  rotation : Fin 4
deriving DecidableEq, Repr, Fintype

/-- `Transform::identity`. -/
def Transform.identity : Transform := ⟨false, 0⟩

/-- Group composition: `t₂.compose t₁` applies `t₁` first, then `t₂`. -/
def Transform.compose (t₂ t₁ : Transform) : Transform :=
  ⟨xor t₂.mirrored t₁.mirrored,
   if t₂.mirrored then t₂.rotation - t₁.rotation
   else t₂.rotation + t₁.rotation⟩

/-- `Transform::rotated_cw`: compose a quarter clockwise turn after. -/
def Transform.rotated_cw (t : Transform) : Transform :=
  Transform.compose ⟨false, 1⟩ t

/-- `Transform::flipped_horz`: compose a horizontal flip after. -/
def Transform.flipped_horz (t : Transform) : Transform :=
  Transform.compose ⟨true, 0⟩ t

/-- `Transform::flipped_vert`: compose a vertical flip (= horizontal flip
plus half turn) after. -/
def Transform.flipped_vert (t : Transform) : Transform :=
  Transform.compose ⟨true, 2⟩ t

/-- `Transform::inverse`. -/
def Transform.inverse (t : Transform) : Transform :=
  ⟨t.mirrored, if t.mirrored then t.rotation else -t.rotation⟩

theorem Transform.compose_identity (t : Transform) :
    Transform.compose Transform.identity t = t := by
  revert t; decide

theorem Transform.inverse_compose_cancel (t t₀ : Transform) :
    Transform.compose t.inverse (Transform.compose t t₀) = t₀ := by
  revert t t₀; decide

/-- Modelled from the spec: the identity part of `save::ice::Symbol` (embedded as `IceSymbol`; plain `Symbol` is taken by Mathlib) (§3:
"a letter/shape identity plus current Transform"); the kinds named in
`syzygy.rs` are the cyan letters. -/
inductive IceSymbolKind where
  | cyanQ
  | cyanU
  | cyanA
deriving DecidableEq, Repr, Fintype

/-- Modelled from the spec: `save::ice::Symbol` (embedded as `IceSymbol`; plain `Symbol` is taken by Mathlib), a shape identity plus its
current `Transform` (§3); `save/ice/mod.rs` is not in the source
snapshot. -/
structure IceSymbol where
  kind : IceSymbolKind
  transform : Transform
deriving DecidableEq, Repr

/-- `Symbol::transformed`: compose the given transform after the symbol's
current one; the identity/kind never changes (§3). -/
def IceSymbol.transformed (s : IceSymbol) (t : Transform) : IceSymbol :=
  ⟨s.kind, Transform.compose t s.transform⟩

theorem IceSymbol.transformed_identity (s : IceSymbol) :
    s.transformed Transform.identity = s := by
  cases s with
  | mk k t => simp [IceSymbol.transformed, Transform.compose_identity]

theorem IceSymbol.transformed_inverse_cancel (s : IceSymbol) (t : Transform) :
    (s.transformed t).transformed t.inverse = s := by
  cases s with
  | mk k t₀ =>
      simp [IceSymbol.transformed, Transform.inverse_compose_cancel]

/-- `Object` in `grid.rs`. -/
inductive Object where
  | gap
  | wall
  | pushPop (dir : Direction)
  | rotator
  | reflector (vertical : Bool)
  | goal (symbol : IceSymbol)
deriving DecidableEq, Repr

/-- `BlockSlide` in `grid.rs` (`from` and `to` are Lean keywords, hence
`fromPt`/`toPt`). -/
structure BlockSlide where
  fromPt : GridPoint
  direction : Direction
  toPt : GridPoint
  pushed : Option GridPoint
  transform : Transform
deriving DecidableEq, Repr

/-- `ObjectGrid` in `grid.rs`. -/
structure ObjectGrid where
  numCols : ℤ
  numRows : ℤ
  objects : Finmap fun _ : GridPoint => Object
  iceBlocks : Finmap fun _ : GridPoint => IceSymbol
  isModified : Bool
deriving DecidableEq

/-- The relocation search `while self.objects.contains_key(&pp) { pp +=
delta }`, with fuel. -/
def ppSearchGo (objects : Finmap fun _ : GridPoint => Object)
    (delta : GridPoint) : ℕ → GridPoint → GridPoint
  | 0, p => p
  | n + 1, p =>
      if p ∈ objects then ppSearchGo objects delta n (p.add delta) else p

/-- The relocation search started with always-sufficient fuel (the walk
visits distinct cells that all carry objects, so `#objects` bounds its
length; see `ppSearchGo_isFirstFree`). -/
def ppSearch (objects : Finmap fun _ : GridPoint => Object)
    (delta : GridPoint) (start : GridPoint) : GridPoint :=
  ppSearchGo objects delta (Multiset.card objects.entries + 1) start

/-- The mutable state of the `loop` in `slide_ice_block`: the (possibly
push-mutated) objects map, the block position, the last recorded push, and
the accumulated transform.  `pushCount` is ghost instrumentation counting
how many push-pop relocations have happened; it influences nothing. -/
structure SlideLoopState where
  objects : Finmap fun _ : GridPoint => Object
  newCoords : GridPoint
  pushed : Option GridPoint
  transform : Transform
  pushCount : ℕ

/-- The `loop` of `slide_ice_block`, with fuel.  `iceBlocks` is the map
*after* removing the sliding block (the source removes it first). -/
def slideLoop (numCols numRows : ℤ)
    (iceBlocks : Finmap fun _ : GridPoint => IceSymbol) (slideDir : Direction) :
    ℕ → SlideLoopState → SlideLoopState
  | 0, st => st
  | fuel + 1, st =>
      let delta := slideDir.delta
      let next := st.newCoords.add delta
      if next.x < 0 ∨ numCols ≤ next.x ∨ next.y < 0 ∨ numRows ≤ next.y ∨
          next ∈ iceBlocks then
        st
      else
        match st.objects.lookup next with
        | some .gap => st
        | some .wall => st
        | some (.pushPop ppDir) =>
            if ppDir ≠ slideDir.opposite then st
            else
              let ppCoords := ppSearch st.objects delta (next.add delta)
              if ppCoords ∈ iceBlocks then st
              else
                slideLoop numCols numRows iceBlocks slideDir fuel
                  { objects := (st.objects.erase next).insert ppCoords
                      (.pushPop slideDir)
                    newCoords := next
                    pushed := some ppCoords
                    transform := st.transform
                    pushCount := st.pushCount + 1 }
        | some .rotator =>
            slideLoop numCols numRows iceBlocks slideDir fuel
              { st with newCoords := next,
                        transform := st.transform.rotated_cw }
        | some (.reflector false) =>
            slideLoop numCols numRows iceBlocks slideDir fuel
              { st with newCoords := next,
                        transform := st.transform.flipped_horz }
        | some (.reflector true) =>
            slideLoop numCols numRows iceBlocks slideDir fuel
              { st with newCoords := next,
                        transform := st.transform.flipped_vert }
        | some (.goal _) =>
            slideLoop numCols numRows iceBlocks slideDir fuel
              { st with newCoords := next }
        | none =>
            slideLoop numCols numRows iceBlocks slideDir fuel
              { st with newCoords := next }

/-- The slide loop of `slide_ice_block(coords, slide_dir)` run from the
start state (on the ice map with the sliding block already removed). -/
def slideLoopRun (g : ObjectGrid) (coords : GridPoint)
    (slideDir : Direction) : SlideLoopState :=
  slideLoop g.numCols g.numRows (g.iceBlocks.erase coords) slideDir
    ((g.numCols + g.numRows).toNat + 1)
    ⟨g.objects, coords, none, Transform.identity, 0⟩

/-- The cell at which the sliding block finally stops. -/
def slideFinalCoords (g : ObjectGrid) (coords : GridPoint)
    (slideDir : Direction) : GridPoint :=
  (slideLoopRun g coords slideDir).newCoords

/-- Ghost observation: how many push-pop gates the slide relocates (`0`
when there is no block at `coords`). -/
def slidePushCount (g : ObjectGrid) (coords : GridPoint)
    (slideDir : Direction) : ℕ :=
  match g.iceBlocks.lookup coords with
  | none => 0
  | some _ => (slideLoopRun g coords slideDir).pushCount

/-- `ObjectGrid::slide_ice_block`, returning the `Option<BlockSlide>`
along with the updated grid (the source mutates `self`). -/
def slideIceBlock (g : ObjectGrid) (coords : GridPoint)
    (slideDir : Direction) : Option BlockSlide × ObjectGrid :=
  match g.iceBlocks.lookup coords with
  | none => (none, g)
  | some symbol =>
      let st := slideLoopRun g coords slideDir
      let ice' := (g.iceBlocks.erase coords).insert st.newCoords
        (symbol.transformed st.transform)
      if st.newCoords ≠ coords then
        (some ⟨coords, slideDir, st.newCoords, st.pushed, st.transform⟩,
         { g with objects := st.objects, iceBlocks := ice',
                  isModified := true })
      else
        (none, { g with objects := st.objects, iceBlocks := ice' })

/-- `ObjectGrid::undo_slide`. -/
def undoSlide (g : ObjectGrid) (slide : BlockSlide) : ObjectGrid :=
  match g.iceBlocks.lookup slide.toPt with
  | none => g
  | some symbol =>
      let ice' := (g.iceBlocks.erase slide.toPt).insert slide.fromPt
        (symbol.transformed slide.transform.inverse)
      match slide.pushed with
      | none => { g with iceBlocks := ice' }
      | some ppCoords =>
          match g.objects.lookup ppCoords with
          | some (.pushPop ppDir) =>
              let delta := ppDir.opposite.delta
              let newPp := ppSearch g.objects delta (ppCoords.add delta)
              { g with iceBlocks := ice',
                       objects := (g.objects.erase ppCoords).insert newPp
                         (.pushPop ppDir.opposite) }
          | _ => { g with iceBlocks := ice' }

/-! ### Ray and relocation-search lemmas -/

theorem GridPoint.ext_xy {p q : GridPoint} (hx : p.x = q.x)
    (hy : p.y = q.y) : p = q := by
  cases p; cases q; simp_all

/-- `start + n · delta`: the cell reached after `n` steps of the search. -/
def addMul (p δ : GridPoint) (n : ℕ) : GridPoint :=
  ⟨p.x + n * δ.x, p.y + n * δ.y⟩

theorem addMul_zero (p δ : GridPoint) : addMul p δ 0 = p := by
  apply GridPoint.ext_xy <;> simp [addMul]

theorem addMul_shift (p δ : GridPoint) (n : ℕ) :
    addMul (p.add δ) δ n = addMul p δ (n + 1) := by
  apply GridPoint.ext_xy <;>
    · simp only [addMul, GridPoint.add]
      push_cast
      ring

theorem addMul_inj {δ : GridPoint} (hδ : δ.x ≠ 0 ∨ δ.y ≠ 0)
    (p : GridPoint) {m n : ℕ} (h : addMul p δ m = addMul p δ n) : m = n := by
  rcases hδ with hx | hy
  · have := congrArg GridPoint.x h
    simp only [addMul] at this
    have : (m : ℤ) * δ.x = n * δ.x := by omega
    have := mul_right_cancel₀ hx this
    exact_mod_cast this
  · have := congrArg GridPoint.y h
    simp only [addMul] at this
    have : (m : ℤ) * δ.y = n * δ.y := by omega
    have := mul_right_cancel₀ hy this
    exact_mod_cast this

theorem Direction.delta_ne (d : Direction) :
    d.delta.x ≠ 0 ∨ d.delta.y ≠ 0 := by
  cases d <;> simp [Direction.delta]

theorem Direction.opposite_opposite (d : Direction) : d.opposite.opposite = d := by
  cases d <;> rfl

theorem Direction.delta_opposite (d : Direction) :
    d.opposite.delta = ⟨-d.delta.x, -d.delta.y⟩ := by
  cases d <;> rfl

/-- `x` is the first cell at or after `start` (stepping by `δ`) that holds
no object: the exit cell of the relocation `while` loop. -/
def IsFirstFree (objects : Finmap fun _ : GridPoint => Object)
    (δ start x : GridPoint) : Prop :=
  x ∉ objects ∧
    ∃ n : ℕ, x = addMul start δ n ∧ ∀ m < n, addMul start δ m ∈ objects

theorem isFirstFree_unique {objects : Finmap fun _ : GridPoint => Object}
    {δ start x y : GridPoint} (hδ : δ.x ≠ 0 ∨ δ.y ≠ 0)
    (hx : IsFirstFree objects δ start x)
    (hy : IsFirstFree objects δ start y) : x = y := by
  obtain ⟨hxf, n₁, rfl, h₁⟩ := hx
  obtain ⟨hyf, n₂, rfl, h₂⟩ := hy
  rcases lt_trichotomy n₁ n₂ with h | h | h
  · exact absurd (h₂ n₁ h) hxf
  · rw [h]
  · exact absurd (h₁ n₂ h) hyf

/-- Exact description of the fueled search walk. -/
theorem ppSearchGo_spec (objects : Finmap fun _ : GridPoint => Object)
    (δ : GridPoint) :
    ∀ (fuel : ℕ) (p : GridPoint), ∃ n : ℕ, n ≤ fuel ∧
      ppSearchGo objects δ fuel p = addMul p δ n ∧
      (∀ m < n, addMul p δ m ∈ objects) ∧
      (n < fuel → addMul p δ n ∉ objects) := by
  intro fuel
  induction fuel with
  | zero =>
      intro p
      exact ⟨0, le_refl 0, (addMul_zero p δ).symm, fun m hm => absurd hm
        (Nat.not_lt_zero m), fun h => absurd h (lt_irrefl 0)⟩
  | succ fuel ih =>
      intro p
      by_cases hp : p ∈ objects
      · obtain ⟨n, hn, heq, hall, hlast⟩ := ih (p.add δ)
        refine ⟨n + 1, by omega, ?_, ?_, ?_⟩
        · rw [← addMul_shift]
          simpa [ppSearchGo, hp] using heq
        · intro m hm
          match m with
          | 0 => rw [addMul_zero]; exact hp
          | m + 1 =>
              rw [← addMul_shift]
              exact hall m (by omega)
        · intro h
          rw [← addMul_shift]
          exact hlast (by omega)
      · refine ⟨0, by omega, ?_, fun m hm => absurd hm (Nat.not_lt_zero m),
          fun _ => ?_⟩
        · simp [ppSearchGo, hp, addMul_zero]
        · rw [addMul_zero]; exact hp

theorem finmap_keys_card (m : Finmap fun _ : GridPoint => Object) :
    m.keys.card = Multiset.card m.entries := by
  induction m using Finmap.induction_on with
  | H a =>
      rw [Finset.card_def, Finmap.keys_val, AList.toFinmap_entries]
      simp [AList.keys, List.keys]

/-- Pigeonhole: the search cannot stay inside the object map for
`#objects + 1` consecutive steps, because the visited cells are
pairwise distinct. -/
theorem not_all_ray_mem {objects : Finmap fun _ : GridPoint => Object}
    {δ : GridPoint} (hδ : δ.x ≠ 0 ∨ δ.y ≠ 0) (p : GridPoint) :
    ¬ ∀ m ≤ Multiset.card objects.entries, addMul p δ m ∈ objects := by
  intro H
  set k := Multiset.card objects.entries with hk
  have hsub : (Finset.range (k + 1)).image (addMul p δ) ⊆ objects.keys := by
    intro q hq
    rw [Finset.mem_image] at hq
    obtain ⟨m, hm, rfl⟩ := hq
    rw [Finset.mem_range] at hm
    exact Finmap.mem_keys.mpr (H m (by omega))
  have hcard : ((Finset.range (k + 1)).image (addMul p δ)).card = k + 1 := by
    rw [Finset.card_image_of_injective _ (fun a b => addMul_inj hδ p),
      Finset.card_range]
  have hle := Finset.card_le_card hsub
  rw [hcard, finmap_keys_card, ← hk] at hle
  omega

/-- The relocation search returns the first object-free cell of the ray:
in particular its fuel always suffices, so the fueled definition agrees
with the source's unbounded `while` loop. -/
theorem ppSearch_isFirstFree (objects : Finmap fun _ : GridPoint => Object)
    {δ : GridPoint} (hδ : δ.x ≠ 0 ∨ δ.y ≠ 0) (start : GridPoint) :
    IsFirstFree objects δ start (ppSearch objects δ start) := by
  unfold ppSearch
  obtain ⟨n, hn, heq, hall, hlast⟩ :=
    ppSearchGo_spec objects δ (Multiset.card objects.entries + 1) start
  have hlt : n < Multiset.card objects.entries + 1 := by
    by_contra h
    exact @not_all_ray_mem objects δ hδ start
      fun m hm => hall m (by omega)
  rw [heq]
  exact ⟨hlast hlt, n, rfl, hall⟩

theorem ppSearch_eq_of_isFirstFree
    {objects : Finmap fun _ : GridPoint => Object}
    {δ start x : GridPoint} (hδ : δ.x ≠ 0 ∨ δ.y ≠ 0)
    (h : IsFirstFree objects δ start x) : ppSearch objects δ start = x :=
  isFirstFree_unique hδ (ppSearch_isFirstFree objects hδ start) h

/-! ### Slide-loop lemmas -/

theorem addMul_one (p δ : GridPoint) : addMul p δ 1 = p.add δ := by
  apply GridPoint.ext_xy <;> simp [addMul, GridPoint.add]

theorem finmap_insert_erase_cancel {α : Type} [DecidableEq α]
    {β : α → Type} (m : Finmap β) (a : α) (b : β a)
    (h : m.lookup a = some b) : (m.erase a).insert a b = m := by
  apply Finmap.ext_lookup
  intro x
  by_cases hx : x = a
  · subst hx
    rw [Finmap.lookup_insert, h]
  · rw [Finmap.lookup_insert_of_ne _ hx, Finmap.lookup_erase_ne hx]

theorem slideLoop_pushCount_le (C R : ℤ)
    (ice : Finmap fun _ : GridPoint => IceSymbol) (d : Direction) :
    ∀ (fuel : ℕ) (st : SlideLoopState),
      st.pushCount ≤ (slideLoop C R ice d fuel st).pushCount := by
  intro fuel
  induction fuel with
  | zero => intro st; exact le_refl _
  | succ fuel ih =>
      intro st
      rw [slideLoop]
      split
      · exact le_refl _
      · split
        · exact le_refl _
        · exact le_refl _
        · split
          · exact le_refl _
          · dsimp only
            split
            · exact le_refl _
            · refine le_trans ?_ (ih _)
              exact Nat.le_succ _
        all_goals
          refine le_trans ?_ (ih _)
          exact le_refl _

/-- One unfolding of the slide loop: it either stops, advances one cell
without touching the objects map, or advances one cell while relocating
one push-pop gate. -/
theorem slideLoop_step (C R : ℤ)
    (ice : Finmap fun _ : GridPoint => IceSymbol) (d : Direction)
    (fuel : ℕ) (st : SlideLoopState) :
    slideLoop C R ice d (fuel + 1) st = st ∨
    (∃ st₂, slideLoop C R ice d (fuel + 1) st = slideLoop C R ice d fuel st₂ ∧
       st₂.newCoords = st.newCoords.add d.delta ∧
       st₂.newCoords ∉ ice ∧
       st₂.objects = st.objects ∧ st₂.pushed = st.pushed ∧
       st₂.pushCount = st.pushCount) ∨
    (∃ st₂ gate pp,
       slideLoop C R ice d (fuel + 1) st = slideLoop C R ice d fuel st₂ ∧
       gate = st.newCoords.add d.delta ∧
       st₂.newCoords = gate ∧ st₂.newCoords ∉ ice ∧
       st.objects.lookup gate = some (.pushPop d.opposite) ∧
       pp = ppSearch st.objects d.delta (gate.add d.delta) ∧
       pp ∉ ice ∧
       st₂.objects = (st.objects.erase gate).insert pp (.pushPop d) ∧
       st₂.pushed = some pp ∧
       st₂.pushCount = st.pushCount + 1) := by
  rw [slideLoop]
  split
  · exact Or.inl rfl
  · rename_i hguard
    have hnotice : st.newCoords.add d.delta ∉ ice := fun hmem =>
      hguard (Or.inr (Or.inr (Or.inr (Or.inr hmem))))
    split
    · exact Or.inl rfl
    · exact Or.inl rfl
    · rename_i ppDir hlook
      split
      · exact Or.inl rfl
      · rename_i hdir
        dsimp only
        split
        · exact Or.inl rfl
        · rename_i hice
          right; right
          have hdir' : ppDir = d.opposite := not_ne_iff.mp hdir
          subst hdir'
          exact ⟨_, _, _, rfl, rfl, rfl, hnotice, hlook, rfl, hice, rfl,
            rfl, rfl⟩
    · exact Or.inr (Or.inl ⟨_, rfl, rfl, hnotice, rfl, rfl, rfl⟩)
    · exact Or.inr (Or.inl ⟨_, rfl, rfl, hnotice, rfl, rfl, rfl⟩)
    · exact Or.inr (Or.inl ⟨_, rfl, rfl, hnotice, rfl, rfl, rfl⟩)
    · exact Or.inr (Or.inl ⟨_, rfl, rfl, hnotice, rfl, rfl, rfl⟩)
    · exact Or.inr (Or.inl ⟨_, rfl, rfl, hnotice, rfl, rfl, rfl⟩)

/-- The block either does not move at all (and then nothing happened) or
ends a positive number of cells along the slide direction. -/
theorem slideLoop_progress (C R : ℤ)
    (ice : Finmap fun _ : GridPoint => IceSymbol) (d : Direction) :
    ∀ (fuel : ℕ) (st : SlideLoopState),
      slideLoop C R ice d fuel st = st ∨
      ∃ n : ℕ, 0 < n ∧
        (slideLoop C R ice d fuel st).newCoords
          = addMul st.newCoords d.delta n := by
  intro fuel
  induction fuel with
  | zero => intro st; exact Or.inl rfl
  | succ fuel ih =>
      intro st
      rcases slideLoop_step C R ice d fuel st with h |
        ⟨st₂, heq, hnc, -, -, -, -⟩ |
        ⟨st₂, gate, pp, heq, hgate, hnc, -, -, -, -, -, -, -⟩
      · exact Or.inl h
      · rw [heq]
        rcases ih st₂ with h₂ | ⟨n, hn, hv⟩
        · refine Or.inr ⟨1, one_pos, ?_⟩
          rw [h₂, hnc, addMul_one]
        · refine Or.inr ⟨n + 1, by omega, ?_⟩
          rw [hv, hnc, addMul_shift]
      · rw [heq]
        rcases ih st₂ with h₂ | ⟨n, hn, hv⟩
        · refine Or.inr ⟨1, one_pos, ?_⟩
          rw [h₂, hnc, hgate, addMul_one]
        · refine Or.inr ⟨n + 1, by omega, ?_⟩
          rw [hv, hnc, hgate, addMul_shift]

/-- The final cell never holds an ice block (given the start cell does
not): the loop stops before entering occupied cells. -/
theorem slideLoop_final_notin_ice (C R : ℤ)
    (ice : Finmap fun _ : GridPoint => IceSymbol) (d : Direction) :
    ∀ (fuel : ℕ) (st : SlideLoopState), st.newCoords ∉ ice →
      (slideLoop C R ice d fuel st).newCoords ∉ ice := by
  intro fuel
  induction fuel with
  | zero => intro st h; exact h
  | succ fuel ih =>
      intro st h
      rcases slideLoop_step C R ice d fuel st with heq |
        ⟨st₂, heq, -, hni, -, -, -⟩ |
        ⟨st₂, gate, pp, heq, -, -, hni, -, -, -, -, -, -⟩
      · rw [heq]; exact h
      · rw [heq]; exact ih st₂ hni
      · rw [heq]; exact ih st₂ hni

/-- If the loop performed no push, the objects map and the recorded push
are untouched. -/
theorem slideLoop_no_push (C R : ℤ)
    (ice : Finmap fun _ : GridPoint => IceSymbol) (d : Direction) :
    ∀ (fuel : ℕ) (st : SlideLoopState),
      (slideLoop C R ice d fuel st).pushCount = st.pushCount →
      (slideLoop C R ice d fuel st).objects = st.objects ∧
        (slideLoop C R ice d fuel st).pushed = st.pushed := by
  intro fuel
  induction fuel with
  | zero => intro st _; exact ⟨rfl, rfl⟩
  | succ fuel ih =>
      intro st hpc
      rcases slideLoop_step C R ice d fuel st with heq |
        ⟨st₂, heq, -, -, hobj, hpush, hcnt⟩ |
        ⟨st₂, gate, pp, heq, -, -, -, -, -, -, -, -, hcnt⟩
      · rw [heq]; exact ⟨rfl, rfl⟩
      · rw [heq] at hpc ⊢
        have := ih st₂ (by rw [hpc, hcnt])
        rw [hobj] at this
        rw [hpush] at this
        exact this
      · exfalso
        rw [heq] at hpc
        have hmono := slideLoop_pushCount_le C R ice d fuel st₂
        omega

/-- If the loop performed exactly one push, the whole effect on the
objects map is the relocation of one gate: the gate sat somewhere on the
slide path facing against the slide, the relocation target is the first
object-free cell beyond it, and the record's `pushed` field names it. -/
theorem slideLoop_one_push (C R : ℤ)
    (ice : Finmap fun _ : GridPoint => IceSymbol) (d : Direction) :
    ∀ (fuel : ℕ) (st : SlideLoopState),
      (slideLoop C R ice d fuel st).pushCount = st.pushCount + 1 →
      ∃ gate pp, st.objects.lookup gate = some (.pushPop d.opposite) ∧
        IsFirstFree st.objects d.delta (gate.add d.delta) pp ∧
        pp ∉ ice ∧
        (slideLoop C R ice d fuel st).objects
          = (st.objects.erase gate).insert pp (.pushPop d) ∧
        (slideLoop C R ice d fuel st).pushed = some pp := by
  intro fuel
  induction fuel with
  | zero =>
      intro st hpc
      rw [slideLoop] at hpc
      omega
  | succ fuel ih =>
      intro st hpc
      rcases slideLoop_step C R ice d fuel st with heq |
        ⟨st₂, heq, -, -, hobj, hpush, hcnt⟩ |
        ⟨st₂, gate, pp, heq, -, -, -, hlook, hpp, hppice, hobj, hpush,
          hcnt⟩
      · rw [heq] at hpc; omega
      · rw [heq] at hpc ⊢
        obtain ⟨g', p', h₁, h₂, h₃, h₄, h₅⟩ :=
          ih st₂ (by rw [hpc, hcnt])
        rw [hobj] at h₁ h₂ h₄
        exact ⟨g', p', h₁, h₂, h₃, h₄, h₅⟩
      · rw [heq] at hpc ⊢
        have hstop := slideLoop_no_push C R ice d fuel st₂
          (by rw [hpc, hcnt])
        refine ⟨gate, pp, hlook, ?_, hppice, ?_, ?_⟩
        · rw [hpp]
          exact ppSearch_isFirstFree st.objects (Direction.delta_ne d) _
        · rw [hstop.1, hobj]
        · rw [hstop.2, hpush]

/-- **C6.**  `slide_ice_block(coords, dir)` returns `None` exactly when
there is no ice block at `coords` or when the block's final stopped cell
equals `coords`; and whenever it returns `None`, the grid (ice blocks,
objects, `is_modified`) is left entirely unchanged. -/
theorem slide_none_iff_and_unchanged (g : ObjectGrid) (coords : GridPoint)
    (d : Direction) :
    ((slideIceBlock g coords d).1 = none ↔
      g.iceBlocks.lookup coords = none ∨
        slideFinalCoords g coords d = coords) ∧
    ((slideIceBlock g coords d).1 = none →
      (slideIceBlock g coords d).2 = g) := by
  cases hl : g.iceBlocks.lookup coords with
  | none =>
      refine ⟨⟨fun _ => Or.inl rfl, fun _ => ?_⟩, fun _ => ?_⟩ <;>
        simp [slideIceBlock, hl]
  | some symbol =>
      by_cases hne : (slideLoopRun g coords d).newCoords = coords
      · have hstall : slideLoopRun g coords d =
            ⟨g.objects, coords, none, Transform.identity, 0⟩ := by
          rcases slideLoop_progress g.numCols g.numRows
              (g.iceBlocks.erase coords) d
              ((g.numCols + g.numRows).toNat + 1)
              ⟨g.objects, coords, none, Transform.identity, 0⟩ with
            h | ⟨n, hn, hv⟩
          · exact h
          · exfalso
            have h0 : addMul coords d.delta 0 = addMul coords d.delta n := by
              rw [addMul_zero]
              nth_rewrite 1 [← hne]
              exact hv
            have := addMul_inj (Direction.delta_ne d) coords h0
            omega
        refine ⟨⟨fun _ => Or.inr hne, fun _ => ?_⟩, fun _ => ?_⟩
        · show (slideIceBlock g coords d).1 = none
          simp only [slideIceBlock, hl]
          rw [if_neg (not_ne_iff.mpr hne)]
        · show (slideIceBlock g coords d).2 = g
          simp only [slideIceBlock, hl]
          rw [if_neg (not_ne_iff.mpr hne), hstall]
          dsimp only
          rw [IceSymbol.transformed_identity,
            finmap_insert_erase_cancel g.iceBlocks coords symbol hl]
      · have h1 : (slideIceBlock g coords d).1 = some
            ⟨coords, d, (slideLoopRun g coords d).newCoords,
             (slideLoopRun g coords d).pushed,
             (slideLoopRun g coords d).transform⟩ := by
          simp only [slideIceBlock, hl]
          rw [if_pos hne]
        refine ⟨⟨fun h => ?_, fun h => ?_⟩, fun h => ?_⟩
        · rw [h1] at h
          exact Option.noConfusion h
        · rcases h with h | h
          · exact absurd h (by simp)
          · exact absurd h hne
        · rw [h1] at h
          exact Option.noConfusion h

theorem slideLoopRun_no_push (g : ObjectGrid) (coords : GridPoint)
    (d : Direction) (h : (slideLoopRun g coords d).pushCount = 0) :
    (slideLoopRun g coords d).objects = g.objects ∧
      (slideLoopRun g coords d).pushed = none :=
  slideLoop_no_push g.numCols g.numRows (g.iceBlocks.erase coords) d
    ((g.numCols + g.numRows).toNat + 1)
    ⟨g.objects, coords, none, Transform.identity, 0⟩ h

theorem slideLoopRun_one_push (g : ObjectGrid) (coords : GridPoint)
    (d : Direction) (h : (slideLoopRun g coords d).pushCount = 1) :
    ∃ gate pp, g.objects.lookup gate = some (.pushPop d.opposite) ∧
      IsFirstFree g.objects d.delta (gate.add d.delta) pp ∧
      pp ∉ g.iceBlocks.erase coords ∧
      (slideLoopRun g coords d).objects
        = (g.objects.erase gate).insert pp (.pushPop d) ∧
      (slideLoopRun g coords d).pushed = some pp :=
  slideLoop_one_push g.numCols g.numRows (g.iceBlocks.erase coords) d
    ((g.numCols + g.numRows).toNat + 1)
    ⟨g.objects, coords, none, Transform.identity, 0⟩ h

theorem slideLoopRun_notin_ice (g : ObjectGrid) (coords : GridPoint)
    (d : Direction) :
    (slideLoopRun g coords d).newCoords ∉ g.iceBlocks.erase coords :=
  slideLoop_final_notin_ice g.numCols g.numRows (g.iceBlocks.erase coords) d
    ((g.numCols + g.numRows).toNat + 1)
    ⟨g.objects, coords, none, Transform.identity, 0⟩
    (Finmap.not_mem_erase_self)

/-- Walking backwards: the cells reached from `pp` against the slide
direction are the cells between the gate and `pp`. -/
theorem addMul_reverse (gate δ : GridPoint) (n m : ℕ) (hm : m ≤ n)
    (pp : GridPoint) (hpp : pp = addMul gate δ (n + 1)) :
    addMul (pp.add ⟨-δ.x, -δ.y⟩) ⟨-δ.x, -δ.y⟩ m = addMul gate δ (n - m) := by
  subst hpp
  have hcast : ((n - m : ℕ) : ℤ) = (n : ℤ) - m := by omega
  apply GridPoint.ext_xy <;>
  · simp only [addMul, GridPoint.add, hcast]
    push_cast
    ring

/-- **C1 (amended).**  Slide/undo round trip: for any slide that returns
`Some(record)` and displaces at most one push-pop gate, applying
`undo_slide(&record)` to the post-slide grid restores the `ice_blocks`
map and the `objects` map to exactly their pre-slide values, including
returning a pushed gate to its original cell with its original
orientation.  (When a single slide pushes two gates — see the
counterexample — only the last one is recorded in `BlockSlide::pushed`,
and the first is not restored.) -/
theorem slide_undo_restores (g : ObjectGrid) (coords : GridPoint)
    (d : Direction) (r : BlockSlide) (g' : ObjectGrid)
    (h : slideIceBlock g coords d = (some r, g'))
    (hp : slidePushCount g coords d ≤ 1) :
    (undoSlide g' r).iceBlocks = g.iceBlocks ∧
      (undoSlide g' r).objects = g.objects := by
  cases hl : g.iceBlocks.lookup coords with
  | none => simp [slideIceBlock, hl] at h
  | some symbol =>
      simp only [slideIceBlock, hl] at h
      by_cases hne : (slideLoopRun g coords d).newCoords = coords
      · rw [if_neg (not_ne_iff.mpr hne)] at h
        exact absurd (congrArg Prod.fst h) (by simp)
      · rw [if_pos hne] at h
        have hr : r = ⟨coords, d, (slideLoopRun g coords d).newCoords,
            (slideLoopRun g coords d).pushed,
            (slideLoopRun g coords d).transform⟩ :=
          (Option.some.inj (congrArg Prod.fst h)).symm
        have hg' : g' = { g with
            objects := (slideLoopRun g coords d).objects,
            iceBlocks := (g.iceBlocks.erase coords).insert
              (slideLoopRun g coords d).newCoords
              (symbol.transformed (slideLoopRun g coords d).transform),
            isModified := true } := (congrArg Prod.snd h).symm
        subst hr
        subst hg'
        have hpc : (slideLoopRun g coords d).pushCount ≤ 1 := by
          simpa [slidePushCount, hl] using hp
        have htoice : (slideLoopRun g coords d).newCoords ∉
            g.iceBlocks.erase coords := slideLoopRun_notin_ice g coords d
        have htonot : (slideLoopRun g coords d).newCoords ∉ g.iceBlocks :=
          fun hmem => htoice (Finmap.mem_erase.mpr ⟨hne, hmem⟩)
        have hiceEq :
            (((g.iceBlocks.erase coords).insert
                (slideLoopRun g coords d).newCoords
                (symbol.transformed (slideLoopRun g coords d).transform)).erase
                  (slideLoopRun g coords d).newCoords).insert coords
              ((symbol.transformed
                  (slideLoopRun g coords d).transform).transformed
                (slideLoopRun g coords d).transform.inverse)
              = g.iceBlocks := by
          apply Finmap.ext_lookup
          intro x
          by_cases hx : x = coords
          · subst hx
            rw [Finmap.lookup_insert, IceSymbol.transformed_inverse_cancel,
              hl]
          · rw [Finmap.lookup_insert_of_ne _ hx]
            by_cases hxto : x = (slideLoopRun g coords d).newCoords
            · subst hxto
              rw [Finmap.lookup_erase, Finmap.lookup_eq_none.mpr htonot]
            · rw [Finmap.lookup_erase_ne hxto,
                Finmap.lookup_insert_of_ne _ hxto,
                Finmap.lookup_erase_ne hx]
        have hsplit : (slideLoopRun g coords d).pushCount = 0 ∨
            (slideLoopRun g coords d).pushCount = 1 := by omega
        rcases hsplit with hp0 | hp1
        · obtain ⟨hobj0, hpushed0⟩ := slideLoopRun_no_push g coords d hp0
          simp only [undoSlide, Finmap.lookup_insert, hpushed0]
          exact ⟨hiceEq, hobj0⟩
        · obtain ⟨gate, pp, hlookg, hfirst, hppice, hobjeq, hpushed1⟩ :=
            slideLoopRun_one_push g coords d hp1
          obtain ⟨hppfree, n, hppdef, hbetween⟩ := hfirst
          have hpp_eq : pp = addMul gate d.delta (n + 1) := by
            rw [hppdef, addMul_shift]
          have hpp_ne_gate : pp ≠ gate := by
            intro hc
            have h0 : addMul gate d.delta (n + 1) = addMul gate d.delta 0 := by
              rw [addMul_zero, ← hpp_eq]
              exact hc
            have := addMul_inj (Direction.delta_ne d) gate h0
            omega
          have hlookpp :
              ((g.objects.erase gate).insert pp
                (Object.pushPop d)).lookup pp = some (.pushPop d) :=
            Finmap.lookup_insert _
          have hback : IsFirstFree
              ((g.objects.erase gate).insert pp (.pushPop d))
              d.opposite.delta (pp.add d.opposite.delta) gate := by
            constructor
            · intro hmem
              rcases Finmap.mem_insert.mp hmem with hc | hc
              · exact hpp_ne_gate hc.symm
              · exact Finmap.not_mem_erase_self hc
            · refine ⟨n, ?_, ?_⟩
              · rw [Direction.delta_opposite,
                  addMul_reverse gate d.delta n n (le_refl n) pp hpp_eq,
                  Nat.sub_self, addMul_zero]
              · intro m hm
                rw [Direction.delta_opposite,
                  addMul_reverse gate d.delta n m (le_of_lt hm) pp hpp_eq]
                have hcell : addMul gate d.delta (n - m)
                    = addMul (gate.add d.delta) d.delta (n - m - 1) := by
                  rw [addMul_shift]
                  congr 1
                  omega
                have hmem : addMul (gate.add d.delta) d.delta (n - m - 1)
                    ∈ g.objects := hbetween _ (by omega)
                have hne_gate : addMul gate d.delta (n - m) ≠ gate := by
                  intro hc
                  have h0 : addMul gate d.delta (n - m)
                      = addMul gate d.delta 0 := by
                    rw [addMul_zero]; exact hc
                  have := addMul_inj (Direction.delta_ne d) gate h0
                  omega
                have hne_pp : addMul gate d.delta (n - m) ≠ pp := by
                  intro hc
                  rw [hpp_eq] at hc
                  have := addMul_inj (Direction.delta_ne d) gate hc
                  omega
                refine Finmap.mem_insert.mpr (Or.inr ?_)
                rw [Finmap.mem_erase]
                refine ⟨hne_gate, ?_⟩
                rw [hcell]
                exact hmem
          have hnewpp : ppSearch
              ((g.objects.erase gate).insert pp (.pushPop d))
              d.opposite.delta (pp.add d.opposite.delta) = gate :=
            ppSearch_eq_of_isFirstFree (Direction.delta_ne d.opposite) hback
          have hobjEq3 :
              ((((g.objects.erase gate).insert pp
                  (Object.pushPop d)).erase pp).insert gate
                (Object.pushPop d.opposite)) = g.objects := by
            apply Finmap.ext_lookup
            intro q
            by_cases hq : q = gate
            · subst hq
              rw [Finmap.lookup_insert, hlookg]
            · rw [Finmap.lookup_insert_of_ne _ hq]
              by_cases hqpp : q = pp
              · subst hqpp
                rw [Finmap.lookup_erase,
                  Finmap.lookup_eq_none.mpr hppfree]
              · rw [Finmap.lookup_erase_ne hqpp,
                  Finmap.lookup_insert_of_ne _ hqpp,
                  Finmap.lookup_erase_ne hq]
          simp only [undoSlide, Finmap.lookup_insert, hpushed1, hobjeq,
            hlookpp, hnewpp]
          exact ⟨hiceEq, hobjEq3⟩

/-- A 4×1 grid: a block at the west end, a west-facing push-pop gate next
to it.  Sliding east pushes the gate one cell and stops the block on the
gate's old cell. -/
def iceWitnessGrid : ObjectGrid :=
  ⟨4, 1,
   ([⟨⟨1, 0⟩, Object.pushPop .west⟩] :
     List (Sigma fun _ : GridPoint => Object)).toFinmap,
   ([⟨⟨0, 0⟩, ⟨.cyanQ, Transform.identity⟩⟩] :
     List (Sigma fun _ : GridPoint => IceSymbol)).toFinmap,
   false⟩

/-- **C1 witness.**  The round trip evaluated on a slide that pushes one
gate. -/
theorem slide_undo_restores_witness :
    (undoSlide (slideIceBlock iceWitnessGrid ⟨0, 0⟩ .east).2
        ⟨⟨0, 0⟩, .east, ⟨1, 0⟩, some ⟨2, 0⟩, Transform.identity⟩).iceBlocks
      = iceWitnessGrid.iceBlocks ∧
    (undoSlide (slideIceBlock iceWitnessGrid ⟨0, 0⟩ .east).2
        ⟨⟨0, 0⟩, .east, ⟨1, 0⟩, some ⟨2, 0⟩, Transform.identity⟩).objects
      = iceWitnessGrid.objects :=
  slide_undo_restores iceWitnessGrid ⟨0, 0⟩ .east
    ⟨⟨0, 0⟩, .east, ⟨1, 0⟩, some ⟨2, 0⟩, Transform.identity⟩
    (slideIceBlock iceWitnessGrid ⟨0, 0⟩ .east).2 (by decide) (by decide)

/-- A 6×1 grid with *two* west-facing gates in a row: sliding the block
east pushes both, but `BlockSlide::pushed` records only the second. -/
def iceCexGrid : ObjectGrid :=
  ⟨6, 1,
   ([⟨⟨1, 0⟩, Object.pushPop .west⟩, ⟨⟨2, 0⟩, Object.pushPop .west⟩] :
     List (Sigma fun _ : GridPoint => Object)).toFinmap,
   ([⟨⟨0, 0⟩, ⟨.cyanQ, Transform.identity⟩⟩] :
     List (Sigma fun _ : GridPoint => IceSymbol)).toFinmap,
   false⟩

/-- **C1 counterexample.**  On the two-gate grid the slide returns
`Some(record)`, yet undoing with that record does not restore the maps:
the first pushed gate is left displaced. -/
theorem slide_undo_counterexample :
    (slideIceBlock iceCexGrid ⟨0, 0⟩ .east).1.isSome = true ∧
    ¬ ((undoSlide (slideIceBlock iceCexGrid ⟨0, 0⟩ .east).2
          ((slideIceBlock iceCexGrid ⟨0, 0⟩ .east).1.getD
            ⟨⟨0, 0⟩, .east, ⟨0, 0⟩, none, Transform.identity⟩)).iceBlocks
        = iceCexGrid.iceBlocks ∧
       (undoSlide (slideIceBlock iceCexGrid ⟨0, 0⟩ .east).2
          ((slideIceBlock iceCexGrid ⟨0, 0⟩ .east).1.getD
            ⟨⟨0, 0⟩, .east, ⟨0, 0⟩, none, Transform.identity⟩)).objects
        = iceCexGrid.objects) := by
  decide

/-- A 3×1 grid whose west-facing gate sits on the east edge: every object
and every ice block is in bounds. -/
def oobCexGrid : ObjectGrid :=
  ⟨3, 1,
   ([⟨⟨2, 0⟩, Object.pushPop .west⟩] :
     List (Sigma fun _ : GridPoint => Object)).toFinmap,
   ([⟨⟨0, 0⟩, ⟨.cyanQ, Transform.identity⟩⟩] :
     List (Sigma fun _ : GridPoint => IceSymbol)).toFinmap,
   false⟩

/-- **C9 counterexample.**  With every object and ice block in bounds,
sliding the block east pushes the edge gate to `(3, 0)` — outside the
3-column grid: the forward relocation search has no bounds check. -/
theorem pushpop_oob_counterexample :
    (∀ p ∈ oobCexGrid.objects.keys,
      0 ≤ p.x ∧ p.x < oobCexGrid.numCols ∧
        0 ≤ p.y ∧ p.y < oobCexGrid.numRows) ∧
    (∀ p ∈ oobCexGrid.iceBlocks.keys,
      0 ≤ p.x ∧ p.x < oobCexGrid.numCols ∧
        0 ≤ p.y ∧ p.y < oobCexGrid.numRows) ∧
    (slideIceBlock oobCexGrid ⟨0, 0⟩ .east).1.isSome = true ∧
    (slideIceBlock oobCexGrid ⟨0, 0⟩ .east).2.objects.lookup ⟨3, 0⟩
      = some (.pushPop .east) ∧
    ¬ ((3 : ℤ) < oobCexGrid.numCols) := by
  decide

/-- **C9 (amended).**  For a slide that relocates a single gate, the gate
lands on the first object-free cell strictly beyond its old position
along the slide direction; that cell is in bounds provided *some*
object-free in-bounds cell exists on that ray (with all in-bounds cells
beyond the gate occupied, the gate can land out of bounds, as the
counterexample shows). -/
theorem pushpop_relocation_bounds (g : ObjectGrid) (coords : GridPoint)
    (d : Direction) (r : BlockSlide) (g' : ObjectGrid) (pp : GridPoint)
    (hobj : ∀ p ∈ g.objects.keys,
      0 ≤ p.x ∧ p.x < g.numCols ∧ 0 ≤ p.y ∧ p.y < g.numRows)
    (h : slideIceBlock g coords d = (some r, g'))
    (hp : slidePushCount g coords d ≤ 1)
    (hpush : r.pushed = some pp) :
    ∃ gate, g.objects.lookup gate = some (.pushPop d.opposite) ∧
      IsFirstFree g.objects d.delta (gate.add d.delta) pp ∧
      ((∃ q : GridPoint,
          (∃ k : ℕ, q = addMul (gate.add d.delta) d.delta k) ∧
          q ∉ g.objects ∧
          0 ≤ q.x ∧ q.x < g.numCols ∧ 0 ≤ q.y ∧ q.y < g.numRows) →
        0 ≤ pp.x ∧ pp.x < g.numCols ∧ 0 ≤ pp.y ∧ pp.y < g.numRows) := by
  cases hl : g.iceBlocks.lookup coords with
  | none => simp [slideIceBlock, hl] at h
  | some symbol =>
      simp only [slideIceBlock, hl] at h
      by_cases hne : (slideLoopRun g coords d).newCoords = coords
      · rw [if_neg (not_ne_iff.mpr hne)] at h
        exact absurd (congrArg Prod.fst h) (by simp)
      · rw [if_pos hne] at h
        have hr : r = ⟨coords, d, (slideLoopRun g coords d).newCoords,
            (slideLoopRun g coords d).pushed,
            (slideLoopRun g coords d).transform⟩ :=
          (Option.some.inj (congrArg Prod.fst h)).symm
        have hpushed : (slideLoopRun g coords d).pushed = some pp := by
          rw [hr] at hpush
          exact hpush
        have hpc : (slideLoopRun g coords d).pushCount ≤ 1 := by
          simpa [slidePushCount, hl] using hp
        have hsplit : (slideLoopRun g coords d).pushCount = 0 ∨
            (slideLoopRun g coords d).pushCount = 1 := by omega
        rcases hsplit with hp0 | hp1
        · obtain ⟨-, hpushed0⟩ := slideLoopRun_no_push g coords d hp0
          rw [hpushed0] at hpushed
          exact Option.noConfusion hpushed
        · obtain ⟨gate, pp', hlookg, hfirst, -, -, hpushed1⟩ :=
            slideLoopRun_one_push g coords d hp1
          rw [hpushed1] at hpushed
          obtain rfl : pp' = pp := Option.some.inj hpushed
          obtain ⟨hppfree, n, hppdef, hbetween⟩ := hfirst
          refine ⟨gate, hlookg, ⟨hppfree, n, hppdef, hbetween⟩, ?_⟩
          rintro ⟨q, ⟨k, hq⟩, hqfree, hqb⟩
          subst hq
          have hnk : n ≤ k := by
            by_contra hc
            exact hqfree (hbetween k (by omega))
          have hgateb :=
            hobj gate (Finmap.mem_keys.mpr
              (Finmap.mem_of_lookup_eq_some hlookg))
          have hx := congrArg GridPoint.x hppdef
          have hy := congrArg GridPoint.y hppdef
          cases d <;>
            · simp only [Direction.delta, GridPoint.add, addMul] at hx hy hqb
              omega

/-- **C9 witness.**  The amended relocation-bounds theorem evaluated on
the single-push slide of `iceWitnessGrid`. -/
theorem pushpop_relocation_bounds_witness :
    ∃ gate, iceWitnessGrid.objects.lookup gate
        = some (.pushPop Direction.east.opposite) ∧
      IsFirstFree iceWitnessGrid.objects Direction.east.delta
        (gate.add Direction.east.delta) ⟨2, 0⟩ ∧
      ((∃ q : GridPoint,
          (∃ k : ℕ, q = addMul (gate.add Direction.east.delta)
            Direction.east.delta k) ∧
          q ∉ iceWitnessGrid.objects ∧
          0 ≤ q.x ∧ q.x < iceWitnessGrid.numCols ∧
          0 ≤ q.y ∧ q.y < iceWitnessGrid.numRows) →
        0 ≤ (⟨2, 0⟩ : GridPoint).x ∧
          (⟨2, 0⟩ : GridPoint).x < iceWitnessGrid.numCols ∧
          0 ≤ (⟨2, 0⟩ : GridPoint).y ∧
          (⟨2, 0⟩ : GridPoint).y < iceWitnessGrid.numRows) :=
  pushpop_relocation_bounds iceWitnessGrid ⟨0, 0⟩ .east
    ⟨⟨0, 0⟩, .east, ⟨1, 0⟩, some ⟨2, 0⟩, Transform.identity⟩
    (slideIceBlock iceWitnessGrid ⟨0, 0⟩ .east).2 ⟨2, 0⟩
    (by decide) (by decide) (by decide) (by decide)

/-! ### Deserialization (`ObjectGrid::from_toml`)

The TOML-decoding helpers (`pop_array`, `to_table`, `pop_from_table`, from
`save/util.rs`, which is not in the source snapshot) are modelled from the
spec (§6: "parse nested tables/arrays of integers and strings into engine
state"): the persisted `blocks` and `push_pops` arrays arrive as
already-decoded lists of `(col, row, symbol)` / `(col, row, direction)`
entries, and `from_toml`'s own logic (bounds check on blocks, count check,
stripping and re-adding push-pops, collision checks, fallback to the
default) is transcribed from `grid.rs` lines 97–150. -/

/-- Whether an object is a push-pop gate (the `retain` predicate in
`from_toml`). -/
def Object.isPushPop : Object → Bool
  | .pushPop _ => true
  | _ => false

/-- `grid.objects.retain(|_, obj| !matches!(obj, PushPop(_)))`. -/
def removePushPops (m : Finmap fun _ : GridPoint => Object) :
    Finmap fun _ : GridPoint => Object :=
  Finmap.liftOn m
    (fun al => AList.toFinmap
      ⟨al.entries.filter fun s => s.2.isPushPop = false, by
        have h := al.nodupKeys
        unfold List.NodupKeys List.keys at h ⊢
        exact h.sublist ((List.filter_sublist al.entries).map Sigma.fst)⟩)
    (by
      intro a b hab
      apply AList.toFinmap_eq.mpr
      exact hab.filter _)

/-- The push-pop re-insertion loop of `from_toml`: `none` models the early
`return default.clone()` on a duplicate-cell collision. -/
def addPushPops : List (ℤ × ℤ × Direction) →
    (Finmap fun _ : GridPoint => Object) →
    Option (Finmap fun _ : GridPoint => Object)
  | [], m => some m
  | (col, row, dir) :: rest, m =>
      if (⟨col, row⟩ : GridPoint) ∈ m then none
      else addPushPops rest (m.insert ⟨col, row⟩ (.pushPop dir))

/-- The ice-block re-insertion loop of `from_toml` (run on the cleared
map): `none` models the early `return default.clone()` on a
duplicate-cell collision. -/
def addBlocks : List (ℤ × ℤ × IceSymbol) →
    (Finmap fun _ : GridPoint => IceSymbol) →
    Option (Finmap fun _ : GridPoint => IceSymbol)
  | [], m => some m
  | (col, row, sym) :: rest, m =>
      if (⟨col, row⟩ : GridPoint) ∈ m then none
      else addBlocks rest (m.insert ⟨col, row⟩ sym)

/-- `ObjectGrid::from_toml`. -/
def fromToml (blocks : List (ℤ × ℤ × IceSymbol))
    (pushPops : List (ℤ × ℤ × Direction)) (default : ObjectGrid) :
    ObjectGrid :=
  if blocks.any fun e => decide (e.1 < 0 ∨ default.numCols ≤ e.1 ∨
      e.2.1 < 0 ∨ default.numRows ≤ e.2.1) then
    default
  else if blocks.length ≠ Multiset.card default.iceBlocks.entries then
    default
  else
    match addPushPops pushPops (removePushPops default.objects) with
    | none => default
    | some objs =>
        match addBlocks blocks ∅ with
        | none => default
        | some ice =>
            { default with
              objects := objs
              iceBlocks := ice
              isModified := decide (ice ≠ default.iceBlocks ∨
                objs ≠ default.objects) }

theorem addPushPops_eq_none_iff :
    ∀ (pps : List (ℤ × ℤ × Direction))
      (m : Finmap fun _ : GridPoint => Object),
      addPushPops pps m = none ↔
        (∃ e ∈ pps, (⟨e.1, e.2.1⟩ : GridPoint) ∈ m) ∨
        ¬ (pps.map fun e => (⟨e.1, e.2.1⟩ : GridPoint)).Nodup := by
  intro pps
  induction pps with
  | nil =>
      intro m
      simp [addPushPops]
  | cons hd rest ih =>
      intro m
      obtain ⟨col, row, dir⟩ := hd
      by_cases hmem : (⟨col, row⟩ : GridPoint) ∈ m
      · simp only [addPushPops]
        rw [if_pos hmem]
        constructor
        · intro _
          exact Or.inl ⟨(col, row, dir), List.mem_cons_self _ _, hmem⟩
        · intro _
          rfl
      · simp only [addPushPops]
        rw [if_neg hmem, ih]
        simp only [List.mem_cons, List.map_cons, List.nodup_cons,
          Finmap.mem_insert, List.mem_map]
        constructor
        · rintro (⟨e, he, hc | hc⟩ | hnd)
          · exact Or.inr fun h => h.1 ⟨e, he, hc⟩
          · exact Or.inl ⟨e, Or.inr he, hc⟩
          · exact Or.inr fun h => hnd h.2
        · rintro (⟨e, rfl | he, hc⟩ | hnd)
          · exact absurd hc hmem
          · exact Or.inl ⟨e, he, Or.inr hc⟩
          · by_cases hdup : ∃ e ∈ rest, (⟨e.1, e.2.1⟩ : GridPoint)
                = ⟨col, row⟩
            · obtain ⟨e, he, hc⟩ := hdup
              exact Or.inl ⟨e, he, Or.inl hc⟩
            · exact Or.inr fun hnd2 => hnd ⟨hdup, hnd2⟩

theorem addBlocks_eq_none_iff :
    ∀ (blocks : List (ℤ × ℤ × IceSymbol))
      (m : Finmap fun _ : GridPoint => IceSymbol),
      addBlocks blocks m = none ↔
        (∃ e ∈ blocks, (⟨e.1, e.2.1⟩ : GridPoint) ∈ m) ∨
        ¬ (blocks.map fun e => (⟨e.1, e.2.1⟩ : GridPoint)).Nodup := by
  intro blocks
  induction blocks with
  | nil =>
      intro m
      simp [addBlocks]
  | cons hd rest ih =>
      intro m
      obtain ⟨col, row, sym⟩ := hd
      by_cases hmem : (⟨col, row⟩ : GridPoint) ∈ m
      · simp only [addBlocks]
        rw [if_pos hmem]
        constructor
        · intro _
          exact Or.inl ⟨(col, row, sym), List.mem_cons_self _ _, hmem⟩
        · intro _
          rfl
      · simp only [addBlocks]
        rw [if_neg hmem, ih]
        simp only [List.mem_cons, List.map_cons, List.nodup_cons,
          Finmap.mem_insert, List.mem_map]
        constructor
        · rintro (⟨e, he, hc | hc⟩ | hnd)
          · exact Or.inr fun h => h.1 ⟨e, he, hc⟩
          · exact Or.inl ⟨e, Or.inr he, hc⟩
          · exact Or.inr fun h => hnd h.2
        · rintro (⟨e, rfl | he, hc⟩ | hnd)
          · exact absurd hc hmem
          · exact Or.inl ⟨e, he, Or.inr hc⟩
          · by_cases hdup : ∃ e ∈ rest, (⟨e.1, e.2.1⟩ : GridPoint)
                = ⟨col, row⟩
            · obtain ⟨e, he, hc⟩ := hdup
              exact Or.inl ⟨e, he, Or.inl hc⟩
            · exact Or.inr fun hnd2 => hnd ⟨hdup, hnd2⟩

/-- **C5 (amended).**  `from_toml` returns the default grid whenever the
persisted data is structurally inconsistent in one of these ways: a block
entry with out-of-bounds coordinates, a block count different from the
default's ice-block count, a push-pop entry colliding with an
already-placed object (a non-push-pop object of the default, or an
earlier push-pop entry), or two block entries on the same cell.
(Out-of-bounds *push-pop* entries are **not** rejected — see the
counterexample.) -/
theorem fromToml_fallback (default : ObjectGrid)
    (blocks : List (ℤ × ℤ × IceSymbol))
    (pushPops : List (ℤ × ℤ × Direction))
    (hbad :
      (∃ e ∈ blocks, e.1 < 0 ∨ default.numCols ≤ e.1 ∨
        e.2.1 < 0 ∨ default.numRows ≤ e.2.1) ∨
      blocks.length ≠ Multiset.card default.iceBlocks.entries ∨
      (∃ e ∈ pushPops,
        (⟨e.1, e.2.1⟩ : GridPoint) ∈ removePushPops default.objects) ∨
      ¬ (pushPops.map fun e => (⟨e.1, e.2.1⟩ : GridPoint)).Nodup ∨
      ¬ (blocks.map fun e => (⟨e.1, e.2.1⟩ : GridPoint)).Nodup) :
    fromToml blocks pushPops default = default := by
  unfold fromToml
  by_cases h1 : blocks.any fun e => decide (e.1 < 0 ∨
      default.numCols ≤ e.1 ∨ e.2.1 < 0 ∨ default.numRows ≤ e.2.1)
  · rw [if_pos h1]
  · rw [if_neg h1]
    by_cases h2 : blocks.length ≠ Multiset.card default.iceBlocks.entries
    · rw [if_pos h2]
    · rw [if_neg h2]
      cases haddpp : addPushPops pushPops (removePushPops default.objects)
        with
      | none => rfl
      | some objs =>
          cases haddbl : addBlocks blocks ∅ with
          | none => rfl
          | some ice =>
              exfalso
              rcases hbad with h | h | h | h | h
              · obtain ⟨e, he, hoob⟩ := h
                exact h1 (List.any_eq_true.mpr
                  ⟨e, he, decide_eq_true hoob⟩)
              · exact h2 h
              · have : addPushPops pushPops
                    (removePushPops default.objects) = none :=
                  (addPushPops_eq_none_iff _ _).mpr (Or.inl h)
                rw [haddpp] at this
                exact Option.noConfusion this
              · have : addPushPops pushPops
                    (removePushPops default.objects) = none :=
                  (addPushPops_eq_none_iff _ _).mpr (Or.inr h)
                rw [haddpp] at this
                exact Option.noConfusion this
              · have : addBlocks blocks ∅ = none :=
                  (addBlocks_eq_none_iff _ _).mpr (Or.inr h)
                rw [haddbl] at this
                exact Option.noConfusion this

/-- A 2×1 default grid with one ice block and no objects. -/
def tomlCexDefault : ObjectGrid :=
  ⟨2, 1, ∅,
   ([⟨⟨0, 0⟩, ⟨.cyanQ, Transform.identity⟩⟩] :
     List (Sigma fun _ : GridPoint => IceSymbol)).toFinmap,
   false⟩

/-- **C5 counterexample.**  A push-pop entry at `(5, 5)` is far outside
the 2×1 default grid, yet `from_toml` does *not* fall back to the
default: it accepts the out-of-bounds gate (block entries are
bounds-checked; push-pop entries are not). -/
theorem fromToml_oob_pushpop_counterexample :
    ((5 : ℤ) < 0 ∨ tomlCexDefault.numCols ≤ 5 ∨ (5 : ℤ) < 0 ∨
      tomlCexDefault.numRows ≤ 5) ∧
    fromToml [(0, 0, ⟨.cyanQ, Transform.identity⟩)]
        [(5, 5, Direction.north)] tomlCexDefault ≠ tomlCexDefault := by
  decide

/-- **C5 witness.**  The fallback theorem evaluated on two colliding block
entries. -/
theorem fromToml_fallback_witness :
    fromToml [(0, 0, ⟨.cyanQ, Transform.identity⟩),
              (0, 0, ⟨.cyanU, Transform.identity⟩)]
        [] tomlCexDefault = tomlCexDefault :=
  fromToml_fallback tomlCexDefault
    [(0, 0, ⟨.cyanQ, Transform.identity⟩),
     (0, 0, ⟨.cyanU, Transform.identity⟩)] [] (by decide)

/-! ## The pipe-network grid (PlaneGrid)

From `src/src/save/plane.rs`.  `objects: HashMap<Point, PlaneObj>` is
embedded as an association list (`all_nodes_are_connected` iterates the
map in arbitrary order; quantifying over all association lists covers
every iteration order), `pipes: Vec<Vec<Point>>` as a list of lists. -/

/-- Modelled from the spec: `gui::Rect` (the `gui` module is not in the
source snapshot): an origin plus a width and a height, with
`contains` testing the half-open coordinate ranges. -/
structure Rect where
  x : ℤ
  y : ℤ
  w : ℤ
  h : ℤ
deriving DecidableEq, Repr

/-- `Rect::contains`. -/
def Rect.contains (r : Rect) (p : GridPoint) : Prop :=
  r.x ≤ p.x ∧ p.x < r.x + r.w ∧ r.y ≤ p.y ∧ p.y < r.y + r.h

instance (r : Rect) (p : GridPoint) : Decidable (r.contains p) := by
  unfold Rect.contains
  infer_instance

/-- `PlaneObj` in `plane.rs`. -/
inductive PlaneObj where
  | wall
  | cross
  | purpleNode
  | redNode
  | blueNode
deriving DecidableEq, Repr

/-- `PlaneObj::is_node`. -/
def PlaneObj.isNode : PlaneObj → Bool
  | .wall | .cross => false
  | .purpleNode | .redNode | .blueNode => true

/-- `PipePiece` in `plane.rs` (`end` is a Lean keyword, hence `endp`). -/
inductive PipePiece where
  | emptyOrNode (isNode : Bool)
  | start (pipeIndex : ℕ)
  | middle (pipeIndex pieceIndex : ℕ)
  | endp (pipeIndex : ℕ)
deriving DecidableEq, Repr

/-- `PlaneGrid` in `plane.rs`. -/
structure PlaneGrid where
  rect : Rect
  objects : List (GridPoint × PlaneObj)
  pipes : List (List GridPoint)
deriving DecidableEq

/-- `HashMap::get` on the association list: the (unique, by nodup keys)
entry for a point. -/
def lookupObj (objects : List (GridPoint × PlaneObj)) (p : GridPoint) :
    Option PlaneObj :=
  (objects.find? fun e => decide (e.1 = p)).map Prod.snd

/-- `PlaneGrid::is_wall_at`. -/
def isWallAt (g : PlaneGrid) (p : GridPoint) : Prop :=
  lookupObj g.objects p = some .wall

instance (g : PlaneGrid) (p : GridPoint) : Decidable (isWallAt g p) := by
  unfold isWallAt
  infer_instance

/-- The purple-pair enumeration of `all_nodes_are_connected`: every
`(nodes[i], nodes[j])` with `i < j`, in iteration order. -/
def purplePairsList : List GridPoint → List (GridPoint × GridPoint)
  | [] => []
  | x :: rest => (rest.map fun y => (x, y)) ++ purplePairsList rest

/-- One step of the pipe loop of `all_nodes_are_connected`: remove both
orientations of the pipe's endpoint pair.  (The source
`debug_assert!`s that pipes are nonempty; an empty pipe removes
nothing.) -/
def erasePairStep (s : Finset (GridPoint × GridPoint))
    (pipe : List GridPoint) : Finset (GridPoint × GridPoint) :=
  match pipe.head?, pipe.getLast? with
  | some st, some en => (s.erase (st, en)).erase (en, st)
  | _, _ => s

/-- `PlaneGrid::all_nodes_are_connected`. -/
def allNodesAreConnected (g : PlaneGrid) : Bool :=
  let purples := g.objects.filterMap fun e =>
    if e.2 = PlaneObj.purpleNode then some e.1 else none
  let reds := g.objects.filterMap fun e =>
    if e.2 = PlaneObj.redNode then some e.1 else none
  let blues := g.objects.filterMap fun e =>
    if e.2 = PlaneObj.blueNode then some e.1 else none
  let nodePairs : Finset (GridPoint × GridPoint) :=
    (purplePairsList purples ++
      reds.flatMap fun r => blues.map fun b => (r, b)).toFinset
  decide (g.pipes.foldl erasePairStep nodePairs = ∅)

/-- A pipe directly connects `a` and `b`: its two endpoints are exactly
the two points, in either order. -/
def pipeConnects (pipe : List GridPoint) (a b : GridPoint) : Prop :=
  (pipe.head? = some a ∧ pipe.getLast? = some b) ∨
  (pipe.head? = some b ∧ pipe.getLast? = some a)

/-! ### Node-connectivity lemmas -/

theorem mem_erasePairs_foldl :
    ∀ (pipes : List (List GridPoint))
      (S : Finset (GridPoint × GridPoint)) (x : GridPoint × GridPoint),
      x ∈ pipes.foldl erasePairStep S ↔
        x ∈ S ∧ ∀ pipe ∈ pipes, ∀ st en : GridPoint,
          pipe.head? = some st → pipe.getLast? = some en →
          x ≠ (st, en) ∧ x ≠ (en, st) := by
  intro pipes
  induction pipes with
  | nil => intro S x; simp
  | cons pipe rest ih =>
      intro S x
      rw [List.foldl_cons, ih]
      cases hh : pipe.head? with
      | none =>
          simp only [erasePairStep, hh]
          constructor
          · rintro ⟨hS, hrest⟩
            refine ⟨hS, ?_⟩
            intro p hp st en hst hen
            rcases List.mem_cons.mp hp with rfl | hp'
            · rw [hh] at hst
              exact Option.noConfusion hst
            · exact hrest p hp' st en hst hen
          · rintro ⟨hS, hall⟩
            exact ⟨hS, fun p hp => hall p (List.mem_cons_of_mem _ hp)⟩
      | some st₀ =>
          cases hl : pipe.getLast? with
          | none =>
              simp only [erasePairStep, hh, hl]
              constructor
              · rintro ⟨hS, hrest⟩
                refine ⟨hS, ?_⟩
                intro p hp st en hst hen
                rcases List.mem_cons.mp hp with rfl | hp'
                · rw [hl] at hen
                  exact Option.noConfusion hen
                · exact hrest p hp' st en hst hen
              · rintro ⟨hS, hall⟩
                exact ⟨hS, fun p hp => hall p (List.mem_cons_of_mem _ hp)⟩
          | some en₀ =>
              simp only [erasePairStep, hh, hl, Finset.mem_erase]
              constructor
              · rintro ⟨⟨hne2, hne1, hS⟩, hrest⟩
                refine ⟨hS, ?_⟩
                intro p hp st en hst hen
                rcases List.mem_cons.mp hp with rfl | hp'
                · rw [hh] at hst
                  rw [hl] at hen
                  rw [← Option.some.inj hst, ← Option.some.inj hen]
                  exact ⟨hne1, hne2⟩
                · exact hrest p hp' st en hst hen
              · rintro ⟨hS, hall⟩
                have hme := hall pipe (List.mem_cons_self _ _) st₀ en₀ hh hl
                exact ⟨⟨hme.2, hme.1, hS⟩,
                  fun p hp => hall p (List.mem_cons_of_mem _ hp)⟩

theorem mem_purplePairsList :
    ∀ (l : List GridPoint) (a b : GridPoint), l.Nodup →
      (a, b) ∈ purplePairsList l → a ∈ l ∧ b ∈ l ∧ a ≠ b := by
  intro l
  induction l with
  | nil => intro a b _ h; exact absurd h (List.not_mem_nil _)
  | cons x rest ih =>
      intro a b hnd h
      rcases List.mem_append.mp h with h' | h'
      · obtain ⟨y, hy, heq⟩ := List.mem_map.mp h'
        injection heq with h1 h2
        subst h1
        subst h2
        refine ⟨List.mem_cons_self _ _, List.mem_cons_of_mem _ hy, ?_⟩
        intro hc
        exact (List.nodup_cons.mp hnd).1 (hc ▸ hy)
      · obtain ⟨ha, hb, hab⟩ := ih a b (List.nodup_cons.mp hnd).2 h'
        exact ⟨List.mem_cons_of_mem _ ha, List.mem_cons_of_mem _ hb, hab⟩

theorem purplePairsList_complete :
    ∀ (l : List GridPoint) (a b : GridPoint), a ∈ l → b ∈ l → a ≠ b →
      (a, b) ∈ purplePairsList l ∨ (b, a) ∈ purplePairsList l := by
  intro l
  induction l with
  | nil => intro a b ha _ _; exact absurd ha (List.not_mem_nil _)
  | cons x rest ih =>
      intro a b ha hb hab
      rcases List.mem_cons.mp ha with rfl | ha'
      · have hb' : b ∈ rest := by
          rcases List.mem_cons.mp hb with rfl | h
          · exact absurd rfl hab
          · exact h
        exact Or.inl (List.mem_append.mpr (Or.inl
          (List.mem_map.mpr ⟨b, hb', rfl⟩)))
      · rcases List.mem_cons.mp hb with rfl | hb'
        · exact Or.inr (List.mem_append.mpr (Or.inl
            (List.mem_map.mpr ⟨a, ha', rfl⟩)))
        · rcases ih a b ha' hb' hab with h | h
          · exact Or.inl (List.mem_append.mpr (Or.inr h))
          · exact Or.inr (List.mem_append.mpr (Or.inr h))

theorem lookupObj_eq_some_iff :
    ∀ (objects : List (GridPoint × PlaneObj)),
      (objects.map Prod.fst).Nodup →
      ∀ (a : GridPoint) (v : PlaneObj),
        (lookupObj objects a = some v ↔ (a, v) ∈ objects) := by
  intro objects
  induction objects with
  | nil => intro _ a v; simp [lookupObj]
  | cons e rest ih =>
      intro hnd a v
      obtain ⟨k, w⟩ := e
      rw [List.map_cons, List.nodup_cons] at hnd
      by_cases hk : k = a
      · subst hk
        unfold lookupObj
        rw [List.find?_cons_of_pos _ (by simp)]
        simp only [Option.map_some', List.mem_cons]
        constructor
        · intro hv
          exact Or.inl (by rw [← Option.some.inj hv])
        · rintro (hv | hv)
          · injection hv with h1 h2
            rw [h2]
          · exfalso
            exact hnd.1 (List.mem_map.mpr ⟨(k, v), hv, rfl⟩)
      · unfold lookupObj
        rw [List.find?_cons_of_neg _ (by simp [hk])]
        rw [show ((rest.find? fun e => decide (e.1 = a)).map Prod.snd
            = lookupObj rest a) from rfl, ih hnd.2 a v]
        simp only [List.mem_cons]
        constructor
        · exact Or.inr
        · rintro (hv | hv)
          · injection hv with h1 _
            exact absurd h1.symm hk
          · exact hv

theorem mem_nodeList_iff (objects : List (GridPoint × PlaneObj))
    (target : PlaneObj) (a : GridPoint) :
    (a ∈ objects.filterMap fun e =>
      if e.2 = target then some e.1 else none) ↔ (a, target) ∈ objects := by
  rw [List.mem_filterMap]
  constructor
  · rintro ⟨⟨k, w⟩, hmem, hf⟩
    by_cases hw : w = target
    · subst hw
      simp only [if_pos rfl] at hf
      injection hf with h1
      subst h1
      exact hmem
    · rw [if_neg (by simpa using hw)] at hf
      exact Option.noConfusion hf
  · intro hmem
    exact ⟨(a, target), hmem, by simp⟩

/-- **C4.**  `all_nodes_are_connected()` returns true iff every unordered
pair of distinct purple nodes and every (red, blue) node pair is joined
by some pipe whose two endpoints equal exactly the two node coordinates
(in either order); reachability through intermediate pipes does not
count.  Hypotheses: the object map has no duplicate keys (inherent to
`HashMap`) and every pipe is nonempty (the source `debug_assert!`s
this). -/
theorem all_nodes_connected_iff (g : PlaneGrid)
    (hnodup : (g.objects.map Prod.fst).Nodup)
    (hpipes : ∀ pipe ∈ g.pipes, pipe ≠ []) :
    allNodesAreConnected g = true ↔
      ((∀ a b : GridPoint, a ≠ b →
          lookupObj g.objects a = some PlaneObj.purpleNode →
          lookupObj g.objects b = some PlaneObj.purpleNode →
          ∃ pipe ∈ g.pipes, pipeConnects pipe a b) ∧
       (∀ a b : GridPoint,
          lookupObj g.objects a = some PlaneObj.redNode →
          lookupObj g.objects b = some PlaneObj.blueNode →
          ∃ pipe ∈ g.pipes, pipeConnects pipe a b)) := by
  have hobjs : g.objects.Nodup := hnodup.of_map
  have hlk := lookupObj_eq_some_iff g.objects hnodup
  simp only [allNodesAreConnected, decide_eq_true_eq]
  rw [Finset.eq_empty_iff_forall_not_mem]
  set purples := g.objects.filterMap fun e =>
    if e.2 = PlaneObj.purpleNode then some e.1 else none with hpurps
  set reds := g.objects.filterMap fun e =>
    if e.2 = PlaneObj.redNode then some e.1 else none with hreds
  set blues := g.objects.filterMap fun e =>
    if e.2 = PlaneObj.blueNode then some e.1 else none with hblues
  have hpnodup : purples.Nodup := by
    rw [hpurps]
    refine List.Nodup.filterMap ?_ hobjs
    intro e e' y hy hy'
    simp only [Option.mem_def] at hy hy'
    by_cases h2 : e.2 = PlaneObj.purpleNode
    · by_cases h2' : e'.2 = PlaneObj.purpleNode
      · rw [if_pos h2] at hy
        rw [if_pos h2'] at hy'
        have h1 := Option.some.inj hy
        have h1' := Option.some.inj hy'
        have : e = (y, PlaneObj.purpleNode) := by
          rw [← h1, ← h2]
        have h' : e' = (y, PlaneObj.purpleNode) := by
          rw [← h1', ← h2']
        rw [this, h']
      · rw [if_neg h2'] at hy'
        exact Option.noConfusion hy'
    · rw [if_neg h2] at hy
      exact Option.noConfusion hy
  have hK : ∀ x : GridPoint × GridPoint,
      (¬ ∀ pipe ∈ g.pipes, ∀ st en : GridPoint,
          pipe.head? = some st → pipe.getLast? = some en →
          x ≠ (st, en) ∧ x ≠ (en, st)) ↔
        ∃ pipe ∈ g.pipes, pipeConnects pipe x.1 x.2 := by
    intro x
    constructor
    · intro h
      push_neg at h
      obtain ⟨pipe, hp, st, en, hst, hen, hor⟩ := h
      by_cases hx : x = (st, en)
      · refine ⟨pipe, hp, Or.inl ?_⟩
        rw [hx]
        exact ⟨hst, hen⟩
      · have hx2 := hor hx
        refine ⟨pipe, hp, Or.inr ?_⟩
        rw [hx2]
        exact ⟨hst, hen⟩
    · rintro ⟨pipe, hp, hc⟩ hKall
      rcases hc with ⟨hst, hen⟩ | ⟨hst, hen⟩
      · exact (hKall pipe hp x.1 x.2 hst hen).1 rfl
      · exact (hKall pipe hp x.2 x.1 hst hen).2 rfl
  constructor
  · intro hempty
    have hmain : ∀ x : GridPoint × GridPoint,
        x ∈ purplePairsList purples ++
          (reds.flatMap fun r => blues.map fun b => (r, b)) →
        ∃ pipe ∈ g.pipes, pipeConnects pipe x.1 x.2 := by
      intro x hx
      have h := hempty x
      rw [mem_erasePairs_foldl] at h
      have hnk : ¬ ∀ pipe ∈ g.pipes, ∀ st en : GridPoint,
          pipe.head? = some st → pipe.getLast? = some en →
          x ≠ (st, en) ∧ x ≠ (en, st) :=
        fun hk => h ⟨List.mem_toFinset.mpr hx, hk⟩
      exact (hK x).mp hnk
    constructor
    · intro a b hab hpa hpb
      have ha : a ∈ purples := by
        rw [hpurps]
        exact (mem_nodeList_iff _ _ _).mpr ((hlk a _).mp hpa)
      have hb : b ∈ purples := by
        rw [hpurps]
        exact (mem_nodeList_iff _ _ _).mpr ((hlk b _).mp hpb)
      rcases purplePairsList_complete purples a b ha hb hab with hp | hp
      · exact hmain (a, b) (List.mem_append.mpr (Or.inl hp))
      · obtain ⟨pipe, hpm, hc⟩ := hmain (b, a)
          (List.mem_append.mpr (Or.inl hp))
        exact ⟨pipe, hpm, hc.symm⟩
    · intro a b hpa hpb
      have ha : a ∈ reds := by
        rw [hreds]
        exact (mem_nodeList_iff _ _ _).mpr ((hlk a _).mp hpa)
      have hb : b ∈ blues := by
        rw [hblues]
        exact (mem_nodeList_iff _ _ _).mpr ((hlk b _).mp hpb)
      exact hmain (a, b) (List.mem_append.mpr (Or.inr
        (List.mem_flatMap.mpr ⟨a, ha, List.mem_map.mpr ⟨b, hb, rfl⟩⟩)))
  · rintro ⟨hpurple, hredblue⟩ x
    rw [mem_erasePairs_foldl]
    rintro ⟨hxS, hKall⟩
    have hx := List.mem_toFinset.mp hxS
    rcases List.mem_append.mp hx with hx' | hx'
    · obtain ⟨ha, hb, hab⟩ :=
        mem_purplePairsList purples x.1 x.2 hpnodup hx'
      have hpa : lookupObj g.objects x.1 = some PlaneObj.purpleNode :=
        (hlk x.1 _).mpr ((mem_nodeList_iff _ _ _).mp (hpurps ▸ ha))
      have hpb : lookupObj g.objects x.2 = some PlaneObj.purpleNode :=
        (hlk x.2 _).mpr ((mem_nodeList_iff _ _ _).mp (hpurps ▸ hb))
      exact (hK x).mpr (hpurple x.1 x.2 hab hpa hpb) hKall
    · obtain ⟨r, hr, hmem2⟩ := List.mem_flatMap.mp hx'
      obtain ⟨b, hb, heq⟩ := List.mem_map.mp hmem2
      have hpa : lookupObj g.objects r = some PlaneObj.redNode :=
        (hlk r _).mpr ((mem_nodeList_iff _ _ _).mp (hreds ▸ hr))
      have hpb : lookupObj g.objects b = some PlaneObj.blueNode :=
        (hlk b _).mpr ((mem_nodeList_iff _ _ _).mp (hblues ▸ hb))
      have hx12 : x.1 = r ∧ x.2 = b := by
        rw [← heq]
        exact ⟨rfl, rfl⟩
      refine (hK x).mpr ?_ hKall
      rw [hx12.1, hx12.2]
      exact hredblue r b hpa hpb

/-- **C4 witness.**  Connectivity evaluated on a 2×1 grid with two purple
nodes joined by one pipe. -/
theorem all_nodes_connected_iff_witness :
    allNodesAreConnected
        ⟨⟨0, 0, 2, 1⟩,
         [(⟨0, 0⟩, PlaneObj.purpleNode), (⟨1, 0⟩, PlaneObj.purpleNode)],
         [[⟨0, 0⟩, ⟨1, 0⟩]]⟩ = true ↔
      ((∀ a b : GridPoint, a ≠ b →
          lookupObj [(⟨0, 0⟩, PlaneObj.purpleNode),
            (⟨1, 0⟩, PlaneObj.purpleNode)] a
            = some PlaneObj.purpleNode →
          lookupObj [(⟨0, 0⟩, PlaneObj.purpleNode),
            (⟨1, 0⟩, PlaneObj.purpleNode)] b
            = some PlaneObj.purpleNode →
          ∃ pipe ∈ [[(⟨0, 0⟩ : GridPoint), ⟨1, 0⟩]],
            pipeConnects pipe a b) ∧
       (∀ a b : GridPoint,
          lookupObj [(⟨0, 0⟩, PlaneObj.purpleNode),
            (⟨1, 0⟩, PlaneObj.purpleNode)] a = some PlaneObj.redNode →
          lookupObj [(⟨0, 0⟩, PlaneObj.purpleNode),
            (⟨1, 0⟩, PlaneObj.purpleNode)] b = some PlaneObj.blueNode →
          ∃ pipe ∈ [[(⟨0, 0⟩ : GridPoint), ⟨1, 0⟩]],
            pipeConnects pipe a b)) :=
  all_nodes_connected_iff
    ⟨⟨0, 0, 2, 1⟩,
     [(⟨0, 0⟩, PlaneObj.purpleNode), (⟨1, 0⟩, PlaneObj.purpleNode)],
     [[⟨0, 0⟩, ⟨1, 0⟩]]⟩ (by decide) (by decide)

/-! ### Pipe toggling (`PlaneGrid::toggle_pipe`) -/

/-- Rust `Vec::swap_remove(i)`: replace slot `i` with the last element and
pop the last slot. -/
def swapRemove {α : Type} (l : List α) (i : ℕ) : List α :=
  match l.getLast? with
  | none => l
  | some lastv => (l.set i lastv).dropLast

/-- The inner scan of `pipe_piece_at` over one pipe: the first index
holding `coords`, where on a Cross cell an occurrence only counts when
the axis toward its check-neighbor (the previous piece, or the next piece
for index 0) matches the direction being toggled.  (Pipes always have at
least two pieces, so the neighbor index is always valid; `getD` supplies
a default that is never used on such pipes.) -/
def pipeFindIndex (pipe : List GridPoint) (coords : GridPoint)
    (isCross isVertical : Bool) : Option ℕ :=
  (List.range pipe.length).find? fun i =>
    decide (pipe.getD i ⟨0, 0⟩ = coords) &&
    (!isCross ||
      (decide ((pipe.getD (if i = 0 then 1 else i - 1) ⟨0, 0⟩).x
        = coords.x) == isVertical))

/-- The outer scan of `pipe_piece_at` over the pipe list. -/
def pipesClassify (coords : GridPoint) (isCross isVertical : Bool) :
    List (List GridPoint) → ℕ → PipePiece
  | [], _ => .emptyOrNode false
  | pipe :: rest, idx =>
      match pipeFindIndex pipe coords isCross isVertical with
      | some i =>
          if i = 0 then .start idx
          else if i + 1 = pipe.length then .endp idx
          else .middle idx i
      | none => pipesClassify coords isCross isVertical rest (idx + 1)

/-- `PlaneGrid::pipe_piece_at`. -/
def pipePieceAt (g : PlaneGrid) (coords : GridPoint) (isVertical : Bool) :
    PipePiece :=
  let obj := lookupObj g.objects coords
  if (obj.map PlaneObj.isNode).getD false then .emptyOrNode true
  else pipesClassify coords (decide (obj = some .cross)) isVertical
    g.pipes 0

/-- `PlaneGrid::toggle_pipe`, returning the source's `bool` along with
the updated grid (the source mutates `self`). -/
def togglePipe (g : PlaneGrid) (coords1 coords2 : GridPoint) :
    Bool × PlaneGrid :=
  if ¬ (g.rect.contains coords1 ∧ g.rect.contains coords2) then (false, g)
  else
    let dx := coords2.x - coords1.x
    let dy := coords2.y - coords1.y
    if ¬ (dx = 0 ∧ dy.natAbs = 1 ∨ dy = 0 ∧ dx.natAbs = 1) then (false, g)
    else if isWallAt g coords1 ∨ isWallAt g coords2 then (false, g)
    else
      let isVertical := decide (dx = 0)
      match pipePieceAt g coords1 isVertical,
        pipePieceAt g coords2 isVertical with
      | .emptyOrNode node1, .emptyOrNode node2 =>
          if node1 && node2 then
            match (List.range g.pipes.length).find? fun p =>
                decide ((g.pipes.getD p []).length = 2 ∧
                  ((g.pipes.getD p []).getD 0 ⟨0, 0⟩ = coords1 ∧
                    (g.pipes.getD p []).getD 1 ⟨0, 0⟩ = coords2 ∨
                   (g.pipes.getD p []).getD 0 ⟨0, 0⟩ = coords2 ∧
                    (g.pipes.getD p []).getD 1 ⟨0, 0⟩ = coords1)) with
            | some p => (true, { g with pipes := swapRemove g.pipes p })
            | none =>
                (true, { g with pipes := g.pipes ++ [[coords1, coords2]] })
          else (true, { g with pipes := g.pipes ++ [[coords1, coords2]] })
      | .emptyOrNode isNode, .start p2 =>
          if isNode && decide ((g.pipes.getD p2 []).getD 1 ⟨0, 0⟩
              = coords1) then
            (true, { g with pipes := swapRemove g.pipes p2 })
          else
            (true, { g with pipes := g.pipes.set p2 (coords1 :: g.pipes.getD p2 []) })
      | .emptyOrNode isNode, .endp p2 =>
          if isNode && decide ((g.pipes.getD p2 []).length = 2) &&
              decide ((g.pipes.getD p2 []).getD 0 ⟨0, 0⟩ = coords1) then
            (true, { g with pipes := swapRemove g.pipes p2 })
          else
            (true, { g with pipes := g.pipes.set p2 (g.pipes.getD p2 [] ++ [coords1]) })
      | .start p1, .emptyOrNode isNode =>
          if isNode && decide ((g.pipes.getD p1 []).getD 1 ⟨0, 0⟩
              = coords2) then
            (true, { g with pipes := swapRemove g.pipes p1 })
          else
            (true, { g with pipes := g.pipes.set p1 (coords2 :: g.pipes.getD p1 []) })
      | .endp p1, .emptyOrNode isNode =>
          if isNode && decide ((g.pipes.getD p1 []).length = 2) &&
              decide ((g.pipes.getD p1 []).getD 0 ⟨0, 0⟩ = coords2) then
            (true, { g with pipes := swapRemove g.pipes p1 })
          else
            (true, { g with pipes := g.pipes.set p1 (g.pipes.getD p1 [] ++ [coords2]) })
      | .start p1, .start p2 =>
          let pmin := min p1 p2
          let pmax := max p1 p2
          let pipe2 := g.pipes.getD pmax []
          let pipes1 := swapRemove g.pipes pmax
          (true, { g with pipes := pipes1.set pmin ((pipes1.getD pmin []).reverse ++ pipe2) })
      | .endp p1, .endp p2 =>
          let pmin := min p1 p2
          let pmax := max p1 p2
          let pipe2 := g.pipes.getD pmax []
          let pipes1 := swapRemove g.pipes pmax
          (true, { g with pipes := pipes1.set pmin (pipes1.getD pmin [] ++ pipe2.reverse) })
      | .endp p1, .start p2 | .start p2, .endp p1 =>
          if p1 = p2 then
            if (g.pipes.getD p1 []).length = 2 then
              (true, { g with pipes := swapRemove g.pipes p1 })
            else (false, g)
          else if p1 < p2 then
            let pipe2 := g.pipes.getD p2 []
            let pipes1 := swapRemove g.pipes p2
            (true, { g with pipes := pipes1.set p1 (pipes1.getD p1 [] ++ pipe2) })
          else
            let pipe1 := g.pipes.getD p1 []
            let pipesA := swapRemove g.pipes p1
            let pipe2 := pipesA.getD p2 []
            let pipesB := swapRemove pipesA p2
            (true, { g with pipes := pipesB ++ [pipe1 ++ pipe2] })
      | .start p1, .middle p2 i2 | .middle p2 i2, .start p1 =>
          if p1 = p2 ∧ i2 = 1 then
            (true, { g with pipes := g.pipes.set p1 ((g.pipes.getD p1 []).drop 1) })
          else (false, g)
      | .middle p1 i1, .endp p2 | .endp p2, .middle p1 i1 =>
          if p1 = p2 ∧ i1 + 2 = (g.pipes.getD p1 []).length then
            (true, { g with pipes := g.pipes.set p1 (g.pipes.getD p1 []).dropLast })
          else (false, g)
      | .middle p1 i1, .middle p2 i2 =>
          if p1 ≠ p2 then (false, g)
          else
            let imin := min i1 i2
            let imax := max i1 i2
            if imin + 1 ≠ imax then (false, g)
            else
              let pipe := g.pipes.getD p1 []
              (true, { g with pipes := (g.pipes.set p1 (pipe.take imax)) ++ [pipe.drop imax] })
      | .middle p1 i1, .emptyOrNode isNode =>
          if isNode && decide (i1 = 1) &&
              decide ((g.pipes.getD p1 []).getD 0 ⟨0, 0⟩ = coords2) then
            (true, { g with pipes := g.pipes.set p1 ((g.pipes.getD p1 []).drop 1) })
          else if isNode &&
              decide (i1 + 2 = (g.pipes.getD p1 []).length) &&
              decide ((g.pipes.getD p1 []).getD (i1 + 1) ⟨0, 0⟩
                = coords2) then
            (true, { g with pipes := g.pipes.set p1 (g.pipes.getD p1 []).dropLast })
          else (false, g)
      | .emptyOrNode isNode, .middle p2 i2 =>
          if isNode && decide (i2 = 1) &&
              decide ((g.pipes.getD p2 []).getD 0 ⟨0, 0⟩ = coords1) then
            (true, { g with pipes := g.pipes.set p2 ((g.pipes.getD p2 []).drop 1) })
          else if isNode &&
              decide (i2 + 2 = (g.pipes.getD p2 []).length) &&
              decide ((g.pipes.getD p2 []).getD (i2 + 1) ⟨0, 0⟩
                = coords1) then
            (true, { g with pipes := g.pipes.set p2 (g.pipes.getD p2 []).dropLast })
          else (false, g)

/-- A pipe taken up to reversal: the unordered pair of its two
readings. -/
def pipeUnord (pipe : List GridPoint) : Multiset (List GridPoint) :=
  {pipe, pipe.reverse}

/-- Two pipe collections represent the same polylines: each taken up to
reversal, the collection without regard to storage order. -/
def pipesEquiv (P Q : List (List GridPoint)) : Prop :=
  Multiset.map pipeUnord (↑P) = Multiset.map pipeUnord (↑Q)

instance (P Q : List (List GridPoint)) : Decidable (pipesEquiv P Q) := by
  unfold pipesEquiv
  infer_instance

/-- A 5×5 grid with a purple node at the origin and one malformed pipe
running *through* the node. -/
def toggleCexGrid : PlaneGrid :=
  ⟨⟨0, 0, 5, 5⟩, [(⟨0, 0⟩, PlaneObj.purpleNode)],
   [[⟨1, 0⟩, ⟨0, 0⟩, ⟨2, 0⟩]]⟩

/-- **C2 counterexample.**  On a state whose pipe passes through a node
interior (violating the pipe invariants, but a legal value of the data
type), toggling the in-bounds, adjacent, non-Wall edge `((0,0), (1,0))`
twice does not restore the pipe collection: the first toggle deletes the
whole three-point pipe and the second creates a fresh two-point pipe. -/
theorem toggle_toggle_counterexample :
    (toggleCexGrid.rect.contains ⟨0, 0⟩ ∧
     toggleCexGrid.rect.contains ⟨1, 0⟩ ∧
     ¬ isWallAt toggleCexGrid ⟨0, 0⟩ ∧
     ¬ isWallAt toggleCexGrid ⟨1, 0⟩ ∧
     ((1 : ℤ) - 0 = 0 ∧ ((0 : ℤ) - 0).natAbs = 1 ∨
      (0 : ℤ) - 0 = 0 ∧ ((1 : ℤ) - 0).natAbs = 1)) ∧
    ¬ pipesEquiv
      ((togglePipe (togglePipe toggleCexGrid ⟨0, 0⟩ ⟨1, 0⟩).2
          ⟨0, 0⟩ ⟨1, 0⟩).2).pipes
      toggleCexGrid.pipes := by
  decide

/-! ### Toolkit for the pipe-toggle analysis: `find?` over ranges,
`getD` through each list mutation the toggle code performs, and the
multiset view of `set`, `swap_remove` and `push`. -/

theorem find?_range_eq_none_of (p : ℕ → Bool) (n : ℕ)
    (h : ∀ j, j < n → p j = false) : (List.range n).find? p = none := by
  rw [List.find?_eq_none]
  intro x hx
  rw [List.mem_range] at hx
  simp [h x hx]

theorem find?_range_eq_some_of (p : ℕ → Bool) (n i : ℕ) (hi : i < n)
    (hp : p i = true) (hfirst : ∀ j, j < i → p j = false) :
    (List.range n).find? p = some i := by
  induction n with
  | zero => omega
  | succ m ih =>
    rw [List.range_succ, List.find?_append]
    rcases Nat.lt_or_ge i m with h | h
    · rw [ih h]
      rfl
    · have he : i = m := by omega
      subst he
      rw [find?_range_eq_none_of p i hfirst]
      simp [List.find?, hp]

theorem find?_range_sound (p : ℕ → Bool) (n i : ℕ)
    (h : (List.range n).find? p = some i) :
    i < n ∧ p i = true ∧ ∀ j, j < i → p j = false := by
  induction n with
  | zero => simp [List.range_zero, List.find?] at h
  | succ m ih =>
    rw [List.range_succ, List.find?_append] at h
    cases hf : (List.range m).find? p with
    | some a =>
        rw [hf] at h
        have hai : some a = some i := h
        obtain ⟨h1, h2, h3⟩ := ih (hf.trans hai)
        exact ⟨by omega, h2, h3⟩
    | none =>
        rw [hf] at h
        simp only [Option.none_or] at h
        have hm : ∀ j, j < m → p j = false := by
          intro j hj
          have := List.find?_eq_none.mp hf j (List.mem_range.mpr hj)
          simpa using this
        by_cases hpm : p m = true
        · simp [List.find?, hpm] at h
          subst h
          exact ⟨Nat.lt_succ_self m, hpm, hm⟩
        · simp [List.find?, Bool.eq_false_iff.mpr hpm] at h

theorem find?_range_exists (p : ℕ → Bool) (n j : ℕ) (hj : j < n)
    (hp : p j = true) :
    ∃ i, (List.range n).find? p = some i ∧ i < n ∧ p i = true := by
  cases hf : (List.range n).find? p with
  | none =>
      have := List.find?_eq_none.mp hf j (List.mem_range.mpr hj)
      simp [hp] at this
  | some i =>
      obtain ⟨h1, h2, _⟩ := find?_range_sound p n i hf
      exact ⟨i, rfl, h1, h2⟩

section GetDToolkit

variable {α : Type} (d : α)

theorem getD_eq_getElem (l : List α) (i : ℕ) (h : i < l.length) :
    l.getD i d = l[i] := by
  rw [List.getD_eq_getElem?_getD, List.getElem?_eq_getElem h]
  rfl

theorem getD_mem (l : List α) (i : ℕ) (h : i < l.length) :
    l.getD i d ∈ l := by
  rw [getD_eq_getElem d l i h]
  exact List.getElem_mem h

theorem getD_set_self (l : List α) (j : ℕ) (x : α) (h : j < l.length) :
    (l.set j x).getD j d = x := by
  rw [List.getD_eq_getElem?_getD, List.getElem?_set_self',
    List.getElem?_eq_getElem h]
  rfl

theorem getD_set_ne (l : List α) (i j : ℕ) (x : α) (h : j ≠ i) :
    (l.set j x).getD i d = l.getD i d := by
  rw [List.getD_eq_getElem?_getD, List.getD_eq_getElem?_getD,
    List.getElem?_set_ne h]

theorem getD_append_left (l₁ l₂ : List α) (i : ℕ) (h : i < l₁.length) :
    (l₁ ++ l₂).getD i d = l₁.getD i d := by
  rw [List.getD_eq_getElem?_getD, List.getD_eq_getElem?_getD,
    List.getElem?_append, if_pos h]

theorem getD_append_right (l₁ l₂ : List α) (i : ℕ) (h : l₁.length ≤ i) :
    (l₁ ++ l₂).getD i d = l₂.getD (i - l₁.length) d := by
  rw [List.getD_eq_getElem?_getD, List.getD_eq_getElem?_getD,
    List.getElem?_append, if_neg (by omega)]

theorem getD_concat_last (l : List α) (x : α) :
    (l ++ [x]).getD l.length d = x := by
  rw [getD_append_right d l [x] l.length (le_refl _), Nat.sub_self]
  rfl

theorem getD_drop (l : List α) (n i : ℕ) :
    (l.drop n).getD i d = l.getD (n + i) d := by
  rw [List.getD_eq_getElem?_getD, List.getD_eq_getElem?_getD,
    List.getElem?_drop]

theorem getD_take (l : List α) (n i : ℕ) (h : i < n) :
    (l.take n).getD i d = l.getD i d := by
  rw [List.getD_eq_getElem?_getD, List.getD_eq_getElem?_getD,
    List.getElem?_take, if_pos h]

theorem getD_dropLast (l : List α) (i : ℕ) (h : i + 1 < l.length) :
    l.dropLast.getD i d = l.getD i d := by
  rw [List.getD_eq_getElem?_getD, List.getD_eq_getElem?_getD,
    List.getElem?_eq_getElem (show i < l.length from by omega),
    List.getElem?_eq_getElem (by rw [List.length_dropLast]; omega)]
  simp [List.getElem_dropLast]

theorem getD_reverse (l : List α) (i : ℕ) (h : i < l.length) :
    l.reverse.getD i d = l.getD (l.length - 1 - i) d := by
  rw [List.getD_eq_getElem?_getD, List.getD_eq_getElem?_getD,
    List.getElem?_reverse h]

theorem set_getD_self (l : List α) (j : ℕ) (h : j < l.length) :
    l.set j (l.getD j d) = l := by
  induction l generalizing j with
  | nil => rfl
  | cons a t ih =>
    cases j with
    | zero => simp
    | succ m =>
        simp only [List.set, List.getD_cons_succ, List.cons.injEq, true_and]
        exact ih m (by simpa using h)

theorem cons_getD_drop_one (l : List α) (h : 0 < l.length) :
    l.getD 0 d :: l.drop 1 = l := by
  cases l with
  | nil => simp at h
  | cons a t => rfl

theorem dropLast_append_getD (l : List α) (h : 0 < l.length) :
    l.dropLast ++ [l.getD (l.length - 1) d] = l := by
  have hne : l ≠ [] := by
    intro e
    subst e
    simp at h
  rw [getD_eq_getElem d l (l.length - 1) (by omega),
    show l[l.length - 1] = l.getLast hne from
      (List.getLast_eq_getElem l hne).symm,
    List.dropLast_append_getLast]

theorem swapRemove_eq (l : List α) (j : ℕ) (h : l ≠ []) :
    swapRemove l j = (l.set j (l.getD (l.length - 1) d)).dropLast := by
  unfold swapRemove
  rw [List.getLast?_eq_getLast l h]
  have : l.getLast h = l.getD (l.length - 1) d := by
    rw [getD_eq_getElem d l (l.length - 1)
      (by have := List.length_pos.mpr h; omega)]
    exact List.getLast_eq_getElem l h
  rw [this]

theorem length_swapRemove (l : List α) (j : ℕ) (h : l ≠ []) :
    (swapRemove l j).length = l.length - 1 := by
  unfold swapRemove
  cases hl : l.getLast? with
  | none => exact absurd (List.getLast?_eq_none_iff.mp hl) h
  | some x => rw [List.length_dropLast, List.length_set]

theorem getD_swapRemove (l : List α) (j k : ℕ) (hk : k < l.length - 1) :
    (swapRemove l j).getD k d =
      l.getD (if k = j then l.length - 1 else k) d := by
  have hne : l ≠ [] := by
    intro e
    subst e
    simp at hk
  rw [swapRemove_eq d l j hne,
    getD_dropLast d _ k (by rw [List.length_set]; omega)]
  split
  · rename_i he
    subst he
    exact getD_set_self d l k _ (by omega)
  · rename_i hne2
    exact getD_set_ne d l k j _ (fun e => hne2 e.symm)

end GetDToolkit

section MultisetToolkit

variable {α : Type} [DecidableEq α] (d : α)

theorem coe_concat_multiset (l : List α) (x : α) :
    (↑(l ++ [x]) : Multiset α) = x ::ₘ (↑l : Multiset α) :=
  Quot.sound (List.perm_append_singleton x l)

theorem perm_set_eraseIdx (l : List α) (j : ℕ) (x : α) (h : j < l.length) :
    (l.set j x).Perm (x :: l.eraseIdx j) := by
  induction l generalizing j with
  | nil => simp at h
  | cons a t ih =>
    cases j with
    | zero => simp [List.set, List.eraseIdx]
    | succ m =>
        simp only [List.set, List.eraseIdx]
        exact ((ih m (by simpa using h)).cons a).trans (List.Perm.swap x a _)

theorem perm_cons_eraseIdx (l : List α) (j : ℕ) (h : j < l.length) :
    l.Perm (l.getD j d :: l.eraseIdx j) := by
  have hp := perm_set_eraseIdx l j (l.getD j d) h
  rw [set_getD_self d l j h] at hp
  exact hp

theorem multiset_set_eq (l : List α) (j : ℕ) (x : α) (h : j < l.length) :
    (↑(l.set j x) : Multiset α) =
      x ::ₘ (↑l : Multiset α).erase (l.getD j d) := by
  have h1 : (↑(l.set j x) : Multiset α) = ↑(x :: l.eraseIdx j) :=
    Quot.sound (perm_set_eraseIdx l j x h)
  have h2 : (↑l : Multiset α) = ↑(l.getD j d :: l.eraseIdx j) :=
    Quot.sound (perm_cons_eraseIdx d l j h)
  rw [h1, h2, ← Multiset.cons_coe, ← Multiset.cons_coe,
    Multiset.erase_cons_head]

theorem multiset_swapRemove_eq (l : List α) (j : ℕ) (h : j < l.length) :
    (↑(swapRemove l j) : Multiset α) =
      (↑l : Multiset α).erase (l.getD j d) := by
  have hne : l ≠ [] := by
    intro e
    subst e
    simp at h
  rcases Nat.lt_or_ge j (l.length - 1) with hj | hj
  · rw [swapRemove_eq d l j hne]
    set last := l.getD (l.length - 1) d with hlast
    have hlen : (l.set j last).length = l.length := List.length_set l j last
    have hgd : (l.set j last).getD ((l.set j last).length - 1) d = last := by
      rw [hlen]
      exact getD_set_ne d l (l.length - 1) j last (by omega)
    have hsplit : (l.set j last).dropLast ++ [last] = l.set j last := by
      have := dropLast_append_getD d (l.set j last) (by rw [hlen]; omega)
      rw [hgd] at this
      exact this
    have hcoe : (↑(l.set j last) : Multiset α) =
        last ::ₘ ↑((l.set j last).dropLast) := by
      conv_lhs => rw [← hsplit]
      rw [coe_concat_multiset]
    have hset := multiset_set_eq d l j last h
    rw [hset] at hcoe
    have := congrArg (fun s => Multiset.erase s last) hcoe
    simpa using this.symm
  · have hje : j = l.length - 1 := by
      have hpos := List.length_pos.mpr hne
      omega
    subst hje
    rw [swapRemove_eq d l _ hne, set_getD_self d l _ (by
      have hpos := List.length_pos.mpr hne
      omega)]
    have hsplit := dropLast_append_getD d l (List.length_pos.mpr hne)
    calc (↑l.dropLast : Multiset α)
        = ((l.getD (l.length - 1) d) ::ₘ
            (↑l.dropLast : Multiset α)).erase (l.getD (l.length - 1) d) :=
          (Multiset.erase_cons_head _ _).symm
      _ = (↑l : Multiset α).erase (l.getD (l.length - 1) d) := by
          rw [← coe_concat_multiset, hsplit]

end MultisetToolkit

/-- A ready form of "`pipe` occurs in the multiset at least once", used
to peel one copy off the coercion of a pipe list. -/
theorem multiset_cons_erase_getD (P : List (List GridPoint)) (p : ℕ)
    (h : p < P.length) :
    (↑P : Multiset (List GridPoint)) =
      P.getD p [] ::ₘ (↑P : Multiset (List GridPoint)).erase (P.getD p []) :=
  (Multiset.cons_erase (Multiset.mem_coe.mpr (getD_mem [] P p h))).symm

/-- The boolean test applied by `pipe_piece_at`'s inner scan at one
index of one pipe, abstracted out of `pipeFindIndex`. -/
def matchTest (pipe : List GridPoint) (coords : GridPoint)
    (isCross isVertical : Bool) (i : ℕ) : Bool :=
  decide (pipe.getD i ⟨0, 0⟩ = coords) &&
  (!isCross ||
    (decide ((pipe.getD (if i = 0 then 1 else i - 1) ⟨0, 0⟩).x
      = coords.x) == isVertical))

theorem pipeFindIndex_eq_find? (pipe : List GridPoint) (coords : GridPoint)
    (isCross isVertical : Bool) :
    pipeFindIndex pipe coords isCross isVertical =
      (List.range pipe.length).find? (matchTest pipe coords isCross isVertical) :=
  rfl

/-- The propositional reading of `matchTest`: the cell holds `coords`,
and when `coords` is a Cross the axis toward the check-neighbor agrees
with the direction being toggled. -/
def matchesAt (pipe : List GridPoint) (coords : GridPoint)
    (isCross isVertical : Bool) (i : ℕ) : Prop :=
  pipe.getD i ⟨0, 0⟩ = coords ∧
  (isCross = true →
    decide ((pipe.getD (if i = 0 then 1 else i - 1) ⟨0, 0⟩).x
      = coords.x) = isVertical)

theorem matchTest_iff (pipe : List GridPoint) (coords : GridPoint)
    (isCross isVertical : Bool) (i : ℕ) :
    matchTest pipe coords isCross isVertical i = true ↔
      matchesAt pipe coords isCross isVertical i := by
  unfold matchTest matchesAt
  cases isCross <;>
    simp [Bool.and_eq_true, decide_eq_true_eq]

theorem matchTest_false_iff (pipe : List GridPoint) (coords : GridPoint)
    (isCross isVertical : Bool) (i : ℕ) :
    matchTest pipe coords isCross isVertical i = false ↔
      ¬ matchesAt pipe coords isCross isVertical i := by
  rw [← matchTest_iff]
  cases h : matchTest pipe coords isCross isVertical i <;> simp

/-- How `pipe_piece_at` labels a hit at pipe `k`, index `i`, given the
pipe's length. -/
def classifyIdx (len k i : ℕ) : PipePiece :=
  if i = 0 then .start k
  else if i + 1 = len then .endp k
  else .middle k i

theorem pipesClassify_cons_some (coords : GridPoint)
    (isCross isVertical : Bool) (pipe : List GridPoint)
    (rest : List (List GridPoint)) (idx i : ℕ)
    (h : pipeFindIndex pipe coords isCross isVertical = some i) :
    pipesClassify coords isCross isVertical (pipe :: rest) idx =
      classifyIdx pipe.length idx i := by
  unfold pipesClassify classifyIdx
  rw [h]

theorem pipesClassify_cons_none (coords : GridPoint)
    (isCross isVertical : Bool) (pipe : List GridPoint)
    (rest : List (List GridPoint)) (idx : ℕ)
    (h : pipeFindIndex pipe coords isCross isVertical = none) :
    pipesClassify coords isCross isVertical (pipe :: rest) idx =
      pipesClassify coords isCross isVertical rest (idx + 1) := by
  conv_lhs => rw [pipesClassify]
  rw [h]

theorem pipesClassify_eq_none_of (coords : GridPoint)
    (isCross isVertical : Bool) :
    ∀ (P : List (List GridPoint)) (idx : ℕ),
      (∀ k i, k < P.length → i < (P.getD k []).length →
        ¬ matchesAt (P.getD k []) coords isCross isVertical i) →
      pipesClassify coords isCross isVertical P idx = .emptyOrNode false := by
  intro P
  induction P with
  | nil => intro idx _; rfl
  | cons pipe rest ih =>
    intro idx hno
    rw [pipesClassify_cons_none coords isCross isVertical pipe rest idx (by
      rw [pipeFindIndex_eq_find?]
      apply find?_range_eq_none_of
      intro j hj
      rw [matchTest_false_iff]
      exact hno 0 j (Nat.succ_pos _) (by simpa using hj))]
    apply ih
    intro k i hk hi
    exact hno (k + 1) i (by simpa using hk) (by simpa using hi)

theorem pipesClassify_eq_of (coords : GridPoint) (isCross isVertical : Bool) :
    ∀ (P : List (List GridPoint)) (idx k i : ℕ),
      k < P.length → i < (P.getD k []).length →
      matchesAt (P.getD k []) coords isCross isVertical i →
      (∀ j, j < i → ¬ matchesAt (P.getD k []) coords isCross isVertical j) →
      (∀ k' i', k' < k → i' < (P.getD k' []).length →
        ¬ matchesAt (P.getD k' []) coords isCross isVertical i') →
      pipesClassify coords isCross isVertical P idx =
        classifyIdx (P.getD k []).length (idx + k) i := by
  intro P
  induction P with
  | nil => intro idx k i hk; simp at hk
  | cons pipe rest ih =>
    intro idx k i hk hi hm hfirst hpre
    cases k with
    | zero =>
        simp only [List.getD_cons_zero] at hi hm hfirst ⊢
        rw [pipesClassify_cons_some coords isCross isVertical pipe rest idx i (by
          rw [pipeFindIndex_eq_find?]
          apply find?_range_eq_some_of _ _ _ hi
          · rw [matchTest_iff]; exact hm
          · intro j hj
            rw [matchTest_false_iff]
            exact hfirst j hj)]
        rw [Nat.add_zero]
    | succ m =>
        simp only [List.getD_cons_succ] at hi hm hfirst
        rw [pipesClassify_cons_none coords isCross isVertical pipe rest idx (by
          rw [pipeFindIndex_eq_find?]
          apply find?_range_eq_none_of
          intro j hj
          rw [matchTest_false_iff]
          have := hpre 0 j (Nat.succ_pos _) (by simpa using hj)
          simpa using this)]
        have hrec := ih (idx + 1) m i (by simpa using hk) hi hm hfirst (by
          intro k' i' hk' hi'
          have := hpre (k' + 1) i' (by omega) (by simpa using hi')
          simpa using this)
        rw [hrec, List.getD_cons_succ]
        congr 1
        omega

theorem pipesClassify_cases (coords : GridPoint) (isCross isVertical : Bool) :
    ∀ (P : List (List GridPoint)) (idx : ℕ),
      (pipesClassify coords isCross isVertical P idx = .emptyOrNode false ∧
        ∀ k i, k < P.length → i < (P.getD k []).length →
          ¬ matchesAt (P.getD k []) coords isCross isVertical i) ∨
      (∃ k i, k < P.length ∧ i < (P.getD k []).length ∧
        matchesAt (P.getD k []) coords isCross isVertical i ∧
        pipesClassify coords isCross isVertical P idx =
          classifyIdx (P.getD k []).length (idx + k) i) := by
  intro P
  induction P with
  | nil =>
      intro idx
      left
      exact ⟨rfl, fun k i hk => by simp at hk⟩
  | cons pipe rest ih =>
    intro idx
    cases hf : pipeFindIndex pipe coords isCross isVertical with
    | some i =>
        right
        obtain ⟨h1, h2, _⟩ := find?_range_sound _ _ _
          (pipeFindIndex_eq_find? pipe coords isCross isVertical ▸ hf)
        refine ⟨0, i, Nat.succ_pos _, by simpa using h1, ?_, ?_⟩
        · rw [← matchTest_iff]
          simpa using h2
        · rw [pipesClassify_cons_some coords isCross isVertical pipe rest idx i hf,
            Nat.add_zero, List.getD_cons_zero]
    | none =>
        have hnone : ∀ j, j < pipe.length →
            ¬ matchesAt pipe coords isCross isVertical j := by
          intro j hj
          rw [← matchTest_false_iff]
          have := List.find?_eq_none.mp
            (pipeFindIndex_eq_find? pipe coords isCross isVertical ▸ hf) j
            (List.mem_range.mpr hj)
          simpa using this
        rcases ih (idx + 1) with ⟨heq, hno⟩ | ⟨k, i, hk, hi, hm, heq⟩
        · left
          refine ⟨?_, ?_⟩
          · rw [pipesClassify_cons_none coords isCross isVertical pipe rest idx hf]
            exact heq
          · intro k i hk hi
            cases k with
            | zero => exact hnone i (by simpa using hi)
            | succ m => exact hno m i (by simpa using hk) (by simpa using hi)
        · right
          refine ⟨k + 1, i, by simpa using hk, by simpa using hi,
            by simpa using hm, ?_⟩
          rw [pipesClassify_cons_none coords isCross isVertical pipe rest idx hf,
            heq, List.getD_cons_succ]
          congr 1
          omega

theorem classifyIdx_start_elim {len k i p : ℕ}
    (h : classifyIdx len k i = .start p) : k = p ∧ i = 0 := by
  unfold classifyIdx at h
  split at h
  · rename_i h0
    injection h with h'
    exact ⟨h', h0⟩
  · split at h <;> simp at h

theorem classifyIdx_endp_elim {len k i p : ℕ}
    (h : classifyIdx len k i = .endp p) : k = p ∧ i + 1 = len ∧ i ≠ 0 := by
  unfold classifyIdx at h
  split at h
  · simp at h
  · split at h
    · injection h with h'
      exact ⟨h', by assumption, by assumption⟩
    · simp at h

theorem classifyIdx_middle_elim {len k i p m : ℕ}
    (h : classifyIdx len k i = .middle p m) :
    k = p ∧ i = m ∧ i ≠ 0 ∧ i + 1 ≠ len := by
  unfold classifyIdx at h
  split at h
  · simp at h
  · split at h
    · simp at h
    · injection h with h1 h2
      exact ⟨h1, h2, by assumption, by assumption⟩

theorem classifyIdx_ne_empty {len k i : ℕ} (b : Bool) :
    classifyIdx len k i ≠ .emptyOrNode b := by
  unfold classifyIdx
  split
  · simp
  · split <;> simp

/-- Whether the object stored at `c` is a node (the test that
short-circuits `pipe_piece_at`). -/
def isNodeAt (g : PlaneGrid) (c : GridPoint) : Bool :=
  ((lookupObj g.objects c).map PlaneObj.isNode).getD false

/-- Whether the object stored at `c` is a Cross. -/
def isCrossAt (g : PlaneGrid) (c : GridPoint) : Bool :=
  decide (lookupObj g.objects c = some PlaneObj.cross)

theorem pipePieceAt_eq (g : PlaneGrid) (c : GridPoint) (v : Bool) :
    pipePieceAt g c v =
      if isNodeAt g c then .emptyOrNode true
      else pipesClassify c (isCrossAt g c) v g.pipes 0 := rfl

theorem pipePieceAt_of_node (g : PlaneGrid) (c : GridPoint) (v : Bool)
    (h : isNodeAt g c = true) : pipePieceAt g c v = .emptyOrNode true := by
  rw [pipePieceAt_eq, if_pos h]

theorem pipePieceAt_eq_classify (g : PlaneGrid) (c : GridPoint) (v : Bool)
    (h : isNodeAt g c = false) :
    pipePieceAt g c v = pipesClassify c (isCrossAt g c) v g.pipes 0 := by
  rw [pipePieceAt_eq, if_neg (by simp [h])]

theorem pipePieceAt_node_elim (g : PlaneGrid) (c : GridPoint) (v : Bool)
    (h : pipePieceAt g c v = .emptyOrNode true) : isNodeAt g c = true := by
  rw [pipePieceAt_eq] at h
  by_cases hn : isNodeAt g c = true
  · exact hn
  · rw [if_neg (by simp [hn])] at h
    rcases pipesClassify_cases c (isCrossAt g c) v g.pipes 0 with
      ⟨heq, _⟩ | ⟨k, i, _, _, _, heq⟩
    · rw [heq] at h
      simp at h
    · rw [heq] at h
      exact absurd h (classifyIdx_ne_empty true)

theorem pipePieceAt_empty_elim (g : PlaneGrid) (c : GridPoint) (v : Bool)
    (h : pipePieceAt g c v = .emptyOrNode false) :
    isNodeAt g c = false ∧
    ∀ k i, k < g.pipes.length → i < (g.pipes.getD k []).length →
      ¬ matchesAt (g.pipes.getD k []) c (isCrossAt g c) v i := by
  rw [pipePieceAt_eq] at h
  by_cases hn : isNodeAt g c = true
  · rw [if_pos hn] at h
    simp at h
  · rw [if_neg (by simp [hn])] at h
    refine ⟨by simpa using hn, ?_⟩
    rcases pipesClassify_cases c (isCrossAt g c) v g.pipes 0 with
      ⟨_, hno⟩ | ⟨k, i, _, _, _, heq⟩
    · exact hno
    · rw [heq] at h
      exact absurd h (classifyIdx_ne_empty false)

theorem pipePieceAt_start_elim (g : PlaneGrid) (c : GridPoint) (v : Bool)
    {p : ℕ} (h : pipePieceAt g c v = .start p) :
    isNodeAt g c = false ∧ p < g.pipes.length ∧
    0 < (g.pipes.getD p []).length ∧
    matchesAt (g.pipes.getD p []) c (isCrossAt g c) v 0 := by
  rw [pipePieceAt_eq] at h
  by_cases hn : isNodeAt g c = true
  · rw [if_pos hn] at h
    simp at h
  · rw [if_neg (by simp [hn])] at h
    rcases pipesClassify_cases c (isCrossAt g c) v g.pipes 0 with
      ⟨heq, _⟩ | ⟨k, i, hk, hi, hm, heq⟩
    · rw [heq] at h
      simp at h
    · rw [heq] at h
      obtain ⟨hkp, hi0⟩ := classifyIdx_start_elim h
      subst hi0
      rw [Nat.zero_add] at hkp
      subst hkp
      exact ⟨by simpa using hn, hk, hi, hm⟩

theorem pipePieceAt_endp_elim (g : PlaneGrid) (c : GridPoint) (v : Bool)
    {p : ℕ} (h : pipePieceAt g c v = .endp p) :
    isNodeAt g c = false ∧ p < g.pipes.length ∧
    ∃ i, i + 1 = (g.pipes.getD p []).length ∧ i ≠ 0 ∧
      matchesAt (g.pipes.getD p []) c (isCrossAt g c) v i := by
  rw [pipePieceAt_eq] at h
  by_cases hn : isNodeAt g c = true
  · rw [if_pos hn] at h
    simp at h
  · rw [if_neg (by simp [hn])] at h
    rcases pipesClassify_cases c (isCrossAt g c) v g.pipes 0 with
      ⟨heq, _⟩ | ⟨k, i, hk, hi, hm, heq⟩
    · rw [heq] at h
      simp at h
    · rw [heq] at h
      obtain ⟨hkp, hlen, hne⟩ := classifyIdx_endp_elim h
      rw [Nat.zero_add] at hkp
      subst hkp
      exact ⟨by simpa using hn, hk, i, hlen, hne, hm⟩

theorem pipePieceAt_middle_elim (g : PlaneGrid) (c : GridPoint) (v : Bool)
    {p m : ℕ} (h : pipePieceAt g c v = .middle p m) :
    isNodeAt g c = false ∧ p < g.pipes.length ∧
    m < (g.pipes.getD p []).length ∧ m ≠ 0 ∧
    m + 1 ≠ (g.pipes.getD p []).length ∧
    matchesAt (g.pipes.getD p []) c (isCrossAt g c) v m := by
  rw [pipePieceAt_eq] at h
  by_cases hn : isNodeAt g c = true
  · rw [if_pos hn] at h
    simp at h
  · rw [if_neg (by simp [hn])] at h
    rcases pipesClassify_cases c (isCrossAt g c) v g.pipes 0 with
      ⟨heq, _⟩ | ⟨k, i, hk, hi, hm, heq⟩
    · rw [heq] at h
      simp at h
    · rw [heq] at h
      obtain ⟨hkp, him, hne0, hnelen⟩ := classifyIdx_middle_elim h
      rw [Nat.zero_add] at hkp
      subst hkp
      subst him
      exact ⟨by simpa using hn, hk, hi, hne0, hnelen, hm⟩

/-- The structural invariants of reachable pipe collections, stated
positionally so that they are decidable on concrete states:
1. every pipe has at least two pieces;
2. interior pipe pieces never sit on a node;
3. a non-node cell occurs at only one pipe position, except that a Cross
   cell may carry one occurrence per axis (two positions holding the
   same non-node value whose check-neighbor axes agree are the same
   position);
4. at an interior occurrence of a Cross cell the pipe runs straight
   (the two neighbors lie on the same axis relative to the cell);
5. no three-piece pipe starts and ends on the same node;
6. two two-piece pipes with the same endpoint pair (in either order)
   are the same pipe. -/
def PipesInv (g : PlaneGrid) : Prop :=
  (∀ k, k < g.pipes.length → 2 ≤ (g.pipes.getD k []).length) ∧
  (∀ k, k < g.pipes.length → ∀ i, i < (g.pipes.getD k []).length →
    0 < i → i + 1 < (g.pipes.getD k []).length →
    isNodeAt g ((g.pipes.getD k []).getD i ⟨0, 0⟩) = false) ∧
  (∀ k, k < g.pipes.length → ∀ i, i < (g.pipes.getD k []).length →
    ∀ k', k' < g.pipes.length → ∀ i', i' < (g.pipes.getD k' []).length →
    (g.pipes.getD k []).getD i ⟨0, 0⟩ =
      (g.pipes.getD k' []).getD i' ⟨0, 0⟩ →
    isNodeAt g ((g.pipes.getD k []).getD i ⟨0, 0⟩) = false →
    (isCrossAt g ((g.pipes.getD k []).getD i ⟨0, 0⟩) = true →
      decide (((g.pipes.getD k []).getD (if i = 0 then 1 else i - 1)
          ⟨0, 0⟩).x = ((g.pipes.getD k []).getD i ⟨0, 0⟩).x) =
      decide (((g.pipes.getD k' []).getD (if i' = 0 then 1 else i' - 1)
          ⟨0, 0⟩).x = ((g.pipes.getD k []).getD i ⟨0, 0⟩).x)) →
    k = k' ∧ i = i') ∧
  (∀ k, k < g.pipes.length → ∀ i, i < (g.pipes.getD k []).length →
    0 < i → i + 1 < (g.pipes.getD k []).length →
    isCrossAt g ((g.pipes.getD k []).getD i ⟨0, 0⟩) = true →
    decide (((g.pipes.getD k []).getD (i - 1) ⟨0, 0⟩).x =
      ((g.pipes.getD k []).getD i ⟨0, 0⟩).x) =
    decide (((g.pipes.getD k []).getD (i + 1) ⟨0, 0⟩).x =
      ((g.pipes.getD k []).getD i ⟨0, 0⟩).x)) ∧
  (∀ k, k < g.pipes.length → (g.pipes.getD k []).length = 3 →
    isNodeAt g ((g.pipes.getD k []).getD 0 ⟨0, 0⟩) = true →
    (g.pipes.getD k []).getD 0 ⟨0, 0⟩ ≠ (g.pipes.getD k []).getD 2 ⟨0, 0⟩) ∧
  (∀ k, k < g.pipes.length → ∀ k', k' < g.pipes.length →
    (g.pipes.getD k []).length = 2 → (g.pipes.getD k' []).length = 2 →
    ((g.pipes.getD k []).getD 0 ⟨0, 0⟩ =
        (g.pipes.getD k' []).getD 0 ⟨0, 0⟩ ∧
      (g.pipes.getD k []).getD 1 ⟨0, 0⟩ =
        (g.pipes.getD k' []).getD 1 ⟨0, 0⟩ ∨
     (g.pipes.getD k []).getD 0 ⟨0, 0⟩ =
        (g.pipes.getD k' []).getD 1 ⟨0, 0⟩ ∧
      (g.pipes.getD k []).getD 1 ⟨0, 0⟩ =
        (g.pipes.getD k' []).getD 0 ⟨0, 0⟩) →
    k = k')

set_option synthInstance.maxSize 4096 in
set_option synthInstance.maxHeartbeats 1600000 in
instance (g : PlaneGrid) : Decidable (PipesInv g) := by
  unfold PipesInv
  infer_instance

/-- Under the invariant, a non-node cell's match position (with respect
to a fixed toggle axis) is unique across the whole pipe collection. -/
theorem unique_occ_of_inv (g : PlaneGrid) (hinv : PipesInv g)
    (c : GridPoint) (v : Bool) (hnode : isNodeAt g c = false)
    {p i : ℕ} (hp : p < g.pipes.length)
    (hi : i < (g.pipes.getD p []).length)
    (hm : matchesAt (g.pipes.getD p []) c (isCrossAt g c) v i) :
    ∀ k j, k < g.pipes.length → j < (g.pipes.getD k []).length →
      matchesAt (g.pipes.getD k []) c (isCrossAt g c) v j →
      k = p ∧ j = i := by
  intro k j hk hj hm'
  obtain ⟨-, -, huniq, -, -⟩ := hinv
  refine huniq k hk j hj p hp i hi (by rw [hm'.1, hm.1]) (by rw [hm'.1]; exact hnode) ?_
  intro hcross
  rw [hm'.1] at hcross ⊢
  rw [hm'.2 hcross, hm.2 hcross]

/-! ### Branch equations for `togglePipe` -/

/-- The grid with its pipe list replaced (how every mutating branch of
`toggle_pipe` leaves `self`). -/
def withPipes (g : PlaneGrid) (P : List (List GridPoint)) : PlaneGrid :=
  { g with pipes := P }

theorem withPipes_pipes (g : PlaneGrid) (P : List (List GridPoint)) :
    (withPipes g P).pipes = P := rfl

theorem isNodeAt_withPipes (g : PlaneGrid) (P : List (List GridPoint))
    (c : GridPoint) : isNodeAt (withPipes g P) c = isNodeAt g c := rfl

theorem isCrossAt_withPipes (g : PlaneGrid) (P : List (List GridPoint))
    (c : GridPoint) : isCrossAt (withPipes g P) c = isCrossAt g c := rfl

theorem togglePipe_guard₁ (g : PlaneGrid) (c1 c2 : GridPoint)
    (h : ¬ (g.rect.contains c1 ∧ g.rect.contains c2)) :
    togglePipe g c1 c2 = (false, g) := by
  unfold togglePipe
  rw [if_pos h]

theorem togglePipe_guard₂ (g : PlaneGrid) (c1 c2 : GridPoint)
    (h1 : g.rect.contains c1 ∧ g.rect.contains c2)
    (h : ¬ (c2.x - c1.x = 0 ∧ (c2.y - c1.y).natAbs = 1 ∨
        c2.y - c1.y = 0 ∧ (c2.x - c1.x).natAbs = 1)) :
    togglePipe g c1 c2 = (false, g) := by
  unfold togglePipe
  rw [if_neg (not_not_intro h1)]
  dsimp only
  rw [if_pos h]

theorem togglePipe_guard₃ (g : PlaneGrid) (c1 c2 : GridPoint)
    (h1 : g.rect.contains c1 ∧ g.rect.contains c2)
    (h2 : c2.x - c1.x = 0 ∧ (c2.y - c1.y).natAbs = 1 ∨
        c2.y - c1.y = 0 ∧ (c2.x - c1.x).natAbs = 1)
    (h : isWallAt g c1 ∨ isWallAt g c2) :
    togglePipe g c1 c2 = (false, g) := by
  unfold togglePipe
  rw [if_neg (not_not_intro h1)]
  dsimp only
  rw [if_neg (not_not_intro h2), if_pos h]

theorem togglePipe_branch_SS (g : PlaneGrid) (c1 c2 : GridPoint) (p1 p2 : ℕ)
    (h1 : g.rect.contains c1 ∧ g.rect.contains c2)
    (h2 : c2.x - c1.x = 0 ∧ (c2.y - c1.y).natAbs = 1 ∨
        c2.y - c1.y = 0 ∧ (c2.x - c1.x).natAbs = 1)
    (h3 : ¬ (isWallAt g c1 ∨ isWallAt g c2))
    (hA : pipePieceAt g c1 (decide (c2.x - c1.x = 0)) = .start p1)
    (hB : pipePieceAt g c2 (decide (c2.x - c1.x = 0)) = .start p2) :
    togglePipe g c1 c2 =
      (true, withPipes g
        ((swapRemove g.pipes (max p1 p2)).set (min p1 p2)
          (((swapRemove g.pipes (max p1 p2)).getD (min p1 p2) []).reverse ++
            g.pipes.getD (max p1 p2) []))) := by
  unfold togglePipe
  rw [if_neg (not_not_intro h1)]
  dsimp only
  rw [if_neg (not_not_intro h2), if_neg h3, hA, hB]
  rfl

theorem togglePipe_branch_EE (g : PlaneGrid) (c1 c2 : GridPoint) (n1 n2 : Bool)
    (h1 : g.rect.contains c1 ∧ g.rect.contains c2)
    (h2 : c2.x - c1.x = 0 ∧ (c2.y - c1.y).natAbs = 1 ∨
        c2.y - c1.y = 0 ∧ (c2.x - c1.x).natAbs = 1)
    (h3 : ¬ (isWallAt g c1 ∨ isWallAt g c2))
    (hA : pipePieceAt g c1 (decide (c2.x - c1.x = 0)) = .emptyOrNode n1)
    (hB : pipePieceAt g c2 (decide (c2.x - c1.x = 0)) = .emptyOrNode n2) :
    togglePipe g c1 c2 =
      (if n1 && n2 then
        match (List.range g.pipes.length).find? fun p =>
            decide ((g.pipes.getD p []).length = 2 ∧
              ((g.pipes.getD p []).getD 0 ⟨0, 0⟩ = c1 ∧
                (g.pipes.getD p []).getD 1 ⟨0, 0⟩ = c2 ∨
               (g.pipes.getD p []).getD 0 ⟨0, 0⟩ = c2 ∧
                (g.pipes.getD p []).getD 1 ⟨0, 0⟩ = c1)) with
        | some p => (true, withPipes g (swapRemove g.pipes p))
        | none => (true, withPipes g (g.pipes ++ [[c1, c2]]))
      else (true, withPipes g (g.pipes ++ [[c1, c2]]))) := by
  unfold togglePipe
  rw [if_neg (not_not_intro h1)]
  dsimp only
  rw [if_neg (not_not_intro h2), if_neg h3, hA, hB]
  rfl

theorem togglePipe_branch_ES (g : PlaneGrid) (c1 c2 : GridPoint) (n : Bool) (p2 : ℕ)
    (h1 : g.rect.contains c1 ∧ g.rect.contains c2)
    (h2 : c2.x - c1.x = 0 ∧ (c2.y - c1.y).natAbs = 1 ∨
        c2.y - c1.y = 0 ∧ (c2.x - c1.x).natAbs = 1)
    (h3 : ¬ (isWallAt g c1 ∨ isWallAt g c2))
    (hA : pipePieceAt g c1 (decide (c2.x - c1.x = 0)) = .emptyOrNode n)
    (hB : pipePieceAt g c2 (decide (c2.x - c1.x = 0)) = .start p2) :
    togglePipe g c1 c2 =
      (if n && decide ((g.pipes.getD p2 []).getD 1 ⟨0, 0⟩ = c1) then
        (true, withPipes g (swapRemove g.pipes p2))
      else (true, withPipes g (g.pipes.set p2 (c1 :: g.pipes.getD p2 [])))) := by
  unfold togglePipe
  rw [if_neg (not_not_intro h1)]
  dsimp only
  rw [if_neg (not_not_intro h2), if_neg h3, hA, hB]
  rfl

theorem togglePipe_branch_EEnd (g : PlaneGrid) (c1 c2 : GridPoint) (n : Bool) (p2 : ℕ)
    (h1 : g.rect.contains c1 ∧ g.rect.contains c2)
    (h2 : c2.x - c1.x = 0 ∧ (c2.y - c1.y).natAbs = 1 ∨
        c2.y - c1.y = 0 ∧ (c2.x - c1.x).natAbs = 1)
    (h3 : ¬ (isWallAt g c1 ∨ isWallAt g c2))
    (hA : pipePieceAt g c1 (decide (c2.x - c1.x = 0)) = .emptyOrNode n)
    (hB : pipePieceAt g c2 (decide (c2.x - c1.x = 0)) = .endp p2) :
    togglePipe g c1 c2 =
      (if n && decide ((g.pipes.getD p2 []).length = 2) &&
          decide ((g.pipes.getD p2 []).getD 0 ⟨0, 0⟩ = c1) then
        (true, withPipes g (swapRemove g.pipes p2))
      else (true, withPipes g (g.pipes.set p2 (g.pipes.getD p2 [] ++ [c1])))) := by
  unfold togglePipe
  rw [if_neg (not_not_intro h1)]
  dsimp only
  rw [if_neg (not_not_intro h2), if_neg h3, hA, hB]
  rfl

theorem togglePipe_branch_SE (g : PlaneGrid) (c1 c2 : GridPoint) (p1 : ℕ) (n : Bool)
    (h1 : g.rect.contains c1 ∧ g.rect.contains c2)
    (h2 : c2.x - c1.x = 0 ∧ (c2.y - c1.y).natAbs = 1 ∨
        c2.y - c1.y = 0 ∧ (c2.x - c1.x).natAbs = 1)
    (h3 : ¬ (isWallAt g c1 ∨ isWallAt g c2))
    (hA : pipePieceAt g c1 (decide (c2.x - c1.x = 0)) = .start p1)
    (hB : pipePieceAt g c2 (decide (c2.x - c1.x = 0)) = .emptyOrNode n) :
    togglePipe g c1 c2 =
      (if n && decide ((g.pipes.getD p1 []).getD 1 ⟨0, 0⟩ = c2) then
        (true, withPipes g (swapRemove g.pipes p1))
      else (true, withPipes g (g.pipes.set p1 (c2 :: g.pipes.getD p1 [])))) := by
  unfold togglePipe
  rw [if_neg (not_not_intro h1)]
  dsimp only
  rw [if_neg (not_not_intro h2), if_neg h3, hA, hB]
  rfl

theorem togglePipe_branch_EndE (g : PlaneGrid) (c1 c2 : GridPoint) (p1 : ℕ) (n : Bool)
    (h1 : g.rect.contains c1 ∧ g.rect.contains c2)
    (h2 : c2.x - c1.x = 0 ∧ (c2.y - c1.y).natAbs = 1 ∨
        c2.y - c1.y = 0 ∧ (c2.x - c1.x).natAbs = 1)
    (h3 : ¬ (isWallAt g c1 ∨ isWallAt g c2))
    (hA : pipePieceAt g c1 (decide (c2.x - c1.x = 0)) = .endp p1)
    (hB : pipePieceAt g c2 (decide (c2.x - c1.x = 0)) = .emptyOrNode n) :
    togglePipe g c1 c2 =
      (if n && decide ((g.pipes.getD p1 []).length = 2) &&
          decide ((g.pipes.getD p1 []).getD 0 ⟨0, 0⟩ = c2) then
        (true, withPipes g (swapRemove g.pipes p1))
      else (true, withPipes g (g.pipes.set p1 (g.pipes.getD p1 [] ++ [c2])))) := by
  unfold togglePipe
  rw [if_neg (not_not_intro h1)]
  dsimp only
  rw [if_neg (not_not_intro h2), if_neg h3, hA, hB]
  rfl

theorem togglePipe_branch_EndEnd (g : PlaneGrid) (c1 c2 : GridPoint) (p1 p2 : ℕ)
    (h1 : g.rect.contains c1 ∧ g.rect.contains c2)
    (h2 : c2.x - c1.x = 0 ∧ (c2.y - c1.y).natAbs = 1 ∨
        c2.y - c1.y = 0 ∧ (c2.x - c1.x).natAbs = 1)
    (h3 : ¬ (isWallAt g c1 ∨ isWallAt g c2))
    (hA : pipePieceAt g c1 (decide (c2.x - c1.x = 0)) = .endp p1)
    (hB : pipePieceAt g c2 (decide (c2.x - c1.x = 0)) = .endp p2) :
    togglePipe g c1 c2 =
      (true, withPipes g
        ((swapRemove g.pipes (max p1 p2)).set (min p1 p2)
          ((swapRemove g.pipes (max p1 p2)).getD (min p1 p2) [] ++
            (g.pipes.getD (max p1 p2) []).reverse))) := by
  unfold togglePipe
  rw [if_neg (not_not_intro h1)]
  dsimp only
  rw [if_neg (not_not_intro h2), if_neg h3, hA, hB]
  rfl

theorem togglePipe_branch_EndS (g : PlaneGrid) (c1 c2 : GridPoint) (p1 p2 : ℕ)
    (h1 : g.rect.contains c1 ∧ g.rect.contains c2)
    (h2 : c2.x - c1.x = 0 ∧ (c2.y - c1.y).natAbs = 1 ∨
        c2.y - c1.y = 0 ∧ (c2.x - c1.x).natAbs = 1)
    (h3 : ¬ (isWallAt g c1 ∨ isWallAt g c2))
    (hA : pipePieceAt g c1 (decide (c2.x - c1.x = 0)) = .endp p1)
    (hB : pipePieceAt g c2 (decide (c2.x - c1.x = 0)) = .start p2) :
    togglePipe g c1 c2 =
      (if p1 = p2 then
        if (g.pipes.getD p1 []).length = 2 then
          (true, withPipes g (swapRemove g.pipes p1))
        else (false, g)
      else if p1 < p2 then
        (true, withPipes g
          ((swapRemove g.pipes p2).set p1
            ((swapRemove g.pipes p2).getD p1 [] ++ g.pipes.getD p2 [])))
      else
        (true, withPipes g
          (swapRemove (swapRemove g.pipes p1) p2 ++
            [g.pipes.getD p1 [] ++ (swapRemove g.pipes p1).getD p2 []]))) := by
  unfold togglePipe
  rw [if_neg (not_not_intro h1)]
  dsimp only
  rw [if_neg (not_not_intro h2), if_neg h3, hA, hB]
  rfl

theorem togglePipe_branch_SEnd (g : PlaneGrid) (c1 c2 : GridPoint) (p1 p2 : ℕ)
    (h1 : g.rect.contains c1 ∧ g.rect.contains c2)
    (h2 : c2.x - c1.x = 0 ∧ (c2.y - c1.y).natAbs = 1 ∨
        c2.y - c1.y = 0 ∧ (c2.x - c1.x).natAbs = 1)
    (h3 : ¬ (isWallAt g c1 ∨ isWallAt g c2))
    (hA : pipePieceAt g c1 (decide (c2.x - c1.x = 0)) = .start p2)
    (hB : pipePieceAt g c2 (decide (c2.x - c1.x = 0)) = .endp p1) :
    togglePipe g c1 c2 =
      (if p1 = p2 then
        if (g.pipes.getD p1 []).length = 2 then
          (true, withPipes g (swapRemove g.pipes p1))
        else (false, g)
      else if p1 < p2 then
        (true, withPipes g
          ((swapRemove g.pipes p2).set p1
            ((swapRemove g.pipes p2).getD p1 [] ++ g.pipes.getD p2 [])))
      else
        (true, withPipes g
          (swapRemove (swapRemove g.pipes p1) p2 ++
            [g.pipes.getD p1 [] ++ (swapRemove g.pipes p1).getD p2 []]))) := by
  unfold togglePipe
  rw [if_neg (not_not_intro h1)]
  dsimp only
  rw [if_neg (not_not_intro h2), if_neg h3, hA, hB]
  rfl

theorem togglePipe_branch_SM (g : PlaneGrid) (c1 c2 : GridPoint) (p1 p2 i2 : ℕ)
    (h1 : g.rect.contains c1 ∧ g.rect.contains c2)
    (h2 : c2.x - c1.x = 0 ∧ (c2.y - c1.y).natAbs = 1 ∨
        c2.y - c1.y = 0 ∧ (c2.x - c1.x).natAbs = 1)
    (h3 : ¬ (isWallAt g c1 ∨ isWallAt g c2))
    (hA : pipePieceAt g c1 (decide (c2.x - c1.x = 0)) = .start p1)
    (hB : pipePieceAt g c2 (decide (c2.x - c1.x = 0)) = .middle p2 i2) :
    togglePipe g c1 c2 =
      (if p1 = p2 ∧ i2 = 1 then
        (true, withPipes g (g.pipes.set p1 ((g.pipes.getD p1 []).drop 1)))
      else (false, g)) := by
  unfold togglePipe
  rw [if_neg (not_not_intro h1)]
  dsimp only
  rw [if_neg (not_not_intro h2), if_neg h3, hA, hB]
  rfl

theorem togglePipe_branch_MS (g : PlaneGrid) (c1 c2 : GridPoint) (p1 p2 i2 : ℕ)
    (h1 : g.rect.contains c1 ∧ g.rect.contains c2)
    (h2 : c2.x - c1.x = 0 ∧ (c2.y - c1.y).natAbs = 1 ∨
        c2.y - c1.y = 0 ∧ (c2.x - c1.x).natAbs = 1)
    (h3 : ¬ (isWallAt g c1 ∨ isWallAt g c2))
    (hA : pipePieceAt g c1 (decide (c2.x - c1.x = 0)) = .middle p2 i2)
    (hB : pipePieceAt g c2 (decide (c2.x - c1.x = 0)) = .start p1) :
    togglePipe g c1 c2 =
      (if p1 = p2 ∧ i2 = 1 then
        (true, withPipes g (g.pipes.set p1 ((g.pipes.getD p1 []).drop 1)))
      else (false, g)) := by
  unfold togglePipe
  rw [if_neg (not_not_intro h1)]
  dsimp only
  rw [if_neg (not_not_intro h2), if_neg h3, hA, hB]
  rfl

theorem togglePipe_branch_MEnd (g : PlaneGrid) (c1 c2 : GridPoint) (p1 p2 i1 : ℕ)
    (h1 : g.rect.contains c1 ∧ g.rect.contains c2)
    (h2 : c2.x - c1.x = 0 ∧ (c2.y - c1.y).natAbs = 1 ∨
        c2.y - c1.y = 0 ∧ (c2.x - c1.x).natAbs = 1)
    (h3 : ¬ (isWallAt g c1 ∨ isWallAt g c2))
    (hA : pipePieceAt g c1 (decide (c2.x - c1.x = 0)) = .middle p1 i1)
    (hB : pipePieceAt g c2 (decide (c2.x - c1.x = 0)) = .endp p2) :
    togglePipe g c1 c2 =
      (if p1 = p2 ∧ i1 + 2 = (g.pipes.getD p1 []).length then
        (true, withPipes g (g.pipes.set p1 (g.pipes.getD p1 []).dropLast))
      else (false, g)) := by
  unfold togglePipe
  rw [if_neg (not_not_intro h1)]
  dsimp only
  rw [if_neg (not_not_intro h2), if_neg h3, hA, hB]
  rfl

theorem togglePipe_branch_EndM (g : PlaneGrid) (c1 c2 : GridPoint) (p1 p2 i1 : ℕ)
    (h1 : g.rect.contains c1 ∧ g.rect.contains c2)
    (h2 : c2.x - c1.x = 0 ∧ (c2.y - c1.y).natAbs = 1 ∨
        c2.y - c1.y = 0 ∧ (c2.x - c1.x).natAbs = 1)
    (h3 : ¬ (isWallAt g c1 ∨ isWallAt g c2))
    (hA : pipePieceAt g c1 (decide (c2.x - c1.x = 0)) = .endp p2)
    (hB : pipePieceAt g c2 (decide (c2.x - c1.x = 0)) = .middle p1 i1) :
    togglePipe g c1 c2 =
      (if p1 = p2 ∧ i1 + 2 = (g.pipes.getD p1 []).length then
        (true, withPipes g (g.pipes.set p1 (g.pipes.getD p1 []).dropLast))
      else (false, g)) := by
  unfold togglePipe
  rw [if_neg (not_not_intro h1)]
  dsimp only
  rw [if_neg (not_not_intro h2), if_neg h3, hA, hB]
  rfl

theorem togglePipe_branch_MM (g : PlaneGrid) (c1 c2 : GridPoint) (p1 p2 i1 i2 : ℕ)
    (h1 : g.rect.contains c1 ∧ g.rect.contains c2)
    (h2 : c2.x - c1.x = 0 ∧ (c2.y - c1.y).natAbs = 1 ∨
        c2.y - c1.y = 0 ∧ (c2.x - c1.x).natAbs = 1)
    (h3 : ¬ (isWallAt g c1 ∨ isWallAt g c2))
    (hA : pipePieceAt g c1 (decide (c2.x - c1.x = 0)) = .middle p1 i1)
    (hB : pipePieceAt g c2 (decide (c2.x - c1.x = 0)) = .middle p2 i2) :
    togglePipe g c1 c2 =
      (if p1 ≠ p2 then (false, g)
      else if min i1 i2 + 1 ≠ max i1 i2 then (false, g)
      else
        (true, withPipes g
          ((g.pipes.set p1 ((g.pipes.getD p1 []).take (max i1 i2))) ++
            [(g.pipes.getD p1 []).drop (max i1 i2)]))) := by
  unfold togglePipe
  rw [if_neg (not_not_intro h1)]
  dsimp only
  rw [if_neg (not_not_intro h2), if_neg h3, hA, hB]
  rfl

theorem togglePipe_branch_MEmpty (g : PlaneGrid) (c1 c2 : GridPoint) (p1 i1 : ℕ) (n : Bool)
    (h1 : g.rect.contains c1 ∧ g.rect.contains c2)
    (h2 : c2.x - c1.x = 0 ∧ (c2.y - c1.y).natAbs = 1 ∨
        c2.y - c1.y = 0 ∧ (c2.x - c1.x).natAbs = 1)
    (h3 : ¬ (isWallAt g c1 ∨ isWallAt g c2))
    (hA : pipePieceAt g c1 (decide (c2.x - c1.x = 0)) = .middle p1 i1)
    (hB : pipePieceAt g c2 (decide (c2.x - c1.x = 0)) = .emptyOrNode n) :
    togglePipe g c1 c2 =
      (if n && decide (i1 = 1) &&
          decide ((g.pipes.getD p1 []).getD 0 ⟨0, 0⟩ = c2) then
        (true, withPipes g (g.pipes.set p1 ((g.pipes.getD p1 []).drop 1)))
      else if n && decide (i1 + 2 = (g.pipes.getD p1 []).length) &&
          decide ((g.pipes.getD p1 []).getD (i1 + 1) ⟨0, 0⟩ = c2) then
        (true, withPipes g (g.pipes.set p1 (g.pipes.getD p1 []).dropLast))
      else (false, g)) := by
  unfold togglePipe
  rw [if_neg (not_not_intro h1)]
  dsimp only
  rw [if_neg (not_not_intro h2), if_neg h3, hA, hB]
  rfl

theorem togglePipe_branch_EmptyM (g : PlaneGrid) (c1 c2 : GridPoint) (n : Bool) (p2 i2 : ℕ)
    (h1 : g.rect.contains c1 ∧ g.rect.contains c2)
    (h2 : c2.x - c1.x = 0 ∧ (c2.y - c1.y).natAbs = 1 ∨
        c2.y - c1.y = 0 ∧ (c2.x - c1.x).natAbs = 1)
    (h3 : ¬ (isWallAt g c1 ∨ isWallAt g c2))
    (hA : pipePieceAt g c1 (decide (c2.x - c1.x = 0)) = .emptyOrNode n)
    (hB : pipePieceAt g c2 (decide (c2.x - c1.x = 0)) = .middle p2 i2) :
    togglePipe g c1 c2 =
      (if n && decide (i2 = 1) &&
          decide ((g.pipes.getD p2 []).getD 0 ⟨0, 0⟩ = c1) then
        (true, withPipes g (g.pipes.set p2 ((g.pipes.getD p2 []).drop 1)))
      else if n && decide (i2 + 2 = (g.pipes.getD p2 []).length) &&
          decide ((g.pipes.getD p2 []).getD (i2 + 1) ⟨0, 0⟩ = c1) then
        (true, withPipes g (g.pipes.set p2 (g.pipes.getD p2 []).dropLast))
      else (false, g)) := by
  unfold togglePipe
  rw [if_neg (not_not_intro h1)]
  dsimp only
  rw [if_neg (not_not_intro h2), if_neg h3, hA, hB]
  rfl

/-! ### Shared helpers for the double-toggle analysis -/

theorem no_match_of_unique (P : List (List GridPoint))
    {c : GridPoint} {flag v : Bool} {p i : ℕ}
    (huniq : ∀ k j, k < P.length → j < (P.getD k []).length →
      matchesAt (P.getD k []) c flag v j → k = p ∧ j = i)
    {k : ℕ} (hk : k < P.length) (hkne : k ≠ p) :
    ∀ j, j < (P.getD k []).length →
      ¬ matchesAt (P.getD k []) c flag v j :=
  fun j hj hm => hkne (huniq k j hk hj hm).1

theorem edge_ne (c1 c2 : GridPoint)
    (h2 : c2.x - c1.x = 0 ∧ (c2.y - c1.y).natAbs = 1 ∨
        c2.y - c1.y = 0 ∧ (c2.x - c1.x).natAbs = 1) : c1 ≠ c2 := by
  intro e
  subst e
  rcases h2 with ⟨-, h⟩ | ⟨-, h⟩ <;> simp at h

theorem edge_axis₁ (c1 c2 : GridPoint)
    (h2 : c2.x - c1.x = 0 ∧ (c2.y - c1.y).natAbs = 1 ∨
        c2.y - c1.y = 0 ∧ (c2.x - c1.x).natAbs = 1) :
    decide (c2.x = c1.x) = decide (c2.x - c1.x = 0) :=
  decide_eq_decide.mpr (by omega)

theorem edge_axis₂ (c1 c2 : GridPoint)
    (h2 : c2.x - c1.x = 0 ∧ (c2.y - c1.y).natAbs = 1 ∨
        c2.y - c1.y = 0 ∧ (c2.x - c1.x).natAbs = 1) :
    decide (c1.x = c2.x) = decide (c2.x - c1.x = 0) :=
  decide_eq_decide.mpr (by omega)

/-! ### The double-toggle scenario lemmas -/

theorem toggle_toggle_SM (g : PlaneGrid) (c1 c2 : GridPoint) (p1 : ℕ)
    (hinv : PipesInv g)
    (h1 : g.rect.contains c1 ∧ g.rect.contains c2)
    (h2 : c2.x - c1.x = 0 ∧ (c2.y - c1.y).natAbs = 1 ∨
        c2.y - c1.y = 0 ∧ (c2.x - c1.x).natAbs = 1)
    (h3 : ¬ (isWallAt g c1 ∨ isWallAt g c2))
    (hA : pipePieceAt g c1 (decide (c2.x - c1.x = 0)) = .start p1)
    (hB : pipePieceAt g c2 (decide (c2.x - c1.x = 0)) = .middle p1 1) :
    (togglePipe (togglePipe g c1 c2).2 c1 c2).2.pipes = g.pipes := by
  set v := decide (c2.x - c1.x = 0) with hv
  obtain ⟨hn1, hp1, hlen0, hm1⟩ := pipePieceAt_start_elim g c1 v hA
  obtain ⟨hn2, -, hi2len, -, hi2nelen, hm2⟩ := pipePieceAt_middle_elim g c2 v hB
  set A := g.pipes.getD p1 [] with hAdef
  have hlenA : 3 ≤ A.length := by omega
  have hne12 : c1 ≠ c2 := edge_ne c1 c2 h2
  have huniq1 := unique_occ_of_inv g hinv c1 v hn1 hp1 hlen0 hm1
  have huniq2 := unique_occ_of_inv g hinv c2 v hn2 hp1 hi2len hm2
  have hbr1 := togglePipe_branch_SM g c1 c2 p1 p1 1 h1 h2 h3 hA hB
  rw [if_pos ⟨rfl, rfl⟩] at hbr1
  rw [hbr1]
  set Q := g.pipes.set p1 (A.drop 1) with hQdef
  have hQlen : Q.length = g.pipes.length := List.length_set _ _ _
  have hQp1 : Q.getD p1 [] = A.drop 1 := getD_set_self [] g.pipes p1 _ hp1
  have hQk : ∀ k, k ≠ p1 → Q.getD k [] = g.pipes.getD k [] := fun k hk =>
    getD_set_ne [] g.pipes k p1 _ (fun e => hk e.symm)
  have hdroplen : (A.drop 1).length = A.length - 1 := List.length_drop 1 A
  have hA' : pipePieceAt (withPipes g Q) c1 v = .emptyOrNode false := by
    rw [pipePieceAt_eq_classify _ _ _ (by rw [isNodeAt_withPipes]; exact hn1)]
    rw [isCrossAt_withPipes, withPipes_pipes]
    apply pipesClassify_eq_none_of
    intro k j hk hj
    rw [hQlen] at hk
    by_cases hkp : k = p1
    · rw [hkp] at hj ⊢
      rw [hQp1] at hj ⊢
      intro hm
      have hval : A.getD (1 + j) ⟨0, 0⟩ = c1 := by
        rw [← getD_drop (⟨0, 0⟩ : GridPoint) A 1 j]
        exact hm.1
      cases j with
      | zero =>
          rw [Nat.add_zero] at hval
          exact hne12 (hval.symm.trans hm2.1)
      | succ m =>
          have hmA : matchesAt A c1 (isCrossAt g c1) v (1 + (m + 1)) := by
            refine ⟨hval, fun hflag => ?_⟩
            have hnb := hm.2 hflag
            rw [getD_drop (⟨0, 0⟩ : GridPoint) A 1] at hnb
            have hidx : (1 + (if m + 1 = 0 then 1 else m + 1 - 1)) =
                (if 1 + (m + 1) = 0 then 1 else 1 + (m + 1) - 1) := by
              rw [if_neg (Nat.succ_ne_zero m), if_neg (by omega)]
              omega
            rw [hidx] at hnb
            exact hnb
          exact absurd (huniq1 p1 (1 + (m + 1)) hp1
            (by rw [← hAdef]; rw [hdroplen] at hj; omega) hmA).2 (by omega)
    · rw [hQk k hkp] at hj ⊢
      exact no_match_of_unique g.pipes huniq1 hk hkp j hj
  have hB' : pipePieceAt (withPipes g Q) c2 v = .start p1 := by
    rw [pipePieceAt_eq_classify _ _ _ (by rw [isNodeAt_withPipes]; exact hn2)]
    rw [isCrossAt_withPipes, withPipes_pipes]
    have hm' : matchesAt (Q.getD p1 []) c2 (isCrossAt g c2) v 0 := by
      rw [hQp1]
      refine ⟨by rw [getD_drop (⟨0, 0⟩ : GridPoint) A 1, Nat.add_zero]; exact hm2.1,
        fun hflag => ?_⟩
      rw [if_pos rfl, getD_drop (⟨0, 0⟩ : GridPoint) A 1]
      obtain ⟨-, -, -, hstraight, -⟩ := hinv
      have hs := hstraight p1 hp1 1 (by rw [← hAdef]; omega) (by omega)
        (by rw [← hAdef]; omega)
        (by rw [← hAdef, hm2.1]; exact hflag)
      rw [← hAdef] at hs
      rw [show (1 : ℕ) - 1 = 0 from rfl, show (1 : ℕ) + 1 = 2 from rfl] at hs
      rw [hm2.1] at hs
      have hax := hm2.2 hflag
      rw [show (if (1 : ℕ) = 0 then 1 else 1 - 1) = 0 from rfl] at hax
      exact hs.symm.trans hax
    have hpre : ∀ k' i', k' < p1 → i' < (Q.getD k' []).length →
        ¬ matchesAt (Q.getD k' []) c2 (isCrossAt g c2) v i' := by
      intro k' i' hk' hi'
      rw [hQk k' (by omega)] at hi' ⊢
      exact no_match_of_unique g.pipes huniq2 (by omega) (by omega) i' hi'
    have hclass := pipesClassify_eq_of c2 (isCrossAt g c2) v Q 0 p1 0
      (by rw [hQlen]; exact hp1)
      (by rw [hQp1, hdroplen]; omega)
      hm' (fun j hj => absurd hj (Nat.not_lt_zero j)) hpre
    rw [hclass, Nat.zero_add]
    unfold classifyIdx
    rw [if_pos rfl]
  have hbr2 := togglePipe_branch_ES (withPipes g Q) c1 c2 false p1 h1 h2 h3 hA' hB'
  rw [Bool.false_and, if_neg Bool.false_ne_true] at hbr2
  rw [hbr2, withPipes_pipes, withPipes_pipes, hQp1]
  have hcons : c1 :: A.drop 1 = A := by
    have h0 := cons_getD_drop_one (⟨0, 0⟩ : GridPoint) A (by omega)
    rw [hm1.1] at h0
    exact h0
  rw [hcons, hQdef, List.set_set]
  exact set_getD_self [] g.pipes p1 hp1

/-! ### Transfer of `matchesAt` through the list mutations the toggle
performs.  The check-neighbor of an index is position-dependent, so each
mutation shape gets its own transfer; reversals additionally need the
straightness invariant at interior Cross occurrences. -/

theorem matchesAt_drop_one (A : List GridPoint) (z : GridPoint)
    (flag v : Bool) (j : ℕ) (hj : 1 ≤ j) :
    matchesAt (A.drop 1) z flag v j ↔ matchesAt A z flag v (1 + j) := by
  unfold matchesAt
  rw [getD_drop (⟨0, 0⟩ : GridPoint) A 1 j,
    if_neg (by omega), if_neg (by omega),
    getD_drop (⟨0, 0⟩ : GridPoint) A 1 (j - 1),
    show 1 + (j - 1) = 1 + j - 1 from by omega]

theorem matchesAt_drop_one_head (A : List GridPoint) (z : GridPoint)
    (flag v : Bool) (h3 : 2 < A.length)
    (hstr : ∀ i, 0 < i → i + 1 < A.length →
      A.getD i ⟨0, 0⟩ = z → flag = true →
      decide ((A.getD (i - 1) ⟨0, 0⟩).x = z.x) =
        decide ((A.getD (i + 1) ⟨0, 0⟩).x = z.x))
    (hm : matchesAt A z flag v 1) :
    matchesAt (A.drop 1) z flag v 0 := by
  obtain ⟨hval, haxis⟩ := hm
  refine ⟨by rw [getD_drop (⟨0, 0⟩ : GridPoint) A 1 0]; exact hval,
    fun hflag => ?_⟩
  rw [if_pos rfl, getD_drop (⟨0, 0⟩ : GridPoint) A 1 1]
  have hs := hstr 1 (by omega) (by omega) hval hflag
  rw [show (1 : ℕ) - 1 = 0 from rfl, show (1 : ℕ) + 1 = 2 from rfl] at hs
  have ha := haxis hflag
  rw [show (if (1 : ℕ) = 0 then 1 else 1 - 1) = 0 from rfl] at ha
  rw [show (1 : ℕ) + 1 = 2 from rfl]
  exact hs.symm.trans ha

theorem matchesAt_dropLast (A : List GridPoint) (z : GridPoint)
    (flag v : Bool) (j : ℕ) (hj : j + 1 < A.length)
    (h20 : j = 0 → 2 < A.length) :
    matchesAt A.dropLast z flag v j ↔ matchesAt A z flag v j := by
  unfold matchesAt
  rw [getD_dropLast (⟨0, 0⟩ : GridPoint) A j hj]
  cases j with
  | zero =>
      rw [show (if (0 : ℕ) = 0 then 1 else 0 - 1) = 1 from rfl,
        getD_dropLast (⟨0, 0⟩ : GridPoint) A 1 (by have := h20 rfl; omega)]
  | succ m =>
      rw [show (if m + 1 = 0 then 1 else m + 1 - 1) = m from rfl,
        getD_dropLast (⟨0, 0⟩ : GridPoint) A m (by omega)]

theorem matchesAt_append_left (A B : List GridPoint) (z : GridPoint)
    (flag v : Bool) (j : ℕ) (hj : j < A.length)
    (hj0 : j = 0 → 1 < A.length) :
    matchesAt (A ++ B) z flag v j ↔ matchesAt A z flag v j := by
  unfold matchesAt
  rw [getD_append_left (⟨0, 0⟩ : GridPoint) A B j hj]
  cases j with
  | zero =>
      rw [show (if (0 : ℕ) = 0 then 1 else 0 - 1) = 1 from rfl,
        getD_append_left (⟨0, 0⟩ : GridPoint) A B 1 (by have := hj0 rfl; omega)]
  | succ m =>
      rw [show (if m + 1 = 0 then 1 else m + 1 - 1) = m from rfl,
        getD_append_left (⟨0, 0⟩ : GridPoint) A B m (by omega)]

theorem matchesAt_append_right (A B : List GridPoint) (z : GridPoint)
    (flag v : Bool) (m : ℕ) (hm1 : 1 ≤ m) :
    matchesAt (A ++ B) z flag v (A.length + m) ↔ matchesAt B z flag v m := by
  unfold matchesAt
  rw [getD_append_right (⟨0, 0⟩ : GridPoint) A B (A.length + m) (by omega),
    show A.length + m - A.length = m from by omega,
    if_neg (by omega), if_neg (by omega),
    getD_append_right (⟨0, 0⟩ : GridPoint) A B (A.length + m - 1) (by omega),
    show A.length + m - 1 - A.length = m - 1 from by omega]

theorem matchesAt_reverse_to (A : List GridPoint) (z : GridPoint)
    (flag v : Bool) (j : ℕ) (hlenA : 2 ≤ A.length) (hj : j < A.length)
    (hstr : ∀ i, 0 < i → i + 1 < A.length →
      A.getD i ⟨0, 0⟩ = z → flag = true →
      decide ((A.getD (i - 1) ⟨0, 0⟩).x = z.x) =
        decide ((A.getD (i + 1) ⟨0, 0⟩).x = z.x))
    (hm : matchesAt A.reverse z flag v j) :
    matchesAt A z flag v (A.length - 1 - j) := by
  obtain ⟨hval, haxis⟩ := hm
  rw [getD_reverse (⟨0, 0⟩ : GridPoint) A j hj] at hval
  refine ⟨hval, fun hflag => ?_⟩
  have ha := haxis hflag
  rcases Nat.eq_zero_or_pos j with hj0 | hjpos
  · subst hj0
    rw [if_pos rfl, getD_reverse (⟨0, 0⟩ : GridPoint) A 1 (by omega)] at ha
    rw [if_neg (by omega)]
    rw [show A.length - 1 - 0 - 1 = A.length - 1 - 1 from by omega]
    exact ha
  · rw [if_neg (by omega),
      getD_reverse (⟨0, 0⟩ : GridPoint) A (j - 1) (by omega)] at ha
    rcases Nat.lt_or_ge j (A.length - 1) with hjlt | hjge
    · -- interior target: the reversed neighbor is the successor, use straightness
      have hidx : A.length - 1 - (j - 1) = (A.length - 1 - j) + 1 := by omega
      rw [hidx] at ha
      have hs := hstr (A.length - 1 - j) (by omega) (by omega) hval hflag
      rw [if_neg (by omega)]
      exact hs.trans ha
    · -- j is the last index of the reversal: target 0, neighbor is index 1 both ways
      have hje : j = A.length - 1 := by omega
      subst hje
      rw [show A.length - 1 - (A.length - 1) = 0 from by omega] at hval ⊢
      rw [show A.length - 1 - (A.length - 1 - 1) = 1 from by omega] at ha
      rw [if_pos rfl]
      exact ha

theorem matchesAt_reverse_last (A : List GridPoint) (z : GridPoint)
    (flag v : Bool) (hlenA : 2 ≤ A.length) :
    matchesAt A.reverse z flag v (A.length - 1) ↔ matchesAt A z flag v 0 := by
  unfold matchesAt
  rw [getD_reverse (⟨0, 0⟩ : GridPoint) A (A.length - 1) (by omega),
    show A.length - 1 - (A.length - 1) = 0 from by omega,
    if_neg (by omega), if_pos rfl,
    getD_reverse (⟨0, 0⟩ : GridPoint) A (A.length - 1 - 1) (by omega),
    show A.length - 1 - (A.length - 1 - 1) = 1 from by omega]

theorem matchesAt_cons_succ (x : GridPoint) (A : List GridPoint)
    (z : GridPoint) (flag v : Bool) (j : ℕ) (hj : 1 ≤ j) :
    matchesAt (x :: A) z flag v (j + 1) ↔ matchesAt A z flag v j := by
  unfold matchesAt
  rw [List.getD_cons_succ, if_neg (by omega), if_neg (by omega),
    show j + 1 - 1 = (j - 1) + 1 from by omega, List.getD_cons_succ]

theorem straight_of_inv (g : PlaneGrid) (hinv : PipesInv g) (p : ℕ)
    (hp : p < g.pipes.length) (z : GridPoint) :
    ∀ i, 0 < i → i + 1 < (g.pipes.getD p []).length →
      (g.pipes.getD p []).getD i ⟨0, 0⟩ = z → isCrossAt g z = true →
      decide (((g.pipes.getD p []).getD (i - 1) ⟨0, 0⟩).x = z.x) =
        decide (((g.pipes.getD p []).getD (i + 1) ⟨0, 0⟩).x = z.x) := by
  intro i h0 hi1 hval hcross
  obtain ⟨-, -, -, hstraight, -⟩ := hinv
  have hs := hstraight p hp i (by omega) h0 hi1 (by rw [hval]; exact hcross)
  rw [hval] at hs
  exact hs

/-- Classification over a replaced pipe list, given the first match. -/
theorem classify_over (g : PlaneGrid) (v : Bool) (z : GridPoint)
    (Q : List (List GridPoint)) (q i : ℕ)
    (hnz : isNodeAt g z = false)
    (hq : q < Q.length) (hi : i < (Q.getD q []).length)
    (hm : matchesAt (Q.getD q []) z (isCrossAt g z) v i)
    (hfirst : ∀ j, j < i → ¬ matchesAt (Q.getD q []) z (isCrossAt g z) v j)
    (hpre : ∀ k', k' < q → ∀ i', i' < (Q.getD k' []).length →
      ¬ matchesAt (Q.getD k' []) z (isCrossAt g z) v i') :
    pipePieceAt (withPipes g Q) z v = classifyIdx (Q.getD q []).length q i := by
  rw [pipePieceAt_eq_classify _ _ _ (by rw [isNodeAt_withPipes]; exact hnz),
    isCrossAt_withPipes, withPipes_pipes]
  have hclass := pipesClassify_eq_of z (isCrossAt g z) v Q 0 q i hq hi hm hfirst
    (fun k' i' hk' hi' => hpre k' hk' i' hi')
  rw [hclass, Nat.zero_add]

/-- Classification over a replaced pipe list with no match anywhere. -/
theorem classify_over_none (g : PlaneGrid) (v : Bool) (z : GridPoint)
    (Q : List (List GridPoint))
    (hnz : isNodeAt g z = false)
    (hnone : ∀ k, k < Q.length → ∀ j, j < (Q.getD k []).length →
      ¬ matchesAt (Q.getD k []) z (isCrossAt g z) v j) :
    pipePieceAt (withPipes g Q) z v = .emptyOrNode false := by
  rw [pipePieceAt_eq_classify _ _ _ (by rw [isNodeAt_withPipes]; exact hnz),
    isCrossAt_withPipes, withPipes_pipes]
  exact pipesClassify_eq_none_of z (isCrossAt g z) v Q 0
    (fun k j hk hj => hnone k hk j hj)

theorem toggle_toggle_MS (g : PlaneGrid) (c1 c2 : GridPoint) (p1 : ℕ)
    (hinv : PipesInv g)
    (h1 : g.rect.contains c1 ∧ g.rect.contains c2)
    (h2 : c2.x - c1.x = 0 ∧ (c2.y - c1.y).natAbs = 1 ∨
        c2.y - c1.y = 0 ∧ (c2.x - c1.x).natAbs = 1)
    (h3 : ¬ (isWallAt g c1 ∨ isWallAt g c2))
    (hA : pipePieceAt g c1 (decide (c2.x - c1.x = 0)) = .middle p1 1)
    (hB : pipePieceAt g c2 (decide (c2.x - c1.x = 0)) = .start p1) :
    (togglePipe (togglePipe g c1 c2).2 c1 c2).2.pipes = g.pipes := by
  set v := decide (c2.x - c1.x = 0) with hv
  obtain ⟨hn1, hp1, hi1len, -, hi1nelen, hm1⟩ := pipePieceAt_middle_elim g c1 v hA
  obtain ⟨hn2, -, hlen0, hm2⟩ := pipePieceAt_start_elim g c2 v hB
  set A := g.pipes.getD p1 [] with hAdef
  have hlenA : 3 ≤ A.length := by omega
  have hne12 : c1 ≠ c2 := edge_ne c1 c2 h2
  have huniq1 := unique_occ_of_inv g hinv c1 v hn1 hp1 hi1len hm1
  have huniq2 := unique_occ_of_inv g hinv c2 v hn2 hp1 hlen0 hm2
  have hbr1 := togglePipe_branch_MS g c1 c2 p1 p1 1 h1 h2 h3 hA hB
  rw [if_pos ⟨rfl, rfl⟩] at hbr1
  rw [hbr1]
  set Q := g.pipes.set p1 (A.drop 1) with hQdef
  have hQlen : Q.length = g.pipes.length := List.length_set _ _ _
  have hQp1 : Q.getD p1 [] = A.drop 1 := getD_set_self [] g.pipes p1 _ hp1
  have hQk : ∀ k, k ≠ p1 → Q.getD k [] = g.pipes.getD k [] := fun k hk =>
    getD_set_ne [] g.pipes k p1 _ (fun e => hk e.symm)
  have hdroplen : (A.drop 1).length = A.length - 1 := List.length_drop 1 A
  have hstr1 := straight_of_inv g hinv p1 hp1 c1
  rw [← hAdef] at hstr1
  have hA' : pipePieceAt (withPipes g Q) c1 v = .start p1 := by
    have hcls := classify_over g v c1 Q p1 0 hn1
      (by rw [hQlen]; exact hp1)
      (by rw [hQp1, hdroplen]; omega)
      (by rw [hQp1]
          exact matchesAt_drop_one_head A c1 (isCrossAt g c1) v (by omega) hstr1 hm1)
      (fun j hj => absurd hj (Nat.not_lt_zero j))
      (fun k' hk' i' hi' => by
        rw [hQk k' (by omega)] at hi' ⊢
        exact no_match_of_unique g.pipes huniq1 (by omega) (by omega) i' hi')
    rw [hcls, hQp1]
    unfold classifyIdx
    rw [if_pos rfl]
  have hB' : pipePieceAt (withPipes g Q) c2 v = .emptyOrNode false := by
    apply classify_over_none g v c2 Q hn2
    intro k hk j hj
    rw [hQlen] at hk
    by_cases hkp : k = p1
    · rw [hkp] at hj ⊢
      rw [hQp1] at hj ⊢
      intro hm
      cases j with
      | zero =>
          have hval : A.getD 1 ⟨0, 0⟩ = c2 := by
            rw [← getD_drop (⟨0, 0⟩ : GridPoint) A 1 0]
            exact hm.1
          exact hne12 (hm1.1.symm.trans hval)
      | succ m =>
          have hmA := (matchesAt_drop_one A c2 (isCrossAt g c2) v (m + 1)
            (by omega)).mp hm
          exact absurd (huniq2 p1 (1 + (m + 1)) hp1
            (by rw [← hAdef]; rw [hdroplen] at hj; omega) hmA).2 (by omega)
    · rw [hQk k hkp] at hj ⊢
      exact no_match_of_unique g.pipes huniq2 hk hkp j hj
  have hbr2 := togglePipe_branch_SE (withPipes g Q) c1 c2 p1 false h1 h2 h3 hA' hB'
  rw [Bool.false_and, if_neg Bool.false_ne_true] at hbr2
  rw [hbr2, withPipes_pipes, withPipes_pipes, hQp1]
  have hcons : c2 :: A.drop 1 = A := by
    have h0 := cons_getD_drop_one (⟨0, 0⟩ : GridPoint) A (by omega)
    rw [hm2.1] at h0
    exact h0
  rw [hcons, hQdef, List.set_set]
  exact set_getD_self [] g.pipes p1 hp1

theorem toggle_toggle_MEnd (g : PlaneGrid) (c1 c2 : GridPoint) (p1 i1 : ℕ)
    (hinv : PipesInv g)
    (h1 : g.rect.contains c1 ∧ g.rect.contains c2)
    (h2 : c2.x - c1.x = 0 ∧ (c2.y - c1.y).natAbs = 1 ∨
        c2.y - c1.y = 0 ∧ (c2.x - c1.x).natAbs = 1)
    (h3 : ¬ (isWallAt g c1 ∨ isWallAt g c2))
    (hA : pipePieceAt g c1 (decide (c2.x - c1.x = 0)) = .middle p1 i1)
    (hB : pipePieceAt g c2 (decide (c2.x - c1.x = 0)) = .endp p1)
    (hc : i1 + 2 = (g.pipes.getD p1 []).length) :
    (togglePipe (togglePipe g c1 c2).2 c1 c2).2.pipes = g.pipes := by
  set v := decide (c2.x - c1.x = 0) with hv
  obtain ⟨hn1, hp1, hi1len, hi1ne0, -, hm1⟩ := pipePieceAt_middle_elim g c1 v hA
  obtain ⟨hn2, -, iB, hiB1, -, hmB⟩ := pipePieceAt_endp_elim g c2 v hB
  set A := g.pipes.getD p1 [] with hAdef
  have hlenA : 3 ≤ A.length := by omega
  have huniq1 := unique_occ_of_inv g hinv c1 v hn1 hp1 hi1len hm1
  have huniq2 := unique_occ_of_inv g hinv c2 v hn2 hp1 (by rw [← hAdef]; omega) hmB
  have hbr1 := togglePipe_branch_MEnd g c1 c2 p1 p1 i1 h1 h2 h3 hA hB
  rw [if_pos ⟨rfl, hc⟩] at hbr1
  rw [hbr1]
  set Q := g.pipes.set p1 A.dropLast with hQdef
  have hQlen : Q.length = g.pipes.length := List.length_set _ _ _
  have hQp1 : Q.getD p1 [] = A.dropLast := getD_set_self [] g.pipes p1 _ hp1
  have hQk : ∀ k, k ≠ p1 → Q.getD k [] = g.pipes.getD k [] := fun k hk =>
    getD_set_ne [] g.pipes k p1 _ (fun e => hk e.symm)
  have hdllen : A.dropLast.length = A.length - 1 := List.length_dropLast A
  have hA' : pipePieceAt (withPipes g Q) c1 v = .endp p1 := by
    have hcls := classify_over g v c1 Q p1 i1 hn1
      (by rw [hQlen]; exact hp1)
      (by rw [hQp1, hdllen]; omega)
      (by rw [hQp1]
          exact (matchesAt_dropLast A c1 (isCrossAt g c1) v i1 (by omega)
            (fun h0 => absurd h0 hi1ne0)).mpr hm1)
      (fun j hj => by
        rw [hQp1]
        intro hm
        have hmA := (matchesAt_dropLast A c1 (isCrossAt g c1) v j (by omega)
          (fun _ => by omega)).mp hm
        exact absurd (huniq1 p1 j hp1 (by rw [← hAdef]; omega) hmA).2 (by omega))
      (fun k' hk' i' hi' => by
        rw [hQk k' (by omega)] at hi' ⊢
        exact no_match_of_unique g.pipes huniq1 (by omega) (by omega) i' hi')
    rw [hcls, hQp1, hdllen]
    unfold classifyIdx
    rw [if_neg hi1ne0, if_pos (by omega)]
  have hB' : pipePieceAt (withPipes g Q) c2 v = .emptyOrNode false := by
    apply classify_over_none g v c2 Q hn2
    intro k hk j hj
    rw [hQlen] at hk
    by_cases hkp : k = p1
    · rw [hkp] at hj ⊢
      rw [hQp1] at hj ⊢
      rw [hdllen] at hj
      intro hm
      have hmA := (matchesAt_dropLast A c2 (isCrossAt g c2) v j (by omega)
        (fun _ => by omega)).mp hm
      exact absurd (huniq2 p1 j hp1 (by rw [← hAdef]; omega) hmA).2 (by omega)
    · rw [hQk k hkp] at hj ⊢
      exact no_match_of_unique g.pipes huniq2 hk hkp j hj
  have hbr2 := togglePipe_branch_EndE (withPipes g Q) c1 c2 p1 false h1 h2 h3 hA' hB'
  simp only [Bool.false_and] at hbr2
  rw [if_neg Bool.false_ne_true] at hbr2
  rw [hbr2, withPipes_pipes, withPipes_pipes, hQp1]
  have happ : A.dropLast ++ [c2] = A := by
    have h0 := dropLast_append_getD (⟨0, 0⟩ : GridPoint) A (by omega)
    rw [show A.length - 1 = iB from by omega, hmB.1] at h0
    exact h0
  rw [happ, hQdef, List.set_set]
  exact set_getD_self [] g.pipes p1 hp1

theorem toggle_toggle_EndM (g : PlaneGrid) (c1 c2 : GridPoint) (p1 i1 : ℕ)
    (hinv : PipesInv g)
    (h1 : g.rect.contains c1 ∧ g.rect.contains c2)
    (h2 : c2.x - c1.x = 0 ∧ (c2.y - c1.y).natAbs = 1 ∨
        c2.y - c1.y = 0 ∧ (c2.x - c1.x).natAbs = 1)
    (h3 : ¬ (isWallAt g c1 ∨ isWallAt g c2))
    (hA : pipePieceAt g c1 (decide (c2.x - c1.x = 0)) = .endp p1)
    (hB : pipePieceAt g c2 (decide (c2.x - c1.x = 0)) = .middle p1 i1)
    (hc : i1 + 2 = (g.pipes.getD p1 []).length) :
    (togglePipe (togglePipe g c1 c2).2 c1 c2).2.pipes = g.pipes := by
  set v := decide (c2.x - c1.x = 0) with hv
  obtain ⟨hn1, hp1, iB, hiB1, -, hmB⟩ := pipePieceAt_endp_elim g c1 v hA
  obtain ⟨hn2, -, hi1len, hi1ne0, -, hm1⟩ := pipePieceAt_middle_elim g c2 v hB
  set A := g.pipes.getD p1 [] with hAdef
  have hlenA : 3 ≤ A.length := by omega
  have huniq1 := unique_occ_of_inv g hinv c1 v hn1 hp1 (by rw [← hAdef]; omega) hmB
  have huniq2 := unique_occ_of_inv g hinv c2 v hn2 hp1 hi1len hm1
  have hbr1 := togglePipe_branch_EndM g c1 c2 p1 p1 i1 h1 h2 h3 hA hB
  rw [if_pos ⟨rfl, hc⟩] at hbr1
  rw [hbr1]
  set Q := g.pipes.set p1 A.dropLast with hQdef
  have hQlen : Q.length = g.pipes.length := List.length_set _ _ _
  have hQp1 : Q.getD p1 [] = A.dropLast := getD_set_self [] g.pipes p1 _ hp1
  have hQk : ∀ k, k ≠ p1 → Q.getD k [] = g.pipes.getD k [] := fun k hk =>
    getD_set_ne [] g.pipes k p1 _ (fun e => hk e.symm)
  have hdllen : A.dropLast.length = A.length - 1 := List.length_dropLast A
  have hA' : pipePieceAt (withPipes g Q) c1 v = .emptyOrNode false := by
    apply classify_over_none g v c1 Q hn1
    intro k hk j hj
    rw [hQlen] at hk
    by_cases hkp : k = p1
    · rw [hkp] at hj ⊢
      rw [hQp1] at hj ⊢
      rw [hdllen] at hj
      intro hm
      have hmA := (matchesAt_dropLast A c1 (isCrossAt g c1) v j (by omega)
        (fun _ => by omega)).mp hm
      exact absurd (huniq1 p1 j hp1 (by rw [← hAdef]; omega) hmA).2 (by omega)
    · rw [hQk k hkp] at hj ⊢
      exact no_match_of_unique g.pipes huniq1 hk hkp j hj
  have hB' : pipePieceAt (withPipes g Q) c2 v = .endp p1 := by
    have hcls := classify_over g v c2 Q p1 i1 hn2
      (by rw [hQlen]; exact hp1)
      (by rw [hQp1, hdllen]; omega)
      (by rw [hQp1]
          exact (matchesAt_dropLast A c2 (isCrossAt g c2) v i1 (by omega)
            (fun h0 => absurd h0 hi1ne0)).mpr hm1)
      (fun j hj => by
        rw [hQp1]
        intro hm
        have hmA := (matchesAt_dropLast A c2 (isCrossAt g c2) v j (by omega)
          (fun _ => by omega)).mp hm
        exact absurd (huniq2 p1 j hp1 (by rw [← hAdef]; omega) hmA).2 (by omega))
      (fun k' hk' i' hi' => by
        rw [hQk k' (by omega)] at hi' ⊢
        exact no_match_of_unique g.pipes huniq2 (by omega) (by omega) i' hi')
    rw [hcls, hQp1, hdllen]
    unfold classifyIdx
    rw [if_neg hi1ne0, if_pos (by omega)]
  have hbr2 := togglePipe_branch_EEnd (withPipes g Q) c1 c2 false p1 h1 h2 h3 hA' hB'
  simp only [Bool.false_and] at hbr2
  rw [if_neg Bool.false_ne_true] at hbr2
  rw [hbr2, withPipes_pipes, withPipes_pipes, hQp1]
  have happ : A.dropLast ++ [c1] = A := by
    have h0 := dropLast_append_getD (⟨0, 0⟩ : GridPoint) A (by omega)
    rw [show A.length - 1 = iB from by omega, hmB.1] at h0
    exact h0
  rw [happ, hQdef, List.set_set]
  exact set_getD_self [] g.pipes p1 hp1

theorem matchesAt_take (A : List GridPoint) (z : GridPoint) (flag v : Bool)
    (t j : ℕ) (hj : j < t) (hj0 : j = 0 → 1 < t) :
    matchesAt (A.take t) z flag v j ↔ matchesAt A z flag v j := by
  unfold matchesAt
  rw [getD_take (⟨0, 0⟩ : GridPoint) A t j hj]
  cases j with
  | zero =>
      rw [show (if (0 : ℕ) = 0 then 1 else 0 - 1) = 1 from rfl,
        getD_take (⟨0, 0⟩ : GridPoint) A t 1 (by have := hj0 rfl; omega)]
  | succ m =>
      rw [show (if m + 1 = 0 then 1 else m + 1 - 1) = m from rfl,
        getD_take (⟨0, 0⟩ : GridPoint) A t m (by omega)]

theorem swapRemove_concat {α : Type} (l : List α) (x : α) :
    swapRemove (l ++ [x]) l.length = l := by
  unfold swapRemove
  rw [List.getLast?_concat]
  have hset : (l ++ [x]).set l.length x = l ++ [x] := by
    have := set_getD_self x (l ++ [x]) l.length
      (by rw [List.length_append]; simp)
    rw [getD_concat_last x l x] at this
    exact this
  show ((l ++ [x]).set l.length x).dropLast = l
  rw [hset, List.dropLast_concat]

theorem classify_split_endp (g : PlaneGrid) (v : Bool) (z : GridPoint)
    (p1 imin imax : ℕ)
    (hp1 : p1 < g.pipes.length)
    (hmin0 : imin ≠ 0) (hminmax : imin + 1 = imax)
    (hmaxlen : imax < (g.pipes.getD p1 []).length)
    (hnz : isNodeAt g z = false)
    (hmz : matchesAt (g.pipes.getD p1 []) z (isCrossAt g z) v imin)
    (huniqz : ∀ k j, k < g.pipes.length → j < (g.pipes.getD k []).length →
      matchesAt (g.pipes.getD k []) z (isCrossAt g z) v j → k = p1 ∧ j = imin) :
    pipePieceAt (withPipes g
      ((g.pipes.set p1 ((g.pipes.getD p1 []).take imax)) ++
        [(g.pipes.getD p1 []).drop imax])) z v = .endp p1 := by
  set A := g.pipes.getD p1 [] with hAdef
  set pre := A.take imax with hpredef
  set Q := (g.pipes.set p1 pre) ++ [A.drop imax] with hQdef
  have hsetlen : (g.pipes.set p1 pre).length = g.pipes.length :=
    List.length_set _ _ _
  have hprelen : pre.length = imax := by
    rw [hpredef, List.length_take]
    omega
  have hQp1 : Q.getD p1 [] = pre := by
    rw [hQdef, getD_append_left [] _ _ p1 (by rw [hsetlen]; exact hp1),
      getD_set_self [] g.pipes p1 pre hp1]
  have hQk : ∀ k, k < g.pipes.length → k ≠ p1 →
      Q.getD k [] = g.pipes.getD k [] := by
    intro k hk hkne
    rw [hQdef, getD_append_left [] _ _ k (by rw [hsetlen]; omega),
      getD_set_ne [] g.pipes k p1 pre (fun e => hkne e.symm)]
  have hcls := classify_over g v z Q p1 imin hnz
    (by rw [hQdef, List.length_append, hsetlen, List.length_singleton]; omega)
    (by rw [hQp1, hprelen]; omega)
    (by rw [hQp1, hpredef]
        exact (matchesAt_take A z (isCrossAt g z) v imax imin (by omega)
          (fun h0 => absurd h0 hmin0)).mpr hmz)
    (fun j hj => by
      rw [hQp1, hpredef]
      intro hm
      have hmA := (matchesAt_take A z (isCrossAt g z) v imax j (by omega)
        (fun _ => by omega)).mp hm
      exact absurd (huniqz p1 j hp1 (by rw [← hAdef]; omega) hmA).2 (by omega))
    (fun k' hk' i' hi' => by
      rw [hQk k' (by omega) (by omega)] at hi' ⊢
      exact no_match_of_unique g.pipes huniqz (by omega) (by omega) i' hi')
  rw [hcls, hQp1, hprelen]
  unfold classifyIdx
  rw [if_neg hmin0, if_pos hminmax]

theorem classify_split_start (g : PlaneGrid) (v : Bool) (z : GridPoint)
    (p1 imin imax : ℕ)
    (hinv : PipesInv g)
    (hp1 : p1 < g.pipes.length)
    (hmin0 : imin ≠ 0) (hminmax : imin + 1 = imax)
    (hmaxlen : imax + 1 < (g.pipes.getD p1 []).length)
    (hnz : isNodeAt g z = false)
    (hmz : matchesAt (g.pipes.getD p1 []) z (isCrossAt g z) v imax)
    (huniqz : ∀ k j, k < g.pipes.length → j < (g.pipes.getD k []).length →
      matchesAt (g.pipes.getD k []) z (isCrossAt g z) v j → k = p1 ∧ j = imax) :
    pipePieceAt (withPipes g
      ((g.pipes.set p1 ((g.pipes.getD p1 []).take imax)) ++
        [(g.pipes.getD p1 []).drop imax])) z v = .start g.pipes.length := by
  set A := g.pipes.getD p1 [] with hAdef
  set pre := A.take imax with hpredef
  set Q := (g.pipes.set p1 pre) ++ [A.drop imax] with hQdef
  have hsetlen : (g.pipes.set p1 pre).length = g.pipes.length :=
    List.length_set _ _ _
  have hprelen : pre.length = imax := by
    rw [hpredef, List.length_take]
    omega
  have hQlast : Q.getD g.pipes.length [] = A.drop imax := by
    rw [hQdef, ← hsetlen, getD_concat_last []]
  have hQp1 : Q.getD p1 [] = pre := by
    rw [hQdef, getD_append_left [] _ _ p1 (by rw [hsetlen]; exact hp1),
      getD_set_self [] g.pipes p1 pre hp1]
  have hstrz := straight_of_inv g hinv p1 hp1 z
  rw [← hAdef] at hstrz
  have hcls := classify_over g v z Q g.pipes.length 0 hnz
    (by rw [hQdef, List.length_append, hsetlen, List.length_singleton]; omega)
    (by rw [hQlast, List.length_drop]; omega)
    (by rw [hQlast]
        refine ⟨by rw [getD_drop (⟨0, 0⟩ : GridPoint) A imax 0, Nat.add_zero]
                   exact hmz.1,
          fun hflag => ?_⟩
        rw [show (if (0 : ℕ) = 0 then 1 else 0 - 1) = 1 from rfl,
          getD_drop (⟨0, 0⟩ : GridPoint) A imax 1]
        have hs := hstrz imax (by omega) (by omega) hmz.1 hflag
        have ha := hmz.2 hflag
        rw [if_neg (by omega)] at ha
        exact hs.symm.trans ha)
    (fun j hj => absurd hj (Nat.not_lt_zero j))
    (fun k' hk' i' hi' => by
      by_cases hkp : k' = p1
      · rw [hkp] at hi' ⊢
        rw [hQp1] at hi' ⊢
        intro hm
        have hi'' : i' < imax := by
          rw [hpredef, List.length_take] at hi'
          omega
        have hmA := (matchesAt_take A z (isCrossAt g z) v imax i' hi''
          (fun _ => by omega)).mp (by rw [hpredef] at hm; exact hm)
        exact absurd (huniqz p1 i' hp1
          (hAdef ▸ (show i' < A.length from by omega)) hmA).2 (by omega)
      · have hQk : Q.getD k' [] = g.pipes.getD k' [] := by
          rw [hQdef, getD_append_left [] _ _ k' (by rw [hsetlen]; omega),
            getD_set_ne [] g.pipes k' p1 pre (fun e => hkp e.symm)]
        rw [hQk] at hi' ⊢
        exact no_match_of_unique g.pipes huniqz (by omega) (by omega) i' hi')
  rw [hcls, hQlast]
  unfold classifyIdx
  rw [if_pos rfl]

theorem toggle_toggle_MM (g : PlaneGrid) (c1 c2 : GridPoint) (p1 i1 i2 : ℕ)
    (hinv : PipesInv g)
    (h1 : g.rect.contains c1 ∧ g.rect.contains c2)
    (h2 : c2.x - c1.x = 0 ∧ (c2.y - c1.y).natAbs = 1 ∨
        c2.y - c1.y = 0 ∧ (c2.x - c1.x).natAbs = 1)
    (h3 : ¬ (isWallAt g c1 ∨ isWallAt g c2))
    (hA : pipePieceAt g c1 (decide (c2.x - c1.x = 0)) = .middle p1 i1)
    (hB : pipePieceAt g c2 (decide (c2.x - c1.x = 0)) = .middle p1 i2)
    (hc : min i1 i2 + 1 = max i1 i2) :
    (togglePipe (togglePipe g c1 c2).2 c1 c2).2.pipes = g.pipes := by
  set v := decide (c2.x - c1.x = 0) with hv
  obtain ⟨hn1, hp1, hi1len, hi1ne0, hi1nelen, hm1⟩ := pipePieceAt_middle_elim g c1 v hA
  obtain ⟨hn2, -, hi2len, hi2ne0, hi2nelen, hm2⟩ := pipePieceAt_middle_elim g c2 v hB
  set A := g.pipes.getD p1 [] with hAdef
  have huniq1 := unique_occ_of_inv g hinv c1 v hn1 hp1 hi1len hm1
  have huniq2 := unique_occ_of_inv g hinv c2 v hn2 hp1 hi2len hm2
  have hbr1 := togglePipe_branch_MM g c1 c2 p1 p1 i1 i2 h1 h2 h3 hA hB
  rw [if_neg (not_not_intro rfl), if_neg (not_not_intro hc)] at hbr1
  rw [hbr1]
  set pre := A.take (max i1 i2) with hpredef
  set suf := A.drop (max i1 i2) with hsufdef
  set Q := (g.pipes.set p1 pre) ++ [suf] with hQdef
  have hsetlen : (g.pipes.set p1 pre).length = g.pipes.length :=
    List.length_set _ _ _
  have hLne : p1 ≠ g.pipes.length := by omega
  have hfinal : (g.pipes.set p1 pre).set p1 (pre ++ suf) = g.pipes := by
    rw [List.set_set, hpredef, hsufdef, List.take_append_drop]
    exact set_getD_self [] g.pipes p1 hp1
  have hsw : swapRemove Q g.pipes.length = g.pipes.set p1 pre := by
    rw [hQdef, ← hsetlen]
    exact swapRemove_concat (g.pipes.set p1 pre) suf
  have hgetp1 : (g.pipes.set p1 pre).getD p1 [] = pre :=
    getD_set_self [] g.pipes p1 pre hp1
  have hgetL : Q.getD g.pipes.length [] = suf := by
    rw [hQdef, ← hsetlen, getD_concat_last []]
  rcases Nat.lt_or_ge i1 i2 with hlt | hge
  · have hmax : max i1 i2 = i2 := by omega
    have hA' : pipePieceAt (withPipes g Q) c1 v = .endp p1 := by
      rw [hQdef, hpredef, hsufdef, hmax]
      exact classify_split_endp g v c1 p1 i1 i2 hp1 hi1ne0 (by omega)
        (by rw [← hAdef]; omega) hn1 hm1 huniq1
    have hB' : pipePieceAt (withPipes g Q) c2 v = .start g.pipes.length := by
      rw [hQdef, hpredef, hsufdef, hmax]
      exact classify_split_start g v c2 p1 i1 i2 hinv hp1 (by omega) (by omega)
        (by rw [← hAdef]; omega) hn2 hm2 huniq2
    have hbr2 := togglePipe_branch_EndS (withPipes g Q) c1 c2 p1
      g.pipes.length h1 h2 h3 hA' hB'
    rw [if_neg hLne, if_pos (by omega)] at hbr2
    rw [hbr2]
    simp only [withPipes_pipes]
    rw [hsw, hgetp1, hgetL, hfinal]
  · have hmax : max i1 i2 = i1 := by omega
    have hne : i1 ≠ i2 := by omega
    have hA' : pipePieceAt (withPipes g Q) c1 v = .start g.pipes.length := by
      rw [hQdef, hpredef, hsufdef, hmax]
      exact classify_split_start g v c1 p1 i2 i1 hinv hp1 (by omega) (by omega)
        (by rw [← hAdef]; omega) hn1 hm1 huniq1
    have hB' : pipePieceAt (withPipes g Q) c2 v = .endp p1 := by
      rw [hQdef, hpredef, hsufdef, hmax]
      exact classify_split_endp g v c2 p1 i2 i1 hp1 hi2ne0 (by omega)
        (by rw [← hAdef]; omega) hn2 hm2 huniq2
    have hbr2 := togglePipe_branch_SEnd (withPipes g Q) c1 c2 p1
      g.pipes.length h1 h2 h3 hA' hB'
    rw [if_neg hLne, if_pos (by omega)] at hbr2
    rw [hbr2]
    simp only [withPipes_pipes]
    rw [hsw, hgetp1, hgetL, hfinal]

theorem pipeUnord_reverse (l : List GridPoint) :
    pipeUnord l.reverse = pipeUnord l := by
  unfold pipeUnord
  rw [List.reverse_reverse]
  exact Multiset.cons_swap _ _ _

theorem slot_value_merge (P : List (List GridPoint)) (pmin pmax k : ℕ)
    (M : List GridPoint)
    (hminmax : pmin < pmax) (hmax : pmax < P.length)
    (hk : k < ((swapRemove P pmax).set pmin M).length) (hkmin : k ≠ pmin) :
    ∃ m, m < P.length ∧ m ≠ pmin ∧ m ≠ pmax ∧
      ((swapRemove P pmax).set pmin M).getD k [] = P.getD m [] := by
  have hPne : P ≠ [] := by
    intro e
    subst e
    simp at hmax
  have hlen : ((swapRemove P pmax).set pmin M).length = P.length - 1 := by
    rw [List.length_set, length_swapRemove _ _ hPne]
  rw [hlen] at hk
  refine ⟨if k = pmax then P.length - 1 else k, ?_, ?_, ?_, ?_⟩
  · split <;> omega
  · split
    · omega
    · exact hkmin
  · split
    · rename_i h
      omega
    · rename_i h
      exact h
  · rw [getD_set_ne [] _ k pmin M (fun e => hkmin e.symm)]
    exact getD_swapRemove [] P pmax k hk

theorem classify_merge_SS_low (g : PlaneGrid) (v : Bool)
    (pmin pmax : ℕ) (zA : GridPoint)
    (hinv : PipesInv g)
    (hminmax : pmin < pmax) (hmax : pmax < g.pipes.length)
    (hlenA : 2 ≤ (g.pipes.getD pmin []).length)
    (hnA : isNodeAt g zA = false)
    (hmA : matchesAt (g.pipes.getD pmin []) zA (isCrossAt g zA) v 0)
    (huniqA : ∀ k j, k < g.pipes.length → j < (g.pipes.getD k []).length →
      matchesAt (g.pipes.getD k []) zA (isCrossAt g zA) v j → k = pmin ∧ j = 0)
    (hlenB : 2 ≤ (g.pipes.getD pmax []).length) :
    pipePieceAt (withPipes g ((swapRemove g.pipes pmax).set pmin
      ((g.pipes.getD pmin []).reverse ++ g.pipes.getD pmax []))) zA v =
      .middle pmin ((g.pipes.getD pmin []).length - 1) := by
  set A := g.pipes.getD pmin [] with hAdef
  set B := g.pipes.getD pmax [] with hBdef
  set M := A.reverse ++ B with hMdef
  set Q := (swapRemove g.pipes pmax).set pmin M with hQdef
  have hPne : g.pipes ≠ [] := by
    intro e
    rw [e] at hmax
    simp at hmax
  have hQlen : Q.length = g.pipes.length - 1 := by
    rw [hQdef, List.length_set, length_swapRemove _ _ hPne]
  have hQmin : Q.getD pmin [] = M := by
    rw [hQdef]
    exact getD_set_self [] _ pmin M (by rw [length_swapRemove _ _ hPne]; omega)
  have hMlen : M.length = A.length + B.length := by
    rw [hMdef, List.length_append, List.length_reverse]
  have hstrA := straight_of_inv g hinv pmin (by omega) zA
  rw [← hAdef] at hstrA
  have hcls := classify_over g v zA Q pmin (A.length - 1) hnA
    (by omega)
    (by rw [hQmin, hMlen]; omega)
    (by rw [hQmin, hMdef]
        refine (matchesAt_append_left A.reverse B zA (isCrossAt g zA) v
          (A.length - 1) (by rw [List.length_reverse]; omega)
          (fun h0 => by rw [List.length_reverse]; omega)).mpr ?_
        exact (matchesAt_reverse_last A zA (isCrossAt g zA) v hlenA).mpr hmA)
    (fun j hj => by
      rw [hQmin, hMdef]
      intro hm
      have hrev := (matchesAt_append_left A.reverse B zA (isCrossAt g zA) v j
        (by rw [List.length_reverse]; omega)
        (fun _ => by rw [List.length_reverse]; omega)).mp hm
      have hmA' := matchesAt_reverse_to A zA (isCrossAt g zA) v j hlenA
        (by omega) hstrA hrev
      exact absurd (huniqA pmin (A.length - 1 - j) (by omega)
        (hAdef ▸ (show A.length - 1 - j < A.length from by omega)) hmA').2
        (by omega))
    (fun k' hk' i' hi' => by
      obtain ⟨m, hm1, hm2, hm3, hval⟩ := slot_value_merge g.pipes pmin pmax k'
        M hminmax hmax (by rw [← hQdef, hQlen]; omega) (by omega)
      rw [← hQdef] at hval
      rw [hval] at hi' ⊢
      exact no_match_of_unique g.pipes huniqA hm1 hm2 i' hi')
  rw [hcls, hQmin, hMlen]
  unfold classifyIdx
  rw [if_neg (by omega), if_neg (by omega)]

theorem classify_merge_SS_high (g : PlaneGrid) (v : Bool)
    (pmin pmax : ℕ) (zA zB : GridPoint)
    (hinv : PipesInv g)
    (hminmax : pmin < pmax) (hmax : pmax < g.pipes.length)
    (hlenA : 2 ≤ (g.pipes.getD pmin []).length)
    (hlenB : 2 ≤ (g.pipes.getD pmax []).length)
    (hnB : isNodeAt g zB = false)
    (hmB : matchesAt (g.pipes.getD pmax []) zB (isCrossAt g zB) v 0)
    (huniqB : ∀ k j, k < g.pipes.length → j < (g.pipes.getD k []).length →
      matchesAt (g.pipes.getD k []) zB (isCrossAt g zB) v j → k = pmax ∧ j = 0)
    (hvalA0 : (g.pipes.getD pmin []).getD 0 ⟨0, 0⟩ = zA)
    (haxis : isCrossAt g zB = true → decide (zA.x = zB.x) = v) :
    pipePieceAt (withPipes g ((swapRemove g.pipes pmax).set pmin
      ((g.pipes.getD pmin []).reverse ++ g.pipes.getD pmax []))) zB v =
      .middle pmin (g.pipes.getD pmin []).length := by
  set A := g.pipes.getD pmin [] with hAdef
  set B := g.pipes.getD pmax [] with hBdef
  set M := A.reverse ++ B with hMdef
  set Q := (swapRemove g.pipes pmax).set pmin M with hQdef
  have hPne : g.pipes ≠ [] := by
    intro e
    rw [e] at hmax
    simp at hmax
  have hQlen : Q.length = g.pipes.length - 1 := by
    rw [hQdef, List.length_set, length_swapRemove _ _ hPne]
  have hQmin : Q.getD pmin [] = M := by
    rw [hQdef]
    exact getD_set_self [] _ pmin M (by rw [length_swapRemove _ _ hPne]; omega)
  have hMlen : M.length = A.length + B.length := by
    rw [hMdef, List.length_append, List.length_reverse]
  have hstrB := straight_of_inv g hinv pmax hmax zB
  rw [← hBdef] at hstrB
  have hcls := classify_over g v zB Q pmin A.length hnB
    (by omega)
    (by rw [hQmin, hMlen]; omega)
    (by rw [hQmin, hMdef]
        refine ⟨?_, fun hflag => ?_⟩
        · rw [getD_append_right (⟨0, 0⟩ : GridPoint) A.reverse B A.length
            (by rw [List.length_reverse]),
            List.length_reverse, Nat.sub_self]
          exact hmB.1
        · rw [if_neg (by omega),
            getD_append_left (⟨0, 0⟩ : GridPoint) A.reverse B (A.length - 1)
              (by rw [List.length_reverse]; omega),
            getD_reverse (⟨0, 0⟩ : GridPoint) A (A.length - 1) (by omega),
            show A.length - 1 - (A.length - 1) = 0 from by omega, hvalA0]
          exact haxis hflag)
    (fun j hj => by
      rw [hQmin, hMdef]
      intro hm
      have hrev := (matchesAt_append_left A.reverse B zB (isCrossAt g zB) v j
        (by rw [List.length_reverse]; omega)
        (fun _ => by rw [List.length_reverse]; omega)).mp hm
      have hstrA' := straight_of_inv g hinv pmin (by omega) zB
      rw [← hAdef] at hstrA'
      have hmB' := matchesAt_reverse_to A zB (isCrossAt g zB) v j hlenA
        (by omega) hstrA' hrev
      exact absurd (huniqB pmin (A.length - 1 - j) (by omega)
        (hAdef ▸ (show A.length - 1 - j < A.length from by omega)) hmB').1
        (by omega))
    (fun k' hk' i' hi' => by
      obtain ⟨m, hm1, hm2, hm3, hval⟩ := slot_value_merge g.pipes pmin pmax k'
        M hminmax hmax (by rw [← hQdef, hQlen]; omega) (by omega)
      rw [← hQdef] at hval
      rw [hval] at hi' ⊢
      exact no_match_of_unique g.pipes huniqB hm1 hm3 i' hi')
  rw [hcls, hQmin, hMlen]
  unfold classifyIdx
  rw [if_neg (by omega), if_neg (by omega)]

theorem toggle_toggle_SS (g : PlaneGrid) (c1 c2 : GridPoint) (p1 p2 : ℕ)
    (hinv : PipesInv g)
    (h1 : g.rect.contains c1 ∧ g.rect.contains c2)
    (h2 : c2.x - c1.x = 0 ∧ (c2.y - c1.y).natAbs = 1 ∨
        c2.y - c1.y = 0 ∧ (c2.x - c1.x).natAbs = 1)
    (h3 : ¬ (isWallAt g c1 ∨ isWallAt g c2))
    (hA : pipePieceAt g c1 (decide (c2.x - c1.x = 0)) = .start p1)
    (hB : pipePieceAt g c2 (decide (c2.x - c1.x = 0)) = .start p2) :
    pipesEquiv ((togglePipe (togglePipe g c1 c2).2 c1 c2).2).pipes
      g.pipes := by
  set v := decide (c2.x - c1.x = 0) with hv
  obtain ⟨hn1, hp1, hlen01, hm1⟩ := pipePieceAt_start_elim g c1 v hA
  obtain ⟨hn2, hp2, hlen02, hm2⟩ := pipePieceAt_start_elim g c2 v hB
  have hne12 : c1 ≠ c2 := edge_ne c1 c2 h2
  have huniq1 := unique_occ_of_inv g hinv c1 v hn1 hp1 hlen01 hm1
  have huniq2 := unique_occ_of_inv g hinv c2 v hn2 hp2 hlen02 hm2
  have hp12 : p1 ≠ p2 := by
    intro e
    subst e
    exact hne12 (hm1.1.symm.trans hm2.1)
  have hlenA2 : 2 ≤ (g.pipes.getD p1 []).length := hinv.1 p1 hp1
  have hlenB2 : 2 ≤ (g.pipes.getD p2 []).length := hinv.1 p2 hp2
  have hABne : g.pipes.getD p1 [] ≠ g.pipes.getD p2 [] := by
    intro e
    have hm2' : matchesAt (g.pipes.getD p1 []) c2 (isCrossAt g c2) v 0 := by
      rw [e]
      exact hm2
    exact hp12 (huniq2 p1 0 hp1 (by omega) hm2').1
  have hbr1 := togglePipe_branch_SS g c1 c2 p1 p2 h1 h2 h3 hA hB
  rcases Nat.lt_or_ge p1 p2 with hlt | hge
  · rw [show max p1 p2 = p2 from by omega, show min p1 p2 = p1 from by omega]
      at hbr1
    have hswA : (swapRemove g.pipes p2).getD p1 [] = g.pipes.getD p1 [] := by
      rw [getD_swapRemove [] g.pipes p2 p1 (by omega), if_neg (by omega)]
    rw [hswA] at hbr1
    rw [hbr1]
    have hA' := classify_merge_SS_low g v p1 p2 c1 hinv hlt hp2 hlenA2 hn1
      hm1 huniq1 hlenB2
    have hB' := classify_merge_SS_high g v p1 p2 c1 c2 hinv hlt hp2 hlenA2
      hlenB2 hn2 hm2 huniq2 hm1.1
      (fun _ => (edge_axis₂ c1 c2 h2).trans hv.symm)
    have hbr2 := togglePipe_branch_MM (withPipes g
        ((swapRemove g.pipes p2).set p1
          ((g.pipes.getD p1 []).reverse ++ g.pipes.getD p2 []))) c1 c2
      p1 p1 ((g.pipes.getD p1 []).length - 1) (g.pipes.getD p1 []).length
      h1 h2 h3 hA' hB'
    rw [if_neg (not_not_intro rfl), if_neg (not_not_intro (by omega)),
      show max ((g.pipes.getD p1 []).length - 1) (g.pipes.getD p1 []).length
        = (g.pipes.getD p1 []).length from by omega] at hbr2
    rw [hbr2]
    simp only [withPipes_pipes]
    set A := g.pipes.getD p1 [] with hAdef
    set B := g.pipes.getD p2 [] with hBdef
    set M := A.reverse ++ B with hMdef
    set Q := (swapRemove g.pipes p2).set p1 M with hQdef
    have hPne : g.pipes ≠ [] := by
      intro e
      rw [e] at hp2
      simp at hp2
    have hQlen : Q.length = g.pipes.length - 1 := by
      rw [hQdef, List.length_set, length_swapRemove _ _ hPne]
    have hQmin : Q.getD p1 [] = M := by
      rw [hQdef]
      exact getD_set_self [] _ p1 M (by rw [length_swapRemove _ _ hPne]; omega)
    rw [hQmin, hMdef,
      show A.length = A.reverse.length from (List.length_reverse A).symm,
      List.take_left, List.drop_left]
    show Multiset.map pipeUnord ↑(Q.set p1 A.reverse ++ [B]) =
      Multiset.map pipeUnord ↑g.pipes
    have hc1 : (↑(Q.set p1 A.reverse ++ [B]) : Multiset (List GridPoint)) =
        B ::ₘ ↑(Q.set p1 A.reverse) := coe_concat_multiset _ B
    have hc2 : (↑(Q.set p1 A.reverse) : Multiset (List GridPoint)) =
        A.reverse ::ₘ (↑Q : Multiset (List GridPoint)).erase M := by
      have := multiset_set_eq [] Q p1 A.reverse (by omega)
      rw [hQmin] at this
      exact this
    have hc3 : (↑Q : Multiset (List GridPoint)) =
        M ::ₘ ((↑g.pipes : Multiset (List GridPoint)).erase B).erase A := by
      have hs1 := multiset_set_eq [] (swapRemove g.pipes p2) p1 M
        (by rw [length_swapRemove _ _ hPne]; omega)
      rw [← hQdef] at hs1
      rw [hs1, hswA, multiset_swapRemove_eq [] g.pipes p2 hp2, ← hBdef]
    have hAmem : A ∈ (↑g.pipes : Multiset (List GridPoint)).erase B := by
      rw [Multiset.mem_erase_of_ne hABne]
      exact Multiset.mem_coe.mpr (getD_mem [] g.pipes p1 hp1)
    have hBmem : B ∈ (↑g.pipes : Multiset (List GridPoint)) :=
      Multiset.mem_coe.mpr (getD_mem [] g.pipes p2 hp2)
    rw [hc1, hc2, hc3, Multiset.erase_cons_head]
    conv_rhs => rw [← Multiset.cons_erase hBmem, ← Multiset.cons_erase hAmem]
    simp only [Multiset.map_cons]
    rw [pipeUnord_reverse]
  · have hgt : p2 < p1 := by omega
    rw [show max p1 p2 = p1 from by omega, show min p1 p2 = p2 from by omega]
      at hbr1
    have hswA : (swapRemove g.pipes p1).getD p2 [] = g.pipes.getD p2 [] := by
      rw [getD_swapRemove [] g.pipes p1 p2 (by omega), if_neg (by omega)]
    rw [hswA] at hbr1
    rw [hbr1]
    have hA' := classify_merge_SS_high g v p2 p1 c2 c1 hinv hgt hp1 hlenB2
      hlenA2 hn1 hm1 huniq1 hm2.1
      (fun _ => (edge_axis₁ c1 c2 h2).trans hv.symm)
    have hB' := classify_merge_SS_low g v p2 p1 c2 hinv hgt hp1 hlenB2 hn2
      hm2 huniq2 hlenA2
    have hbr2 := togglePipe_branch_MM (withPipes g
        ((swapRemove g.pipes p1).set p2
          ((g.pipes.getD p2 []).reverse ++ g.pipes.getD p1 []))) c1 c2
      p2 p2 (g.pipes.getD p2 []).length ((g.pipes.getD p2 []).length - 1)
      h1 h2 h3 hA' hB'
    rw [if_neg (not_not_intro rfl), if_neg (not_not_intro (by omega)),
      show max (g.pipes.getD p2 []).length ((g.pipes.getD p2 []).length - 1)
        = (g.pipes.getD p2 []).length from by omega] at hbr2
    rw [hbr2]
    simp only [withPipes_pipes]
    set A := g.pipes.getD p2 [] with hAdef
    set B := g.pipes.getD p1 [] with hBdef
    set M := A.reverse ++ B with hMdef
    set Q := (swapRemove g.pipes p1).set p2 M with hQdef
    have hPne : g.pipes ≠ [] := by
      intro e
      rw [e] at hp1
      simp at hp1
    have hQlen : Q.length = g.pipes.length - 1 := by
      rw [hQdef, List.length_set, length_swapRemove _ _ hPne]
    have hQmin : Q.getD p2 [] = M := by
      rw [hQdef]
      exact getD_set_self [] _ p2 M (by rw [length_swapRemove _ _ hPne]; omega)
    rw [hQmin, hMdef,
      show A.length = A.reverse.length from (List.length_reverse A).symm,
      List.take_left, List.drop_left]
    show Multiset.map pipeUnord ↑(Q.set p2 A.reverse ++ [B]) =
      Multiset.map pipeUnord ↑g.pipes
    have hc1 : (↑(Q.set p2 A.reverse ++ [B]) : Multiset (List GridPoint)) =
        B ::ₘ ↑(Q.set p2 A.reverse) := coe_concat_multiset _ B
    have hc2 : (↑(Q.set p2 A.reverse) : Multiset (List GridPoint)) =
        A.reverse ::ₘ (↑Q : Multiset (List GridPoint)).erase M := by
      have := multiset_set_eq [] Q p2 A.reverse (by omega)
      rw [hQmin] at this
      exact this
    have hc3 : (↑Q : Multiset (List GridPoint)) =
        M ::ₘ ((↑g.pipes : Multiset (List GridPoint)).erase B).erase A := by
      have hs1 := multiset_set_eq [] (swapRemove g.pipes p1) p2 M
        (by rw [length_swapRemove _ _ hPne]; omega)
      rw [← hQdef] at hs1
      rw [hs1, hswA, multiset_swapRemove_eq [] g.pipes p1 hp1, ← hBdef]
    have hAmem : A ∈ (↑g.pipes : Multiset (List GridPoint)).erase B := by
      rw [Multiset.mem_erase_of_ne hABne.symm]
      exact Multiset.mem_coe.mpr (getD_mem [] g.pipes p2 hp2)
    have hBmem : B ∈ (↑g.pipes : Multiset (List GridPoint)) :=
      Multiset.mem_coe.mpr (getD_mem [] g.pipes p1 hp1)
    rw [hc1, hc2, hc3, Multiset.erase_cons_head]
    conv_rhs => rw [← Multiset.cons_erase hBmem, ← Multiset.cons_erase hAmem]
    simp only [Multiset.map_cons]
    rw [pipeUnord_reverse]

theorem classify_merge_EE_low (g : PlaneGrid) (v : Bool)
    (pmin pmax ia : ℕ) (zA : GridPoint)
    (hminmax : pmin < pmax) (hmax : pmax < g.pipes.length)
    (hia1 : ia + 1 = (g.pipes.getD pmin []).length) (hiane : ia ≠ 0)
    (hnA : isNodeAt g zA = false)
    (hmA : matchesAt (g.pipes.getD pmin []) zA (isCrossAt g zA) v ia)
    (huniqA : ∀ k j, k < g.pipes.length → j < (g.pipes.getD k []).length →
      matchesAt (g.pipes.getD k []) zA (isCrossAt g zA) v j → k = pmin ∧ j = ia)
    (hlenB : 2 ≤ (g.pipes.getD pmax []).length) :
    pipePieceAt (withPipes g ((swapRemove g.pipes pmax).set pmin
      (g.pipes.getD pmin [] ++ (g.pipes.getD pmax []).reverse))) zA v =
      .middle pmin ia := by
  set A := g.pipes.getD pmin [] with hAdef
  set B := g.pipes.getD pmax [] with hBdef
  set M := A ++ B.reverse with hMdef
  set Q := (swapRemove g.pipes pmax).set pmin M with hQdef
  have hPne : g.pipes ≠ [] := by
    intro e
    rw [e] at hmax
    simp at hmax
  have hQlen : Q.length = g.pipes.length - 1 := by
    rw [hQdef, List.length_set, length_swapRemove _ _ hPne]
  have hQmin : Q.getD pmin [] = M := by
    rw [hQdef]
    exact getD_set_self [] _ pmin M (by rw [length_swapRemove _ _ hPne]; omega)
  have hMlen : M.length = A.length + B.length := by
    rw [hMdef, List.length_append, List.length_reverse]
  have hcls := classify_over g v zA Q pmin ia hnA
    (by omega)
    (by rw [hQmin, hMlen]; omega)
    (by rw [hQmin, hMdef]
        exact (matchesAt_append_left A B.reverse zA (isCrossAt g zA) v ia
          (by omega) (fun h0 => absurd h0 hiane)).mpr hmA)
    (fun j hj => by
      rw [hQmin, hMdef]
      intro hm
      have hmA' := (matchesAt_append_left A B.reverse zA (isCrossAt g zA) v j
        (by omega) (fun _ => by omega)).mp hm
      exact absurd (huniqA pmin j (by omega)
        (hAdef ▸ (show j < A.length from by omega)) hmA').2 (by omega))
    (fun k' hk' i' hi' => by
      obtain ⟨m, hm1, hm2, hm3, hval⟩ := slot_value_merge g.pipes pmin pmax k'
        M hminmax hmax (by rw [← hQdef, hQlen]; omega) (by omega)
      rw [← hQdef] at hval
      rw [hval] at hi' ⊢
      exact no_match_of_unique g.pipes huniqA hm1 hm2 i' hi')
  rw [hcls, hQmin, hMlen]
  unfold classifyIdx
  rw [if_neg hiane, if_neg (by omega)]

theorem classify_merge_EE_high (g : PlaneGrid) (v : Bool)
    (pmin pmax iB : ℕ) (zA zB : GridPoint)
    (hminmax : pmin < pmax) (hmax : pmax < g.pipes.length)
    (hlenA : 2 ≤ (g.pipes.getD pmin []).length)
    (hiB1 : iB + 1 = (g.pipes.getD pmax []).length) (hiBne : iB ≠ 0)
    (hnB : isNodeAt g zB = false)
    (hmB : matchesAt (g.pipes.getD pmax []) zB (isCrossAt g zB) v iB)
    (huniqB : ∀ k j, k < g.pipes.length → j < (g.pipes.getD k []).length →
      matchesAt (g.pipes.getD k []) zB (isCrossAt g zB) v j → k = pmax ∧ j = iB)
    (hvalAend : (g.pipes.getD pmin []).getD
      ((g.pipes.getD pmin []).length - 1) ⟨0, 0⟩ = zA)
    (haxis : isCrossAt g zB = true → decide (zA.x = zB.x) = v) :
    pipePieceAt (withPipes g ((swapRemove g.pipes pmax).set pmin
      (g.pipes.getD pmin [] ++ (g.pipes.getD pmax []).reverse))) zB v =
      .middle pmin (g.pipes.getD pmin []).length := by
  set A := g.pipes.getD pmin [] with hAdef
  set B := g.pipes.getD pmax [] with hBdef
  set M := A ++ B.reverse with hMdef
  set Q := (swapRemove g.pipes pmax).set pmin M with hQdef
  have hPne : g.pipes ≠ [] := by
    intro e
    rw [e] at hmax
    simp at hmax
  have hQlen : Q.length = g.pipes.length - 1 := by
    rw [hQdef, List.length_set, length_swapRemove _ _ hPne]
  have hQmin : Q.getD pmin [] = M := by
    rw [hQdef]
    exact getD_set_self [] _ pmin M (by rw [length_swapRemove _ _ hPne]; omega)
  have hMlen : M.length = A.length + B.length := by
    rw [hMdef, List.length_append, List.length_reverse]
  have hcls := classify_over g v zB Q pmin A.length hnB
    (by omega)
    (by rw [hQmin, hMlen]; omega)
    (by rw [hQmin, hMdef]
        refine ⟨?_, fun hflag => ?_⟩
        · rw [getD_append_right (⟨0, 0⟩ : GridPoint) A B.reverse A.length
            (le_refl _), Nat.sub_self,
            getD_reverse (⟨0, 0⟩ : GridPoint) B 0 (by omega),
            show B.length - 1 - 0 = iB from by omega]
          exact hmB.1
        · rw [if_neg (by omega),
            getD_append_left (⟨0, 0⟩ : GridPoint) A B.reverse (A.length - 1)
              (by omega), hvalAend]
          exact haxis hflag)
    (fun j hj => by
      rw [hQmin, hMdef]
      intro hm
      have hmB' := (matchesAt_append_left A B.reverse zB (isCrossAt g zB) v j
        (by omega) (fun _ => by omega)).mp hm
      exact absurd (huniqB pmin j (by omega)
        (hAdef ▸ (show j < A.length from by omega)) hmB').1 (by omega))
    (fun k' hk' i' hi' => by
      obtain ⟨m, hm1, hm2, hm3, hval⟩ := slot_value_merge g.pipes pmin pmax k'
        M hminmax hmax (by rw [← hQdef, hQlen]; omega) (by omega)
      rw [← hQdef] at hval
      rw [hval] at hi' ⊢
      exact no_match_of_unique g.pipes huniqB hm1 hm3 i' hi')
  rw [hcls, hQmin, hMlen]
  unfold classifyIdx
  rw [if_neg (by omega), if_neg (by omega)]

theorem toggle_toggle_EndEnd (g : PlaneGrid) (c1 c2 : GridPoint) (p1 p2 : ℕ)
    (hinv : PipesInv g)
    (h1 : g.rect.contains c1 ∧ g.rect.contains c2)
    (h2 : c2.x - c1.x = 0 ∧ (c2.y - c1.y).natAbs = 1 ∨
        c2.y - c1.y = 0 ∧ (c2.x - c1.x).natAbs = 1)
    (h3 : ¬ (isWallAt g c1 ∨ isWallAt g c2))
    (hA : pipePieceAt g c1 (decide (c2.x - c1.x = 0)) = .endp p1)
    (hB : pipePieceAt g c2 (decide (c2.x - c1.x = 0)) = .endp p2) :
    pipesEquiv ((togglePipe (togglePipe g c1 c2).2 c1 c2).2).pipes
      g.pipes := by
  set v := decide (c2.x - c1.x = 0) with hv
  obtain ⟨hn1, hp1, iA, hiA1, hiAne, hmA⟩ := pipePieceAt_endp_elim g c1 v hA
  obtain ⟨hn2, hp2, iB, hiB1, hiBne, hmB⟩ := pipePieceAt_endp_elim g c2 v hB
  have hne12 : c1 ≠ c2 := edge_ne c1 c2 h2
  have huniq1 := unique_occ_of_inv g hinv c1 v hn1 hp1 (by omega) hmA
  have huniq2 := unique_occ_of_inv g hinv c2 v hn2 hp2 (by omega) hmB
  have hp12 : p1 ≠ p2 := by
    intro e
    subst e
    have : iA = iB := by omega
    subst this
    exact hne12 (hmA.1.symm.trans hmB.1)
  have hABne : g.pipes.getD p1 [] ≠ g.pipes.getD p2 [] := by
    intro e
    have hmB' : matchesAt (g.pipes.getD p1 []) c2 (isCrossAt g c2) v iB := by
      rw [e]
      exact hmB
    exact hp12 (huniq2 p1 iB hp1 (by rw [e]; omega) hmB').1
  have hbr1 := togglePipe_branch_EndEnd g c1 c2 p1 p2 h1 h2 h3 hA hB
  rcases Nat.lt_or_ge p1 p2 with hlt | hge
  · rw [show max p1 p2 = p2 from by omega, show min p1 p2 = p1 from by omega]
      at hbr1
    have hswA : (swapRemove g.pipes p2).getD p1 [] = g.pipes.getD p1 [] := by
      rw [getD_swapRemove [] g.pipes p2 p1 (by omega), if_neg (by omega)]
    rw [hswA] at hbr1
    rw [hbr1]
    have hA' := classify_merge_EE_low g v p1 p2 iA c1 hlt hp2 hiA1 hiAne hn1
      hmA huniq1 (hinv.1 p2 hp2)
    have hB' := classify_merge_EE_high g v p1 p2 iB c1 c2 hlt hp2
      (hinv.1 p1 hp1) hiB1 hiBne hn2 hmB huniq2
      (by rw [show (g.pipes.getD p1 []).length - 1 = iA from by omega]
          exact hmA.1)
      (fun _ => (edge_axis₂ c1 c2 h2).trans hv.symm)
    have hbr2 := togglePipe_branch_MM (withPipes g
        ((swapRemove g.pipes p2).set p1
          (g.pipes.getD p1 [] ++ (g.pipes.getD p2 []).reverse))) c1 c2
      p1 p1 iA (g.pipes.getD p1 []).length h1 h2 h3 hA' hB'
    rw [if_neg (not_not_intro rfl), if_neg (not_not_intro (by omega)),
      show max iA (g.pipes.getD p1 []).length
        = (g.pipes.getD p1 []).length from by omega] at hbr2
    rw [hbr2]
    simp only [withPipes_pipes]
    set A := g.pipes.getD p1 [] with hAdef
    set B := g.pipes.getD p2 [] with hBdef
    set M := A ++ B.reverse with hMdef
    set Q := (swapRemove g.pipes p2).set p1 M with hQdef
    have hPne : g.pipes ≠ [] := by
      intro e
      rw [e] at hp2
      simp at hp2
    have hQlen : Q.length = g.pipes.length - 1 := by
      rw [hQdef, List.length_set, length_swapRemove _ _ hPne]
    have hQmin : Q.getD p1 [] = M := by
      rw [hQdef]
      exact getD_set_self [] _ p1 M (by rw [length_swapRemove _ _ hPne]; omega)
    rw [hQmin, hMdef, List.take_left, List.drop_left]
    show Multiset.map pipeUnord ↑(Q.set p1 A ++ [B.reverse]) =
      Multiset.map pipeUnord ↑g.pipes
    have hc1 : (↑(Q.set p1 A ++ [B.reverse]) : Multiset (List GridPoint)) =
        B.reverse ::ₘ ↑(Q.set p1 A) := coe_concat_multiset _ B.reverse
    have hc2 : (↑(Q.set p1 A) : Multiset (List GridPoint)) =
        A ::ₘ (↑Q : Multiset (List GridPoint)).erase M := by
      have := multiset_set_eq [] Q p1 A (by omega)
      rw [hQmin] at this
      exact this
    have hc3 : (↑Q : Multiset (List GridPoint)) =
        M ::ₘ ((↑g.pipes : Multiset (List GridPoint)).erase B).erase A := by
      have hs1 := multiset_set_eq [] (swapRemove g.pipes p2) p1 M
        (by rw [length_swapRemove _ _ hPne]; omega)
      rw [← hQdef] at hs1
      rw [hs1, hswA, multiset_swapRemove_eq [] g.pipes p2 hp2, ← hBdef]
    have hAmem : A ∈ (↑g.pipes : Multiset (List GridPoint)).erase B := by
      rw [Multiset.mem_erase_of_ne hABne]
      exact Multiset.mem_coe.mpr (getD_mem [] g.pipes p1 hp1)
    have hBmem : B ∈ (↑g.pipes : Multiset (List GridPoint)) :=
      Multiset.mem_coe.mpr (getD_mem [] g.pipes p2 hp2)
    rw [hc1, hc2, hc3, Multiset.erase_cons_head]
    conv_rhs => rw [← Multiset.cons_erase hBmem, ← Multiset.cons_erase hAmem]
    simp only [Multiset.map_cons]
    rw [pipeUnord_reverse]
  · have hgt : p2 < p1 := by omega
    rw [show max p1 p2 = p1 from by omega, show min p1 p2 = p2 from by omega]
      at hbr1
    have hswA : (swapRemove g.pipes p1).getD p2 [] = g.pipes.getD p2 [] := by
      rw [getD_swapRemove [] g.pipes p1 p2 (by omega), if_neg (by omega)]
    rw [hswA] at hbr1
    rw [hbr1]
    have hA' := classify_merge_EE_high g v p2 p1 iA c2 c1 hgt hp1
      (hinv.1 p2 hp2) hiA1 hiAne hn1 hmA huniq1
      (by rw [show (g.pipes.getD p2 []).length - 1 = iB from by omega]
          exact hmB.1)
      (fun _ => (edge_axis₁ c1 c2 h2).trans hv.symm)
    have hB' := classify_merge_EE_low g v p2 p1 iB c2 hgt hp1 hiB1 hiBne hn2
      hmB huniq2 (hinv.1 p1 hp1)
    have hbr2 := togglePipe_branch_MM (withPipes g
        ((swapRemove g.pipes p1).set p2
          (g.pipes.getD p2 [] ++ (g.pipes.getD p1 []).reverse))) c1 c2
      p2 p2 (g.pipes.getD p2 []).length iB h1 h2 h3 hA' hB'
    rw [if_neg (not_not_intro rfl), if_neg (not_not_intro (by omega)),
      show max (g.pipes.getD p2 []).length iB
        = (g.pipes.getD p2 []).length from by omega] at hbr2
    rw [hbr2]
    simp only [withPipes_pipes]
    set A := g.pipes.getD p2 [] with hAdef
    set B := g.pipes.getD p1 [] with hBdef
    set M := A ++ B.reverse with hMdef
    set Q := (swapRemove g.pipes p1).set p2 M with hQdef
    have hPne : g.pipes ≠ [] := by
      intro e
      rw [e] at hp1
      simp at hp1
    have hQlen : Q.length = g.pipes.length - 1 := by
      rw [hQdef, List.length_set, length_swapRemove _ _ hPne]
    have hQmin : Q.getD p2 [] = M := by
      rw [hQdef]
      exact getD_set_self [] _ p2 M (by rw [length_swapRemove _ _ hPne]; omega)
    rw [hQmin, hMdef, List.take_left, List.drop_left]
    show Multiset.map pipeUnord ↑(Q.set p2 A ++ [B.reverse]) =
      Multiset.map pipeUnord ↑g.pipes
    have hc1 : (↑(Q.set p2 A ++ [B.reverse]) : Multiset (List GridPoint)) =
        B.reverse ::ₘ ↑(Q.set p2 A) := coe_concat_multiset _ B.reverse
    have hc2 : (↑(Q.set p2 A) : Multiset (List GridPoint)) =
        A ::ₘ (↑Q : Multiset (List GridPoint)).erase M := by
      have := multiset_set_eq [] Q p2 A (by omega)
      rw [hQmin] at this
      exact this
    have hc3 : (↑Q : Multiset (List GridPoint)) =
        M ::ₘ ((↑g.pipes : Multiset (List GridPoint)).erase B).erase A := by
      have hs1 := multiset_set_eq [] (swapRemove g.pipes p1) p2 M
        (by rw [length_swapRemove _ _ hPne]; omega)
      rw [← hQdef] at hs1
      rw [hs1, hswA, multiset_swapRemove_eq [] g.pipes p1 hp1, ← hBdef]
    have hAmem : A ∈ (↑g.pipes : Multiset (List GridPoint)).erase B := by
      rw [Multiset.mem_erase_of_ne hABne.symm]
      exact Multiset.mem_coe.mpr (getD_mem [] g.pipes p2 hp2)
    have hBmem : B ∈ (↑g.pipes : Multiset (List GridPoint)) :=
      Multiset.mem_coe.mpr (getD_mem [] g.pipes p1 hp1)
    rw [hc1, hc2, hc3, Multiset.erase_cons_head]
    conv_rhs => rw [← Multiset.cons_erase hBmem, ← Multiset.cons_erase hAmem]
    simp only [Multiset.map_cons]
    rw [pipeUnord_reverse]

theorem set_concat_last {α : Type} (l : List α) (x y : α) :
    (l ++ [x]).set l.length y = l ++ [y] := by
  induction l with
  | nil => rfl
  | cons a t ih =>
      simp only [List.cons_append, List.length_cons, List.set]
      rw [show t.append [x] = t ++ [x] from rfl, ih]

theorem slot_value_merge2 (P : List (List GridPoint)) (p1 p2 k : ℕ)
    (hp21 : p2 < p1) (hp1 : p1 < P.length)
    (hk : k < P.length - 2) :
    ∃ m, m < P.length ∧ m ≠ p1 ∧ m ≠ p2 ∧
      (swapRemove (swapRemove P p1) p2).getD k [] = P.getD m [] := by
  have hPne : P ≠ [] := by
    intro e
    subst e
    simp at hp1
  have hlen1 : (swapRemove P p1).length = P.length - 1 :=
    length_swapRemove P p1 hPne
  have hne1 : swapRemove P p1 ≠ [] := by
    intro e
    have := congrArg List.length e
    rw [hlen1] at this
    simp at this
    omega
  have hstep1 : (swapRemove (swapRemove P p1) p2).getD k [] =
      (swapRemove P p1).getD (if k = p2 then (swapRemove P p1).length - 1 else k) [] :=
    getD_swapRemove [] (swapRemove P p1) p2 k (by omega)
  set j := if k = p2 then (swapRemove P p1).length - 1 else k with hjdef
  have hj : j < P.length - 1 := by
    rw [hjdef]
    split <;> omega
  have hstep2 : (swapRemove P p1).getD j [] =
      P.getD (if j = p1 then P.length - 1 else j) [] :=
    getD_swapRemove [] P p1 j hj
  refine ⟨if j = p1 then P.length - 1 else j, ?_, ?_, ?_, ?_⟩
  · split <;> omega
  · split
    · omega
    · rename_i h
      exact h
  · split
    · omega
    · rw [hjdef]
      split
      · rw [hlen1]
        omega
      · rename_i h
        exact h
  · rw [hstep1, hstep2]

theorem classify_merge_ES_low (g : PlaneGrid) (v : Bool)
    (pmin pmax ia : ℕ) (zA : GridPoint)
    (hminmax : pmin < pmax) (hmax : pmax < g.pipes.length)
    (hia1 : ia + 1 = (g.pipes.getD pmin []).length) (hiane : ia ≠ 0)
    (hnA : isNodeAt g zA = false)
    (hmA : matchesAt (g.pipes.getD pmin []) zA (isCrossAt g zA) v ia)
    (huniqA : ∀ k j, k < g.pipes.length → j < (g.pipes.getD k []).length →
      matchesAt (g.pipes.getD k []) zA (isCrossAt g zA) v j → k = pmin ∧ j = ia)
    (hlenB : 2 ≤ (g.pipes.getD pmax []).length) :
    pipePieceAt (withPipes g ((swapRemove g.pipes pmax).set pmin
      (g.pipes.getD pmin [] ++ g.pipes.getD pmax []))) zA v =
      .middle pmin ia := by
  set A := g.pipes.getD pmin [] with hAdef
  set B := g.pipes.getD pmax [] with hBdef
  set M := A ++ B with hMdef
  set Q := (swapRemove g.pipes pmax).set pmin M with hQdef
  have hPne : g.pipes ≠ [] := by
    intro e
    rw [e] at hmax
    simp at hmax
  have hQlen : Q.length = g.pipes.length - 1 := by
    rw [hQdef, List.length_set, length_swapRemove _ _ hPne]
  have hQmin : Q.getD pmin [] = M := by
    rw [hQdef]
    exact getD_set_self [] _ pmin M (by rw [length_swapRemove _ _ hPne]; omega)
  have hMlen : M.length = A.length + B.length := by
    rw [hMdef, List.length_append]
  have hcls := classify_over g v zA Q pmin ia hnA
    (by omega)
    (by rw [hQmin, hMlen]; omega)
    (by rw [hQmin, hMdef]
        exact (matchesAt_append_left A B zA (isCrossAt g zA) v ia
          (by omega) (fun h0 => absurd h0 hiane)).mpr hmA)
    (fun j hj => by
      rw [hQmin, hMdef]
      intro hm
      have hmA' := (matchesAt_append_left A B zA (isCrossAt g zA) v j
        (by omega) (fun _ => by omega)).mp hm
      exact absurd (huniqA pmin j (by omega)
        (hAdef ▸ (show j < A.length from by omega)) hmA').2 (by omega))
    (fun k' hk' i' hi' => by
      obtain ⟨m, hm1, hm2, hm3, hval⟩ := slot_value_merge g.pipes pmin pmax k'
        M hminmax hmax (by rw [← hQdef, hQlen]; omega) (by omega)
      rw [← hQdef] at hval
      rw [hval] at hi' ⊢
      exact no_match_of_unique g.pipes huniqA hm1 hm2 i' hi')
  rw [hcls, hQmin, hMlen]
  unfold classifyIdx
  rw [if_neg hiane, if_neg (by omega)]

theorem classify_merge_ES_high (g : PlaneGrid) (v : Bool)
    (pmin pmax : ℕ) (zA zB : GridPoint)
    (hminmax : pmin < pmax) (hmax : pmax < g.pipes.length)
    (hlenA : 2 ≤ (g.pipes.getD pmin []).length)
    (hlenB : 2 ≤ (g.pipes.getD pmax []).length)
    (hnB : isNodeAt g zB = false)
    (hmB : matchesAt (g.pipes.getD pmax []) zB (isCrossAt g zB) v 0)
    (huniqB : ∀ k j, k < g.pipes.length → j < (g.pipes.getD k []).length →
      matchesAt (g.pipes.getD k []) zB (isCrossAt g zB) v j → k = pmax ∧ j = 0)
    (hvalAend : (g.pipes.getD pmin []).getD
      ((g.pipes.getD pmin []).length - 1) ⟨0, 0⟩ = zA)
    (haxis : isCrossAt g zB = true → decide (zA.x = zB.x) = v) :
    pipePieceAt (withPipes g ((swapRemove g.pipes pmax).set pmin
      (g.pipes.getD pmin [] ++ g.pipes.getD pmax []))) zB v =
      .middle pmin (g.pipes.getD pmin []).length := by
  set A := g.pipes.getD pmin [] with hAdef
  set B := g.pipes.getD pmax [] with hBdef
  set M := A ++ B with hMdef
  set Q := (swapRemove g.pipes pmax).set pmin M with hQdef
  have hPne : g.pipes ≠ [] := by
    intro e
    rw [e] at hmax
    simp at hmax
  have hQlen : Q.length = g.pipes.length - 1 := by
    rw [hQdef, List.length_set, length_swapRemove _ _ hPne]
  have hQmin : Q.getD pmin [] = M := by
    rw [hQdef]
    exact getD_set_self [] _ pmin M (by rw [length_swapRemove _ _ hPne]; omega)
  have hMlen : M.length = A.length + B.length := by
    rw [hMdef, List.length_append]
  have hcls := classify_over g v zB Q pmin A.length hnB
    (by omega)
    (by rw [hQmin, hMlen]; omega)
    (by rw [hQmin, hMdef]
        refine ⟨?_, fun hflag => ?_⟩
        · rw [getD_append_right (⟨0, 0⟩ : GridPoint) A B A.length
            (le_refl _), Nat.sub_self]
          exact hmB.1
        · rw [if_neg (by omega),
            getD_append_left (⟨0, 0⟩ : GridPoint) A B (A.length - 1)
              (by omega), hvalAend]
          exact haxis hflag)
    (fun j hj => by
      rw [hQmin, hMdef]
      intro hm
      have hmB' := (matchesAt_append_left A B zB (isCrossAt g zB) v j
        (by omega) (fun _ => by omega)).mp hm
      exact absurd (huniqB pmin j (by omega)
        (hAdef ▸ (show j < A.length from by omega)) hmB').1 (by omega))
    (fun k' hk' i' hi' => by
      obtain ⟨m, hm1, hm2, hm3, hval⟩ := slot_value_merge g.pipes pmin pmax k'
        M hminmax hmax (by rw [← hQdef, hQlen]; omega) (by omega)
      rw [← hQdef] at hval
      rw [hval] at hi' ⊢
      exact no_match_of_unique g.pipes huniqB hm1 hm3 i' hi')
  rw [hcls, hQmin, hMlen]
  unfold classifyIdx
  rw [if_neg (by omega), if_neg (by omega)]

theorem classify_concat_ES_low (g : PlaneGrid) (v : Bool)
    (p1 p2 ia : ℕ) (zA : GridPoint)
    (hp21 : p2 < p1) (hp1 : p1 < g.pipes.length)
    (hia1 : ia + 1 = (g.pipes.getD p1 []).length) (hiane : ia ≠ 0)
    (hnA : isNodeAt g zA = false)
    (hmA : matchesAt (g.pipes.getD p1 []) zA (isCrossAt g zA) v ia)
    (huniqA : ∀ k j, k < g.pipes.length → j < (g.pipes.getD k []).length →
      matchesAt (g.pipes.getD k []) zA (isCrossAt g zA) v j → k = p1 ∧ j = ia)
    (hlenB : 2 ≤ (g.pipes.getD p2 []).length) :
    pipePieceAt (withPipes g (swapRemove (swapRemove g.pipes p1) p2 ++
      [g.pipes.getD p1 [] ++ g.pipes.getD p2 []])) zA v =
      .middle (swapRemove (swapRemove g.pipes p1) p2).length ia := by
  set A := g.pipes.getD p1 [] with hAdef
  set B := g.pipes.getD p2 [] with hBdef
  set M := A ++ B with hMdef
  set L := swapRemove (swapRemove g.pipes p1) p2 with hLdef
  set Q := L ++ [M] with hQdef
  have hPne : g.pipes ≠ [] := by
    intro e
    rw [e] at hp1
    simp at hp1
  have hlen1 : (swapRemove g.pipes p1).length = g.pipes.length - 1 :=
    length_swapRemove _ _ hPne
  have hne1 : swapRemove g.pipes p1 ≠ [] := by
    intro e
    have hL0 := congrArg List.length e
    rw [hlen1] at hL0
    simp at hL0
    omega
  have hLlen : L.length = g.pipes.length - 2 := by
    rw [hLdef, length_swapRemove _ _ hne1, hlen1]
    omega
  have hQL : Q.getD L.length [] = M := by
    rw [hQdef]
    exact getD_concat_last [] L M
  have hMlen : M.length = A.length + B.length := by
    rw [hMdef, List.length_append]
  have hcls := classify_over g v zA Q L.length ia hnA
    (by rw [hQdef, List.length_append, List.length_singleton]; omega)
    (by rw [hQL, hMlen]; omega)
    (by rw [hQL, hMdef]
        exact (matchesAt_append_left A B zA (isCrossAt g zA) v ia
          (by omega) (fun h0 => absurd h0 hiane)).mpr hmA)
    (fun j hj => by
      rw [hQL, hMdef]
      intro hm
      have hmA' := (matchesAt_append_left A B zA (isCrossAt g zA) v j
        (by omega) (fun _ => by omega)).mp hm
      exact absurd (huniqA p1 j hp1
        (hAdef ▸ (show j < A.length from by omega)) hmA').2 (by omega))
    (fun k' hk' i' hi' => by
      have hkL : k' < L.length := hk'
      have hQk : Q.getD k' [] = L.getD k' [] := by
        rw [hQdef]
        exact getD_append_left [] L [M] k' hkL
      rw [hQk] at hi' ⊢
      obtain ⟨m, hm1, hm2, hm3, hval⟩ := slot_value_merge2 g.pipes p1 p2 k'
        hp21 hp1 (by omega)
      rw [← hLdef] at hval
      rw [hval] at hi' ⊢
      exact no_match_of_unique g.pipes huniqA hm1 hm2 i' hi')
  rw [hcls, hQL, hMlen]
  unfold classifyIdx
  rw [if_neg hiane, if_neg (by omega)]

theorem classify_concat_ES_high (g : PlaneGrid) (v : Bool)
    (p1 p2 : ℕ) (zA zB : GridPoint)
    (hp21 : p2 < p1) (hp1 : p1 < g.pipes.length)
    (hlenA : 2 ≤ (g.pipes.getD p1 []).length)
    (hlenB : 2 ≤ (g.pipes.getD p2 []).length)
    (hnB : isNodeAt g zB = false)
    (hmB : matchesAt (g.pipes.getD p2 []) zB (isCrossAt g zB) v 0)
    (huniqB : ∀ k j, k < g.pipes.length → j < (g.pipes.getD k []).length →
      matchesAt (g.pipes.getD k []) zB (isCrossAt g zB) v j → k = p2 ∧ j = 0)
    (hvalAend : (g.pipes.getD p1 []).getD
      ((g.pipes.getD p1 []).length - 1) ⟨0, 0⟩ = zA)
    (haxis : isCrossAt g zB = true → decide (zA.x = zB.x) = v) :
    pipePieceAt (withPipes g (swapRemove (swapRemove g.pipes p1) p2 ++
      [g.pipes.getD p1 [] ++ g.pipes.getD p2 []])) zB v =
      .middle (swapRemove (swapRemove g.pipes p1) p2).length
        (g.pipes.getD p1 []).length := by
  set A := g.pipes.getD p1 [] with hAdef
  set B := g.pipes.getD p2 [] with hBdef
  set M := A ++ B with hMdef
  set L := swapRemove (swapRemove g.pipes p1) p2 with hLdef
  set Q := L ++ [M] with hQdef
  have hPne : g.pipes ≠ [] := by
    intro e
    rw [e] at hp1
    simp at hp1
  have hlen1 : (swapRemove g.pipes p1).length = g.pipes.length - 1 :=
    length_swapRemove _ _ hPne
  have hne1 : swapRemove g.pipes p1 ≠ [] := by
    intro e
    have hL0 := congrArg List.length e
    rw [hlen1] at hL0
    simp at hL0
    omega
  have hLlen : L.length = g.pipes.length - 2 := by
    rw [hLdef, length_swapRemove _ _ hne1, hlen1]
    omega
  have hQL : Q.getD L.length [] = M := by
    rw [hQdef]
    exact getD_concat_last [] L M
  have hMlen : M.length = A.length + B.length := by
    rw [hMdef, List.length_append]
  have hcls := classify_over g v zB Q L.length A.length hnB
    (by rw [hQdef, List.length_append, List.length_singleton]; omega)
    (by rw [hQL, hMlen]; omega)
    (by rw [hQL, hMdef]
        refine ⟨?_, fun hflag => ?_⟩
        · rw [getD_append_right (⟨0, 0⟩ : GridPoint) A B A.length
            (le_refl _), Nat.sub_self]
          exact hmB.1
        · rw [if_neg (by omega),
            getD_append_left (⟨0, 0⟩ : GridPoint) A B (A.length - 1)
              (by omega), hvalAend]
          exact haxis hflag)
    (fun j hj => by
      rw [hQL, hMdef]
      intro hm
      have hmB' := (matchesAt_append_left A B zB (isCrossAt g zB) v j
        (by omega) (fun _ => by omega)).mp hm
      exact absurd (huniqB p1 j hp1
        (hAdef ▸ (show j < A.length from by omega)) hmB').1 (by omega))
    (fun k' hk' i' hi' => by
      have hkL : k' < L.length := hk'
      have hQk : Q.getD k' [] = L.getD k' [] := by
        rw [hQdef]
        exact getD_append_left [] L [M] k' hkL
      rw [hQk] at hi' ⊢
      obtain ⟨m, hm1, hm2, hm3, hval⟩ := slot_value_merge2 g.pipes p1 p2 k'
        hp21 hp1 (by omega)
      rw [← hLdef] at hval
      rw [hval] at hi' ⊢
      exact no_match_of_unique g.pipes huniqB hm1 hm3 i' hi')
  rw [hcls, hQL, hMlen]
  unfold classifyIdx
  rw [if_neg (by omega), if_neg (by omega)]

theorem toggle_toggle_EndS (g : PlaneGrid) (c1 c2 : GridPoint) (p1 p2 : ℕ)
    (hinv : PipesInv g)
    (h1 : g.rect.contains c1 ∧ g.rect.contains c2)
    (h2 : c2.x - c1.x = 0 ∧ (c2.y - c1.y).natAbs = 1 ∨
        c2.y - c1.y = 0 ∧ (c2.x - c1.x).natAbs = 1)
    (h3 : ¬ (isWallAt g c1 ∨ isWallAt g c2))
    (hA : pipePieceAt g c1 (decide (c2.x - c1.x = 0)) = .endp p1)
    (hB : pipePieceAt g c2 (decide (c2.x - c1.x = 0)) = .start p2)
    (hne : p1 ≠ p2) :
    pipesEquiv ((togglePipe (togglePipe g c1 c2).2 c1 c2).2).pipes
      g.pipes := by
  set v := decide (c2.x - c1.x = 0) with hv
  obtain ⟨hn1, hp1, iA, hiA1, hiAne, hmA⟩ := pipePieceAt_endp_elim g c1 v hA
  obtain ⟨hn2, hp2, hlen02, hmB⟩ := pipePieceAt_start_elim g c2 v hB
  have huniq1 := unique_occ_of_inv g hinv c1 v hn1 hp1 (by omega) hmA
  have huniq2 := unique_occ_of_inv g hinv c2 v hn2 hp2 hlen02 hmB
  have hABne : g.pipes.getD p1 [] ≠ g.pipes.getD p2 [] := by
    intro e
    have hmB' : matchesAt (g.pipes.getD p1 []) c2 (isCrossAt g c2) v 0 := by
      rw [e]
      exact hmB
    exact hne (huniq2 p1 0 hp1 (by rw [e]; omega) hmB').1
  have hbr1 := togglePipe_branch_EndS g c1 c2 p1 p2 h1 h2 h3 hA hB
  rw [if_neg hne] at hbr1
  rcases Nat.lt_or_ge p1 p2 with hlt | hge
  · rw [if_pos hlt] at hbr1
    have hswA : (swapRemove g.pipes p2).getD p1 [] = g.pipes.getD p1 [] := by
      rw [getD_swapRemove [] g.pipes p2 p1 (by omega), if_neg (by omega)]
    rw [hswA] at hbr1
    rw [hbr1]
    have hA' := classify_merge_ES_low g v p1 p2 iA c1 hlt hp2 hiA1 hiAne hn1
      hmA huniq1 (hinv.1 p2 hp2)
    have hB' := classify_merge_ES_high g v p1 p2 c1 c2 hlt hp2
      (hinv.1 p1 hp1) (hinv.1 p2 hp2) hn2 hmB huniq2
      (by rw [show (g.pipes.getD p1 []).length - 1 = iA from by omega]
          exact hmA.1)
      (fun _ => (edge_axis₂ c1 c2 h2).trans hv.symm)
    have hbr2 := togglePipe_branch_MM (withPipes g
        ((swapRemove g.pipes p2).set p1
          (g.pipes.getD p1 [] ++ g.pipes.getD p2 []))) c1 c2
      p1 p1 iA (g.pipes.getD p1 []).length h1 h2 h3 hA' hB'
    rw [if_neg (not_not_intro rfl), if_neg (not_not_intro (by omega)),
      show max iA (g.pipes.getD p1 []).length
        = (g.pipes.getD p1 []).length from by omega] at hbr2
    rw [hbr2]
    simp only [withPipes_pipes]
    set A := g.pipes.getD p1 [] with hAdef
    set B := g.pipes.getD p2 [] with hBdef
    set M := A ++ B with hMdef
    set Q := (swapRemove g.pipes p2).set p1 M with hQdef
    have hPne : g.pipes ≠ [] := by
      intro e
      rw [e] at hp2
      simp at hp2
    have hQlen : Q.length = g.pipes.length - 1 := by
      rw [hQdef, List.length_set, length_swapRemove _ _ hPne]
    have hQmin : Q.getD p1 [] = M := by
      rw [hQdef]
      exact getD_set_self [] _ p1 M (by rw [length_swapRemove _ _ hPne]; omega)
    rw [hQmin, hMdef, List.take_left, List.drop_left]
    show Multiset.map pipeUnord ↑(Q.set p1 A ++ [B]) =
      Multiset.map pipeUnord ↑g.pipes
    have hc1 : (↑(Q.set p1 A ++ [B]) : Multiset (List GridPoint)) =
        B ::ₘ ↑(Q.set p1 A) := coe_concat_multiset _ B
    have hc2 : (↑(Q.set p1 A) : Multiset (List GridPoint)) =
        A ::ₘ (↑Q : Multiset (List GridPoint)).erase M := by
      have := multiset_set_eq [] Q p1 A (by omega)
      rw [hQmin] at this
      exact this
    have hc3 : (↑Q : Multiset (List GridPoint)) =
        M ::ₘ ((↑g.pipes : Multiset (List GridPoint)).erase B).erase A := by
      have hs1 := multiset_set_eq [] (swapRemove g.pipes p2) p1 M
        (by rw [length_swapRemove _ _ hPne]; omega)
      rw [← hQdef] at hs1
      rw [hs1, hswA, multiset_swapRemove_eq [] g.pipes p2 hp2, ← hBdef]
    have hAmem : A ∈ (↑g.pipes : Multiset (List GridPoint)).erase B := by
      rw [Multiset.mem_erase_of_ne hABne]
      exact Multiset.mem_coe.mpr (getD_mem [] g.pipes p1 hp1)
    have hBmem : B ∈ (↑g.pipes : Multiset (List GridPoint)) :=
      Multiset.mem_coe.mpr (getD_mem [] g.pipes p2 hp2)
    rw [hc1, hc2, hc3, Multiset.erase_cons_head]
    conv_rhs => rw [← Multiset.cons_erase hBmem, ← Multiset.cons_erase hAmem]
  · have hgt : p2 < p1 := by omega
    rw [if_neg (by omega)] at hbr1
    have hswB : (swapRemove g.pipes p1).getD p2 [] = g.pipes.getD p2 [] := by
      rw [getD_swapRemove [] g.pipes p1 p2 (by omega), if_neg (by omega)]
    rw [hswB] at hbr1
    rw [hbr1]
    have hA' := classify_concat_ES_low g v p1 p2 iA c1 hgt hp1 hiA1 hiAne hn1
      hmA huniq1 (hinv.1 p2 hp2)
    have hB' := classify_concat_ES_high g v p1 p2 c1 c2 hgt hp1
      (hinv.1 p1 hp1) (hinv.1 p2 hp2) hn2 hmB huniq2
      (by rw [show (g.pipes.getD p1 []).length - 1 = iA from by omega]
          exact hmA.1)
      (fun _ => (edge_axis₂ c1 c2 h2).trans hv.symm)
    have hbr2 := togglePipe_branch_MM (withPipes g
        (swapRemove (swapRemove g.pipes p1) p2 ++
          [g.pipes.getD p1 [] ++ g.pipes.getD p2 []])) c1 c2
      (swapRemove (swapRemove g.pipes p1) p2).length
      (swapRemove (swapRemove g.pipes p1) p2).length
      iA (g.pipes.getD p1 []).length h1 h2 h3 hA' hB'
    rw [if_neg (not_not_intro rfl), if_neg (not_not_intro (by omega)),
      show max iA (g.pipes.getD p1 []).length
        = (g.pipes.getD p1 []).length from by omega] at hbr2
    rw [hbr2]
    simp only [withPipes_pipes]
    set A := g.pipes.getD p1 [] with hAdef
    set B := g.pipes.getD p2 [] with hBdef
    set M := A ++ B with hMdef
    set L := swapRemove (swapRemove g.pipes p1) p2 with hLdef
    have hQL : (L ++ [M]).getD L.length [] = M := getD_concat_last [] L M
    rw [hQL, hMdef, List.take_left, List.drop_left, ← hMdef,
      set_concat_last L M A]
    show Multiset.map pipeUnord ↑((L ++ [A]) ++ [B]) =
      Multiset.map pipeUnord ↑g.pipes
    have hc1 : (↑((L ++ [A]) ++ [B]) : Multiset (List GridPoint)) =
        B ::ₘ A ::ₘ (↑L : Multiset (List GridPoint)) := by
      rw [coe_concat_multiset _ B, coe_concat_multiset _ A]
    have hswAv : (swapRemove g.pipes p1).getD p1 [] = g.pipes.getD p1 [] ∨ True :=
      Or.inr trivial
    have hc3 : (↑L : Multiset (List GridPoint)) =
        ((↑g.pipes : Multiset (List GridPoint)).erase A).erase B := by
      have hPne : g.pipes ≠ [] := by
        intro e
        rw [e] at hp1
        simp at hp1
      rw [hLdef, multiset_swapRemove_eq [] (swapRemove g.pipes p1) p2
        (by rw [length_swapRemove _ _ hPne]; omega), hswB,
        multiset_swapRemove_eq [] g.pipes p1 hp1, ← hAdef]
    have hBmem : B ∈ (↑g.pipes : Multiset (List GridPoint)).erase A := by
      rw [Multiset.mem_erase_of_ne hABne.symm]
      exact Multiset.mem_coe.mpr (getD_mem [] g.pipes p2 hp2)
    have hAmem : A ∈ (↑g.pipes : Multiset (List GridPoint)) :=
      Multiset.mem_coe.mpr (getD_mem [] g.pipes p1 hp1)
    rw [hc1, hc3]
    conv_rhs => rw [← Multiset.cons_erase hAmem, ← Multiset.cons_erase hBmem]
    simp only [Multiset.map_cons]
    rw [Multiset.cons_swap]

theorem toggle_toggle_SEnd (g : PlaneGrid) (c1 c2 : GridPoint) (p1 p2 : ℕ)
    (hinv : PipesInv g)
    (h1 : g.rect.contains c1 ∧ g.rect.contains c2)
    (h2 : c2.x - c1.x = 0 ∧ (c2.y - c1.y).natAbs = 1 ∨
        c2.y - c1.y = 0 ∧ (c2.x - c1.x).natAbs = 1)
    (h3 : ¬ (isWallAt g c1 ∨ isWallAt g c2))
    (hA : pipePieceAt g c1 (decide (c2.x - c1.x = 0)) = .start p2)
    (hB : pipePieceAt g c2 (decide (c2.x - c1.x = 0)) = .endp p1)
    (hne : p1 ≠ p2) :
    pipesEquiv ((togglePipe (togglePipe g c1 c2).2 c1 c2).2).pipes
      g.pipes := by
  set v := decide (c2.x - c1.x = 0) with hv
  obtain ⟨hn1, hp2, hlen02, hmB⟩ := pipePieceAt_start_elim g c1 v hA
  obtain ⟨hn2, hp1, iA, hiA1, hiAne, hmA⟩ := pipePieceAt_endp_elim g c2 v hB
  have huniq1 := unique_occ_of_inv g hinv c1 v hn1 hp2 hlen02 hmB
  have huniq2 := unique_occ_of_inv g hinv c2 v hn2 hp1 (by omega) hmA
  have hABne : g.pipes.getD p1 [] ≠ g.pipes.getD p2 [] := by
    intro e
    have hmB' : matchesAt (g.pipes.getD p1 []) c1 (isCrossAt g c1) v 0 := by
      rw [e]
      exact hmB
    exact hne ((huniq1 p1 0 hp1 (by rw [e]; omega) hmB').1)
  have hbr1 := togglePipe_branch_SEnd g c1 c2 p1 p2 h1 h2 h3 hA hB
  rw [if_neg hne] at hbr1
  rcases Nat.lt_or_ge p1 p2 with hlt | hge
  · rw [if_pos hlt] at hbr1
    have hswA : (swapRemove g.pipes p2).getD p1 [] = g.pipes.getD p1 [] := by
      rw [getD_swapRemove [] g.pipes p2 p1 (by omega), if_neg (by omega)]
    rw [hswA] at hbr1
    rw [hbr1]
    have hA' := classify_merge_ES_high g v p1 p2 c2 c1 hlt hp2
      (hinv.1 p1 hp1) (hinv.1 p2 hp2) hn1 hmB huniq1
      (by rw [show (g.pipes.getD p1 []).length - 1 = iA from by omega]
          exact hmA.1)
      (fun _ => (edge_axis₁ c1 c2 h2).trans hv.symm)
    have hB' := classify_merge_ES_low g v p1 p2 iA c2 hlt hp2 hiA1 hiAne hn2
      hmA huniq2 (hinv.1 p2 hp2)
    have hbr2 := togglePipe_branch_MM (withPipes g
        ((swapRemove g.pipes p2).set p1
          (g.pipes.getD p1 [] ++ g.pipes.getD p2 []))) c1 c2
      p1 p1 (g.pipes.getD p1 []).length iA h1 h2 h3 hA' hB'
    rw [if_neg (not_not_intro rfl), if_neg (not_not_intro (by omega)),
      show max (g.pipes.getD p1 []).length iA
        = (g.pipes.getD p1 []).length from by omega] at hbr2
    rw [hbr2]
    simp only [withPipes_pipes]
    set A := g.pipes.getD p1 [] with hAdef
    set B := g.pipes.getD p2 [] with hBdef
    set M := A ++ B with hMdef
    set Q := (swapRemove g.pipes p2).set p1 M with hQdef
    have hPne : g.pipes ≠ [] := by
      intro e
      rw [e] at hp2
      simp at hp2
    have hQlen : Q.length = g.pipes.length - 1 := by
      rw [hQdef, List.length_set, length_swapRemove _ _ hPne]
    have hQmin : Q.getD p1 [] = M := by
      rw [hQdef]
      exact getD_set_self [] _ p1 M (by rw [length_swapRemove _ _ hPne]; omega)
    rw [hQmin, hMdef, List.take_left, List.drop_left]
    show Multiset.map pipeUnord ↑(Q.set p1 A ++ [B]) =
      Multiset.map pipeUnord ↑g.pipes
    have hc1 : (↑(Q.set p1 A ++ [B]) : Multiset (List GridPoint)) =
        B ::ₘ ↑(Q.set p1 A) := coe_concat_multiset _ B
    have hc2 : (↑(Q.set p1 A) : Multiset (List GridPoint)) =
        A ::ₘ (↑Q : Multiset (List GridPoint)).erase M := by
      have := multiset_set_eq [] Q p1 A (by omega)
      rw [hQmin] at this
      exact this
    have hc3 : (↑Q : Multiset (List GridPoint)) =
        M ::ₘ ((↑g.pipes : Multiset (List GridPoint)).erase B).erase A := by
      have hs1 := multiset_set_eq [] (swapRemove g.pipes p2) p1 M
        (by rw [length_swapRemove _ _ hPne]; omega)
      rw [← hQdef] at hs1
      rw [hs1, hswA, multiset_swapRemove_eq [] g.pipes p2 hp2, ← hBdef]
    have hAmem : A ∈ (↑g.pipes : Multiset (List GridPoint)).erase B := by
      rw [Multiset.mem_erase_of_ne hABne]
      exact Multiset.mem_coe.mpr (getD_mem [] g.pipes p1 hp1)
    have hBmem : B ∈ (↑g.pipes : Multiset (List GridPoint)) :=
      Multiset.mem_coe.mpr (getD_mem [] g.pipes p2 hp2)
    rw [hc1, hc2, hc3, Multiset.erase_cons_head]
    conv_rhs => rw [← Multiset.cons_erase hBmem, ← Multiset.cons_erase hAmem]
  · have hgt : p2 < p1 := by omega
    rw [if_neg (by omega)] at hbr1
    have hswB : (swapRemove g.pipes p1).getD p2 [] = g.pipes.getD p2 [] := by
      rw [getD_swapRemove [] g.pipes p1 p2 (by omega), if_neg (by omega)]
    rw [hswB] at hbr1
    rw [hbr1]
    have hA' := classify_concat_ES_high g v p1 p2 c2 c1 hgt hp1
      (hinv.1 p1 hp1) (hinv.1 p2 hp2) hn1 hmB huniq1
      (by rw [show (g.pipes.getD p1 []).length - 1 = iA from by omega]
          exact hmA.1)
      (fun _ => (edge_axis₁ c1 c2 h2).trans hv.symm)
    have hB' := classify_concat_ES_low g v p1 p2 iA c2 hgt hp1 hiA1 hiAne hn2
      hmA huniq2 (hinv.1 p2 hp2)
    have hbr2 := togglePipe_branch_MM (withPipes g
        (swapRemove (swapRemove g.pipes p1) p2 ++
          [g.pipes.getD p1 [] ++ g.pipes.getD p2 []])) c1 c2
      (swapRemove (swapRemove g.pipes p1) p2).length
      (swapRemove (swapRemove g.pipes p1) p2).length
      (g.pipes.getD p1 []).length iA h1 h2 h3 hA' hB'
    rw [if_neg (not_not_intro rfl), if_neg (not_not_intro (by omega)),
      show max (g.pipes.getD p1 []).length iA
        = (g.pipes.getD p1 []).length from by omega] at hbr2
    rw [hbr2]
    simp only [withPipes_pipes]
    set A := g.pipes.getD p1 [] with hAdef
    set B := g.pipes.getD p2 [] with hBdef
    set M := A ++ B with hMdef
    set L := swapRemove (swapRemove g.pipes p1) p2 with hLdef
    have hQL : (L ++ [M]).getD L.length [] = M := getD_concat_last [] L M
    rw [hQL, hMdef, List.take_left, List.drop_left, ← hMdef,
      set_concat_last L M A]
    show Multiset.map pipeUnord ↑((L ++ [A]) ++ [B]) =
      Multiset.map pipeUnord ↑g.pipes
    have hc1 : (↑((L ++ [A]) ++ [B]) : Multiset (List GridPoint)) =
        B ::ₘ A ::ₘ (↑L : Multiset (List GridPoint)) := by
      rw [coe_concat_multiset _ B, coe_concat_multiset _ A]
    have hc3 : (↑L : Multiset (List GridPoint)) =
        ((↑g.pipes : Multiset (List GridPoint)).erase A).erase B := by
      have hPne : g.pipes ≠ [] := by
        intro e
        rw [e] at hp1
        simp at hp1
      rw [hLdef, multiset_swapRemove_eq [] (swapRemove g.pipes p1) p2
        (by rw [length_swapRemove _ _ hPne]; omega), hswB,
        multiset_swapRemove_eq [] g.pipes p1 hp1, ← hAdef]
    have hBmem : B ∈ (↑g.pipes : Multiset (List GridPoint)).erase A := by
      rw [Multiset.mem_erase_of_ne hABne.symm]
      exact Multiset.mem_coe.mpr (getD_mem [] g.pipes p2 hp2)
    have hAmem : A ∈ (↑g.pipes : Multiset (List GridPoint)) :=
      Multiset.mem_coe.mpr (getD_mem [] g.pipes p1 hp1)
    rw [hc1, hc3]
    conv_rhs => rw [← Multiset.cons_erase hAmem, ← Multiset.cons_erase hBmem]
    simp only [Multiset.map_cons]
    rw [Multiset.cons_swap]

theorem eq_pair_of_length_two {α : Type} (l : List α) (d : α)
    (h : l.length = 2) : l = [l.getD 0 d, l.getD 1 d] := by
  match l, h with
  | [a, b], _ => rfl

/-- Shared core for the two `(End, Start)` same-pipe deletions: removing
a two-piece pipe and toggling again pushes an equivalent pipe back. -/
theorem toggle_endstart_same_core (g : PlaneGrid) (c1 c2 : GridPoint)
    (p1 : ℕ) (v : Bool)
    (hinv : PipesInv g)
    (hp1 : p1 < g.pipes.length)
    (hlen2 : (g.pipes.getD p1 []).length = 2)
    (hn1 : isNodeAt g c1 = false) (hn2 : isNodeAt g c2 = false)
    (hm1 : matchesAt (g.pipes.getD p1 []) c1 (isCrossAt g c1) v 1)
    (hm2 : matchesAt (g.pipes.getD p1 []) c2 (isCrossAt g c2) v 0) :
    pipePieceAt (withPipes g (swapRemove g.pipes p1)) c1 v
      = .emptyOrNode false ∧
    pipePieceAt (withPipes g (swapRemove g.pipes p1)) c2 v
      = .emptyOrNode false ∧
    ∀ W : List GridPoint,
      pipeUnord W = pipeUnord (g.pipes.getD p1 []) →
      Multiset.map pipeUnord
        (↑(swapRemove g.pipes p1 ++ [W]) : Multiset (List GridPoint)) =
        Multiset.map pipeUnord (↑g.pipes : Multiset (List GridPoint)) := by
  have huniq1 := unique_occ_of_inv g hinv c1 v hn1 hp1 (by omega) hm1
  have huniq2 := unique_occ_of_inv g hinv c2 v hn2 hp1 (by omega) hm2
  have hPne : g.pipes ≠ [] := by
    intro e
    rw [e] at hp1
    simp at hp1
  have hswlen : (swapRemove g.pipes p1).length = g.pipes.length - 1 :=
    length_swapRemove _ _ hPne
  have hkill : ∀ (z : GridPoint), (∀ k j, k < g.pipes.length →
      j < (g.pipes.getD k []).length →
      matchesAt (g.pipes.getD k []) z (isCrossAt g z) v j → k = p1) →
      ∀ k, k < (swapRemove g.pipes p1).length →
      ∀ j, j < ((swapRemove g.pipes p1).getD k []).length →
        ¬ matchesAt ((swapRemove g.pipes p1).getD k []) z (isCrossAt g z) v j := by
    intro z huz k hk j hj
    rw [getD_swapRemove [] g.pipes p1 k (by omega)] at hj ⊢
    intro hm
    by_cases hkp : k = p1
    · rw [if_pos hkp] at hj hm
      have := huz (g.pipes.length - 1) j (by omega) hj hm
      omega
    · rw [if_neg hkp] at hj hm
      have := huz k j (by omega) hj hm
      omega
  refine ⟨?_, ?_, ?_⟩
  · exact classify_over_none g v c1 _ hn1
      (hkill c1 (fun k j hk hj hm => (huniq1 k j hk hj hm).1))
  · exact classify_over_none g v c2 _ hn2
      (hkill c2 (fun k j hk hj hm => (huniq2 k j hk hj hm).1))
  · intro W hW
    have hc1 : (↑(swapRemove g.pipes p1 ++ [W]) :
        Multiset (List GridPoint)) =
        W ::ₘ ↑(swapRemove g.pipes p1) := coe_concat_multiset _ _
    have hmemA : g.pipes.getD p1 [] ∈ (↑g.pipes : Multiset (List GridPoint)) :=
      Multiset.mem_coe.mpr (getD_mem [] g.pipes p1 hp1)
    rw [hc1, multiset_swapRemove_eq [] g.pipes p1 hp1]
    conv_rhs => rw [← Multiset.cons_erase hmemA]
    simp only [Multiset.map_cons]
    rw [hW]

theorem toggle_toggle_EndS_same (g : PlaneGrid) (c1 c2 : GridPoint) (p1 : ℕ)
    (hinv : PipesInv g)
    (h1 : g.rect.contains c1 ∧ g.rect.contains c2)
    (h2 : c2.x - c1.x = 0 ∧ (c2.y - c1.y).natAbs = 1 ∨
        c2.y - c1.y = 0 ∧ (c2.x - c1.x).natAbs = 1)
    (h3 : ¬ (isWallAt g c1 ∨ isWallAt g c2))
    (hA : pipePieceAt g c1 (decide (c2.x - c1.x = 0)) = .endp p1)
    (hB : pipePieceAt g c2 (decide (c2.x - c1.x = 0)) = .start p1)
    (hlen2 : (g.pipes.getD p1 []).length = 2) :
    pipesEquiv ((togglePipe (togglePipe g c1 c2).2 c1 c2).2).pipes
      g.pipes := by
  set v := decide (c2.x - c1.x = 0) with hv
  obtain ⟨hn1, hp1, iA, hiA1, hiAne, hmA⟩ := pipePieceAt_endp_elim g c1 v hA
  obtain ⟨hn2, -, -, hmB⟩ := pipePieceAt_start_elim g c2 v hB
  have hiAeq : iA = 1 := by omega
  subst hiAeq
  obtain ⟨hA', hB', hmult⟩ := toggle_endstart_same_core g c1 c2 p1 v hinv hp1
    hlen2 hn1 hn2 hmA hmB
  have hbr1 := togglePipe_branch_EndS g c1 c2 p1 p1 h1 h2 h3 hA hB
  rw [if_pos rfl, if_pos hlen2] at hbr1
  rw [hbr1]
  have hbr2 := togglePipe_branch_EE (withPipes g (swapRemove g.pipes p1))
    c1 c2 false false h1 h2 h3 hA' hB'
  rw [show (false && false) = false from rfl, if_neg Bool.false_ne_true] at hbr2
  rw [hbr2]
  simp only [withPipes_pipes]
  apply hmult
  have hAfrm := eq_pair_of_length_two (g.pipes.getD p1 []) ⟨0, 0⟩ hlen2
  rw [hmB.1, hmA.1] at hAfrm
  rw [hAfrm, show ([c1, c2] : List GridPoint) = [c2, c1].reverse from rfl,
    pipeUnord_reverse]

theorem toggle_toggle_SEnd_same (g : PlaneGrid) (c1 c2 : GridPoint) (p1 : ℕ)
    (hinv : PipesInv g)
    (h1 : g.rect.contains c1 ∧ g.rect.contains c2)
    (h2 : c2.x - c1.x = 0 ∧ (c2.y - c1.y).natAbs = 1 ∨
        c2.y - c1.y = 0 ∧ (c2.x - c1.x).natAbs = 1)
    (h3 : ¬ (isWallAt g c1 ∨ isWallAt g c2))
    (hA : pipePieceAt g c1 (decide (c2.x - c1.x = 0)) = .start p1)
    (hB : pipePieceAt g c2 (decide (c2.x - c1.x = 0)) = .endp p1)
    (hlen2 : (g.pipes.getD p1 []).length = 2) :
    pipesEquiv ((togglePipe (togglePipe g c1 c2).2 c1 c2).2).pipes
      g.pipes := by
  set v := decide (c2.x - c1.x = 0) with hv
  obtain ⟨hn1, hp1, -, hmB⟩ := pipePieceAt_start_elim g c1 v hA
  obtain ⟨hn2, -, iA, hiA1, hiAne, hmA⟩ := pipePieceAt_endp_elim g c2 v hB
  have hiAeq : iA = 1 := by omega
  subst hiAeq
  obtain ⟨hB', hA', hmult⟩ := toggle_endstart_same_core g c2 c1 p1 v hinv hp1
    hlen2 hn2 hn1 hmA hmB
  have hbr1 := togglePipe_branch_SEnd g c1 c2 p1 p1 h1 h2 h3 hA hB
  rw [if_pos rfl, if_pos hlen2] at hbr1
  rw [hbr1]
  have hbr2 := togglePipe_branch_EE (withPipes g (swapRemove g.pipes p1))
    c1 c2 false false h1 h2 h3 hA' hB'
  rw [show (false && false) = false from rfl, if_neg Bool.false_ne_true] at hbr2
  rw [hbr2]
  simp only [withPipes_pipes]
  apply hmult
  have hAfrm := eq_pair_of_length_two (g.pipes.getD p1 []) ⟨0, 0⟩ hlen2
  rw [hmB.1, hmA.1] at hAfrm
  rw [hAfrm]

theorem no_match_swapRemove (g : PlaneGrid) (v : Bool) (z : GridPoint)
    (p1 : ℕ) (hp1 : p1 < g.pipes.length)
    (huz : ∀ k j, k < g.pipes.length → j < (g.pipes.getD k []).length →
      matchesAt (g.pipes.getD k []) z (isCrossAt g z) v j → k = p1) :
    ∀ k, k < (swapRemove g.pipes p1).length →
    ∀ j, j < ((swapRemove g.pipes p1).getD k []).length →
      ¬ matchesAt ((swapRemove g.pipes p1).getD k []) z (isCrossAt g z) v j := by
  have hPne : g.pipes ≠ [] := by
    intro e
    rw [e] at hp1
    simp at hp1
  have hswlen : (swapRemove g.pipes p1).length = g.pipes.length - 1 :=
    length_swapRemove _ _ hPne
  intro k hk j hj
  rw [getD_swapRemove [] g.pipes p1 k (by omega)] at hj ⊢
  intro hm
  by_cases hkp : k = p1
  · rw [if_pos hkp] at hj hm
    have := huz (g.pipes.length - 1) j (by omega) hj hm
    omega
  · rw [if_neg hkp] at hj hm
    have := huz k j (by omega) hj hm
    omega

theorem isCrossAt_eq_false_of_node (g : PlaneGrid) (c : GridPoint)
    (h : isNodeAt g c = true) : isCrossAt g c = false := by
  unfold isNodeAt at h
  unfold isCrossAt
  cases hl : lookupObj g.objects c with
  | none => rw [hl] at h; simp at h
  | some o =>
      rw [hl] at h
      simp at h
      cases o <;> simp_all [PlaneObj.isNode]

theorem toggle_toggle_ES_del (g : PlaneGrid) (c1 c2 : GridPoint) (p2 : ℕ)
    (hinv : PipesInv g)
    (h1 : g.rect.contains c1 ∧ g.rect.contains c2)
    (h2 : c2.x - c1.x = 0 ∧ (c2.y - c1.y).natAbs = 1 ∨
        c2.y - c1.y = 0 ∧ (c2.x - c1.x).natAbs = 1)
    (h3 : ¬ (isWallAt g c1 ∨ isWallAt g c2))
    (hA : pipePieceAt g c1 (decide (c2.x - c1.x = 0)) = .emptyOrNode true)
    (hB : pipePieceAt g c2 (decide (c2.x - c1.x = 0)) = .start p2)
    (hcond : (g.pipes.getD p2 []).getD 1 ⟨0, 0⟩ = c1) :
    pipesEquiv ((togglePipe (togglePipe g c1 c2).2 c1 c2).2).pipes
      g.pipes := by
  set v := decide (c2.x - c1.x = 0) with hv
  have hn1 := pipePieceAt_node_elim g c1 v hA
  obtain ⟨hn2, hp2, hlen02, hmB⟩ := pipePieceAt_start_elim g c2 v hB
  have huniq2 := unique_occ_of_inv g hinv c2 v hn2 hp2 hlen02 hmB
  have hlen2 : (g.pipes.getD p2 []).length = 2 := by
    by_contra hne2
    have hge := hinv.1 p2 hp2
    have hI2 := hinv.2.1 p2 hp2 1 (by omega) (by omega) (by omega)
    rw [hcond] at hI2
    rw [hI2] at hn1
    exact Bool.false_ne_true hn1
  have hbr1 := togglePipe_branch_ES g c1 c2 true p2 h1 h2 h3 hA hB
  rw [Bool.true_and, if_pos (by rw [decide_eq_true_eq]; exact hcond)] at hbr1
  rw [hbr1]
  have hA' : pipePieceAt (withPipes g (swapRemove g.pipes p2)) c1 v
      = .emptyOrNode true :=
    pipePieceAt_of_node _ c1 v ((isNodeAt_withPipes _ _ _).trans hn1)
  have hB' : pipePieceAt (withPipes g (swapRemove g.pipes p2)) c2 v
      = .emptyOrNode false :=
    classify_over_none g v c2 _ hn2
      (no_match_swapRemove g v c2 p2 hp2
        (fun k j hk hj hm => (huniq2 k j hk hj hm).1))
  have hbr2 := togglePipe_branch_EE (withPipes g (swapRemove g.pipes p2))
    c1 c2 true false h1 h2 h3 hA' hB'
  rw [show (true && false) = false from rfl, if_neg Bool.false_ne_true] at hbr2
  rw [hbr2]
  simp only [withPipes_pipes]
  have hAfrm := eq_pair_of_length_two (g.pipes.getD p2 []) ⟨0, 0⟩ hlen2
  rw [hmB.1, hcond] at hAfrm
  have hc1 : (↑(swapRemove g.pipes p2 ++ [[c1, c2]]) :
      Multiset (List GridPoint)) =
      [c1, c2] ::ₘ ↑(swapRemove g.pipes p2) := coe_concat_multiset _ _
  have hmemA : g.pipes.getD p2 [] ∈ (↑g.pipes : Multiset (List GridPoint)) :=
    Multiset.mem_coe.mpr (getD_mem [] g.pipes p2 hp2)
  show Multiset.map pipeUnord _ = Multiset.map pipeUnord _
  rw [hc1, multiset_swapRemove_eq [] g.pipes p2 hp2]
  conv_rhs => rw [← Multiset.cons_erase hmemA]
  simp only [Multiset.map_cons]
  rw [hAfrm, show ([c1, c2] : List GridPoint) = [c2, c1].reverse from rfl,
    pipeUnord_reverse]

theorem toggle_toggle_ES_ins (g : PlaneGrid) (c1 c2 : GridPoint) (n : Bool)
    (p2 : ℕ)
    (hinv : PipesInv g)
    (h1 : g.rect.contains c1 ∧ g.rect.contains c2)
    (h2 : c2.x - c1.x = 0 ∧ (c2.y - c1.y).natAbs = 1 ∨
        c2.y - c1.y = 0 ∧ (c2.x - c1.x).natAbs = 1)
    (h3 : ¬ (isWallAt g c1 ∨ isWallAt g c2))
    (hA : pipePieceAt g c1 (decide (c2.x - c1.x = 0)) = .emptyOrNode n)
    (hB : pipePieceAt g c2 (decide (c2.x - c1.x = 0)) = .start p2)
    (hcond : (n && decide ((g.pipes.getD p2 []).getD 1 ⟨0, 0⟩ = c1)) = false) :
    (togglePipe (togglePipe g c1 c2).2 c1 c2).2.pipes = g.pipes := by
  set v := decide (c2.x - c1.x = 0) with hv
  obtain ⟨hn2, hp2, hlen02, hmB⟩ := pipePieceAt_start_elim g c2 v hB
  set B := g.pipes.getD p2 [] with hBdef
  have hlenB2 : 2 ≤ B.length := hinv.1 p2 hp2
  have hne12 : c1 ≠ c2 := edge_ne c1 c2 h2
  have huniq2 := unique_occ_of_inv g hinv c2 v hn2 hp2 hlen02 hmB
  have hbr1 := togglePipe_branch_ES g c1 c2 n p2 h1 h2 h3 hA hB
  rw [hcond, if_neg Bool.false_ne_true] at hbr1
  rw [hbr1]
  set Q := g.pipes.set p2 (c1 :: B) with hQdef
  have hQlen : Q.length = g.pipes.length := List.length_set _ _ _
  have hQp2 : Q.getD p2 [] = c1 :: B := getD_set_self [] g.pipes p2 _ hp2
  have hQk : ∀ k, k ≠ p2 → Q.getD k [] = g.pipes.getD k [] := fun k hk =>
    getD_set_ne [] g.pipes k p2 _ (fun e => hk e.symm)
  have hB' : pipePieceAt (withPipes g Q) c2 v = .middle p2 1 := by
    have hcls := classify_over g v c2 Q p2 1 hn2
      (by rw [hQlen]; exact hp2)
      (by rw [hQp2]; simp only [List.length_cons]; omega)
      (by rw [hQp2]
          refine ⟨by rw [List.getD_cons_succ]; exact hmB.1, fun hflag => ?_⟩
          rw [show (if (1 : ℕ) = 0 then 1 else 1 - 1) = 0 from rfl,
            List.getD_cons_zero]
          exact (edge_axis₂ c1 c2 h2).trans hv.symm)
      (fun j hj => by
        have hj0 : j = 0 := by omega
        subst hj0
        rw [hQp2]
        intro hm
        have := hm.1
        rw [List.getD_cons_zero] at this
        exact hne12 this)
      (fun k' hk' i' hi' => by
        rw [hQk k' (by omega)] at hi' ⊢
        exact no_match_of_unique g.pipes huniq2 (by omega) (by omega) i' hi')
    rw [hcls, hQp2]
    unfold classifyIdx
    rw [if_neg one_ne_zero, if_neg (by simp; omega)]
  have hrestore : Q.set p2 ((c1 :: B).drop 1) = g.pipes := by
    rw [show (c1 :: B).drop 1 = B from rfl, hQdef, List.set_set]
    exact set_getD_self [] g.pipes p2 hp2
  cases n with
  | false =>
      obtain ⟨hn1, hnomatch⟩ := pipePieceAt_empty_elim g c1 v hA
      have hA' : pipePieceAt (withPipes g Q) c1 v = .start p2 := by
        have hcls := classify_over g v c1 Q p2 0 hn1
          (by rw [hQlen]; exact hp2)
          (by rw [hQp2]; simp)
          (by rw [hQp2]
              refine ⟨by rw [List.getD_cons_zero], fun hflag => ?_⟩
              rw [show (if (0 : ℕ) = 0 then 1 else 0 - 1) = 1 from rfl,
                List.getD_cons_succ,
                show B.getD 0 ⟨0, 0⟩ = c2 from hmB.1]
              exact (edge_axis₁ c1 c2 h2).trans hv.symm)
          (fun j hj => absurd hj (Nat.not_lt_zero j))
          (fun k' hk' i' hi' => by
            rw [hQk k' (by omega)] at hi' ⊢
            exact hnomatch k' i' (by omega) hi')
        rw [hcls, hQp2]
        unfold classifyIdx
        rw [if_pos rfl]
      have hbr2 := togglePipe_branch_SM (withPipes g Q) c1 c2 p2 p2 1
        h1 h2 h3 hA' hB'
      rw [if_pos ⟨rfl, rfl⟩] at hbr2
      rw [hbr2]
      simp only [withPipes_pipes]
      rw [hQp2, hrestore]
  | true =>
      have hn1 := pipePieceAt_node_elim g c1 v hA
      have hA' : pipePieceAt (withPipes g Q) c1 v = .emptyOrNode true :=
        pipePieceAt_of_node _ c1 v ((isNodeAt_withPipes _ _ _).trans hn1)
      have hbr2 := togglePipe_branch_EmptyM (withPipes g Q) c1 c2 true p2 1
        h1 h2 h3 hA' hB'
      simp only [withPipes_pipes, hQp2] at hbr2
      rw [show (true && decide True &&
          decide ((c1 :: B).getD 0 ⟨0, 0⟩ = c1)) = true from by simp,
        if_pos rfl] at hbr2
      rw [hbr2]
      simp only [withPipes_pipes]
      rw [hrestore]

theorem toggle_toggle_SE_del (g : PlaneGrid) (c1 c2 : GridPoint) (p1 : ℕ)
    (hinv : PipesInv g)
    (h1 : g.rect.contains c1 ∧ g.rect.contains c2)
    (h2 : c2.x - c1.x = 0 ∧ (c2.y - c1.y).natAbs = 1 ∨
        c2.y - c1.y = 0 ∧ (c2.x - c1.x).natAbs = 1)
    (h3 : ¬ (isWallAt g c1 ∨ isWallAt g c2))
    (hA : pipePieceAt g c1 (decide (c2.x - c1.x = 0)) = .start p1)
    (hB : pipePieceAt g c2 (decide (c2.x - c1.x = 0)) = .emptyOrNode true)
    (hcond : (g.pipes.getD p1 []).getD 1 ⟨0, 0⟩ = c2) :
    pipesEquiv ((togglePipe (togglePipe g c1 c2).2 c1 c2).2).pipes
      g.pipes := by
  set v := decide (c2.x - c1.x = 0) with hv
  have hn2 := pipePieceAt_node_elim g c2 v hB
  obtain ⟨hn1, hp1, hlen01, hmA⟩ := pipePieceAt_start_elim g c1 v hA
  have huniq1 := unique_occ_of_inv g hinv c1 v hn1 hp1 hlen01 hmA
  have hlen2 : (g.pipes.getD p1 []).length = 2 := by
    by_contra hne2
    have hge := hinv.1 p1 hp1
    have hI2 := hinv.2.1 p1 hp1 1 (by omega) (by omega) (by omega)
    rw [hcond] at hI2
    rw [hI2] at hn2
    exact Bool.false_ne_true hn2
  have hbr1 := togglePipe_branch_SE g c1 c2 p1 true h1 h2 h3 hA hB
  rw [Bool.true_and, if_pos (by rw [decide_eq_true_eq]; exact hcond)] at hbr1
  rw [hbr1]
  have hB' : pipePieceAt (withPipes g (swapRemove g.pipes p1)) c2 v
      = .emptyOrNode true :=
    pipePieceAt_of_node _ c2 v ((isNodeAt_withPipes _ _ _).trans hn2)
  have hA' : pipePieceAt (withPipes g (swapRemove g.pipes p1)) c1 v
      = .emptyOrNode false :=
    classify_over_none g v c1 _ hn1
      (no_match_swapRemove g v c1 p1 hp1
        (fun k j hk hj hm => (huniq1 k j hk hj hm).1))
  have hbr2 := togglePipe_branch_EE (withPipes g (swapRemove g.pipes p1))
    c1 c2 false true h1 h2 h3 hA' hB'
  rw [show (false && true) = false from rfl, if_neg Bool.false_ne_true] at hbr2
  rw [hbr2]
  simp only [withPipes_pipes]
  have hAfrm := eq_pair_of_length_two (g.pipes.getD p1 []) ⟨0, 0⟩ hlen2
  rw [hmA.1, hcond] at hAfrm
  have hc1 : (↑(swapRemove g.pipes p1 ++ [[c1, c2]]) :
      Multiset (List GridPoint)) =
      [c1, c2] ::ₘ ↑(swapRemove g.pipes p1) := coe_concat_multiset _ _
  have hmemA : g.pipes.getD p1 [] ∈ (↑g.pipes : Multiset (List GridPoint)) :=
    Multiset.mem_coe.mpr (getD_mem [] g.pipes p1 hp1)
  show Multiset.map pipeUnord _ = Multiset.map pipeUnord _
  rw [hc1, multiset_swapRemove_eq [] g.pipes p1 hp1]
  conv_rhs => rw [← Multiset.cons_erase hmemA]
  simp only [Multiset.map_cons]
  rw [hAfrm]

theorem toggle_toggle_SE_ins (g : PlaneGrid) (c1 c2 : GridPoint) (p1 : ℕ)
    (n : Bool)
    (hinv : PipesInv g)
    (h1 : g.rect.contains c1 ∧ g.rect.contains c2)
    (h2 : c2.x - c1.x = 0 ∧ (c2.y - c1.y).natAbs = 1 ∨
        c2.y - c1.y = 0 ∧ (c2.x - c1.x).natAbs = 1)
    (h3 : ¬ (isWallAt g c1 ∨ isWallAt g c2))
    (hA : pipePieceAt g c1 (decide (c2.x - c1.x = 0)) = .start p1)
    (hB : pipePieceAt g c2 (decide (c2.x - c1.x = 0)) = .emptyOrNode n)
    (hcond : (n && decide ((g.pipes.getD p1 []).getD 1 ⟨0, 0⟩ = c2)) = false) :
    (togglePipe (togglePipe g c1 c2).2 c1 c2).2.pipes = g.pipes := by
  set v := decide (c2.x - c1.x = 0) with hv
  obtain ⟨hn1, hp1, hlen01, hmA⟩ := pipePieceAt_start_elim g c1 v hA
  set A := g.pipes.getD p1 [] with hAdef
  have hlenA2 : 2 ≤ A.length := hinv.1 p1 hp1
  have hne12 : c1 ≠ c2 := edge_ne c1 c2 h2
  have huniq1 := unique_occ_of_inv g hinv c1 v hn1 hp1 hlen01 hmA
  have hbr1 := togglePipe_branch_SE g c1 c2 p1 n h1 h2 h3 hA hB
  rw [hcond, if_neg Bool.false_ne_true] at hbr1
  rw [hbr1]
  set Q := g.pipes.set p1 (c2 :: A) with hQdef
  have hQlen : Q.length = g.pipes.length := List.length_set _ _ _
  have hQp1 : Q.getD p1 [] = c2 :: A := getD_set_self [] g.pipes p1 _ hp1
  have hQk : ∀ k, k ≠ p1 → Q.getD k [] = g.pipes.getD k [] := fun k hk =>
    getD_set_ne [] g.pipes k p1 _ (fun e => hk e.symm)
  have hA' : pipePieceAt (withPipes g Q) c1 v = .middle p1 1 := by
    have hcls := classify_over g v c1 Q p1 1 hn1
      (by rw [hQlen]; exact hp1)
      (by rw [hQp1]; simp only [List.length_cons]; omega)
      (by rw [hQp1]
          refine ⟨by rw [List.getD_cons_succ]; exact hmA.1, fun hflag => ?_⟩
          rw [show (if (1 : ℕ) = 0 then 1 else 1 - 1) = 0 from rfl,
            List.getD_cons_zero]
          exact (edge_axis₁ c1 c2 h2).trans hv.symm)
      (fun j hj => by
        have hj0 : j = 0 := by omega
        subst hj0
        rw [hQp1]
        intro hm
        have := hm.1
        rw [List.getD_cons_zero] at this
        exact hne12 this.symm)
      (fun k' hk' i' hi' => by
        rw [hQk k' (by omega)] at hi' ⊢
        exact no_match_of_unique g.pipes huniq1 (by omega) (by omega) i' hi')
    rw [hcls, hQp1]
    unfold classifyIdx
    rw [if_neg one_ne_zero, if_neg (by simp only [List.length_cons]; omega)]
  have hrestore : Q.set p1 ((c2 :: A).drop 1) = g.pipes := by
    rw [show (c2 :: A).drop 1 = A from rfl, hQdef, List.set_set]
    exact set_getD_self [] g.pipes p1 hp1
  cases n with
  | false =>
      obtain ⟨hn2, hnomatch⟩ := pipePieceAt_empty_elim g c2 v hB
      have hB' : pipePieceAt (withPipes g Q) c2 v = .start p1 := by
        have hcls := classify_over g v c2 Q p1 0 hn2
          (by rw [hQlen]; exact hp1)
          (by rw [hQp1]; simp)
          (by rw [hQp1]
              refine ⟨by rw [List.getD_cons_zero], fun hflag => ?_⟩
              rw [show (if (0 : ℕ) = 0 then 1 else 0 - 1) = 1 from rfl,
                List.getD_cons_succ,
                show A.getD 0 ⟨0, 0⟩ = c1 from hmA.1]
              exact (edge_axis₂ c1 c2 h2).trans hv.symm)
          (fun j hj => absurd hj (Nat.not_lt_zero j))
          (fun k' hk' i' hi' => by
            rw [hQk k' (by omega)] at hi' ⊢
            exact hnomatch k' i' (by omega) hi')
        rw [hcls, hQp1]
        unfold classifyIdx
        rw [if_pos rfl]
      have hbr2 := togglePipe_branch_MS (withPipes g Q) c1 c2 p1 p1 1
        h1 h2 h3 hA' hB'
      rw [if_pos ⟨rfl, rfl⟩] at hbr2
      rw [hbr2]
      simp only [withPipes_pipes]
      rw [hQp1, hrestore]
  | true =>
      have hn2 := pipePieceAt_node_elim g c2 v hB
      have hB' : pipePieceAt (withPipes g Q) c2 v = .emptyOrNode true :=
        pipePieceAt_of_node _ c2 v ((isNodeAt_withPipes _ _ _).trans hn2)
      have hbr2 := togglePipe_branch_MEmpty (withPipes g Q) c1 c2 p1 1 true
        h1 h2 h3 hA' hB'
      simp only [withPipes_pipes, hQp1] at hbr2
      rw [show (true && decide True &&
          decide ((c2 :: A).getD 0 ⟨0, 0⟩ = c2)) = true from by simp,
        if_pos rfl] at hbr2
      rw [hbr2]
      simp only [withPipes_pipes]
      rw [hrestore]

theorem toggle_toggle_EEnd_del (g : PlaneGrid) (c1 c2 : GridPoint) (p2 : ℕ)
    (hinv : PipesInv g)
    (h1 : g.rect.contains c1 ∧ g.rect.contains c2)
    (h2 : c2.x - c1.x = 0 ∧ (c2.y - c1.y).natAbs = 1 ∨
        c2.y - c1.y = 0 ∧ (c2.x - c1.x).natAbs = 1)
    (h3 : ¬ (isWallAt g c1 ∨ isWallAt g c2))
    (hA : pipePieceAt g c1 (decide (c2.x - c1.x = 0)) = .emptyOrNode true)
    (hB : pipePieceAt g c2 (decide (c2.x - c1.x = 0)) = .endp p2)
    (hlen2 : (g.pipes.getD p2 []).length = 2)
    (hcond0 : (g.pipes.getD p2 []).getD 0 ⟨0, 0⟩ = c1) :
    pipesEquiv ((togglePipe (togglePipe g c1 c2).2 c1 c2).2).pipes
      g.pipes := by
  set v := decide (c2.x - c1.x = 0) with hv
  have hn1 := pipePieceAt_node_elim g c1 v hA
  obtain ⟨hn2, hp2, i, hi1, hine, hmB⟩ := pipePieceAt_endp_elim g c2 v hB
  have hieq : i = 1 := by omega
  subst hieq
  have huniq2 := unique_occ_of_inv g hinv c2 v hn2 hp2 (by omega) hmB
  have hbr1 := togglePipe_branch_EEnd g c1 c2 true p2 h1 h2 h3 hA hB
  rw [if_pos (by
    simp only [Bool.true_and, Bool.and_eq_true, decide_eq_true_eq]
    exact ⟨hlen2, hcond0⟩)] at hbr1
  rw [hbr1]
  have hA' : pipePieceAt (withPipes g (swapRemove g.pipes p2)) c1 v
      = .emptyOrNode true :=
    pipePieceAt_of_node _ c1 v ((isNodeAt_withPipes _ _ _).trans hn1)
  have hB' : pipePieceAt (withPipes g (swapRemove g.pipes p2)) c2 v
      = .emptyOrNode false :=
    classify_over_none g v c2 _ hn2
      (no_match_swapRemove g v c2 p2 hp2
        (fun k j hk hj hm => (huniq2 k j hk hj hm).1))
  have hbr2 := togglePipe_branch_EE (withPipes g (swapRemove g.pipes p2))
    c1 c2 true false h1 h2 h3 hA' hB'
  rw [show (true && false) = false from rfl, if_neg Bool.false_ne_true] at hbr2
  rw [hbr2]
  simp only [withPipes_pipes]
  have hBfrm := eq_pair_of_length_two (g.pipes.getD p2 []) ⟨0, 0⟩ hlen2
  rw [hcond0, hmB.1] at hBfrm
  have hc1 : (↑(swapRemove g.pipes p2 ++ [[c1, c2]]) :
      Multiset (List GridPoint)) =
      [c1, c2] ::ₘ ↑(swapRemove g.pipes p2) := coe_concat_multiset _ _
  have hmemB : g.pipes.getD p2 [] ∈ (↑g.pipes : Multiset (List GridPoint)) :=
    Multiset.mem_coe.mpr (getD_mem [] g.pipes p2 hp2)
  show Multiset.map pipeUnord _ = Multiset.map pipeUnord _
  rw [hc1, multiset_swapRemove_eq [] g.pipes p2 hp2]
  conv_rhs => rw [← Multiset.cons_erase hmemB]
  simp only [Multiset.map_cons]
  rw [hBfrm]

theorem toggle_toggle_EndE_del (g : PlaneGrid) (c1 c2 : GridPoint) (p1 : ℕ)
    (hinv : PipesInv g)
    (h1 : g.rect.contains c1 ∧ g.rect.contains c2)
    (h2 : c2.x - c1.x = 0 ∧ (c2.y - c1.y).natAbs = 1 ∨
        c2.y - c1.y = 0 ∧ (c2.x - c1.x).natAbs = 1)
    (h3 : ¬ (isWallAt g c1 ∨ isWallAt g c2))
    (hA : pipePieceAt g c1 (decide (c2.x - c1.x = 0)) = .endp p1)
    (hB : pipePieceAt g c2 (decide (c2.x - c1.x = 0)) = .emptyOrNode true)
    (hlen2 : (g.pipes.getD p1 []).length = 2)
    (hcond0 : (g.pipes.getD p1 []).getD 0 ⟨0, 0⟩ = c2) :
    pipesEquiv ((togglePipe (togglePipe g c1 c2).2 c1 c2).2).pipes
      g.pipes := by
  set v := decide (c2.x - c1.x = 0) with hv
  have hn2 := pipePieceAt_node_elim g c2 v hB
  obtain ⟨hn1, hp1, i, hi1, hine, hmA⟩ := pipePieceAt_endp_elim g c1 v hA
  have hieq : i = 1 := by omega
  subst hieq
  have huniq1 := unique_occ_of_inv g hinv c1 v hn1 hp1 (by omega) hmA
  have hbr1 := togglePipe_branch_EndE g c1 c2 p1 true h1 h2 h3 hA hB
  rw [if_pos (by
    simp only [Bool.true_and, Bool.and_eq_true, decide_eq_true_eq]
    exact ⟨hlen2, hcond0⟩)] at hbr1
  rw [hbr1]
  have hB' : pipePieceAt (withPipes g (swapRemove g.pipes p1)) c2 v
      = .emptyOrNode true :=
    pipePieceAt_of_node _ c2 v ((isNodeAt_withPipes _ _ _).trans hn2)
  have hA' : pipePieceAt (withPipes g (swapRemove g.pipes p1)) c1 v
      = .emptyOrNode false :=
    classify_over_none g v c1 _ hn1
      (no_match_swapRemove g v c1 p1 hp1
        (fun k j hk hj hm => (huniq1 k j hk hj hm).1))
  have hbr2 := togglePipe_branch_EE (withPipes g (swapRemove g.pipes p1))
    c1 c2 false true h1 h2 h3 hA' hB'
  rw [show (false && true) = false from rfl, if_neg Bool.false_ne_true] at hbr2
  rw [hbr2]
  simp only [withPipes_pipes]
  have hAfrm := eq_pair_of_length_two (g.pipes.getD p1 []) ⟨0, 0⟩ hlen2
  rw [hcond0, hmA.1] at hAfrm
  have hc1 : (↑(swapRemove g.pipes p1 ++ [[c1, c2]]) :
      Multiset (List GridPoint)) =
      [c1, c2] ::ₘ ↑(swapRemove g.pipes p1) := coe_concat_multiset _ _
  have hmemA : g.pipes.getD p1 [] ∈ (↑g.pipes : Multiset (List GridPoint)) :=
    Multiset.mem_coe.mpr (getD_mem [] g.pipes p1 hp1)
  show Multiset.map pipeUnord _ = Multiset.map pipeUnord _
  rw [hc1, multiset_swapRemove_eq [] g.pipes p1 hp1]
  conv_rhs => rw [← Multiset.cons_erase hmemA]
  simp only [Multiset.map_cons]
  rw [hAfrm, show ([c1, c2] : List GridPoint) = [c2, c1].reverse from rfl,
    pipeUnord_reverse]

theorem toggle_toggle_EEnd_ins (g : PlaneGrid) (c1 c2 : GridPoint) (n : Bool)
    (p2 : ℕ)
    (hinv : PipesInv g)
    (h1 : g.rect.contains c1 ∧ g.rect.contains c2)
    (h2 : c2.x - c1.x = 0 ∧ (c2.y - c1.y).natAbs = 1 ∨
        c2.y - c1.y = 0 ∧ (c2.x - c1.x).natAbs = 1)
    (h3 : ¬ (isWallAt g c1 ∨ isWallAt g c2))
    (hA : pipePieceAt g c1 (decide (c2.x - c1.x = 0)) = .emptyOrNode n)
    (hB : pipePieceAt g c2 (decide (c2.x - c1.x = 0)) = .endp p2)
    (hcond : (n && decide ((g.pipes.getD p2 []).length = 2) &&
        decide ((g.pipes.getD p2 []).getD 0 ⟨0, 0⟩ = c1)) = false) :
    (togglePipe (togglePipe g c1 c2).2 c1 c2).2.pipes = g.pipes := by
  set v := decide (c2.x - c1.x = 0) with hv
  obtain ⟨hn2, hp2, i, hi1, hine, hmB⟩ := pipePieceAt_endp_elim g c2 v hB
  set B := g.pipes.getD p2 [] with hBdef
  have hne12 : c1 ≠ c2 := edge_ne c1 c2 h2
  have huniq2 := unique_occ_of_inv g hinv c2 v hn2 hp2
    (by rw [← hBdef]; omega) hmB
  have hbr1 := togglePipe_branch_EEnd g c1 c2 n p2 h1 h2 h3 hA hB
  rw [hcond, if_neg Bool.false_ne_true] at hbr1
  rw [hbr1]
  set Q := g.pipes.set p2 (B ++ [c1]) with hQdef
  have hQlen : Q.length = g.pipes.length := List.length_set _ _ _
  have hQp2 : Q.getD p2 [] = B ++ [c1] := getD_set_self [] g.pipes p2 _ hp2
  have hQk : ∀ k, k ≠ p2 → Q.getD k [] = g.pipes.getD k [] := fun k hk =>
    getD_set_ne [] g.pipes k p2 _ (fun e => hk e.symm)
  have hB' : pipePieceAt (withPipes g Q) c2 v = .middle p2 i := by
    have hcls := classify_over g v c2 Q p2 i hn2
      (by rw [hQlen]; exact hp2)
      (by rw [hQp2]; simp only [List.length_append, List.length_singleton]
          omega)
      (by rw [hQp2]
          exact (matchesAt_append_left B [c1] c2 (isCrossAt g c2) v i
            (by omega) (fun h0 => absurd h0 hine)).mpr hmB)
      (fun j hj => by
        rw [hQp2]
        intro hm'
        have hmb := (matchesAt_append_left B [c1] c2 (isCrossAt g c2) v j
          (by omega) (fun _ => by omega)).mp hm'
        have hkj := huniq2 p2 j hp2 (by rw [← hBdef]; omega) hmb
        exact absurd hkj.2 (by omega))
      (fun k' hk' i' hi' => by
        rw [hQk k' (by omega)] at hi' ⊢
        exact no_match_of_unique g.pipes huniq2 (by omega) (by omega) i' hi')
    rw [hcls, hQp2]
    unfold classifyIdx
    rw [if_neg hine,
      if_neg (by simp only [List.length_append, List.length_singleton]; omega)]
  have hrestore : Q.set p2 (B ++ [c1]).dropLast = g.pipes := by
    rw [show (B ++ [c1]).dropLast = B from by simp, hQdef, List.set_set]
    exact set_getD_self [] g.pipes p2 hp2
  cases n with
  | false =>
      obtain ⟨hn1, hnomatch⟩ := pipePieceAt_empty_elim g c1 v hA
      have hA' : pipePieceAt (withPipes g Q) c1 v = .endp p2 := by
        have hcls := classify_over g v c1 Q p2 B.length hn1
          (by rw [hQlen]; exact hp2)
          (by rw [hQp2]; simp only [List.length_append, List.length_singleton]
              omega)
          (by rw [hQp2]
              refine ⟨getD_concat_last _ _ _, fun hflag => ?_⟩
              rw [show (if B.length = 0 then 1 else B.length - 1) = i from by
                  rw [if_neg (by omega)]
                  omega,
                getD_append_left (⟨0, 0⟩ : GridPoint) B [c1] i (by omega),
                show B.getD i ⟨0, 0⟩ = c2 from hmB.1]
              exact (edge_axis₁ c1 c2 h2).trans hv.symm)
          (fun j hj => by
            rw [hQp2]
            intro hm'
            have hmb := (matchesAt_append_left B [c1] c1 (isCrossAt g c1) v j
              (by omega) (fun _ => by omega)).mp hm'
            exact hnomatch p2 j hp2 (by rw [← hBdef]; omega) hmb)
          (fun k' hk' i' hi' => by
            rw [hQk k' (by omega)] at hi' ⊢
            exact hnomatch k' i' (by omega) hi')
        rw [hcls, hQp2]
        unfold classifyIdx
        rw [if_neg (by omega),
          if_pos (by simp only [List.length_append, List.length_singleton])]
      have hbr2 := togglePipe_branch_EndM (withPipes g Q) c1 c2 p2 p2 i
        h1 h2 h3 hA' hB'
      simp only [withPipes_pipes, hQp2] at hbr2
      rw [if_pos ⟨trivial, by
        simp only [List.length_append, List.length_singleton]; omega⟩] at hbr2
      rw [hbr2]
      simp only [withPipes_pipes]
      rw [hrestore]
  | true =>
      have hn1 := pipePieceAt_node_elim g c1 v hA
      have hA' : pipePieceAt (withPipes g Q) c1 v = .emptyOrNode true :=
        pipePieceAt_of_node _ c1 v ((isNodeAt_withPipes _ _ _).trans hn1)
      have hbr2 := togglePipe_branch_EmptyM (withPipes g Q) c1 c2 true p2 i
        h1 h2 h3 hA' hB'
      simp only [withPipes_pipes, hQp2] at hbr2
      rw [show ((B ++ [c1]).getD 0 ⟨0, 0⟩) = B.getD 0 ⟨0, 0⟩ from
        getD_append_left (⟨0, 0⟩ : GridPoint) B [c1] 0 (by omega)] at hbr2
      rw [Bool.true_and] at hcond
      have hc1f : (true && decide (i = 1) &&
          decide (B.getD 0 ⟨0, 0⟩ = c1)) = false := by
        by_cases hl2 : B.length = 2
        · have hd2 : decide (B.length = 2) = true := decide_eq_true hl2
          rw [hd2, Bool.true_and] at hcond
          rw [hcond, Bool.and_false]
        · rw [show decide (i = 1) = false from decide_eq_false (by omega),
            Bool.and_false, Bool.false_and]
      rw [hc1f, if_neg Bool.false_ne_true] at hbr2
      have hgl : (B ++ [c1]).getD (i + 1) ⟨0, 0⟩ = c1 := by
        rw [show i + 1 = B.length from hi1]
        exact getD_concat_last _ _ _
      have h2len : i + 2 = (B ++ [c1]).length := by
        simp only [List.length_append, List.length_singleton]
        omega
      rw [hgl, decide_eq_true h2len, decide_eq_true (rfl : c1 = c1),
        show (true && true && true) = true from rfl, if_pos rfl] at hbr2
      rw [hbr2]
      simp only [withPipes_pipes]
      rw [hrestore]

theorem toggle_toggle_EndE_ins (g : PlaneGrid) (c1 c2 : GridPoint) (p1 : ℕ)
    (n : Bool)
    (hinv : PipesInv g)
    (h1 : g.rect.contains c1 ∧ g.rect.contains c2)
    (h2 : c2.x - c1.x = 0 ∧ (c2.y - c1.y).natAbs = 1 ∨
        c2.y - c1.y = 0 ∧ (c2.x - c1.x).natAbs = 1)
    (h3 : ¬ (isWallAt g c1 ∨ isWallAt g c2))
    (hA : pipePieceAt g c1 (decide (c2.x - c1.x = 0)) = .endp p1)
    (hB : pipePieceAt g c2 (decide (c2.x - c1.x = 0)) = .emptyOrNode n)
    (hcond : (n && decide ((g.pipes.getD p1 []).length = 2) &&
        decide ((g.pipes.getD p1 []).getD 0 ⟨0, 0⟩ = c2)) = false) :
    (togglePipe (togglePipe g c1 c2).2 c1 c2).2.pipes = g.pipes := by
  set v := decide (c2.x - c1.x = 0) with hv
  obtain ⟨hn1, hp1, i, hi1, hine, hmA⟩ := pipePieceAt_endp_elim g c1 v hA
  set A := g.pipes.getD p1 [] with hAdef
  have hne12 : c1 ≠ c2 := edge_ne c1 c2 h2
  have huniq1 := unique_occ_of_inv g hinv c1 v hn1 hp1
    (by rw [← hAdef]; omega) hmA
  have hbr1 := togglePipe_branch_EndE g c1 c2 p1 n h1 h2 h3 hA hB
  rw [hcond, if_neg Bool.false_ne_true] at hbr1
  rw [hbr1]
  set Q := g.pipes.set p1 (A ++ [c2]) with hQdef
  have hQlen : Q.length = g.pipes.length := List.length_set _ _ _
  have hQp1 : Q.getD p1 [] = A ++ [c2] := getD_set_self [] g.pipes p1 _ hp1
  have hQk : ∀ k, k ≠ p1 → Q.getD k [] = g.pipes.getD k [] := fun k hk =>
    getD_set_ne [] g.pipes k p1 _ (fun e => hk e.symm)
  have hA' : pipePieceAt (withPipes g Q) c1 v = .middle p1 i := by
    have hcls := classify_over g v c1 Q p1 i hn1
      (by rw [hQlen]; exact hp1)
      (by rw [hQp1]; simp only [List.length_append, List.length_singleton]
          omega)
      (by rw [hQp1]
          exact (matchesAt_append_left A [c2] c1 (isCrossAt g c1) v i
            (by omega) (fun h0 => absurd h0 hine)).mpr hmA)
      (fun j hj => by
        rw [hQp1]
        intro hm'
        have hmb := (matchesAt_append_left A [c2] c1 (isCrossAt g c1) v j
          (by omega) (fun _ => by omega)).mp hm'
        have hkj := huniq1 p1 j hp1 (by rw [← hAdef]; omega) hmb
        exact absurd hkj.2 (by omega))
      (fun k' hk' i' hi' => by
        rw [hQk k' (by omega)] at hi' ⊢
        exact no_match_of_unique g.pipes huniq1 (by omega) (by omega) i' hi')
    rw [hcls, hQp1]
    unfold classifyIdx
    rw [if_neg hine,
      if_neg (by simp only [List.length_append, List.length_singleton]; omega)]
  have hrestore : Q.set p1 (A ++ [c2]).dropLast = g.pipes := by
    rw [show (A ++ [c2]).dropLast = A from by simp, hQdef, List.set_set]
    exact set_getD_self [] g.pipes p1 hp1
  cases n with
  | false =>
      obtain ⟨hn2, hnomatch⟩ := pipePieceAt_empty_elim g c2 v hB
      have hB' : pipePieceAt (withPipes g Q) c2 v = .endp p1 := by
        have hcls := classify_over g v c2 Q p1 A.length hn2
          (by rw [hQlen]; exact hp1)
          (by rw [hQp1]; simp only [List.length_append, List.length_singleton]
              omega)
          (by rw [hQp1]
              refine ⟨getD_concat_last _ _ _, fun hflag => ?_⟩
              rw [show (if A.length = 0 then 1 else A.length - 1) = i from by
                  rw [if_neg (by omega)]
                  omega,
                getD_append_left (⟨0, 0⟩ : GridPoint) A [c2] i (by omega),
                show A.getD i ⟨0, 0⟩ = c1 from hmA.1]
              exact (edge_axis₂ c1 c2 h2).trans hv.symm)
          (fun j hj => by
            rw [hQp1]
            intro hm'
            have hmb := (matchesAt_append_left A [c2] c2 (isCrossAt g c2) v j
              (by omega) (fun _ => by omega)).mp hm'
            exact hnomatch p1 j hp1 (by rw [← hAdef]; omega) hmb)
          (fun k' hk' i' hi' => by
            rw [hQk k' (by omega)] at hi' ⊢
            exact hnomatch k' i' (by omega) hi')
        rw [hcls, hQp1]
        unfold classifyIdx
        rw [if_neg (by omega),
          if_pos (by simp only [List.length_append, List.length_singleton])]
      have hbr2 := togglePipe_branch_MEnd (withPipes g Q) c1 c2 p1 p1 i
        h1 h2 h3 hA' hB'
      simp only [withPipes_pipes, hQp1] at hbr2
      rw [if_pos ⟨trivial, by
        simp only [List.length_append, List.length_singleton]; omega⟩] at hbr2
      rw [hbr2]
      simp only [withPipes_pipes]
      rw [hrestore]
  | true =>
      have hn2 := pipePieceAt_node_elim g c2 v hB
      have hB' : pipePieceAt (withPipes g Q) c2 v = .emptyOrNode true :=
        pipePieceAt_of_node _ c2 v ((isNodeAt_withPipes _ _ _).trans hn2)
      have hbr2 := togglePipe_branch_MEmpty (withPipes g Q) c1 c2 p1 i true
        h1 h2 h3 hA' hB'
      simp only [withPipes_pipes, hQp1] at hbr2
      rw [show ((A ++ [c2]).getD 0 ⟨0, 0⟩) = A.getD 0 ⟨0, 0⟩ from
        getD_append_left (⟨0, 0⟩ : GridPoint) A [c2] 0 (by omega)] at hbr2
      rw [Bool.true_and] at hcond
      have hc1f : (true && decide (i = 1) &&
          decide (A.getD 0 ⟨0, 0⟩ = c2)) = false := by
        by_cases hl2 : A.length = 2
        · have hd2 : decide (A.length = 2) = true := decide_eq_true hl2
          rw [hd2, Bool.true_and] at hcond
          rw [hcond, Bool.and_false]
        · rw [show decide (i = 1) = false from decide_eq_false (by omega),
            Bool.and_false, Bool.false_and]
      rw [hc1f, if_neg Bool.false_ne_true] at hbr2
      have hgl : (A ++ [c2]).getD (i + 1) ⟨0, 0⟩ = c2 := by
        rw [show i + 1 = A.length from hi1]
        exact getD_concat_last _ _ _
      have h2len : i + 2 = (A ++ [c2]).length := by
        simp only [List.length_append, List.length_singleton]
        omega
      rw [hgl, decide_eq_true h2len, decide_eq_true (rfl : c2 = c2),
        show (true && true && true) = true from rfl, if_pos rfl] at hbr2
      rw [hbr2]
      simp only [withPipes_pipes]
      rw [hrestore]

theorem classify_push_start (g : PlaneGrid) (c1 c2 : GridPoint)
    (h2 : c2.x - c1.x = 0 ∧ (c2.y - c1.y).natAbs = 1 ∨
        c2.y - c1.y = 0 ∧ (c2.x - c1.x).natAbs = 1)
    (hn1 : isNodeAt g c1 = false)
    (hnomatch : ∀ k i, k < g.pipes.length → i < (g.pipes.getD k []).length →
      ¬ matchesAt (g.pipes.getD k []) c1 (isCrossAt g c1)
        (decide (c2.x - c1.x = 0)) i) :
    pipePieceAt (withPipes g (g.pipes ++ [[c1, c2]])) c1
      (decide (c2.x - c1.x = 0)) = .start g.pipes.length := by
  have hQL : (g.pipes ++ [[c1, c2]]).getD g.pipes.length [] = [c1, c2] :=
    getD_concat_last [] g.pipes [c1, c2]
  have hcls := classify_over g (decide (c2.x - c1.x = 0)) c1
    (g.pipes ++ [[c1, c2]]) g.pipes.length 0 hn1
    (by rw [List.length_append]; simp)
    (by rw [hQL]; simp)
    (by rw [hQL]
        refine ⟨rfl, fun hflag => ?_⟩
        rw [show (if (0 : ℕ) = 0 then 1 else 0 - 1) = 1 from rfl,
          show ([c1, c2].getD 1 ⟨0, 0⟩) = c2 from rfl]
        exact edge_axis₁ c1 c2 h2)
    (fun j hj => absurd hj (Nat.not_lt_zero j))
    (fun k' hk' i' hi' => by
      rw [getD_append_left [] g.pipes [[c1, c2]] k' hk'] at hi' ⊢
      exact hnomatch k' i' hk' hi')
  rw [hcls, hQL]
  unfold classifyIdx
  rw [if_pos rfl]

theorem classify_push_endp (g : PlaneGrid) (c1 c2 : GridPoint)
    (h2 : c2.x - c1.x = 0 ∧ (c2.y - c1.y).natAbs = 1 ∨
        c2.y - c1.y = 0 ∧ (c2.x - c1.x).natAbs = 1)
    (hn2 : isNodeAt g c2 = false)
    (hnomatch : ∀ k i, k < g.pipes.length → i < (g.pipes.getD k []).length →
      ¬ matchesAt (g.pipes.getD k []) c2 (isCrossAt g c2)
        (decide (c2.x - c1.x = 0)) i) :
    pipePieceAt (withPipes g (g.pipes ++ [[c1, c2]])) c2
      (decide (c2.x - c1.x = 0)) = .endp g.pipes.length := by
  have hne12 : c1 ≠ c2 := edge_ne c1 c2 h2
  have hQL : (g.pipes ++ [[c1, c2]]).getD g.pipes.length [] = [c1, c2] :=
    getD_concat_last [] g.pipes [c1, c2]
  have hcls := classify_over g (decide (c2.x - c1.x = 0)) c2
    (g.pipes ++ [[c1, c2]]) g.pipes.length 1 hn2
    (by rw [List.length_append]; simp)
    (by rw [hQL]; simp)
    (by rw [hQL]
        refine ⟨rfl, fun hflag => ?_⟩
        rw [show (if (1 : ℕ) = 0 then 1 else 1 - 1) = 0 from rfl,
          show ([c1, c2].getD 0 ⟨0, 0⟩) = c1 from rfl]
        exact edge_axis₂ c1 c2 h2)
    (fun j hj => by
      have hj0 : j = 0 := by omega
      subst hj0
      rw [hQL]
      intro hm
      exact hne12 hm.1)
    (fun k' hk' i' hi' => by
      rw [getD_append_left [] g.pipes [[c1, c2]] k' hk'] at hi' ⊢
      exact hnomatch k' i' hk' hi')
  rw [hcls, hQL]
  unfold classifyIdx
  rw [if_neg one_ne_zero]
  simp

theorem toggle_toggle_EE_push (g : PlaneGrid) (c1 c2 : GridPoint)
    (n1 n2 : Bool)
    (h1 : g.rect.contains c1 ∧ g.rect.contains c2)
    (h2 : c2.x - c1.x = 0 ∧ (c2.y - c1.y).natAbs = 1 ∨
        c2.y - c1.y = 0 ∧ (c2.x - c1.x).natAbs = 1)
    (h3 : ¬ (isWallAt g c1 ∨ isWallAt g c2))
    (hA : pipePieceAt g c1 (decide (c2.x - c1.x = 0)) = .emptyOrNode n1)
    (hB : pipePieceAt g c2 (decide (c2.x - c1.x = 0)) = .emptyOrNode n2)
    (hnn : (n1 && n2) = false) :
    (togglePipe (togglePipe g c1 c2).2 c1 c2).2.pipes = g.pipes := by
  have hbr1 := togglePipe_branch_EE g c1 c2 n1 n2 h1 h2 h3 hA hB
  rw [hnn, if_neg Bool.false_ne_true] at hbr1
  rw [hbr1]
  have hQL : (g.pipes ++ [[c1, c2]]).getD g.pipes.length [] = [c1, c2] :=
    getD_concat_last [] g.pipes [c1, c2]
  have hwp : (withPipes g (g.pipes ++ [[c1, c2]])).pipes
      = g.pipes ++ [[c1, c2]] := rfl
  cases n1 with
  | false =>
      obtain ⟨hn1, hnm1⟩ := pipePieceAt_empty_elim g c1 _ hA
      have hA' := classify_push_start g c1 c2 h2 hn1
        (fun k i hk hi => hnm1 k i hk hi)
      cases n2 with
      | false =>
          obtain ⟨hn2, hnm2⟩ := pipePieceAt_empty_elim g c2 _ hB
          have hB' := classify_push_endp g c1 c2 h2 hn2
            (fun k i hk hi => hnm2 k i hk hi)
          have hbr2 := togglePipe_branch_SEnd
            (withPipes g (g.pipes ++ [[c1, c2]])) c1 c2
            g.pipes.length g.pipes.length h1 h2 h3 hA' hB'
          rw [if_pos (rfl : g.pipes.length = g.pipes.length), hwp, hQL,
            if_pos (show ([c1, c2] : List GridPoint).length = 2 from rfl)]
            at hbr2
          rw [hbr2]
          simp only [withPipes_pipes]
          exact swapRemove_concat g.pipes [c1, c2]
      | true =>
          have hn2 := pipePieceAt_node_elim g c2 _ hB
          have hB' : pipePieceAt (withPipes g (g.pipes ++ [[c1, c2]])) c2
              (decide (c2.x - c1.x = 0)) = .emptyOrNode true :=
            pipePieceAt_of_node _ c2 _ ((isNodeAt_withPipes _ _ _).trans hn2)
          have hbr2 := togglePipe_branch_SE
            (withPipes g (g.pipes ++ [[c1, c2]])) c1 c2
            g.pipes.length true h1 h2 h3 hA' hB'
          rw [hwp, hQL, decide_eq_true
              (show ([c1, c2] : List GridPoint).getD 1 ⟨0, 0⟩ = c2 from rfl),
            show (true && true) = true from rfl, if_pos rfl] at hbr2
          rw [hbr2]
          simp only [withPipes_pipes]
          exact swapRemove_concat g.pipes [c1, c2]
  | true =>
      have hn1 := pipePieceAt_node_elim g c1 _ hA
      have hA' : pipePieceAt (withPipes g (g.pipes ++ [[c1, c2]])) c1
          (decide (c2.x - c1.x = 0)) = .emptyOrNode true :=
        pipePieceAt_of_node _ c1 _ ((isNodeAt_withPipes _ _ _).trans hn1)
      cases n2 with
      | false =>
          obtain ⟨hn2, hnm2⟩ := pipePieceAt_empty_elim g c2 _ hB
          have hB' := classify_push_endp g c1 c2 h2 hn2
            (fun k i hk hi => hnm2 k i hk hi)
          have hbr2 := togglePipe_branch_EEnd
            (withPipes g (g.pipes ++ [[c1, c2]])) c1 c2
            true g.pipes.length h1 h2 h3 hA' hB'
          rw [hwp, hQL, decide_eq_true
              (show ([c1, c2] : List GridPoint).length = 2 from rfl),
            decide_eq_true
              (show ([c1, c2] : List GridPoint).getD 0 ⟨0, 0⟩ = c1 from rfl),
            show (true && true && true) = true from rfl, if_pos rfl] at hbr2
          rw [hbr2]
          simp only [withPipes_pipes]
          exact swapRemove_concat g.pipes [c1, c2]
      | true => exact absurd hnn (by simp)

theorem toggle_toggle_EE_nodes (g : PlaneGrid) (c1 c2 : GridPoint)
    (hinv : PipesInv g)
    (h1 : g.rect.contains c1 ∧ g.rect.contains c2)
    (h2 : c2.x - c1.x = 0 ∧ (c2.y - c1.y).natAbs = 1 ∨
        c2.y - c1.y = 0 ∧ (c2.x - c1.x).natAbs = 1)
    (h3 : ¬ (isWallAt g c1 ∨ isWallAt g c2))
    (hA : pipePieceAt g c1 (decide (c2.x - c1.x = 0)) = .emptyOrNode true)
    (hB : pipePieceAt g c2 (decide (c2.x - c1.x = 0)) = .emptyOrNode true) :
    pipesEquiv ((togglePipe (togglePipe g c1 c2).2 c1 c2).2).pipes
      g.pipes := by
  have hn1 := pipePieceAt_node_elim g c1 _ hA
  have hn2 := pipePieceAt_node_elim g c2 _ hB
  have hbr1 := togglePipe_branch_EE g c1 c2 true true h1 h2 h3 hA hB
  rw [show (true && true) = true from rfl, if_pos rfl] at hbr1
  cases hfind : (List.range g.pipes.length).find? (fun p =>
      decide ((g.pipes.getD p []).length = 2 ∧
        ((g.pipes.getD p []).getD 0 ⟨0, 0⟩ = c1 ∧
          (g.pipes.getD p []).getD 1 ⟨0, 0⟩ = c2 ∨
         (g.pipes.getD p []).getD 0 ⟨0, 0⟩ = c2 ∧
          (g.pipes.getD p []).getD 1 ⟨0, 0⟩ = c1))) with
  | some p =>
      obtain ⟨hp, hpred, hfirst⟩ := find?_range_sound _ _ _ hfind
      have hP := of_decide_eq_true hpred
      have hPne : g.pipes ≠ [] := by
        intro e
        rw [e] at hp
        simp at hp
      have hbr1' : togglePipe g c1 c2 =
          (true, withPipes g (swapRemove g.pipes p)) := by
        rw [hbr1, hfind]
      rw [hbr1']
      have hA' : pipePieceAt (withPipes g (swapRemove g.pipes p)) c1
          (decide (c2.x - c1.x = 0)) = .emptyOrNode true :=
        pipePieceAt_of_node _ c1 _ ((isNodeAt_withPipes _ _ _).trans hn1)
      have hB' : pipePieceAt (withPipes g (swapRemove g.pipes p)) c2
          (decide (c2.x - c1.x = 0)) = .emptyOrNode true :=
        pipePieceAt_of_node _ c2 _ ((isNodeAt_withPipes _ _ _).trans hn2)
      have hbr2 := togglePipe_branch_EE (withPipes g (swapRemove g.pipes p))
        c1 c2 true true h1 h2 h3 hA' hB'
      rw [show (true && true) = true from rfl, if_pos rfl] at hbr2
      simp only [withPipes_pipes] at hbr2
      have hfind2 : (List.range (swapRemove g.pipes p).length).find? (fun q =>
          decide (((swapRemove g.pipes p).getD q []).length = 2 ∧
            (((swapRemove g.pipes p).getD q []).getD 0 ⟨0, 0⟩ = c1 ∧
              ((swapRemove g.pipes p).getD q []).getD 1 ⟨0, 0⟩ = c2 ∨
             ((swapRemove g.pipes p).getD q []).getD 0 ⟨0, 0⟩ = c2 ∧
              ((swapRemove g.pipes p).getD q []).getD 1 ⟨0, 0⟩ = c1))) =
          none := by
        apply find?_range_eq_none_of
        intro q hq
        have hqlen : q < g.pipes.length - 1 := by
          rw [length_swapRemove g.pipes p hPne] at hq
          exact hq
        refine decide_eq_false ?_
        intro hcon
        rw [getD_swapRemove [] g.pipes p q hqlen] at hcon
        set r := if q = p then g.pipes.length - 1 else q with hr
        have hrlen : r < g.pipes.length := by
          rw [hr]
          split <;> omega
        have hrne : r ≠ p := by
          rw [hr]
          split
          · rename_i hqp
            omega
          · rename_i hqp
            omega
        obtain ⟨hwl, hw⟩ := hcon
        refine hrne (hinv.2.2.2.2.2 r hrlen p hp hwl hP.1 ?_)
        rcases hw with ⟨ha, hb⟩ | ⟨ha, hb⟩ <;>
          rcases hP.2 with ⟨hc, hd'⟩ | ⟨hc, hd'⟩
        · exact Or.inl ⟨ha.trans hc.symm, hb.trans hd'.symm⟩
        · exact Or.inr ⟨ha.trans hd'.symm, hb.trans hc.symm⟩
        · exact Or.inr ⟨ha.trans hd'.symm, hb.trans hc.symm⟩
        · exact Or.inl ⟨ha.trans hc.symm, hb.trans hd'.symm⟩
      rw [hfind2] at hbr2
      rw [hbr2]
      show Multiset.map pipeUnord ↑(swapRemove g.pipes p ++ [[c1, c2]]) =
        Multiset.map pipeUnord ↑g.pipes
      have hmemA : g.pipes.getD p [] ∈
          (↑g.pipes : Multiset (List GridPoint)) :=
        Multiset.mem_coe.mpr (getD_mem [] g.pipes p hp)
      rw [coe_concat_multiset _ _, multiset_swapRemove_eq [] g.pipes p hp]
      conv_rhs => rw [← Multiset.cons_erase hmemA]
      simp only [Multiset.map_cons]
      have hAfrm := eq_pair_of_length_two (g.pipes.getD p []) ⟨0, 0⟩ hP.1
      rcases hP.2 with ⟨ha, hb⟩ | ⟨ha, hb⟩
      · rw [hAfrm, ha, hb]
      · rw [hAfrm, ha, hb,
          show ([c1, c2] : List GridPoint) = [c2, c1].reverse from rfl,
          pipeUnord_reverse]
  | none =>
      have hbr1' : togglePipe g c1 c2 =
          (true, withPipes g (g.pipes ++ [[c1, c2]])) := by
        rw [hbr1, hfind]
      rw [hbr1']
      have hA' : pipePieceAt (withPipes g (g.pipes ++ [[c1, c2]])) c1
          (decide (c2.x - c1.x = 0)) = .emptyOrNode true :=
        pipePieceAt_of_node _ c1 _ ((isNodeAt_withPipes _ _ _).trans hn1)
      have hB' : pipePieceAt (withPipes g (g.pipes ++ [[c1, c2]])) c2
          (decide (c2.x - c1.x = 0)) = .emptyOrNode true :=
        pipePieceAt_of_node _ c2 _ ((isNodeAt_withPipes _ _ _).trans hn2)
      have hbr2 := togglePipe_branch_EE
        (withPipes g (g.pipes ++ [[c1, c2]])) c1 c2 true true h1 h2 h3 hA' hB'
      rw [show (true && true) = true from rfl, if_pos rfl] at hbr2
      simp only [withPipes_pipes] at hbr2
      have hfind2 : (List.range (g.pipes ++ [[c1, c2]]).length).find?
          (fun q => decide (((g.pipes ++ [[c1, c2]]).getD q []).length = 2 ∧
            (((g.pipes ++ [[c1, c2]]).getD q []).getD 0 ⟨0, 0⟩ = c1 ∧
              ((g.pipes ++ [[c1, c2]]).getD q []).getD 1 ⟨0, 0⟩ = c2 ∨
             ((g.pipes ++ [[c1, c2]]).getD q []).getD 0 ⟨0, 0⟩ = c2 ∧
              ((g.pipes ++ [[c1, c2]]).getD q []).getD 1 ⟨0, 0⟩ = c1))) =
          some g.pipes.length := by
        apply find?_range_eq_some_of
        · rw [List.length_append]
          simp
        · simp only [getD_concat_last [] g.pipes [c1, c2]]
          exact decide_eq_true ⟨rfl, Or.inl ⟨rfl, rfl⟩⟩
        · intro j hj
          refine decide_eq_false ?_
          intro hcon
          rw [getD_append_left [] g.pipes [[c1, c2]] j hj] at hcon
          have hpj := List.find?_eq_none.mp hfind j (List.mem_range.mpr hj)
          simp only [decide_eq_true_eq] at hpj
          exact hpj hcon
      rw [hfind2] at hbr2
      rw [hbr2]
      show Multiset.map pipeUnord
          ↑(swapRemove (g.pipes ++ [[c1, c2]]) g.pipes.length) =
        Multiset.map pipeUnord ↑g.pipes
      rw [swapRemove_concat g.pipes [c1, c2]]

theorem toggle_toggle_MEmpty_front (g : PlaneGrid) (c1 c2 : GridPoint)
    (p1 : ℕ)
    (hinv : PipesInv g)
    (h1 : g.rect.contains c1 ∧ g.rect.contains c2)
    (h2 : c2.x - c1.x = 0 ∧ (c2.y - c1.y).natAbs = 1 ∨
        c2.y - c1.y = 0 ∧ (c2.x - c1.x).natAbs = 1)
    (h3 : ¬ (isWallAt g c1 ∨ isWallAt g c2))
    (hA : pipePieceAt g c1 (decide (c2.x - c1.x = 0)) = .middle p1 1)
    (hB : pipePieceAt g c2 (decide (c2.x - c1.x = 0)) = .emptyOrNode true)
    (hcond0 : (g.pipes.getD p1 []).getD 0 ⟨0, 0⟩ = c2) :
    (togglePipe (togglePipe g c1 c2).2 c1 c2).2.pipes = g.pipes := by
  set v := decide (c2.x - c1.x = 0) with hv
  have hn2 := pipePieceAt_node_elim g c2 v hB
  obtain ⟨hn1, hp1, hilt, hine0, hipne, hmA⟩ := pipePieceAt_middle_elim g c1 v hA
  set A := g.pipes.getD p1 [] with hAdef
  have hlenA3 : 3 ≤ A.length := by omega
  have huniq1 := unique_occ_of_inv g hinv c1 v hn1 hp1
    (by rw [← hAdef]; omega) hmA
  have hstr := straight_of_inv g hinv p1 hp1
  have hbr1 := togglePipe_branch_MEmpty g c1 c2 p1 1 true h1 h2 h3 hA hB
  rw [decide_eq_true hcond0,
    show (true && decide ((1 : ℕ) = 1) && true) = true from rfl,
    if_pos rfl] at hbr1
  rw [hbr1]
  set Q := g.pipes.set p1 (A.drop 1) with hQdef
  have hQlen : Q.length = g.pipes.length := List.length_set _ _ _
  have hQp1 : Q.getD p1 [] = A.drop 1 := getD_set_self [] g.pipes p1 _ hp1
  have hQk : ∀ k, k ≠ p1 → Q.getD k [] = g.pipes.getD k [] := fun k hk =>
    getD_set_ne [] g.pipes k p1 _ (fun e => hk e.symm)
  have hA' : pipePieceAt (withPipes g Q) c1 v = .start p1 := by
    have hcls := classify_over g v c1 Q p1 0 hn1
      (by rw [hQlen]; exact hp1)
      (by rw [hQp1]; rw [List.length_drop]; omega)
      (by rw [hQp1]
          exact matchesAt_drop_one_head A c1 (isCrossAt g c1) v (by omega)
            (straight_of_inv g hinv p1 hp1 c1) hmA)
      (fun j hj => absurd hj (Nat.not_lt_zero j))
      (fun k' hk' i' hi' => by
        rw [hQk k' (by omega)] at hi' ⊢
        exact no_match_of_unique g.pipes huniq1 (by omega) (by omega) i' hi')
    rw [hcls, hQp1]
    unfold classifyIdx
    rw [if_pos rfl]
  have hB' : pipePieceAt (withPipes g Q) c2 v = .emptyOrNode true :=
    pipePieceAt_of_node _ c2 v ((isNodeAt_withPipes _ _ _).trans hn2)
  have hnot2 : A.getD 2 ⟨0, 0⟩ ≠ c2 := by
    intro he
    by_cases hl3 : A.length = 3
    · have hI5 := hinv.2.2.2.2.1 p1 hp1 (by rw [← hAdef]; exact hl3)
      exact hI5 (by rw [← hAdef, hcond0]; exact hn2)
        (by rw [← hAdef, hcond0, he])
    · have hI2 := hinv.2.1 p1 hp1 2 (by rw [← hAdef]; omega)
        (by omega) (by rw [← hAdef]; omega)
      rw [← hAdef, he, hn2] at hI2
      exact Bool.false_ne_true hI2.symm
  have hbr2 := togglePipe_branch_SE (withPipes g Q) c1 c2 p1 true
    h1 h2 h3 hA' hB'
  simp only [withPipes_pipes, hQp1] at hbr2
  rw [getD_drop (⟨0, 0⟩ : GridPoint) A 1 1,
    show (1 : ℕ) + 1 = 2 from rfl, decide_eq_false hnot2, Bool.and_false,
    if_neg Bool.false_ne_true] at hbr2
  rw [hbr2]
  simp only [withPipes_pipes]
  rw [hQdef, List.set_set,
    show c2 :: A.drop 1 = A from by
      conv_rhs => rw [← cons_getD_drop_one (⟨0, 0⟩ : GridPoint) A (by omega)]
      rw [hcond0]]
  exact set_getD_self [] g.pipes p1 hp1

theorem toggle_toggle_EmptyM_front (g : PlaneGrid) (c1 c2 : GridPoint)
    (p2 : ℕ)
    (hinv : PipesInv g)
    (h1 : g.rect.contains c1 ∧ g.rect.contains c2)
    (h2 : c2.x - c1.x = 0 ∧ (c2.y - c1.y).natAbs = 1 ∨
        c2.y - c1.y = 0 ∧ (c2.x - c1.x).natAbs = 1)
    (h3 : ¬ (isWallAt g c1 ∨ isWallAt g c2))
    (hA : pipePieceAt g c1 (decide (c2.x - c1.x = 0)) = .emptyOrNode true)
    (hB : pipePieceAt g c2 (decide (c2.x - c1.x = 0)) = .middle p2 1)
    (hcond0 : (g.pipes.getD p2 []).getD 0 ⟨0, 0⟩ = c1) :
    (togglePipe (togglePipe g c1 c2).2 c1 c2).2.pipes = g.pipes := by
  set v := decide (c2.x - c1.x = 0) with hv
  have hn1 := pipePieceAt_node_elim g c1 v hA
  obtain ⟨hn2, hp2, hilt, hine0, hipne, hmB⟩ := pipePieceAt_middle_elim g c2 v hB
  set B := g.pipes.getD p2 [] with hBdef
  have hlenB3 : 3 ≤ B.length := by omega
  have huniq2 := unique_occ_of_inv g hinv c2 v hn2 hp2
    (by rw [← hBdef]; omega) hmB
  have hbr1 := togglePipe_branch_EmptyM g c1 c2 true p2 1 h1 h2 h3 hA hB
  rw [decide_eq_true hcond0,
    show (true && decide ((1 : ℕ) = 1) && true) = true from rfl,
    if_pos rfl] at hbr1
  rw [hbr1]
  set Q := g.pipes.set p2 (B.drop 1) with hQdef
  have hQlen : Q.length = g.pipes.length := List.length_set _ _ _
  have hQp2 : Q.getD p2 [] = B.drop 1 := getD_set_self [] g.pipes p2 _ hp2
  have hQk : ∀ k, k ≠ p2 → Q.getD k [] = g.pipes.getD k [] := fun k hk =>
    getD_set_ne [] g.pipes k p2 _ (fun e => hk e.symm)
  have hB' : pipePieceAt (withPipes g Q) c2 v = .start p2 := by
    have hcls := classify_over g v c2 Q p2 0 hn2
      (by rw [hQlen]; exact hp2)
      (by rw [hQp2]; rw [List.length_drop]; omega)
      (by rw [hQp2]
          exact matchesAt_drop_one_head B c2 (isCrossAt g c2) v (by omega)
            (straight_of_inv g hinv p2 hp2 c2) hmB)
      (fun j hj => absurd hj (Nat.not_lt_zero j))
      (fun k' hk' i' hi' => by
        rw [hQk k' (by omega)] at hi' ⊢
        exact no_match_of_unique g.pipes huniq2 (by omega) (by omega) i' hi')
    rw [hcls, hQp2]
    unfold classifyIdx
    rw [if_pos rfl]
  have hA' : pipePieceAt (withPipes g Q) c1 v = .emptyOrNode true :=
    pipePieceAt_of_node _ c1 v ((isNodeAt_withPipes _ _ _).trans hn1)
  have hnot2 : B.getD 2 ⟨0, 0⟩ ≠ c1 := by
    intro he
    by_cases hl3 : B.length = 3
    · have hI5 := hinv.2.2.2.2.1 p2 hp2 (by rw [← hBdef]; exact hl3)
      exact hI5 (by rw [← hBdef, hcond0]; exact hn1)
        (by rw [← hBdef, hcond0, he])
    · have hI2 := hinv.2.1 p2 hp2 2 (by rw [← hBdef]; omega)
        (by omega) (by rw [← hBdef]; omega)
      rw [← hBdef, he, hn1] at hI2
      exact Bool.false_ne_true hI2.symm
  have hbr2 := togglePipe_branch_ES (withPipes g Q) c1 c2 true p2
    h1 h2 h3 hA' hB'
  simp only [withPipes_pipes, hQp2] at hbr2
  rw [getD_drop (⟨0, 0⟩ : GridPoint) B 1 1,
    show (1 : ℕ) + 1 = 2 from rfl, decide_eq_false hnot2, Bool.and_false,
    if_neg Bool.false_ne_true] at hbr2
  rw [hbr2]
  simp only [withPipes_pipes]
  rw [hQdef, List.set_set,
    show c1 :: B.drop 1 = B from by
      conv_rhs => rw [← cons_getD_drop_one (⟨0, 0⟩ : GridPoint) B (by omega)]
      rw [hcond0]]
  exact set_getD_self [] g.pipes p2 hp2

theorem toggle_toggle_MEmpty_back (g : PlaneGrid) (c1 c2 : GridPoint)
    (p1 i1 : ℕ)
    (hinv : PipesInv g)
    (h1 : g.rect.contains c1 ∧ g.rect.contains c2)
    (h2 : c2.x - c1.x = 0 ∧ (c2.y - c1.y).natAbs = 1 ∨
        c2.y - c1.y = 0 ∧ (c2.x - c1.x).natAbs = 1)
    (h3 : ¬ (isWallAt g c1 ∨ isWallAt g c2))
    (hA : pipePieceAt g c1 (decide (c2.x - c1.x = 0)) = .middle p1 i1)
    (hB : pipePieceAt g c2 (decide (c2.x - c1.x = 0)) = .emptyOrNode true)
    (hc1f : (true && decide (i1 = 1) &&
        decide ((g.pipes.getD p1 []).getD 0 ⟨0, 0⟩ = c2)) = false)
    (hc2 : i1 + 2 = (g.pipes.getD p1 []).length)
    (hcL : (g.pipes.getD p1 []).getD (i1 + 1) ⟨0, 0⟩ = c2) :
    (togglePipe (togglePipe g c1 c2).2 c1 c2).2.pipes = g.pipes := by
  set v := decide (c2.x - c1.x = 0) with hv
  have hn2 := pipePieceAt_node_elim g c2 v hB
  obtain ⟨hn1, hp1, hilt, hine0, hipne, hmA⟩ := pipePieceAt_middle_elim g c1 v hA
  set A := g.pipes.getD p1 [] with hAdef
  have hlenA3 : 3 ≤ A.length := by omega
  have huniq1 := unique_occ_of_inv g hinv c1 v hn1 hp1
    (by rw [← hAdef]; omega) hmA
  have hbr1 := togglePipe_branch_MEmpty g c1 c2 p1 i1 true h1 h2 h3 hA hB
  rw [hc1f, if_neg Bool.false_ne_true, decide_eq_true hc2,
    decide_eq_true hcL,
    show (true && true && true) = true from rfl, if_pos rfl] at hbr1
  rw [hbr1]
  set Q := g.pipes.set p1 A.dropLast with hQdef
  have hQlen : Q.length = g.pipes.length := List.length_set _ _ _
  have hQp1 : Q.getD p1 [] = A.dropLast := getD_set_self [] g.pipes p1 _ hp1
  have hQk : ∀ k, k ≠ p1 → Q.getD k [] = g.pipes.getD k [] := fun k hk =>
    getD_set_ne [] g.pipes k p1 _ (fun e => hk e.symm)
  have hA' : pipePieceAt (withPipes g Q) c1 v = .endp p1 := by
    have hcls := classify_over g v c1 Q p1 i1 hn1
      (by rw [hQlen]; exact hp1)
      (by rw [hQp1]; rw [List.length_dropLast]; omega)
      (by rw [hQp1]
          exact (matchesAt_dropLast A c1 (isCrossAt g c1) v i1 (by omega)
            (fun h0 => absurd h0 hine0)).mpr hmA)
      (fun j hj => by
        rw [hQp1]
        intro hm'
        have hmb := (matchesAt_dropLast A c1 (isCrossAt g c1) v j (by omega)
          (fun _ => by omega)).mp hm'
        have hkj := huniq1 p1 j hp1 (by rw [← hAdef]; omega) hmb
        exact absurd hkj.2 (by omega))
      (fun k' hk' i' hi' => by
        rw [hQk k' (by omega)] at hi' ⊢
        exact no_match_of_unique g.pipes huniq1 (by omega) (by omega) i' hi')
    rw [hcls, hQp1]
    unfold classifyIdx
    rw [if_neg hine0, if_pos (by rw [List.length_dropLast]; omega)]
  have hB' : pipePieceAt (withPipes g Q) c2 v = .emptyOrNode true :=
    pipePieceAt_of_node _ c2 v ((isNodeAt_withPipes _ _ _).trans hn2)
  have hbr2 := togglePipe_branch_EndE (withPipes g Q) c1 c2 p1 true
    h1 h2 h3 hA' hB'
  simp only [withPipes_pipes, hQp1] at hbr2
  have hcf2 : (true && decide (A.dropLast.length = 2) &&
      decide (A.dropLast.getD 0 ⟨0, 0⟩ = c2)) = false := by
    by_cases hi1eq : i1 = 1
    · subst hi1eq
      rw [show decide ((1 : ℕ) = 1) = true from rfl,
        show (true && true) = true from rfl, Bool.true_and] at hc1f
      rw [getD_dropLast (⟨0, 0⟩ : GridPoint) A 0 (by omega), hc1f,
        Bool.and_false]
    · rw [show decide (A.dropLast.length = 2) = false from
          decide_eq_false (by rw [List.length_dropLast]; omega),
        Bool.and_false, Bool.false_and]
  rw [hcf2, if_neg Bool.false_ne_true] at hbr2
  rw [hbr2]
  simp only [withPipes_pipes]
  rw [show A.dropLast ++ [c2] = A from by
      conv_rhs => rw [← dropLast_append_getD (⟨0, 0⟩ : GridPoint) A (by omega)]
      rw [show A.length - 1 = i1 + 1 from by omega, hcL],
    hQdef, List.set_set]
  exact set_getD_self [] g.pipes p1 hp1

theorem toggle_toggle_EmptyM_back (g : PlaneGrid) (c1 c2 : GridPoint)
    (p2 i2 : ℕ)
    (hinv : PipesInv g)
    (h1 : g.rect.contains c1 ∧ g.rect.contains c2)
    (h2 : c2.x - c1.x = 0 ∧ (c2.y - c1.y).natAbs = 1 ∨
        c2.y - c1.y = 0 ∧ (c2.x - c1.x).natAbs = 1)
    (h3 : ¬ (isWallAt g c1 ∨ isWallAt g c2))
    (hA : pipePieceAt g c1 (decide (c2.x - c1.x = 0)) = .emptyOrNode true)
    (hB : pipePieceAt g c2 (decide (c2.x - c1.x = 0)) = .middle p2 i2)
    (hc1f : (true && decide (i2 = 1) &&
        decide ((g.pipes.getD p2 []).getD 0 ⟨0, 0⟩ = c1)) = false)
    (hc2 : i2 + 2 = (g.pipes.getD p2 []).length)
    (hcL : (g.pipes.getD p2 []).getD (i2 + 1) ⟨0, 0⟩ = c1) :
    (togglePipe (togglePipe g c1 c2).2 c1 c2).2.pipes = g.pipes := by
  set v := decide (c2.x - c1.x = 0) with hv
  have hn1 := pipePieceAt_node_elim g c1 v hA
  obtain ⟨hn2, hp2, hilt, hine0, hipne, hmB⟩ := pipePieceAt_middle_elim g c2 v hB
  set B := g.pipes.getD p2 [] with hBdef
  have hlenB3 : 3 ≤ B.length := by omega
  have huniq2 := unique_occ_of_inv g hinv c2 v hn2 hp2
    (by rw [← hBdef]; omega) hmB
  have hbr1 := togglePipe_branch_EmptyM g c1 c2 true p2 i2 h1 h2 h3 hA hB
  rw [hc1f, if_neg Bool.false_ne_true, decide_eq_true hc2,
    decide_eq_true hcL,
    show (true && true && true) = true from rfl, if_pos rfl] at hbr1
  rw [hbr1]
  set Q := g.pipes.set p2 B.dropLast with hQdef
  have hQlen : Q.length = g.pipes.length := List.length_set _ _ _
  have hQp2 : Q.getD p2 [] = B.dropLast := getD_set_self [] g.pipes p2 _ hp2
  have hQk : ∀ k, k ≠ p2 → Q.getD k [] = g.pipes.getD k [] := fun k hk =>
    getD_set_ne [] g.pipes k p2 _ (fun e => hk e.symm)
  have hB' : pipePieceAt (withPipes g Q) c2 v = .endp p2 := by
    have hcls := classify_over g v c2 Q p2 i2 hn2
      (by rw [hQlen]; exact hp2)
      (by rw [hQp2]; rw [List.length_dropLast]; omega)
      (by rw [hQp2]
          exact (matchesAt_dropLast B c2 (isCrossAt g c2) v i2 (by omega)
            (fun h0 => absurd h0 hine0)).mpr hmB)
      (fun j hj => by
        rw [hQp2]
        intro hm'
        have hmb := (matchesAt_dropLast B c2 (isCrossAt g c2) v j (by omega)
          (fun _ => by omega)).mp hm'
        have hkj := huniq2 p2 j hp2 (by rw [← hBdef]; omega) hmb
        exact absurd hkj.2 (by omega))
      (fun k' hk' i' hi' => by
        rw [hQk k' (by omega)] at hi' ⊢
        exact no_match_of_unique g.pipes huniq2 (by omega) (by omega) i' hi')
    rw [hcls, hQp2]
    unfold classifyIdx
    rw [if_neg hine0, if_pos (by rw [List.length_dropLast]; omega)]
  have hA' : pipePieceAt (withPipes g Q) c1 v = .emptyOrNode true :=
    pipePieceAt_of_node _ c1 v ((isNodeAt_withPipes _ _ _).trans hn1)
  have hbr2 := togglePipe_branch_EEnd (withPipes g Q) c1 c2 true p2
    h1 h2 h3 hA' hB'
  simp only [withPipes_pipes, hQp2] at hbr2
  have hcf2 : (true && decide (B.dropLast.length = 2) &&
      decide (B.dropLast.getD 0 ⟨0, 0⟩ = c1)) = false := by
    by_cases hi2eq : i2 = 1
    · subst hi2eq
      rw [show decide ((1 : ℕ) = 1) = true from rfl,
        show (true && true) = true from rfl, Bool.true_and] at hc1f
      rw [getD_dropLast (⟨0, 0⟩ : GridPoint) B 0 (by omega), hc1f,
        Bool.and_false]
    · rw [show decide (B.dropLast.length = 2) = false from
          decide_eq_false (by rw [List.length_dropLast]; omega),
        Bool.and_false, Bool.false_and]
  rw [hcf2, if_neg Bool.false_ne_true] at hbr2
  rw [hbr2]
  simp only [withPipes_pipes]
  rw [show B.dropLast ++ [c1] = B from by
      conv_rhs => rw [← dropLast_append_getD (⟨0, 0⟩ : GridPoint) B (by omega)]
      rw [show B.length - 1 = i2 + 1 from by omega, hcL],
    hQdef, List.set_set]
  exact set_getD_self [] g.pipes p2 hp2

theorem pipesEquiv_of_eq {P Q : List (List GridPoint)} (h : P = Q) :
    pipesEquiv P Q := by
  rw [h]
  exact rfl

theorem toggle_noop_restore (g : PlaneGrid) (c1 c2 : GridPoint)
    (h : togglePipe g c1 c2 = (false, g)) :
    (togglePipe (togglePipe g c1 c2).2 c1 c2).2.pipes = g.pipes := by
  rw [h, show ((false, g) : Bool × PlaneGrid).2 = g from rfl, h]

/-- **C2 (amended).** On a `PlaneGrid` whose pipe collection satisfies the
structural invariants of reachable states (`PipesInv`: every pipe has at
least two pieces; interior pieces are never nodes; a non-node cell occurs
at one position only, up to the per-axis Cross exception; interior Cross
occurrences run straight; no three-piece pipe closes a loop on one node;
at most one two-piece pipe joins any endpoint pair), calling
`toggle_pipe(coords1, coords2)` twice with the same two cells returns the
`pipes` vector to its original configuration: the same multiset of
polylines, each considered up to reversal, with storage order and
orientation allowed to differ. -/
theorem toggle_toggle_equiv (g : PlaneGrid) (c1 c2 : GridPoint)
    (hinv : PipesInv g) :
    pipesEquiv ((togglePipe (togglePipe g c1 c2).2 c1 c2).2).pipes
      g.pipes := by
  by_cases h1 : g.rect.contains c1 ∧ g.rect.contains c2
  · by_cases h2 : c2.x - c1.x = 0 ∧ (c2.y - c1.y).natAbs = 1 ∨
        c2.y - c1.y = 0 ∧ (c2.x - c1.x).natAbs = 1
    · by_cases h3 : isWallAt g c1 ∨ isWallAt g c2
      · exact pipesEquiv_of_eq (toggle_noop_restore g c1 c2
          (togglePipe_guard₃ g c1 c2 h1 h2 h3))
      · cases hA : pipePieceAt g c1 (decide (c2.x - c1.x = 0)) with
        | emptyOrNode n1 =>
            cases hB : pipePieceAt g c2 (decide (c2.x - c1.x = 0)) with
            | emptyOrNode n2 =>
                cases hnn : n1 && n2 with
                | false =>
                    exact pipesEquiv_of_eq
                      (toggle_toggle_EE_push g c1 c2 n1 n2 h1 h2 h3 hA hB hnn)
                | true =>
                    obtain ⟨hn1t, hn2t⟩ := Bool.and_eq_true_iff.mp hnn
                    subst hn1t
                    subst hn2t
                    exact toggle_toggle_EE_nodes g c1 c2 hinv h1 h2 h3 hA hB
            | start p2 =>
                cases hcnd : n1 &&
                    decide ((g.pipes.getD p2 []).getD 1 ⟨0, 0⟩ = c1) with
                | false =>
                    exact pipesEquiv_of_eq
                      (toggle_toggle_ES_ins g c1 c2 n1 p2 hinv h1 h2 h3
                        hA hB hcnd)
                | true =>
                    obtain ⟨hn1t, hd⟩ := Bool.and_eq_true_iff.mp hcnd
                    subst hn1t
                    exact toggle_toggle_ES_del g c1 c2 p2 hinv h1 h2 h3 hA hB
                      (of_decide_eq_true hd)
            | endp p2 =>
                cases hcnd : n1 && decide ((g.pipes.getD p2 []).length = 2) &&
                    decide ((g.pipes.getD p2 []).getD 0 ⟨0, 0⟩ = c1) with
                | false =>
                    exact pipesEquiv_of_eq
                      (toggle_toggle_EEnd_ins g c1 c2 n1 p2 hinv h1 h2 h3
                        hA hB hcnd)
                | true =>
                    obtain ⟨h'', hd0⟩ := Bool.and_eq_true_iff.mp hcnd
                    obtain ⟨hn1t, hdl⟩ := Bool.and_eq_true_iff.mp h''
                    subst hn1t
                    exact toggle_toggle_EEnd_del g c1 c2 p2 hinv h1 h2 h3 hA hB
                      (of_decide_eq_true hdl) (of_decide_eq_true hd0)
            | middle p2 i2 =>
                cases hcnd1 : n1 && decide (i2 = 1) &&
                    decide ((g.pipes.getD p2 []).getD 0 ⟨0, 0⟩ = c1) with
                | true =>
                    obtain ⟨h'', hd0⟩ := Bool.and_eq_true_iff.mp hcnd1
                    obtain ⟨hn1t, hi2⟩ := Bool.and_eq_true_iff.mp h''
                    subst hn1t
                    have hi2' := of_decide_eq_true hi2
                    subst hi2'
                    exact pipesEquiv_of_eq (toggle_toggle_EmptyM_front g c1 c2
                      p2 hinv h1 h2 h3 hA hB (of_decide_eq_true hd0))
                | false =>
                    cases hcnd2 : n1 &&
                        decide (i2 + 2 = (g.pipes.getD p2 []).length) &&
                        decide ((g.pipes.getD p2 []).getD (i2 + 1) ⟨0, 0⟩
                          = c1) with
                    | true =>
                        obtain ⟨h'', hdL⟩ := Bool.and_eq_true_iff.mp hcnd2
                        obtain ⟨hn1t, hdlen⟩ := Bool.and_eq_true_iff.mp h''
                        subst hn1t
                        exact pipesEquiv_of_eq (toggle_toggle_EmptyM_back g
                          c1 c2 p2 i2 hinv h1 h2 h3 hA hB hcnd1
                          (of_decide_eq_true hdlen) (of_decide_eq_true hdL))
                    | false =>
                        have hbr1 := togglePipe_branch_EmptyM g c1 c2 n1 p2 i2
                          h1 h2 h3 hA hB
                        rw [hcnd1, if_neg Bool.false_ne_true, hcnd2,
                          if_neg Bool.false_ne_true] at hbr1
                        exact pipesEquiv_of_eq
                          (toggle_noop_restore g c1 c2 hbr1)
        | start p1 =>
            cases hB : pipePieceAt g c2 (decide (c2.x - c1.x = 0)) with
            | emptyOrNode n2 =>
                cases hcnd : n2 &&
                    decide ((g.pipes.getD p1 []).getD 1 ⟨0, 0⟩ = c2) with
                | false =>
                    exact pipesEquiv_of_eq
                      (toggle_toggle_SE_ins g c1 c2 p1 n2 hinv h1 h2 h3
                        hA hB hcnd)
                | true =>
                    obtain ⟨hn2t, hd⟩ := Bool.and_eq_true_iff.mp hcnd
                    subst hn2t
                    exact toggle_toggle_SE_del g c1 c2 p1 hinv h1 h2 h3 hA hB
                      (of_decide_eq_true hd)
            | start p2 =>
                exact toggle_toggle_SS g c1 c2 p1 p2 hinv h1 h2 h3 hA hB
            | middle p2 i2 =>
                by_cases hc : p1 = p2 ∧ i2 = 1
                · obtain ⟨hpe, hie⟩ := hc
                  subst hpe
                  subst hie
                  exact pipesEquiv_of_eq
                    (toggle_toggle_SM g c1 c2 p1 hinv h1 h2 h3 hA hB)
                · have hbr1 := togglePipe_branch_SM g c1 c2 p1 p2 i2
                    h1 h2 h3 hA hB
                  rw [if_neg hc] at hbr1
                  exact pipesEquiv_of_eq (toggle_noop_restore g c1 c2 hbr1)
            | endp p2 =>
                by_cases hpe : p2 = p1
                · subst hpe
                  by_cases hlen2 : (g.pipes.getD p2 []).length = 2
                  · exact toggle_toggle_SEnd_same g c1 c2 p2 hinv h1 h2 h3
                      hA hB hlen2
                  · have hbr1 := togglePipe_branch_SEnd g c1 c2 p2 p2
                      h1 h2 h3 hA hB
                    rw [if_pos rfl, if_neg hlen2] at hbr1
                    exact pipesEquiv_of_eq (toggle_noop_restore g c1 c2 hbr1)
                · exact toggle_toggle_SEnd g c1 c2 p2 p1 hinv h1 h2 h3
                    hA hB hpe
        | endp p1 =>
            cases hB : pipePieceAt g c2 (decide (c2.x - c1.x = 0)) with
            | emptyOrNode n2 =>
                cases hcnd : n2 && decide ((g.pipes.getD p1 []).length = 2) &&
                    decide ((g.pipes.getD p1 []).getD 0 ⟨0, 0⟩ = c2) with
                | false =>
                    exact pipesEquiv_of_eq
                      (toggle_toggle_EndE_ins g c1 c2 p1 n2 hinv h1 h2 h3
                        hA hB hcnd)
                | true =>
                    obtain ⟨h'', hd0⟩ := Bool.and_eq_true_iff.mp hcnd
                    obtain ⟨hn2t, hdl⟩ := Bool.and_eq_true_iff.mp h''
                    subst hn2t
                    exact toggle_toggle_EndE_del g c1 c2 p1 hinv h1 h2 h3
                      hA hB (of_decide_eq_true hdl) (of_decide_eq_true hd0)
            | start p2 =>
                by_cases hpe : p1 = p2
                · subst hpe
                  by_cases hlen2 : (g.pipes.getD p1 []).length = 2
                  · exact toggle_toggle_EndS_same g c1 c2 p1 hinv h1 h2 h3
                      hA hB hlen2
                  · have hbr1 := togglePipe_branch_EndS g c1 c2 p1 p1
                      h1 h2 h3 hA hB
                    rw [if_pos rfl, if_neg hlen2] at hbr1
                    exact pipesEquiv_of_eq (toggle_noop_restore g c1 c2 hbr1)
                · exact toggle_toggle_EndS g c1 c2 p1 p2 hinv h1 h2 h3
                    hA hB hpe
            | endp p2 =>
                exact toggle_toggle_EndEnd g c1 c2 p1 p2 hinv h1 h2 h3 hA hB
            | middle p2 i2 =>
                by_cases hc : p2 = p1 ∧ i2 + 2 = (g.pipes.getD p2 []).length
                · obtain ⟨hpe, hlen⟩ := hc
                  subst hpe
                  exact pipesEquiv_of_eq
                    (toggle_toggle_EndM g c1 c2 p2 i2 hinv h1 h2 h3 hA hB hlen)
                · have hbr1 := togglePipe_branch_EndM g c1 c2 p2 p1 i2
                    h1 h2 h3 hA hB
                  rw [if_neg hc] at hbr1
                  exact pipesEquiv_of_eq (toggle_noop_restore g c1 c2 hbr1)
        | middle p1 i1 =>
            cases hB : pipePieceAt g c2 (decide (c2.x - c1.x = 0)) with
            | emptyOrNode n2 =>
                cases hcnd1 : n2 && decide (i1 = 1) &&
                    decide ((g.pipes.getD p1 []).getD 0 ⟨0, 0⟩ = c2) with
                | true =>
                    obtain ⟨h'', hd0⟩ := Bool.and_eq_true_iff.mp hcnd1
                    obtain ⟨hn2t, hi1⟩ := Bool.and_eq_true_iff.mp h''
                    subst hn2t
                    have hi1' := of_decide_eq_true hi1
                    subst hi1'
                    exact pipesEquiv_of_eq (toggle_toggle_MEmpty_front g c1 c2
                      p1 hinv h1 h2 h3 hA hB (of_decide_eq_true hd0))
                | false =>
                    cases hcnd2 : n2 &&
                        decide (i1 + 2 = (g.pipes.getD p1 []).length) &&
                        decide ((g.pipes.getD p1 []).getD (i1 + 1) ⟨0, 0⟩
                          = c2) with
                    | true =>
                        obtain ⟨h'', hdL⟩ := Bool.and_eq_true_iff.mp hcnd2
                        obtain ⟨hn2t, hdlen⟩ := Bool.and_eq_true_iff.mp h''
                        subst hn2t
                        exact pipesEquiv_of_eq (toggle_toggle_MEmpty_back g
                          c1 c2 p1 i1 hinv h1 h2 h3 hA hB hcnd1
                          (of_decide_eq_true hdlen) (of_decide_eq_true hdL))
                    | false =>
                        have hbr1 := togglePipe_branch_MEmpty g c1 c2 p1 i1 n2
                          h1 h2 h3 hA hB
                        rw [hcnd1, if_neg Bool.false_ne_true, hcnd2,
                          if_neg Bool.false_ne_true] at hbr1
                        exact pipesEquiv_of_eq
                          (toggle_noop_restore g c1 c2 hbr1)
            | start p2 =>
                by_cases hc : p2 = p1 ∧ i1 = 1
                · obtain ⟨hpe, hie⟩ := hc
                  subst hpe
                  subst hie
                  exact pipesEquiv_of_eq
                    (toggle_toggle_MS g c1 c2 p2 hinv h1 h2 h3 hA hB)
                · have hbr1 := togglePipe_branch_MS g c1 c2 p2 p1 i1
                    h1 h2 h3 hA hB
                  rw [if_neg hc] at hbr1
                  exact pipesEquiv_of_eq (toggle_noop_restore g c1 c2 hbr1)
            | endp p2 =>
                by_cases hc : p1 = p2 ∧ i1 + 2 = (g.pipes.getD p1 []).length
                · obtain ⟨hpe, hlen⟩ := hc
                  subst hpe
                  exact pipesEquiv_of_eq
                    (toggle_toggle_MEnd g c1 c2 p1 i1 hinv h1 h2 h3 hA hB hlen)
                · have hbr1 := togglePipe_branch_MEnd g c1 c2 p1 p2 i1
                    h1 h2 h3 hA hB
                  rw [if_neg hc] at hbr1
                  exact pipesEquiv_of_eq (toggle_noop_restore g c1 c2 hbr1)
            | middle p2 i2 =>
                by_cases hpe : p1 = p2
                · subst hpe
                  by_cases hmm : min i1 i2 + 1 = max i1 i2
                  · exact pipesEquiv_of_eq (toggle_toggle_MM g c1 c2 p1 i1 i2
                      hinv h1 h2 h3 hA hB hmm)
                  · have hbr1 := togglePipe_branch_MM g c1 c2 p1 p1 i1 i2
                      h1 h2 h3 hA hB
                    rw [if_neg (not_not_intro rfl), if_pos hmm] at hbr1
                    exact pipesEquiv_of_eq (toggle_noop_restore g c1 c2 hbr1)
                · have hbr1 := togglePipe_branch_MM g c1 c2 p1 p2 i1 i2
                    h1 h2 h3 hA hB
                  rw [if_pos hpe] at hbr1
                  exact pipesEquiv_of_eq (toggle_noop_restore g c1 c2 hbr1)
    · exact pipesEquiv_of_eq (toggle_noop_restore g c1 c2
        (togglePipe_guard₂ g c1 c2 h1 h2))
  · exact pipesEquiv_of_eq (toggle_noop_restore g c1 c2
      (togglePipe_guard₁ g c1 c2 h1))

theorem toggle_toggle_equiv_witness :
    PipesInv ⟨⟨0, 0, 5, 5⟩, [(⟨0, 0⟩, PlaneObj.purpleNode)],
      [[⟨0, 0⟩, ⟨1, 0⟩]]⟩ ∧
    pipesEquiv ((togglePipe (togglePipe
        (⟨⟨0, 0, 5, 5⟩, [(⟨0, 0⟩, PlaneObj.purpleNode)],
          [[⟨0, 0⟩, ⟨1, 0⟩]]⟩ : PlaneGrid) ⟨0, 0⟩ ⟨1, 0⟩).2
        ⟨0, 0⟩ ⟨1, 0⟩).2).pipes
      [[⟨0, 0⟩, ⟨1, 0⟩]] :=
  ⟨by decide, toggle_toggle_equiv _ ⟨0, 0⟩ ⟨1, 0⟩ (by decide)⟩
